import Mathlib

/-! # Structured control-flow lowering of the TypeScript dialect

A shallow embedding of `lib/TypeScript/LowerToAffineLoops.cpp`: the region based
IR (operations, blocks, regions), the part of the pattern rewriter the lowering
patterns use, the Jump/Unwind context `TSContext`, and the rewrite patterns
themselves.  Blocks and operations are identified by numbers that stand for the
C++ pointers; a value is the i-th result of an operation or the i-th argument of
a block.
-/

namespace Tsc

/-! ## IR model -/

abbrev OpId := Nat
abbrev BlockId := Nat

/-- SSA values: `mlir::OpResult` and `mlir::BlockArgument`. -/
inductive Value where
  | opResult (op : OpId) (idx : Nat)
  | blockArg (block : BlockId) (idx : Nat)
  deriving DecidableEq, Repr

/-- Types that the lowering looks at. -/
inductive Ty where
  | i1 | i32 | f32 | f64
  | boolean | number | string | any | void | null
  | i8Ptr
  | landingPadTy
  | ref (elem : Ty)
  | optional (elem : Ty)
  deriving DecidableEq, Repr

/-- The token kinds of `scanner_enums.h` used as operation codes. -/
inductive SyntaxKind where
  | Unknown | PlusPlusToken | MinusMinusToken | PlusToken | MinusToken | LessThanToken
  deriving DecidableEq, Repr

/-- Attribute values. -/
inductive Attr where
  | str (s : String)
  | int (i : Int)
  | bool (b : Bool)
  | opCode (k : SyntaxKind)
  deriving DecidableEq, Repr

/-- Operation kinds: the TypeScript dialect operations named in the lowering and
the two standard-dialect branches it creates. -/
inductive OpKind where
  | EntryOp | ExitOp | ReturnOp | ReturnValOp
  | ParamOp | ParamOptionalOp | ParamDefaultValueOp
  | PrefixUnaryOp | PostfixUnaryOp
  | IfOp | WhileOp | DoWhileOp | ForOp | LabelOp | BreakOp | ContinueOp | SwitchOp
  | AccessorRefOp | ThisAccessorRefOp
  | TryOp | CatchOp | CallOp | CallIndirectOp | ThrowOp
  | ResultOp | ConditionOp | NoConditionOp | MergeOp
  | BranchOp | CondBranchOp
  | CastOp | ConstantOp | ArithmeticBinaryOp | LogicalBinaryOp
  | VariableOp | LoadOp | StoreOp | NullOp | HasValueOp | ValueOp
  | LandingPadOp | CompareCatchTypeOp | BeginCatchOp | SaveCatchVarOp | EndCatchOp
  | InvokeOp | CallInternalOp | ThrowUnwindOp | ThrowCallOp | ReturnInternalOp
  | TypeInfoPtrOp | ThrowInfoPtrOp
  | PrintOp
  | AddressOfOp | AddressOfConstStringOp | AddressOfElementOp | ArithmeticUnaryOp | AssertOp
  | CaptureOp | ElementRefOp | FuncOp | GlobalOp | GlobalResultOp | ParseFloatOp | ParseIntOp
  | SizeOfOp | SymbolRefOp | LengthOfOp | StringLengthOp | StringConcatOp | StringCompareOp
  | NewOp | CreateTupleOp | DeconstructTupleOp | CreateArrayOp | NewEmptyArrayOp | NewArrayOp
  | DeleteOp | PropertyRefOp | InsertPropertyOp | ExtractPropertyOp | UndefOp | TrampolineOp
  | ThisVirtualSymbolRefOp | InterfaceSymbolRefOp | PushOp | PopOp | NewInterfaceOp
  | VTableOffsetRefOp | ThisPropertyRefOp | GetThisOp | GetMethodOp | TypeOfOp | DebuggerOp
  | SwitchStateOp | StateLabelOp | YieldReturnValOp
  deriving DecidableEq, Repr

/-- A successor of a terminator: target block and the operands passed to its
block arguments. -/
abbrev Successor := BlockId × List Value

mutual
/-- An operation: identity, kind, operands, result types, attributes,
successors and nested regions. -/
inductive Op where
  | mk (id : OpId) (kind : OpKind) (operands : List Value) (resultTypes : List Ty)
      (attrs : List (String × Attr)) (successors : List Successor)
      (regions : List (List Block))
/-- A block: identity, argument types and operations (the last one is the
terminator). -/
inductive Block where
  | mk (id : BlockId) (argTypes : List Ty) (ops : List Op)
end

abbrev Region := List Block

namespace Op

def id : Op → OpId
  | .mk i _ _ _ _ _ _ => i

def kind : Op → OpKind
  | .mk _ k _ _ _ _ _ => k

def operands : Op → List Value
  | .mk _ _ os _ _ _ _ => os

def resultTypes : Op → List Ty
  | .mk _ _ _ ts _ _ _ => ts

def attrs : Op → List (String × Attr)
  | .mk _ _ _ _ as _ _ => as

def successors : Op → List Successor
  | .mk _ _ _ _ _ ss _ => ss

def regions : Op → List Region
  | .mk _ _ _ _ _ _ rs => rs

/-- The results of an operation, `op->getResults()`. -/
def results (op : Op) : List Value :=
  (List.range op.resultTypes.length).map (Value.opResult op.id)

def getNumResults (op : Op) : Nat := op.resultTypes.length

def region (op : Op) (i : Nat) : Region := op.regions.getD i []

def getAttr (op : Op) (name : String) : Option Attr :=
  (op.attrs.find? (fun a => a.1 == name)).map Prod.snd

/-- The string attribute `label` (`LABEL_ATTR_NAME`), null unless it is a
string attribute. -/
def labelAttr (op : Op) : Option String :=
  match op.getAttr "label" with
  | some (Attr.str s) => some s
  | _ => none

/-- An operation without regions and successors. -/
def simple (id : OpId) (kind : OpKind) (operands : List Value) (resultTypes : List Ty)
    (attrs : List (String × Attr)) : Op :=
  .mk id kind operands resultTypes attrs [] []

/-- A terminator with successors. -/
def term (id : OpId) (kind : OpKind) (operands : List Value) (successors : List Successor) : Op :=
  .mk id kind operands [] [] successors []

end Op

namespace Block

def id : Block → BlockId
  | .mk i _ _ => i

def argTypes : Block → List Ty
  | .mk _ ts _ => ts

def ops : Block → List Op
  | .mk _ _ os => os

/-- The arguments of a block, `block->getArguments()`. -/
def getArguments (b : Block) : List Value :=
  (List.range b.argTypes.length).map (Value.blockArg b.id)

/-- The terminator of a block is its last operation. -/
def getTerminator (b : Block) : Option Op := b.ops.getLast?

def setOps (b : Block) (ops : List Op) : Block := .mk b.id b.argTypes ops

end Block

/-! ### Walking nested operations

`Region::walk` visits every operation nested in the region, at any depth, in
post-order: the operations nested in an operation come before the operation. -/

mutual
def walkOp : Op → List Op
  | .mk i k os ts as ss rs => walkRegions rs ++ [.mk i k os ts as ss rs]
def walkRegions : List (List Block) → List Op
  | [] => []
  | r :: rs => walkBlocks r ++ walkRegions rs
def walkBlocks : List Block → List Op
  | [] => []
  | b :: bs => walkBlock b ++ walkBlocks bs
def walkBlock : Block → List Op
  | .mk _ _ ops => walkOps ops
def walkOps : List Op → List Op
  | [] => []
  | o :: os => walkOp o ++ walkOps os
end

/-- The walk of a region, `region.walk(visitor)`: the visited operations in order. -/
def Region.walk (r : Region) : List Op := walkBlocks r

/-! ### Replacing values -/

/-- A replacement of values: `from[i]` is replaced by `to[i]`. -/
abbrev ValueMapping := List (Value × Value)

def ValueMapping.lookup (m : ValueMapping) (v : Value) : Value :=
  match m.find? (fun p => p.1 == v) with
  | some p => p.2
  | none => v

mutual
def replaceUsesOp (m : ValueMapping) : Op → Op
  | .mk i k os ts as ss rs =>
    .mk i k (os.map m.lookup) ts as (replaceUsesSuccs m ss) (replaceUsesRegions m rs)
def replaceUsesSuccs (m : ValueMapping) : List Successor → List Successor
  | [] => []
  | (b, vs) :: ss => (b, vs.map m.lookup) :: replaceUsesSuccs m ss
def replaceUsesRegions (m : ValueMapping) : List (List Block) → List (List Block)
  | [] => []
  | r :: rs => replaceUsesBlocks m r :: replaceUsesRegions m rs
def replaceUsesBlocks (m : ValueMapping) : List Block → List Block
  | [] => []
  | b :: bs => replaceUsesBlock m b :: replaceUsesBlocks m bs
def replaceUsesBlock (m : ValueMapping) : Block → Block
  | .mk i ts ops => .mk i ts (replaceUsesOps m ops)
def replaceUsesOps (m : ValueMapping) : List Op → List Op
  | [] => []
  | o :: os => replaceUsesOp m o :: replaceUsesOps m os
end

/-! ## The Jump/Unwind context and the pattern rewriter -/

/-- The per-function context of the lowering, `TSContext` of
`TypeScriptPassContext.h`.  A `DenseMap` lookup of a missing key yields null,
here `none`. -/
structure TSContext where
  jumps : OpId → Option BlockId
  catchOpData : OpId → Option Value
  unwind : OpId → Option BlockId
  parentTryOp : OpId → Option OpId
  landingBlockOf : OpId → Option BlockId
  returnBlock : Option BlockId

/-- A context with empty maps and no return block. -/
def TSContext.empty : TSContext :=
  ⟨fun _ => none, fun _ => none, fun _ => none, fun _ => none, fun _ => none, none⟩

/-- The assignment `map[key] = value`. -/
def setEntry {α : Type} (m : OpId → Option α) (key : OpId) (value : α) : OpId → Option α :=
  fun k => if k = key then some value else m k

/-- The first block with the given identity is replaced by a list of blocks. -/
def modifyBlock (i : BlockId) (g : Block → List Block) : List Block → List Block
  | [] => []
  | b :: bs => if b.id = i then g b ++ bs else b :: modifyBlock i g bs

/-- The block with the given identity. -/
def findBlock (i : BlockId) (bs : List Block) : Option Block :=
  bs.find? (fun b => b.id == i)

/-- The identities of a list of blocks. -/
def blockIds (l : List Block) : List BlockId := l.map Block.id

/-- The state of the `PatternRewriter` while one pattern runs: the blocks of the
region that holds the matched operation, the insertion point the driver has set
(block and position of the matched operation), and the supply of new blocks and
operations. -/
structure PatternRewriter where
  blocks : List Block
  insertionBlock : BlockId
  insertionPoint : Nat
  nextBlock : BlockId
  nextOp : OpId

namespace PatternRewriter

/-- The call `splitBlock(block, pos)`: the operations from `pos` on move to a new
block without arguments placed right after `block`. -/
def splitBlock (rw : PatternRewriter) (block : BlockId) (pos : Nat) : BlockId × PatternRewriter :=
  (rw.nextBlock,
   { rw with
     blocks := modifyBlock block
       (fun b => [b.setOps (b.ops.take pos), Block.mk rw.nextBlock [] (b.ops.drop pos)]) rw.blocks
     nextBlock := rw.nextBlock + 1 })

/-- The call `createBlock(before, argTypes)`: a new empty block with arguments of
the given types placed right before `before`. -/
def createBlock (rw : PatternRewriter) (before : BlockId) (argTypes : List Ty) :
    BlockId × PatternRewriter :=
  (rw.nextBlock,
   { rw with
     blocks := modifyBlock before (fun b => [Block.mk rw.nextBlock argTypes [], b]) rw.blocks
     nextBlock := rw.nextBlock + 1 })

/-- The call `inlineRegionBefore(region, before)`: the blocks of the region move,
in order and keeping their identity, right before `before`. -/
def inlineRegionBefore (rw : PatternRewriter) (region : Region) (before : BlockId) :
    PatternRewriter :=
  { rw with blocks := modifyBlock before (fun b => region ++ [b]) rw.blocks }

/-- Operations created after `setInsertionPointToEnd(block)`. -/
def createAtEnd (rw : PatternRewriter) (block : BlockId) (ops : List Op) : PatternRewriter :=
  { rw with blocks := modifyBlock block (fun b => [b.setOps (b.ops ++ ops)]) rw.blocks }

/-- Operations created after `setInsertionPointToStart(block)`. -/
def createAtStart (rw : PatternRewriter) (block : BlockId) (ops : List Op) : PatternRewriter :=
  { rw with blocks := modifyBlock block (fun b => [b.setOps (ops ++ b.ops)]) rw.blocks }

/-- The terminator of `block` is erased and the given operations stand in its
place: `setInsertionPointToEnd(block)`, the creation of `ops`, and the erasure of
the old terminator by `replaceOpWithNewOp` or `eraseOp`. -/
def replaceTerminator (rw : PatternRewriter) (block : BlockId) (ops : List Op) :
    PatternRewriter :=
  { rw with blocks := modifyBlock block (fun b => [b.setOps (b.ops.dropLast ++ ops)]) rw.blocks }

/-- The call `eraseOp(op)` for an operation of `block`. -/
def eraseOp (rw : PatternRewriter) (block : BlockId) (op : OpId) : PatternRewriter :=
  { rw with
    blocks := modifyBlock block (fun b => [b.setOps (b.ops.eraseP (fun o => o.id == op))]) rw.blocks }

/-- Every use of a value of `m` is replaced, in all blocks and nested regions. -/
def replaceAllUsesWith (rw : PatternRewriter) (m : ValueMapping) : PatternRewriter :=
  { rw with blocks := replaceUsesBlocks m rw.blocks }

/-- The call `replaceOp(op, values)` for an operation of `block`: the uses of the
results are replaced by the values and the operation is erased. -/
def replaceOp (rw : PatternRewriter) (block : BlockId) (op : Op) (values : List Value) :
    PatternRewriter :=
  (rw.replaceAllUsesWith (op.results.zip values)).eraseOp block op.id

end PatternRewriter

/-! ## Break and continue targets -/

/-- Modelled from the spec: `MLIRHelper::matchLabelOrNotSet` is not part of the
sources at hand.  A `break` or `continue` is taken by a construct when its label
is not set or equals the label of the construct. -/
def matchLabelOrNotSet (loopLabel opLabel : Option String) : Bool :=
  match opLabel with
  | none => true
  | some l => loopLabel == some l

/-- The visitor `visitorBreakContinue` of the loop and label patterns: a `break`
taken by the construct jumps to `breakTarget`, a `continue` to `continueTarget`. -/
def visitorBreakContinue (labelAttr : Option String) (breakTarget continueTarget : BlockId)
    (tsContext : TSContext) (op : Op) : TSContext :=
  if op.kind = OpKind.BreakOp then
    if matchLabelOrNotSet labelAttr op.labelAttr then
      { tsContext with jumps := setEntry tsContext.jumps op.id breakTarget }
    else tsContext
  else if op.kind = OpKind.ContinueOp then
    if matchLabelOrNotSet labelAttr op.labelAttr then
      { tsContext with jumps := setEntry tsContext.jumps op.id continueTarget }
    else tsContext
  else tsContext

/-! ## Operations created by the patterns -/

/-- `BranchOp` to `dest` with operands. -/
def mkBranchOp (id : OpId) (dest : BlockId) (operands : List Value) : Op :=
  Op.term id OpKind.BranchOp [] [(dest, operands)]

/-- `CondBranchOp` on `cond`. -/
def mkCondBranchOp (id : OpId) (cond : Value) (trueDest : BlockId) (trueArgs : List Value)
    (falseDest : BlockId) (falseArgs : List Value) : Op :=
  Op.term id OpKind.CondBranchOp [cond] [(trueDest, trueArgs), (falseDest, falseArgs)]

/-- `mlir_ts::CastOp` of `value` to type `ty`. -/
def mkCastOp (id : OpId) (ty : Ty) (value : Value) : Op :=
  Op.simple id OpKind.CastOp [value] [ty] []

/-! ## ForOpLowering -/

namespace Op

/-- Regions of `mlir_ts::ForOp`. -/
def forCond (op : Op) : Region := op.region 0
def forBody (op : Op) : Region := op.region 1
def forIncr (op : Op) : Region := op.region 2

end Op

/-- `ForOpLowering::matchAndRewrite`.  The result is `none` where the C++ code
hits an assertion (a failed `cast`, a result count that does not fit) or reads
the front of an empty region. -/
def ForOpLowering (tsContext : TSContext) (forOp : Op) (rewriter : PatternRewriter) :
    Option (TSContext × PatternRewriter) :=
  let labelAttr := forOp.labelAttr
  let nextOp := rewriter.nextOp
  -- Split the current block before the ForOp to create the inlining point.
  let currentBlock := rewriter.insertionBlock
  let split := rewriter.splitBlock currentBlock rewriter.insertionPoint
  let continuation := split.1
  let rewriter := split.2
  match forOp.forIncr.head?, forOp.forIncr.getLast?, forOp.forBody.head?,
      forOp.forBody.getLast?, forOp.forCond.head?, forOp.forCond.getLast? with
  | some incr, some incrLast, some body, some bodyLast, some cond, some condLast =>
    -- logic to support continue/break
    let tsContext :=
      forOp.forBody.walk.foldl (visitorBreakContinue labelAttr continuation incr.id) tsContext
    let rewriter := rewriter.inlineRegionBefore forOp.forIncr continuation
    let rewriter := rewriter.inlineRegionBefore forOp.forBody incr.id
    let rewriter := rewriter.inlineRegionBefore forOp.forCond body.id
    -- Branch to the "before" region.
    let rewriter := rewriter.createAtEnd currentBlock [mkBranchOp nextOp cond.id forOp.operands]
    -- Replace terminators with branches.
    match condLast.getTerminator with
    | none => none
    | some condTerminator =>
      -- `args` and the operations that replace the terminator of `condLast`
      let condBranch : Option (List Value × List Op) :=
        if condTerminator.kind = OpKind.ConditionOp then
          match condTerminator.operands with
          | condition :: args =>
            some (args,
              [mkCastOp (nextOp + 1) Ty.i1 condition,
               mkCondBranchOp (nextOp + 2) (Value.opResult (nextOp + 1) 0)
                 body.id args continuation []])
          | [] => none
        else if condTerminator.kind = OpKind.NoConditionOp then
          some ([], [mkBranchOp (nextOp + 1) body.id condTerminator.operands])
        else none
      match condBranch with
      | none => none
      | some (args, newCondTerminator) =>
        let rewriter := rewriter.replaceTerminator condLast.id newCondTerminator
        match bodyLast.getTerminator with
        | none => none
        | some yieldOpBody =>
          if yieldOpBody.kind ≠ OpKind.ResultOp then none else
          let rewriter := rewriter.replaceTerminator bodyLast.id
            [mkBranchOp (nextOp + 3) incr.id yieldOpBody.operands]
          match incrLast.getTerminator with
          | none => none
          | some yieldOpIncr =>
            if yieldOpIncr.kind ≠ OpKind.ResultOp then none else
            let rewriter := rewriter.replaceTerminator incrLast.id
              [mkBranchOp (nextOp + 4) cond.id yieldOpIncr.operands]
            -- Replace the op with the values "yielded" from the "before" region.
            if forOp.getNumResults ≠ args.length then none else
            let rewriter := rewriter.replaceOp continuation forOp args
            some (tsContext, { rewriter with nextOp := nextOp + 5 })
  | _, _, _, _, _, _ => none

/-! ## IfOpLowering -/

namespace Op

/-- Regions of `mlir_ts::IfOp`. -/
def thenRegion (op : Op) : Region := op.region 0
def elseRegion (op : Op) : Region := op.region 1

end Op

/-- The terminator of the last block of a region that is not yet inlined is
erased and the given operations stand in its place
(`setInsertionPointToEnd(&region.back())`, creation of `ops`, `eraseOp` of the
old terminator). -/
def Region.replaceTerminator (r : Region) (ops : List Op) : Region :=
  match r.getLast? with
  | some last => r.dropLast ++ [last.setOps (last.ops.dropLast ++ ops)]
  | none => r

/-- Operations are put in front of the first block of a region. -/
def Region.prependOps (r : Region) (ops : List Op) : Region :=
  match r with
  | [] => []
  | first :: rest => first.setOps (ops ++ first.ops) :: rest

/-- The first block of a region is split at `pos`: it keeps the operations before
`pos` followed by `ops`, and a new block `newBlock` right after it receives the
operations from `pos` on. -/
def Region.splitFirst (r : Region) (pos : Nat) (newBlock : BlockId) (ops : List Op) : Region :=
  match r with
  | [] => []
  | first :: rest =>
    first.setOps (first.ops.take pos ++ ops) :: Block.mk newBlock [] (first.ops.drop pos) :: rest

/-- `IfOpLowering::matchAndRewrite`.  The result is `none` where the C++ code
hits an assertion or reads the front of an empty region. -/
def IfOpLowering (ifOp : Op) (rewriter : PatternRewriter) : Option PatternRewriter :=
  let nextOp := rewriter.nextOp
  -- Start by splitting the block containing the 'ts.if' into two parts.
  let condBlock := rewriter.insertionBlock
  let opPosition := rewriter.insertionPoint
  let split := rewriter.splitBlock condBlock opPosition
  let remainingOpsBlock := split.1
  let rewriter := split.2
  let created := rewriter.createBlock remainingOpsBlock ifOp.resultTypes
  let continueBlock := if ifOp.getNumResults = 0 then remainingOpsBlock else created.1
  let rewriter :=
    if ifOp.getNumResults = 0 then rewriter
    else created.2.createAtEnd created.1 [mkBranchOp nextOp remainingOpsBlock []]
  -- Move blocks from the "then" region to the region containing 'ts.if',
  -- place it before the continuation block, and branch to it.
  match ifOp.thenRegion.head?, ifOp.thenRegion.getLast? with
  | some thenBlock, some thenLast =>
    match thenLast.getTerminator with
    | none => none
    | some thenTerminator =>
      let thenRegion := ifOp.thenRegion.replaceTerminator
        [mkBranchOp (nextOp + 1) continueBlock thenTerminator.operands]
      let rewriter := rewriter.inlineRegionBefore thenRegion continueBlock
      -- Move blocks from the "else" region (if present).
      let elseResult : Option (BlockId × PatternRewriter) :=
        match ifOp.elseRegion.head?, ifOp.elseRegion.getLast? with
        | some elseFirst, some elseLast =>
          match elseLast.getTerminator with
          | some elseTerminator =>
            some (elseFirst.id,
              rewriter.inlineRegionBefore
                (ifOp.elseRegion.replaceTerminator
                  [mkBranchOp (nextOp + 2) continueBlock elseTerminator.operands])
                continueBlock)
          | none => none
        | _, _ => some (continueBlock, rewriter)
      match elseResult with
      | none => none
      | some (elseBlock, rewriter) =>
        match ifOp.operands.head? with
        | none => none
        | some condition =>
          let rewriter := rewriter.createAtEnd condBlock
            [mkCastOp (nextOp + 3) Ty.i1 condition,
             mkCondBranchOp (nextOp + 4) (Value.opResult (nextOp + 3) 0)
               thenBlock.id [] elseBlock []]
          -- Ok, we're done!  The continuation block has one argument per result
          -- of the 'ts.if' (none when it is the block split off above).
          let continueArguments :=
            (List.range ifOp.getNumResults).map (Value.blockArg continueBlock)
          let rewriter := rewriter.replaceOp remainingOpsBlock ifOp continueArguments
          some { rewriter with nextOp := nextOp + 5 }
  | _, _ => none

/-! ## TryOpLowering -/

namespace Op

/-- Regions of `mlir_ts::TryOp`. -/
def tryBody (op : Op) : Region := op.region 0
def tryCatches (op : Op) : Region := op.region 1
def tryFinallyBlock (op : Op) : Region := op.region 2

end Op

/-- Modelled from the spec: the RTTI helper (`MLIRRTTIHelperVCLinux`,
`MLIRRTTIHelperVCWin32`) is not part of the sources at hand.  `setType` records
that the catch clause declares an exception type, `hasType` tells whether one
was recorded, and `typeInfoPtrValue` / `throwInfoPtrValue` each create one
operation that yields the type-match value. -/
structure RTTIHelper where
  typeSet : Bool

def RTTIHelper.new : RTTIHelper := ⟨false⟩

def RTTIHelper.setType (_r : RTTIHelper) : RTTIHelper := ⟨true⟩

def RTTIHelper.hasType (r : RTTIHelper) : Bool := r.typeSet

def RTTIHelper.typeInfoPtrValue (_r : RTTIHelper) (id : OpId) : Op :=
  Op.simple id OpKind.TypeInfoPtrOp [] [Ty.i8Ptr] []

def RTTIHelper.throwInfoPtrValue (_r : RTTIHelper) (id : OpId) : Op :=
  Op.simple id OpKind.ThrowInfoPtrOp [] [Ty.i8Ptr] []

/-- The visitor `visitorCallOpContinue` of `TryOpLowering`. -/
def visitorCallOpContinue (catchesRegion : BlockId) (tsContext : TSContext) (op : Op) :
    TSContext :=
  if op.kind = OpKind.CallOp then
    { tsContext with unwind := setEntry tsContext.unwind op.id catchesRegion }
  else if op.kind = OpKind.CallIndirectOp then
    { tsContext with unwind := setEntry tsContext.unwind op.id catchesRegion }
  else if op.kind = OpKind.ThrowOp then
    { tsContext with unwind := setEntry tsContext.unwind op.id catchesRegion }
  else tsContext

/-- The catch operations found by `tryOp.catches().walk(visitorCatchContinue)`. -/
def catchOpsOf (tryOp : Op) : List Op :=
  tryOp.tryCatches.walk.filter (fun op => op.kind == OpKind.CatchOp)

/-- `TryOpLowering::matchAndRewrite`; `winException` stands for the build flag
`WIN_EXCEPTION`.  The result is `none` where the C++ code hits an assertion or
reads the front of an empty region. -/
def TryOpLowering (winException : Bool) (tsContext : TSContext) (tryOp : Op)
    (rewriter : PatternRewriter) : Option (TSContext × PatternRewriter) :=
  let nextOp := rewriter.nextOp
  -- visitorCatchContinue: setType for the catch clause, at most one of them
  if (catchOpsOf tryOp).length > 1 then none else
  let catchOpPtr := (catchOpsOf tryOp).head?
  let rttih := if catchOpPtr.isSome then RTTIHelper.new.setType else RTTIHelper.new
  let currentBlock := rewriter.insertionBlock
  let split := rewriter.splitBlock currentBlock rewriter.insertionPoint
  let continuation := split.1
  let rewriter := split.2
  match tryOp.tryBody.head?, tryOp.tryBody.getLast?, tryOp.tryCatches.head?,
      tryOp.tryCatches.getLast?, tryOp.tryFinallyBlock.head?, tryOp.tryFinallyBlock.getLast? with
  | some bodyRegion, some bodyRegionLast, some catchesRegion, some catchesRegionLast,
      some finallyBlockRegion, some finallyBlockRegionLast =>
    -- logic to set Invoke attribute CallOp
    let tsContext :=
      tryOp.tryBody.walk.foldl (visitorCallOpContinue catchesRegion.id) tsContext
    -- Branch to the "body" region.
    let rewriter := rewriter.createAtEnd currentBlock [mkBranchOp nextOp bodyRegion.id []]
    let rewriter := rewriter.inlineRegionBefore tryOp.tryBody continuation
    let rewriter := rewriter.inlineRegionBefore tryOp.tryCatches continuation
    let rewriter := rewriter.inlineRegionBefore tryOp.tryFinallyBlock continuation
    -- Body:catch vars
    let catch1Op :=
      if rttih.hasType then rttih.typeInfoPtrValue (nextOp + 1)
      else Op.simple (nextOp + 1) OpKind.NullOp [] [Ty.null] []
    let rewriter := rewriter.createAtStart bodyRegion.id [catch1Op]
    let catch1 := Value.opResult (nextOp + 1) 0
    match bodyRegionLast.getTerminator with
    | none => none
    | some resultOp =>
      if resultOp.kind ≠ OpKind.ResultOp then none else
      let rewriter := rewriter.replaceTerminator bodyRegionLast.id
        [mkBranchOp (nextOp + 2) finallyBlockRegion.id []]
      -- catches:landingpad
      let landingPadOp :=
        Op.simple (nextOp + 3) OpKind.LandingPadOp [catch1] [Ty.landingPadTy]
          [("cleanup", Attr.bool false)]
      let landingPad := Value.opResult (nextOp + 3) 0
      let hasCmpValue := !winException && rttih.hasType
      let cmpOps :=
        if hasCmpValue then
          [rttih.throwInfoPtrValue (nextOp + 4),
           Op.simple (nextOp + 5) OpKind.CompareCatchTypeOp
             [landingPad, Value.opResult (nextOp + 4) 0] [Ty.boolean] []]
        else []
      let cmpValue := Value.opResult (nextOp + 5) 0
      -- catch: begin catch
      let beginCatchCallInfo :=
        Op.simple (nextOp + 6) OpKind.BeginCatchOp [landingPad] [Ty.i8Ptr] []
      let rewriter := rewriter.createAtStart catchesRegion.id
        ([landingPadOp] ++ cmpOps ++ [beginCatchCallInfo])
      let tsContext :=
        match catchOpPtr with
        | some catchOp =>
          { tsContext with
            catchOpData :=
              setEntry tsContext.catchOpData catchOp.id (Value.opResult (nextOp + 6) 0) }
        | none => tsContext
      -- catches: end catch, exit br
      match catchesRegionLast.getTerminator with
      | none => none
      | some yieldOpCatches =>
        if yieldOpCatches.kind ≠ OpKind.ResultOp then none else
        let rewriter := rewriter.replaceTerminator catchesRegionLast.id
          [Op.simple (nextOp + 7) OpKind.EndCatchOp [] [] [],
           mkBranchOp (nextOp + 8) finallyBlockRegion.id []]
        -- condbr: the catches entry block is split right after the compare, its
        -- third operation (landing pad, throw info, compare)
        let rewriter :=
          if hasCmpValue then
            let splitCmp := rewriter.splitBlock catchesRegion.id 3
            let continuationBrCmp := splitCmp.1
            splitCmp.2.createAtEnd catchesRegion.id
              [mkCastOp (nextOp + 9) Ty.i1 cmpValue,
               mkCondBranchOp (nextOp + 10) (Value.opResult (nextOp + 9) 0)
                 continuationBrCmp [] continuation []]
          else rewriter
        -- finally:exit
        match finallyBlockRegionLast.getTerminator with
        | none => none
        | some yieldOpFinallyBlock =>
          if yieldOpFinallyBlock.kind ≠ OpKind.ResultOp then none else
          let rewriter := rewriter.replaceTerminator finallyBlockRegionLast.id
            [mkBranchOp (nextOp + 11) continuation yieldOpFinallyBlock.operands]
          -- the continuation block has no arguments
          if tryOp.getNumResults ≠ 0 then none else
          let rewriter := rewriter.replaceOp continuation tryOp []
          some (tsContext, { rewriter with nextOp := nextOp + 12 })
  | _, _, _, _, _, _ => none

/-! ## WhileOpLowering and DoWhileOpLowering -/

namespace Op

/-- Regions of `mlir_ts::WhileOp`. -/
def whileCond (op : Op) : Region := op.region 0
def whileBody (op : Op) : Region := op.region 1

/-- Regions of `mlir_ts::DoWhileOp`. -/
def doWhileCond (op : Op) : Region := op.region 0
def doWhileBody (op : Op) : Region := op.region 1

end Op

/-- `WhileOpLowering::matchAndRewrite`.  The result is `none` where the C++ code
hits an assertion (a failed `cast`, a result count that does not fit) or reads
the front of an empty region. -/
def WhileOpLowering (tsContext : TSContext) (whileOp : Op) (rewriter : PatternRewriter) :
    Option (TSContext × PatternRewriter) :=
  let labelAttr := whileOp.labelAttr
  let nextOp := rewriter.nextOp
  -- Split the current block before the WhileOp to create the inlining point.
  let currentBlock := rewriter.insertionBlock
  let split := rewriter.splitBlock currentBlock rewriter.insertionPoint
  let continuation := split.1
  let rewriter := split.2
  match whileOp.whileBody.head?, whileOp.whileBody.getLast?, whileOp.whileCond.head?,
      whileOp.whileCond.getLast? with
  | some body, some bodyLast, some cond, some condLast =>
    -- logic to support continue/break
    let tsContext :=
      whileOp.whileBody.walk.foldl (visitorBreakContinue labelAttr continuation cond.id) tsContext
    let rewriter := rewriter.inlineRegionBefore whileOp.whileBody continuation
    let rewriter := rewriter.inlineRegionBefore whileOp.whileCond body.id
    -- Branch to the "before" region.
    let rewriter := rewriter.createAtEnd currentBlock [mkBranchOp nextOp cond.id whileOp.operands]
    -- Replace terminators with branches.
    match condLast.getTerminator with
    | none => none
    | some condOp =>
      if condOp.kind ≠ OpKind.ConditionOp then none else
      match condOp.operands with
      | [] => none
      | condition :: args =>
        let rewriter := rewriter.replaceTerminator condLast.id
          [mkCastOp (nextOp + 1) Ty.i1 condition,
           mkCondBranchOp (nextOp + 2) (Value.opResult (nextOp + 1) 0) body.id args continuation []]
        match bodyLast.getTerminator with
        | none => none
        | some yieldOp =>
          if yieldOp.kind ≠ OpKind.ResultOp then none else
          let rewriter := rewriter.replaceTerminator bodyLast.id
            [mkBranchOp (nextOp + 3) cond.id yieldOp.operands]
          -- Replace the op with the values "yielded" from the "before" region.
          if whileOp.getNumResults ≠ args.length then none else
          let rewriter := rewriter.replaceOp continuation whileOp args
          some (tsContext, { rewriter with nextOp := nextOp + 4 })
  | _, _, _, _ => none

/-- `DoWhileOpLowering::matchAndRewrite`.  The result is `none` where the C++
code hits an assertion or reads the front of an empty region. -/
def DoWhileOpLowering (tsContext : TSContext) (doWhileOp : Op) (rewriter : PatternRewriter) :
    Option (TSContext × PatternRewriter) :=
  let labelAttr := doWhileOp.labelAttr
  let nextOp := rewriter.nextOp
  -- Split the current block before the DoWhileOp to create the inlining point.
  let currentBlock := rewriter.insertionBlock
  let split := rewriter.splitBlock currentBlock rewriter.insertionPoint
  let continuation := split.1
  let rewriter := split.2
  match doWhileOp.doWhileBody.head?, doWhileOp.doWhileBody.getLast?, doWhileOp.doWhileCond.head?,
      doWhileOp.doWhileCond.getLast? with
  | some body, some bodyLast, some cond, some condLast =>
    -- logic to support continue/break
    let tsContext :=
      doWhileOp.doWhileBody.walk.foldl (visitorBreakContinue labelAttr continuation cond.id)
        tsContext
    let rewriter := rewriter.inlineRegionBefore doWhileOp.doWhileCond continuation
    let rewriter := rewriter.inlineRegionBefore doWhileOp.doWhileBody cond.id
    -- Branch to the "before" region.
    let rewriter := rewriter.createAtEnd currentBlock [mkBranchOp nextOp body.id doWhileOp.operands]
    match bodyLast.getTerminator with
    | none => none
    | some yieldOp =>
      if yieldOp.kind ≠ OpKind.ResultOp then none else
      let rewriter := rewriter.replaceTerminator bodyLast.id
        [mkBranchOp (nextOp + 1) cond.id yieldOp.operands]
      -- Loop around the "before" region based on condition.
      match condLast.getTerminator with
      | none => none
      | some condOp =>
        if condOp.kind ≠ OpKind.ConditionOp then none else
        match condOp.operands with
        | [] => none
        | condition :: args =>
          let rewriter := rewriter.replaceTerminator condLast.id
            [mkCastOp (nextOp + 2) Ty.i1 condition,
             mkCondBranchOp (nextOp + 3) (Value.opResult (nextOp + 2) 0) body.id args
               continuation []]
          if doWhileOp.getNumResults ≠ args.length then none else
          let rewriter := rewriter.replaceOp continuation doWhileOp args
          some (tsContext, { rewriter with nextOp := nextOp + 4 })
  | _, _, _, _ => none

/-! ## LabelOpLowering -/

namespace Op

/-- The region of `mlir_ts::LabelOp`. -/
def labelRegion (op : Op) : Region := op.region 0

end Op

/-- The loop of `LabelOpLowering` over the blocks of the region: the result is
the last block whose terminator is a `MergeOp`, or `cur` when there is none.  A
block without operations has no terminator (`getTerminator` asserts). -/
def findMergeBlock : Block → List Block → Option Block
  | cur, [] => some cur
  | cur, block :: rest =>
    match block.getTerminator with
    | none => none
    | some t => if t.kind = OpKind.MergeOp then findMergeBlock block rest else findMergeBlock cur rest

/-- `LabelOpLowering::matchAndRewrite`.  The result is `none` where the C++ code
hits an assertion or reads the front of an empty region. -/
def LabelOpLowering (tsContext : TSContext) (labelOp : Op) (rewriter : PatternRewriter) :
    Option (TSContext × PatternRewriter) :=
  let nextOp := rewriter.nextOp
  let currentBlock := rewriter.insertionBlock
  let split := rewriter.splitBlock currentBlock rewriter.insertionPoint
  let continuation := split.1
  let rewriter := split.2
  match labelOp.labelRegion.head?, labelOp.labelRegion.getLast? with
  | some begin, some back =>
    let labelAttr := labelOp.labelAttr
    -- logic to support continue/break
    let tsContext :=
      labelOp.labelRegion.walk.foldl (visitorBreakContinue labelAttr continuation begin.id)
        tsContext
    let labelRegion := begin
    match findMergeBlock back labelOp.labelRegion with
    | none => none
    | some labelRegionWithMerge =>
      -- Branch to the "labelRegion" region.
      let rewriter := rewriter.createAtEnd currentBlock [mkBranchOp nextOp labelRegion.id []]
      let rewriter := rewriter.inlineRegionBefore labelOp.labelRegion continuation
      -- replace merge with br
      match labelRegionWithMerge.getTerminator with
      | none => none
      | some mergeOp =>
        if mergeOp.kind ≠ OpKind.MergeOp then none else
        let rewriter := rewriter.replaceTerminator labelRegionWithMerge.id
          [mkBranchOp (nextOp + 1) continuation []]
        -- the continuation block has no arguments
        if labelOp.getNumResults ≠ 0 then none else
        let rewriter := rewriter.replaceOp continuation labelOp []
        some (tsContext, { rewriter with nextOp := nextOp + 2 })
  | _, _ => none

/-! ## Break, continue, call, throw and catch -/

namespace PatternRewriter

/-- Operations created at the insertion point: they are inserted before the
operation the insertion point stands at, and the insertion point stays at that
operation. -/
def create (rw : PatternRewriter) (ops : List Op) : PatternRewriter :=
  { rw with
    blocks := modifyBlock rw.insertionBlock
      (fun b => [b.setOps (b.ops.take rw.insertionPoint ++ ops ++ b.ops.drop rw.insertionPoint)])
      rw.blocks
    insertionPoint := rw.insertionPoint + ops.length }

end PatternRewriter

namespace CodeLogicHelper

/-- Modelled from the spec: `CodeLogicHelper::CutBlock` is not part of the
sources at hand.  The remainder of the current block, from the insertion point
on, is cut off: the block is split there, and the remainder goes to a new block
that no branch targets. -/
def CutBlock (rewriter : PatternRewriter) : BlockId × PatternRewriter :=
  rewriter.splitBlock rewriter.insertionBlock rewriter.insertionPoint

/-- Modelled from the spec: `CodeLogicHelper::CutBlockAndSetInsertPointToEndOfBlock`
is not part of the sources at hand.  The current block is split at the insertion
point, the insertion point moves to the end of the current block, and the
split-off block is returned. -/
def CutBlockAndSetInsertPointToEndOfBlock (rewriter : PatternRewriter) :
    BlockId × PatternRewriter :=
  CutBlock rewriter

end CodeLogicHelper

/-- `BreakOpLowering::matchAndRewrite`.  The result is `none` where the C++ code
hits `assert(jump)`. -/
def BreakOpLowering (tsContext : TSContext) (breakOp : Op) (rewriter : PatternRewriter) :
    Option PatternRewriter :=
  match tsContext.jumps breakOp.id with
  | none => none
  | some jump =>
    if breakOp.getNumResults ≠ 0 then none else
    let block := rewriter.insertionBlock
    let rewriter := rewriter.create [mkBranchOp rewriter.nextOp jump []]
    let rewriter := rewriter.replaceOp block breakOp []
    let rewriter := (CodeLogicHelper.CutBlock rewriter).2
    some { rewriter with nextOp := rewriter.nextOp + 1 }

/-- `ContinueOpLowering::matchAndRewrite`.  The result is `none` where the C++
code hits `assert(jump)`. -/
def ContinueOpLowering (tsContext : TSContext) (continueOp : Op) (rewriter : PatternRewriter) :
    Option PatternRewriter :=
  match tsContext.jumps continueOp.id with
  | none => none
  | some jump =>
    if continueOp.getNumResults ≠ 0 then none else
    let block := rewriter.insertionBlock
    let rewriter := rewriter.create [mkBranchOp rewriter.nextOp jump []]
    let rewriter := rewriter.replaceOp block continueOp []
    let rewriter := (CodeLogicHelper.CutBlock rewriter).2
    some { rewriter with nextOp := rewriter.nextOp + 1 }

/-- The attribute `callee` of a call, kept by the operation that replaces it. -/
def Op.calleeAttr (op : Op) : List (String × Attr) :=
  op.attrs.filter (fun a => a.1 == "callee")

/-- `mlir_ts::InvokeOp` with the normal and the unwind destination. -/
def mkInvokeOp (id : OpId) (resultTypes : List Ty) (callee : List (String × Attr))
    (operands : List Value) (normalDest unwindDest : BlockId) : Op :=
  Op.mk id OpKind.InvokeOp operands resultTypes callee [(normalDest, []), (unwindDest, [])] []

/-- `mlir_ts::CallInternalOp`. -/
def mkCallInternalOp (id : OpId) (resultTypes : List Ty) (callee : List (String × Attr))
    (operands : List Value) : Op :=
  Op.simple id OpKind.CallInternalOp operands resultTypes callee

/-- `CallOpLowering::matchAndRewrite`. -/
def CallOpLowering (tsContext : TSContext) (op : Op) (rewriter : PatternRewriter) :
    PatternRewriter :=
  let nextOp := rewriter.nextOp
  let block := rewriter.insertionBlock
  match tsContext.unwind op.id with
  | some unwind =>
    let cut := CodeLogicHelper.CutBlockAndSetInsertPointToEndOfBlock rewriter
    let continuationBlock := cut.1
    let rewriter := cut.2.createAtEnd block
      [mkInvokeOp nextOp op.resultTypes op.calleeAttr op.operands continuationBlock unwind]
    let rewriter := rewriter.eraseOp continuationBlock op.id
    { rewriter with nextOp := nextOp + 1 }
  | none =>
    -- just replace
    let newOp := mkCallInternalOp nextOp op.resultTypes op.calleeAttr op.operands
    let rewriter := rewriter.create [newOp]
    let rewriter := rewriter.replaceOp block op newOp.results
    { rewriter with nextOp := nextOp + 1 }

/-- `CallIndirectOpLowering::matchAndRewrite`: the callee is the first operand,
there is no `callee` attribute. -/
def CallIndirectOpLowering (tsContext : TSContext) (op : Op) (rewriter : PatternRewriter) :
    PatternRewriter :=
  let nextOp := rewriter.nextOp
  let block := rewriter.insertionBlock
  match tsContext.unwind op.id with
  | some unwind =>
    let cut := CodeLogicHelper.CutBlockAndSetInsertPointToEndOfBlock rewriter
    let continuationBlock := cut.1
    let rewriter := cut.2.createAtEnd block
      [mkInvokeOp nextOp op.resultTypes [] op.operands continuationBlock unwind]
    let rewriter := rewriter.eraseOp continuationBlock op.id
    { rewriter with nextOp := nextOp + 1 }
  | none =>
    -- just replace
    let newOp := mkCallInternalOp nextOp op.resultTypes [] op.operands
    let rewriter := rewriter.create [newOp]
    let rewriter := rewriter.replaceOp block op newOp.results
    { rewriter with nextOp := nextOp + 1 }

/-- `ThrowOpLowering::matchAndRewrite`.  The result is `none` where the C++ code
reads the exception operand of a throw that has none. -/
def ThrowOpLowering (tsContext : TSContext) (throwOp : Op) (rewriter : PatternRewriter) :
    Option PatternRewriter :=
  let nextOp := rewriter.nextOp
  let block := rewriter.insertionBlock
  match throwOp.operands.head? with
  | none => none
  | some exception =>
    if throwOp.getNumResults ≠ 0 then none else
    let newOp :=
      match tsContext.unwind throwOp.id with
      | some unwind => Op.term nextOp OpKind.ThrowUnwindOp [exception] [(unwind, [])]
      | none => Op.simple nextOp OpKind.ThrowCallOp [exception] [] []
    let rewriter := rewriter.create [newOp]
    let rewriter := rewriter.replaceOp block throwOp []
    let rewriter := (CodeLogicHelper.CutBlock rewriter).2
    some { rewriter with nextOp := nextOp + 1 }

/-- `CatchOpLowering::matchAndRewrite`.  The result is `none` where the C++ code
reaches `llvm_unreachable("missing catch data.")` or reads the catch argument of
a catch that has none. -/
def CatchOpLowering (tsContext : TSContext) (catchOp : Op) (rewriter : PatternRewriter) :
    Option PatternRewriter :=
  let nextOp := rewriter.nextOp
  let block := rewriter.insertionBlock
  match tsContext.catchOpData catchOp.id with
  | some catchDataValue =>
    match catchOp.operands.head? with
    | none => none
    | some catchArg =>
      let rewriter := rewriter.create
        [Op.simple nextOp OpKind.SaveCatchVarOp [catchDataValue, catchArg] [] []]
      let rewriter := rewriter.eraseOp block catchOp.id
      some { rewriter with nextOp := nextOp + 1 }
  | none => none

/-! ## Entry, exit and return -/

namespace PatternRewriter

/-- The call `createBlock(region)` without a position: a new empty block is added
at the end of the region, and the insertion point moves to its end. -/
def createBlockAtEnd (rw : PatternRewriter) (argTypes : List Ty) : BlockId × PatternRewriter :=
  (rw.nextBlock,
   { rw with
     blocks := rw.blocks ++ [Block.mk rw.nextBlock argTypes []]
     nextBlock := rw.nextBlock + 1 })

end PatternRewriter

/-- `mlir_ts::VariableOp` of type `ty` with an optional initial value and the
boolean attribute `false`. -/
def mkVariableOp (id : OpId) (ty : Ty) (initializer : List Value) : Op :=
  Op.simple id OpKind.VariableOp initializer [ty] [("captured", Attr.bool false)]

/-- `mlir_ts::LoadOp` of `reference`. -/
def mkLoadOp (id : OpId) (ty : Ty) (reference : Value) : Op :=
  Op.simple id OpKind.LoadOp [reference] [ty] []

/-- `mlir_ts::StoreOp` of `value` to `reference`. -/
def mkStoreOp (id : OpId) (value reference : Value) : Op :=
  Op.simple id OpKind.StoreOp [value, reference] [] []

/-- `mlir_ts::ReturnInternalOp` with the returned values. -/
def mkReturnInternalOp (id : OpId) (operands : List Value) : Op :=
  Op.simple id OpKind.ReturnInternalOp operands [] []

/-- `EntryOpLowering::matchAndRewrite`.  The result is `none` where the C++ code
casts a result type that is no reference type to `RefType`, or replaces an
operation with several results by one value. -/
def EntryOpLowering (tsContext : TSContext) (op : Op) (rewriter : PatternRewriter) :
    Option (TSContext × PatternRewriter) :=
  let nextOp := rewriter.nextOp
  let block := rewriter.insertionBlock
  match op.resultTypes with
  | [] =>
    -- create return block
    let created := rewriter.createBlockAtEnd []
    let tsContext := { tsContext with returnBlock := some created.1 }
    let rewriter := created.2.createAtEnd created.1 [mkReturnInternalOp nextOp []]
    let rewriter := rewriter.eraseOp block op.id
    some (tsContext, { rewriter with nextOp := nextOp + 1 })
  | [returnType] =>
    let allocOp := mkVariableOp nextOp returnType []
    let allocValue := Value.opResult nextOp 0
    let rewriter := rewriter.create [allocOp]
    -- create return block
    let created := rewriter.createBlockAtEnd []
    let tsContext := { tsContext with returnBlock := some created.1 }
    match returnType with
    | Ty.ref elementType =>
      let loadedValue := Value.opResult (nextOp + 1) 0
      let rewriter := created.2.createAtEnd created.1
        [mkLoadOp (nextOp + 1) elementType allocValue, mkReturnInternalOp (nextOp + 2) [loadedValue]]
      let rewriter := rewriter.replaceOp block op [allocValue]
      some (tsContext, { rewriter with nextOp := nextOp + 3 })
    | _ => none
  | _ :: _ :: _ => none

/-- `ExitOpLowering::matchAndRewrite`.  The result is `none` where the C++ code
hits `assert(tsContext->returnBlock)`. -/
def ExitOpLowering (tsContext : TSContext) (op : Op) (rewriter : PatternRewriter) :
    Option PatternRewriter :=
  let nextOp := rewriter.nextOp
  let block := rewriter.insertionBlock
  match tsContext.returnBlock with
  | none => none
  | some retBlock =>
    let rewriter := rewriter.create [mkBranchOp nextOp retBlock []]
    let rewriter := rewriter.eraseOp block op.id
    some { rewriter with nextOp := nextOp + 1 }

/-- `ReturnOpLowering::matchAndRewrite`.  The result is `none` where the C++ code
hits `assert(tsContext->returnBlock)`. -/
def ReturnOpLowering (tsContext : TSContext) (op : Op) (rewriter : PatternRewriter) :
    Option PatternRewriter :=
  let nextOp := rewriter.nextOp
  match tsContext.returnBlock with
  | none => none
  | some retBlock =>
    -- Split block at the operation.
    let opBlock := rewriter.insertionBlock
    let opPosition := rewriter.insertionPoint
    let split := rewriter.splitBlock opBlock opPosition
    let continuationBlock := split.1
    let rewriter := split.2.createAtEnd opBlock [mkBranchOp nextOp retBlock []]
    let rewriter := rewriter.eraseOp continuationBlock op.id
    some { rewriter with nextOp := nextOp + 1 }

/-- `ReturnValOpLowering::matchAndRewrite`.  The operands of the operation are
the returned value and the reference it is saved to.  The result is `none` where
the C++ code hits `assert(tsContext->returnBlock)`, or reads an operand that is
not there. -/
def ReturnValOpLowering (tsContext : TSContext) (op : Op) (rewriter : PatternRewriter) :
    Option PatternRewriter :=
  let nextOp := rewriter.nextOp
  match tsContext.returnBlock, op.operands with
  | some retBlock, [operand, reference] =>
    let rewriter := rewriter.create [mkStoreOp nextOp operand reference]
    -- Split block at the operation.
    let opBlock := rewriter.insertionBlock
    let opPosition := rewriter.insertionPoint
    let split := rewriter.splitBlock opBlock opPosition
    let continuationBlock := split.1
    -- save value into return
    let rewriter := split.2.createAtEnd opBlock [mkBranchOp (nextOp + 1) retBlock []]
    let rewriter := rewriter.eraseOp continuationBlock op.id
    some { rewriter with nextOp := nextOp + 2 }
  | _, _ => none

/-! ## Prefix and postfix increment and decrement -/

/-- The operation that defines a value, `value.getDefiningOp()`: null for a block
argument. -/
def getDefiningOp (blocks : List Block) : Value → Option Op
  | Value.opResult id _ => (walkBlocks blocks).find? (fun o => o.id == id)
  | Value.blockArg _ _ => none

/-- The attribute `opCode` of a unary operation, as a token kind. -/
def Op.opCode (op : Op) : Option SyntaxKind :=
  match op.getAttr "opCode" with
  | some (Attr.opCode k) => some k
  | _ => none

/-- `mlir_ts::ConstantOp` of the 32-bit integer attribute `value`. -/
def mkConstantOp (id : OpId) (value : Int) : Op :=
  Op.simple id OpKind.ConstantOp [] [Ty.i32] [("value", Attr.int value)]

/-- `mlir_ts::ArithmeticBinaryOp` of type `ty` with the operation code `opCode`. -/
def mkArithmeticBinaryOp (id : OpId) (ty : Ty) (opCode : SyntaxKind) (left right : Value) : Op :=
  Op.simple id OpKind.ArithmeticBinaryOp [left, right] [ty] [("opCode", Attr.opCode opCode)]

/-- The `switch` of the two unary patterns: the binary operation code for the
code of the unary operation; `Unknown` is kept for any other code. -/
def unaryToBinaryOpCode (opCode : SyntaxKind) : SyntaxKind :=
  match opCode with
  | SyntaxKind.PlusPlusToken => SyntaxKind.PlusToken
  | SyntaxKind.MinusMinusToken => SyntaxKind.MinusToken
  | _ => SyntaxKind.Unknown

/-- Modelled from the spec: `CodeLogicHelper::saveResult` is not part of the
sources at hand.  The value is saved to where the operand of the unary
expression was loaded from: a store of `result` to the reference of the load
that defines `operand1` is created at the insertion point.  The result is `none`
where the operand is not defined by a load. -/
def CodeLogicHelper.saveResult (rewriter : PatternRewriter) (id : OpId) (operand1 result : Value) :
    Option PatternRewriter :=
  match getDefiningOp rewriter.blocks operand1 with
  | some defOp =>
    if defOp.kind = OpKind.LoadOp then
      match defOp.operands with
      | [reference] => some (rewriter.create [mkStoreOp id result reference])
      | _ => none
    else none
  | none => none

/-- The operations both unary patterns create for the new value: the constant 1,
the cast of the operand to the element type when the type of the expression is
optional, the arithmetic operation, and the cast back.  The second component is
the new value. -/
def unaryArithmetic (nextOp : OpId) (opCode : SyntaxKind) (ty : Ty) (operand1 : Value) :
    List Op × Value × OpId :=
  let cst1 := mkConstantOp nextOp 1
  let opCode := unaryToBinaryOpCode opCode
  match ty with
  | Ty.optional elementType =>
    let value := mkCastOp (nextOp + 1) elementType operand1
    let result := mkArithmeticBinaryOp (nextOp + 2) elementType opCode
      (Value.opResult (nextOp + 1) 0) (Value.opResult nextOp 0)
    let castBack := mkCastOp (nextOp + 3) ty (Value.opResult (nextOp + 2) 0)
    ([cst1, value, result, castBack], Value.opResult (nextOp + 3) 0, nextOp + 4)
  | _ =>
    let result := mkArithmeticBinaryOp (nextOp + 1) ty opCode operand1 (Value.opResult nextOp 0)
    ([cst1, result], Value.opResult (nextOp + 1) 0, nextOp + 2)

/-- `PrefixUnaryOpLowering::matchAndRewrite`.  The replacement of the operation
by `result` is recorded by the rewriter of the conversion and takes effect when
the pattern is done, so the store that `saveResult` creates for
`op->getResult(0)` has its operand replaced as well.  The result is `none` where
the C++ code reads an operand, the result or the code that is not there, or
`saveResult` gives up. -/
def PrefixUnaryOpLowering (op : Op) (rewriter : PatternRewriter) : Option PatternRewriter :=
  let block := rewriter.insertionBlock
  match op.opCode, op.operands, op.resultTypes with
  | some opCode, [operand1], [ty] =>
    let created := unaryArithmetic rewriter.nextOp opCode ty operand1
    let result := created.2.1
    let rewriter := rewriter.create created.1
    match CodeLogicHelper.saveResult rewriter created.2.2 operand1 (Value.opResult op.id 0) with
    | some rewriter =>
      let rewriter := rewriter.replaceOp block op [result]
      some { rewriter with nextOp := created.2.2 + 1 }
    | none => none
  | _, _, _ => none

/-- `PostfixUnaryOpLowering::matchAndRewrite`.  The result is `none` where the
C++ code reads an operand, the result or the code that is not there, or
`saveResult` gives up. -/
def PostfixUnaryOpLowering (op : Op) (rewriter : PatternRewriter) : Option PatternRewriter :=
  let block := rewriter.insertionBlock
  match op.opCode, op.operands, op.resultTypes with
  | some opCode, [operand1], [ty] =>
    let created := unaryArithmetic rewriter.nextOp opCode ty operand1
    let result := created.2.1
    let rewriter := rewriter.create created.1
    match CodeLogicHelper.saveResult rewriter created.2.2 operand1 result with
    | some rewriter =>
      let rewriter := rewriter.replaceOp block op [operand1]
      some { rewriter with nextOp := created.2.2 + 1 }
    | none => none
  | _, _, _ => none

/-! ## The order of the pattern applications, as far as the context goes -/

/-- The construct `c` is lowered from the context `ctx0`, giving `ctx1`; the last
argument is the region the pattern walks for `break` and `continue`: the body of
a loop, the region of a label. -/
inductive ConstructLowering (ctx0 : TSContext) (c : Op) (ctx1 : TSContext) : Region → Prop
  | forOp (rw rw1 : PatternRewriter) :
      ForOpLowering ctx0 c rw = some (ctx1, rw1) → ConstructLowering ctx0 c ctx1 c.forBody
  | whileOp (rw rw1 : PatternRewriter) :
      WhileOpLowering ctx0 c rw = some (ctx1, rw1) → ConstructLowering ctx0 c ctx1 c.whileBody
  | doWhileOp (rw rw1 : PatternRewriter) :
      DoWhileOpLowering ctx0 c rw = some (ctx1, rw1) →
      ConstructLowering ctx0 c ctx1 c.doWhileBody
  | labelOp (rw rw1 : PatternRewriter) :
      LabelOpLowering ctx0 c rw = some (ctx1, rw1) → ConstructLowering ctx0 c ctx1 c.labelRegion

/-- One application of a pattern that writes to the context.  The other patterns
(`if`, `break`, `continue`, call, `throw`, `catch`) only read it. -/
inductive ContextStep : TSContext → TSContext → Prop
  | construct (ctx0 : TSContext) (c : Op) (ctx1 : TSContext) (r : Region) :
      ConstructLowering ctx0 c ctx1 r → ContextStep ctx0 ctx1
  | tryOp (winException : Bool) (ctx0 : TSContext) (tryOp : Op) (rw : PatternRewriter)
      (ctx1 : TSContext) (rw1 : PatternRewriter) :
      TryOpLowering winException ctx0 tryOp rw = some (ctx1, rw1) → ContextStep ctx0 ctx1

/-- The context after any number of further pattern applications. -/
def ContextSteps : TSContext → TSContext → Prop := Relation.ReflTransGen ContextStep

/-! ## Parameters, switch and accessors -/

/-- `ParamOpLowering::matchAndRewrite`: the parameter becomes a variable
initialised with the argument.  The result is `none` where the C++ code reads an
operand or a result that is not there. -/
def ParamOpLowering (paramOp : Op) (rewriter : PatternRewriter) : Option PatternRewriter :=
  let nextOp := rewriter.nextOp
  let block := rewriter.insertionBlock
  match paramOp.operands, paramOp.resultTypes with
  | [argValue], [ty] =>
    let newOp := mkVariableOp nextOp ty [argValue]
    let rewriter := rewriter.create [newOp]
    let rewriter := rewriter.replaceOp block paramOp newOp.results
    some { rewriter with nextOp := nextOp + 1 }
  | _, _ => none

/-- `ParamOptionalOpLowering::matchAndRewrite`.  Modelled from the spec: the
builder of `mlir_ts::IfOp` is not part of the sources at hand; the `if` it builds
has the `then` region of one block, and its `else` region ends up holding the
blocks of the default-value region.  The result is `none` where the C++ code
casts a type that is no reference type to `RefType`, or reads an operand or a
result that is not there. -/
def ParamOptionalOpLowering (paramOp : Op) (rewriter : PatternRewriter) :
    Option PatternRewriter :=
  let nextOp := rewriter.nextOp
  let block := rewriter.insertionBlock
  match paramOp.operands, paramOp.resultTypes with
  | [argValue], [Ty.ref storeType] =>
    -- ts.if
    let hasValue := Op.simple nextOp OpKind.HasValueOp [argValue] [Ty.boolean] []
    -- then block
    let value := Op.simple (nextOp + 2) OpKind.ValueOp [argValue] [storeType] []
    let thenBlock := Block.mk rewriter.nextBlock []
      [value, Op.simple (nextOp + 3) OpKind.ResultOp [Value.opResult (nextOp + 2) 0] [] []]
    -- else block
    let ifOp := Op.mk (nextOp + 1) OpKind.IfOp [Value.opResult nextOp 0] [storeType] [] []
      [[thenBlock], paramOp.region 0]
    let variableOp :=
      mkVariableOp (nextOp + 4) (Ty.ref storeType) [Value.opResult (nextOp + 1) 0]
    let rewriter := rewriter.create [hasValue, ifOp, variableOp]
    let rewriter := rewriter.replaceOp block paramOp variableOp.results
    some { rewriter with nextOp := nextOp + 5, nextBlock := rewriter.nextBlock + 2 }
  | _, _ => none

/-- `ParamDefaultValueOpLowering::matchAndRewrite`: the terminator of the
default-value region becomes a `ResultOp` with the same operands. -/
def ParamDefaultValueOpLowering (op : Op) (rewriter : PatternRewriter) : Option PatternRewriter :=
  let nextOp := rewriter.nextOp
  let block := rewriter.insertionBlock
  if op.getNumResults ≠ 0 then none else
  let rewriter := rewriter.create [Op.simple nextOp OpKind.ResultOp op.operands [] []]
  let rewriter := rewriter.replaceOp block op []
  some { rewriter with nextOp := nextOp + 1 }

/-- `SwitchOpLowering::matchAndRewrite`.  The result is `none` where the C++ code
hits an assertion or reads the front of an empty region. -/
def SwitchOpLowering (switchOp : Op) (rewriter : PatternRewriter) : Option PatternRewriter :=
  let nextOp := rewriter.nextOp
  let currentBlock := rewriter.insertionBlock
  let split := rewriter.splitBlock currentBlock rewriter.insertionPoint
  let continuation := split.1
  let rewriter := split.2
  match (switchOp.region 0).head?, (switchOp.region 0).getLast? with
  | some casesRegion, some back =>
    match findMergeBlock back (switchOp.region 0) with
    | none => none
    | some casesRegionWithMerge =>
      -- Branch to the "casesRegion" region.
      let rewriter := rewriter.createAtEnd currentBlock [mkBranchOp nextOp casesRegion.id []]
      let rewriter := rewriter.inlineRegionBefore (switchOp.region 0) continuation
      -- replace merge with br
      match casesRegionWithMerge.getTerminator with
      | none => none
      | some mergeOp =>
        if mergeOp.kind ≠ OpKind.MergeOp then none else
        let rewriter := rewriter.replaceTerminator casesRegionWithMerge.id
          [mkBranchOp (nextOp + 1) continuation []]
        -- the continuation block has no arguments
        if switchOp.getNumResults ≠ 0 then none else
        let rewriter := rewriter.replaceOp continuation switchOp []
        some { rewriter with nextOp := nextOp + 2 }
  | _, _ => none

/-- `AccessorRefOpLowering::matchAndRewrite`: a call of the accessor without
operands.  The result is `none` where the C++ code reads an attribute or a result
that is not there. -/
def AccessorRefOpLowering (accessorRefOp : Op) (rewriter : PatternRewriter) :
    Option PatternRewriter :=
  let nextOp := rewriter.nextOp
  let block := rewriter.insertionBlock
  match accessorRefOp.getAttr "accessor", accessorRefOp.resultTypes with
  | some accessor, [ty] =>
    let callRes := Op.simple nextOp OpKind.CallOp [] [ty] [("callee", accessor)]
    let rewriter := rewriter.create [callRes]
    let rewriter := rewriter.replaceOp block accessorRefOp [Value.opResult nextOp 0]
    some { rewriter with nextOp := nextOp + 1 }
  | _, _ => none

/-- `ThisAccessorRefOpLowering::matchAndRewrite`: a call of the accessor on the
`this` value.  The result is `none` where the C++ code reads an attribute, an
operand or a result that is not there. -/
def ThisAccessorRefOpLowering (thisAccessorRefOp : Op) (rewriter : PatternRewriter) :
    Option PatternRewriter :=
  let nextOp := rewriter.nextOp
  let block := rewriter.insertionBlock
  match thisAccessorRefOp.getAttr "accessor", thisAccessorRefOp.operands,
      thisAccessorRefOp.resultTypes with
  | some accessor, [thisVal], [ty] =>
    let callRes := Op.simple nextOp OpKind.CallOp [thisVal] [ty] [("callee", accessor)]
    let rewriter := rewriter.create [callRes]
    let rewriter := rewriter.replaceOp block thisAccessorRefOp [Value.opResult nextOp 0]
    some { rewriter with nextOp := nextOp + 1 }
  | _, _, _ => none

/-! ## The pass `TypeScriptToAffineLoweringPass` -/

/-- The operations `runOnFunction` marks legal with `addLegalOp`. -/
def legalOps : List OpKind :=
  [OpKind.AddressOfOp, OpKind.AddressOfConstStringOp, OpKind.AddressOfElementOp,
   OpKind.ArithmeticBinaryOp, OpKind.ArithmeticUnaryOp, OpKind.AssertOp, OpKind.CaptureOp,
   OpKind.CastOp, OpKind.ConstantOp, OpKind.ElementRefOp, OpKind.FuncOp, OpKind.GlobalOp,
   OpKind.GlobalResultOp, OpKind.HasValueOp, OpKind.ValueOp, OpKind.NullOp, OpKind.ParseFloatOp,
   OpKind.ParseIntOp, OpKind.PrintOp, OpKind.SizeOfOp, OpKind.StoreOp, OpKind.SymbolRefOp,
   OpKind.LengthOfOp, OpKind.StringLengthOp, OpKind.StringConcatOp, OpKind.StringCompareOp,
   OpKind.LoadOp, OpKind.NewOp, OpKind.CreateTupleOp, OpKind.DeconstructTupleOp,
   OpKind.CreateArrayOp, OpKind.NewEmptyArrayOp, OpKind.NewArrayOp, OpKind.DeleteOp,
   OpKind.PropertyRefOp, OpKind.InsertPropertyOp, OpKind.ExtractPropertyOp,
   OpKind.LogicalBinaryOp, OpKind.UndefOp, OpKind.VariableOp, OpKind.TrampolineOp,
   OpKind.InvokeOp, OpKind.ResultOp, OpKind.ThisVirtualSymbolRefOp, OpKind.InterfaceSymbolRefOp,
   OpKind.PushOp, OpKind.PopOp, OpKind.NewInterfaceOp, OpKind.VTableOffsetRefOp,
   OpKind.ThisPropertyRefOp, OpKind.GetThisOp, OpKind.GetMethodOp, OpKind.TypeOfOp,
   OpKind.DebuggerOp, OpKind.LandingPadOp, OpKind.CompareCatchTypeOp, OpKind.BeginCatchOp,
   OpKind.SaveCatchVarOp, OpKind.EndCatchOp, OpKind.ThrowUnwindOp, OpKind.ThrowCallOp,
   OpKind.CallInternalOp, OpKind.ReturnInternalOp, OpKind.SwitchStateOp, OpKind.StateLabelOp,
   OpKind.YieldReturnValOp]

/-- The conversion target of `runOnFunction`: the standard dialect is legal, the
TypeScript dialect is illegal except for the operations of `legalOps`.  The two
kinds that stand for the values the RTTI helper creates count as legal. -/
def isLegal (kind : OpKind) : Bool :=
  kind == OpKind.BranchOp || kind == OpKind.CondBranchOp ||
  kind == OpKind.TypeInfoPtrOp || kind == OpKind.ThrowInfoPtrOp ||
  legalOps.contains kind

/-- The operations the patterns of `runOnFunction` match, in the order of
`patterns.insert`. -/
def patternRoots : List OpKind :=
  [OpKind.EntryOp, OpKind.ExitOp, OpKind.ReturnOp, OpKind.ReturnValOp, OpKind.ParamOp,
   OpKind.ParamOptionalOp, OpKind.ParamDefaultValueOp, OpKind.PrefixUnaryOp,
   OpKind.PostfixUnaryOp, OpKind.IfOp, OpKind.DoWhileOp, OpKind.WhileOp, OpKind.ForOp,
   OpKind.BreakOp, OpKind.ContinueOp, OpKind.SwitchOp, OpKind.AccessorRefOp,
   OpKind.ThisAccessorRefOp, OpKind.LabelOp, OpKind.CallOp, OpKind.CallIndirectOp, OpKind.TryOp,
   OpKind.ThrowOp, OpKind.CatchOp]

/-- The pattern registered for the kind of `op` is applied to `op`; `none` when
no pattern matches or the pattern fails. -/
def applyPattern (winException : Bool) (tsContext : TSContext) (op : Op)
    (rewriter : PatternRewriter) : Option (TSContext × PatternRewriter) :=
  match op.kind with
  | OpKind.EntryOp => EntryOpLowering tsContext op rewriter
  | OpKind.ExitOp => (ExitOpLowering tsContext op rewriter).map (Prod.mk tsContext)
  | OpKind.ReturnOp => (ReturnOpLowering tsContext op rewriter).map (Prod.mk tsContext)
  | OpKind.ReturnValOp => (ReturnValOpLowering tsContext op rewriter).map (Prod.mk tsContext)
  | OpKind.ParamOp => (ParamOpLowering op rewriter).map (Prod.mk tsContext)
  | OpKind.ParamOptionalOp => (ParamOptionalOpLowering op rewriter).map (Prod.mk tsContext)
  | OpKind.ParamDefaultValueOp =>
    (ParamDefaultValueOpLowering op rewriter).map (Prod.mk tsContext)
  | OpKind.PrefixUnaryOp => (PrefixUnaryOpLowering op rewriter).map (Prod.mk tsContext)
  | OpKind.PostfixUnaryOp => (PostfixUnaryOpLowering op rewriter).map (Prod.mk tsContext)
  | OpKind.IfOp => (IfOpLowering op rewriter).map (Prod.mk tsContext)
  | OpKind.DoWhileOp => DoWhileOpLowering tsContext op rewriter
  | OpKind.WhileOp => WhileOpLowering tsContext op rewriter
  | OpKind.ForOp => ForOpLowering tsContext op rewriter
  | OpKind.BreakOp => (BreakOpLowering tsContext op rewriter).map (Prod.mk tsContext)
  | OpKind.ContinueOp => (ContinueOpLowering tsContext op rewriter).map (Prod.mk tsContext)
  | OpKind.SwitchOp => (SwitchOpLowering op rewriter).map (Prod.mk tsContext)
  | OpKind.AccessorRefOp => (AccessorRefOpLowering op rewriter).map (Prod.mk tsContext)
  | OpKind.ThisAccessorRefOp => (ThisAccessorRefOpLowering op rewriter).map (Prod.mk tsContext)
  | OpKind.LabelOp => LabelOpLowering tsContext op rewriter
  | OpKind.CallOp => some (tsContext, CallOpLowering tsContext op rewriter)
  | OpKind.CallIndirectOp => some (tsContext, CallIndirectOpLowering tsContext op rewriter)
  | OpKind.TryOp => TryOpLowering winException tsContext op rewriter
  | OpKind.ThrowOp => (ThrowOpLowering tsContext op rewriter).map (Prod.mk tsContext)
  | OpKind.CatchOp => (CatchOpLowering tsContext op rewriter).map (Prod.mk tsContext)
  | _ => none

/-- The position of the first operation of a list that the target does not accept. -/
def findIllegalInOps : Nat → List Op → Option (Nat × Op)
  | _, [] => none
  | pos, op :: ops => if isLegal op.kind then findIllegalInOps (pos + 1) ops else some (pos, op)

/-- The first operation of the blocks, in their order, that the target does not
accept, with its block and its position in the block. -/
def findIllegalOp : List Block → Option (BlockId × Nat × Op)
  | [] => none
  | block :: blocks =>
    match findIllegalInOps 0 block.ops with
    | some (pos, op) => some (block.id, pos, op)
    | none => findIllegalOp blocks

/-- The driver of the dialect conversion, `applyPartialConversion`, as far as the
pass relies on it.  The conversion succeeds once every operation of the function
body, nested ones included, is legal.  Otherwise the first illegal operation of
the body is handed to its pattern, with the insertion point of the rewriter set
at the operation; the conversion fails when the operation has no pattern, when
the pattern fails, or when an illegal operation is left that is nested in a legal
one.  The operations of a construct come up after the construct itself, so an
enclosing construct is lowered before what it contains.  One unit of fuel is used
per pattern application. -/
def applyPartialConversion (winException : Bool) :
    Nat → TSContext → PatternRewriter → Option (TSContext × PatternRewriter)
  | 0, tsContext, rewriter =>
    if (walkBlocks rewriter.blocks).all (fun op => isLegal op.kind) then
      some (tsContext, rewriter)
    else none
  | fuel + 1, tsContext, rewriter =>
    if (walkBlocks rewriter.blocks).all (fun op => isLegal op.kind) then
      some (tsContext, rewriter)
    else
      match findIllegalOp rewriter.blocks with
      | none => none
      | some (block, pos, op) =>
        match applyPattern winException tsContext op
            { rewriter with insertionBlock := block, insertionPoint := pos } with
        | some (tsContext, rewriter) =>
          applyPartialConversion winException fuel tsContext rewriter
        | none => none

/-- A function: `mlir::FuncOp` with its name, the number of its arguments, its
result types and its body, and the supply of new blocks and operations. -/
structure FuncOp where
  name : String
  numArguments : Nat
  results : List Ty
  body : Region
  nextBlock : BlockId
  nextOp : OpId

/-- The pass: its only state is the context, the member `tsContext`. -/
structure TypeScriptToAffineLoweringPass where
  tsContext : TSContext

/-- `createLowerToAffinePass`: a new pass, whose context is empty. -/
def createLowerToAffinePass : TypeScriptToAffineLoweringPass := ⟨TSContext.empty⟩

/-- The check of `runOnFunction` on the main function: it is rejected when it has
an argument or a result that is not void. -/
def mainRejected (function : FuncOp) : Bool :=
  function.name == "main" &&
    (function.numArguments != 0 || function.results.any (fun type => type != Ty.void))

/-- Whether the operation is one of the three loops. -/
def Op.isLoop (op : Op) : Bool :=
  op.kind == OpKind.ForOp || op.kind == OpKind.WhileOp || op.kind == OpKind.DoWhileOp

/-- The body of a loop: the region `body` is region 1 of each of the three loop
operations. -/
def Op.loopBody (op : Op) : Region := op.region 1

/-- The block a `continue` of a loop goes to: the first block of the region
`incr` for a `for` loop, of the region `cond` for the other two. -/
def Op.loopContinue (op : Op) : Option Block :=
  if op.kind = OpKind.ForOp then op.forIncr.head? else (op.region 0).head?

/-- `TypeScriptToAffineLoweringPass::runOnFunction`.  The patterns work on the
member `tsContext` of the pass.  The result is `none` where the pass signals
failure. -/
def TypeScriptToAffineLoweringPass.runOnFunction (winException : Bool) (fuel : Nat)
    (pass : TypeScriptToAffineLoweringPass) (function : FuncOp) :
    Option (TypeScriptToAffineLoweringPass × FuncOp) :=
  if mainRejected function then none
  else
    match applyPartialConversion winException fuel pass.tsContext
        { blocks := function.body, insertionBlock := 0, insertionPoint := 0,
          nextBlock := function.nextBlock, nextOp := function.nextOp } with
    | some (tsContext, rewriter) =>
      some ({ tsContext := tsContext },
        { function with
          body := rewriter.blocks, nextBlock := rewriter.nextBlock, nextOp := rewriter.nextOp })
    | none => none

/-- The second context holds every entry of the first: a key with an entry in
`jumps`, in `unwind` or in the catch data has one afterwards, and a return block
that is set stays set. -/
def TSContext.Carries (ctx ctx1 : TSContext) : Prop :=
  (∀ i, (ctx.jumps i).isSome = true → (ctx1.jumps i).isSome = true) ∧
  (∀ i, (ctx.unwind i).isSome = true → (ctx1.unwind i).isSome = true) ∧
  (∀ i, (ctx.catchOpData i).isSome = true → (ctx1.catchOpData i).isSome = true) ∧
  (ctx.returnBlock.isSome = true → ctx1.returnBlock.isSome = true)

/-- The pass manager runs the same pass on the functions of a module, one after
the other. -/
def TypeScriptToAffineLoweringPass.runOnFunctions (winException : Bool) (fuel : Nat) :
    TypeScriptToAffineLoweringPass → List FuncOp →
    Option (TypeScriptToAffineLoweringPass × List FuncOp)
  | pass, [] => some (pass, [])
  | pass, function :: functions =>
    match pass.runOnFunction winException fuel function with
    | none => none
    | some (pass, lowered) =>
      match runOnFunctions winException fuel pass functions with
      | none => none
      | some (pass, rest) => some (pass, lowered :: rest)

/-! # Exception frame lowering

A shallow embedding of `lib/TypeScriptExceptionPass/TypeScriptExceptionPass.cpp`:
the part of the LLVM IR the pass looks at (functions, basic blocks and
instructions, identified by numbers that stand for the C++ pointers), the scan
that discovers the catch regions, the two loops that build the begin and the end
of each catch, and the removal of the collected instructions. -/

abbrev InstId := Nat

/-- The LLVM types the pass tells apart. -/
inductive LType where
  | integer (bits : Nat)
  | float
  | double
  | pointer (pointee : LType)
  | other
  deriving DecidableEq, Repr

/-- LLVM values used as operands. -/
inductive LValue where
  | inst (id : InstId)
  | nullPtr (pointee : LType)
  | constInt (bits : Nat) (value : Int)
  | tokenNone
  | global (name : String)
  | argument (idx : Nat)
  deriving DecidableEq, Repr

/-- The kinds of instructions the pass tells apart.  A landing pad lists, for
each clause, whether it is a catch clause; its operands are the clause values.
A call or an invoke names the called function, unless it is indirect. -/
inductive InstKind where
  | landingPad (isCatch : List Bool)
  | call (callee : Option String)
  | invoke (callee : Option String) (normalDest unwindDest : BlockId)
  | store (pointerOperandType : LType)
  | alloca
  | br (successors : List BlockId)
  | catchSwitch (unwindDest : Option BlockId) (handlers : List BlockId)
  | catchPad (catchSwitch : InstId)
  | catchRet (catchPad : InstId) (successor : BlockId)
  | other (opcode : String)
  deriving DecidableEq, Repr

/-- An instruction: identity, kind, operands and operand bundles. -/
structure Instruction where
  id : InstId
  kind : InstKind
  operands : List LValue
  bundles : List (String × List LValue)
  deriving DecidableEq, Repr

namespace Instruction

def isLandingPad (I : Instruction) : Bool :=
  match I.kind with
  | InstKind.landingPad _ => true
  | _ => false

def isInvoke (I : Instruction) : Bool :=
  match I.kind with
  | InstKind.invoke _ _ _ => true
  | _ => false

def isCall (I : Instruction) : Bool :=
  match I.kind with
  | InstKind.call _ => true
  | _ => false

def isStore (I : Instruction) : Bool :=
  match I.kind with
  | InstKind.store _ => true
  | _ => false

def isAlloca (I : Instruction) : Bool :=
  match I.kind with
  | InstKind.alloca => true
  | _ => false

def isBranch (I : Instruction) : Bool :=
  match I.kind with
  | InstKind.br _ => true
  | _ => false

/-- `isa<CallBase>`: calls and invokes. -/
def isCallBase (I : Instruction) : Bool := I.isCall || I.isInvoke

/-- `getCalledFunction()` of a call or an invoke: null for an indirect call. -/
def calledFunction (I : Instruction) : Option String :=
  match I.kind with
  | InstKind.call callee => callee
  | InstKind.invoke callee _ _ => callee
  | _ => none

/-- `getUnwindDest()` of an invoke. -/
def unwindDest (I : Instruction) : Option BlockId :=
  match I.kind with
  | InstKind.invoke _ _ unwindDest => some unwindDest
  | _ => none

/-- Every use of the instruction `old` as an operand, also in an operand bundle,
is replaced by `new`. -/
def replaceUses (old new : InstId) (I : Instruction) : Instruction :=
  { I with
    operands := I.operands.map fun v => if v = LValue.inst old then LValue.inst new else v
    bundles := I.bundles.map fun b =>
      (b.1, b.2.map fun v => if v = LValue.inst old then LValue.inst new else v) }

end Instruction

/-- A basic block: identity, name and instructions. -/
structure BasicBlock where
  id : BlockId
  name : String
  insts : List Instruction
  deriving DecidableEq, Repr

/-- A function: its basic blocks, and the supply of new blocks and instructions. -/
structure Function where
  blocks : List BasicBlock
  nextBlock : BlockId
  nextInst : InstId
  deriving DecidableEq, Repr

/-- The instructions of a function in order, `instructions(F)`. -/
def instructions (blocks : List BasicBlock) : List Instruction :=
  blocks.flatMap BasicBlock.insts

/-- The instruction an instruction pointer refers to: the instruction of that
identity in the function, none when it has been erased. -/
def findInst (blocks : List BasicBlock) (id : InstId) : Option Instruction :=
  (instructions blocks).find? fun I => I.id == id

/-- A change of the instruction list of every block.  The pass refers to an
instruction by its pointer, not by its block, so a change at an instruction is a
change of the list that holds it. -/
def mapInsts (f : List Instruction → List Instruction) (blocks : List BasicBlock) :
    List BasicBlock :=
  blocks.map fun b => { b with insts := f b.insts }

/-- The instruction `id` is taken out of a list. -/
def eraseIn (id : InstId) (insts : List Instruction) : List Instruction :=
  insts.filter fun I => I.id != id

/-- `I->eraseFromParent()`. -/
def eraseInst (id : InstId) (blocks : List BasicBlock) : List BasicBlock :=
  mapInsts (eraseIn id) blocks

/-- New instructions are put before the instruction `before` of a list. -/
def insertBeforeIn (before : InstId) (new : List Instruction) (insts : List Instruction) :
    List Instruction :=
  insts.flatMap fun I => if I.id = before then new ++ [I] else [I]

/-- New instructions are inserted before the instruction `before`. -/
def insertBefore (before : InstId) (new : List Instruction) (blocks : List BasicBlock) :
    List BasicBlock :=
  mapInsts (insertBeforeIn before new) blocks

/-- New instructions are appended to the block `block`. -/
def insertAtEnd (block : BlockId) (new : List Instruction) (blocks : List BasicBlock) :
    List BasicBlock :=
  blocks.map fun b => if b.id = block then { b with insts := b.insts ++ new } else b

/-- The block that holds an instruction, `I->getParent()`. -/
def parentOf (blocks : List BasicBlock) (id : InstId) : Option BasicBlock :=
  blocks.find? fun b => b.insts.any fun I => I.id == id

/-- `BB->splitBasicBlock(I, name)`: the instructions from `I` on move to a new
block `newBlock` of the given name, placed right after the block; the block gets
a branch `br` to the new block as its terminator. -/
def splitBasicBlock (at_ : InstId) (name : String) (newBlock : BlockId) (br : InstId) :
    List BasicBlock → List BasicBlock
  | [] => []
  | b :: bs =>
    if b.insts.any (fun I => I.id == at_) then
      { b with insts := b.insts.takeWhile (fun I => I.id != at_) ++
          [⟨br, InstKind.br [newBlock], [], []⟩] } ::
      { id := newBlock, name := name, insts := b.insts.dropWhile (fun I => I.id != at_) } :: bs
    else b :: splitBasicBlock at_ name newBlock br bs

/-- The working record of a catch region, `CatchRegion`. -/
structure CatchRegion where
  landingPad : Option InstId
  calls : List InstId
  catchPad : Option InstId
  store : Option InstId
  unwindInfoOp : Option InstId
  stack : Option LValue
  hasAlloca : Bool
  end_ : Option InstId
  isCleanup : Bool
  deriving DecidableEq, Repr

/-- `CatchRegion()`: every pointer null, every flag false. -/
def CatchRegion.new : CatchRegion :=
  { landingPad := none, calls := [], catchPad := none, store := none, unwindInfoOp := none,
    stack := none, hasAlloca := false, end_ := none, isCleanup := false }

/-! ## Scan 1: the catch regions -/

/-- The variables of the first loop of `runOnFunction`: the work set of regions,
whether the pointer `catchRegion` is set (it then points to the last region of
the work set), the flag `endOfCatch`, and the instructions to remove. -/
structure ScanState where
  catchRegionsWorkSet : List CatchRegion
  catchRegion : Bool
  endOfCatch : Bool
  toRemoveWorkSet : List InstId
  deriving DecidableEq, Repr

def ScanState.init : ScanState :=
  { catchRegionsWorkSet := [], catchRegion := false, endOfCatch := false, toRemoveWorkSet := [] }

/-- An update of the region the pointer `catchRegion` points to, the last one. -/
def modifyLast (f : CatchRegion → CatchRegion) : List CatchRegion → List CatchRegion
  | [] => []
  | [r] => [f r]
  | r :: rs => r :: modifyLast f rs

/-- The body of the first loop for one instruction.  The result is `none` where
the C++ code hits `assert(!catchRegion->store)` or asks an indirect call for the
name of the called function. -/
def scanStep (st : ScanState) (I : Instruction) : Option ScanState :=
  if I.isLandingPad then
    some { st with
      catchRegionsWorkSet := st.catchRegionsWorkSet ++ [{ CatchRegion.new with landingPad := some I.id }]
      catchRegion := true
      endOfCatch := false }
  -- it is outside of catch/finally region
  else if !st.catchRegion then some st
  else if st.endOfCatch then
    -- BR, or instruction without BR
    some { st with
      catchRegionsWorkSet := modifyLast (fun r => { r with end_ := some I.id }) st.catchRegionsWorkSet
      endOfCatch := false
      catchRegion := false }
  else
    let regions := modifyLast
      (fun r => if r.unwindInfoOp.isNone && I.isInvoke then { r with unwindInfoOp := some I.id }
        else r) st.catchRegionsWorkSet
    if I.isStore && (regions.getLast?.bind CatchRegion.store).isSome then none else
    let regions := if I.isStore then modifyLast (fun r => { r with store := some I.id }) regions
      else regions
    let regions := if I.isAlloca then modifyLast (fun r => { r with hasAlloca := true }) regions
      else regions
    if I.isCall then
      match I.calledFunction with
      | none => none
      | some name =>
        if name = "__cxa_end_catch" then
          some { st with
            catchRegionsWorkSet := regions
            toRemoveWorkSet := st.toRemoveWorkSet ++ [I.id]
            endOfCatch := true }
        else
          some { st with
            catchRegionsWorkSet := modifyLast (fun r => { r with calls := r.calls ++ [I.id] }) regions }
    else if I.isInvoke then
      match I.calledFunction with
      | none => none
      | some name =>
        if name = "__cxa_end_catch" then
          some { st with
            catchRegionsWorkSet := modifyLast (fun r => { r with end_ := some I.id }) regions
            toRemoveWorkSet := st.toRemoveWorkSet ++ [I.id] }
        else
          some { st with
            catchRegionsWorkSet := modifyLast (fun r => { r with calls := r.calls ++ [I.id] }) regions }
    else some { st with catchRegionsWorkSet := regions }

/-- The first loop of `runOnFunction` over a list of instructions. -/
def scanInstructions : ScanState → List Instruction → Option ScanState
  | st, [] => some st
  | st, I :: rest =>
    match scanStep st I with
    | none => none
    | some st => scanInstructions st rest

/-- No two stores follow each other without a landing pad in between; the flag
tells whether a store has been seen since the last landing pad. -/
def storesSeparated : Bool → List Instruction → Bool
  | _, [] => true
  | seen, I :: rest =>
    if I.isLandingPad then storesSeparated false rest
    else if I.isStore then !seen && storesSeparated true rest
    else storesSeparated seen rest

/-- The checks of the first loop of `runOnFunction`, by its flags alone: `open_`
tells whether the pointer `catchRegion` is set, `endOfCatch` is the flag of that
name, and `stored` tells whether the open region has its store.  Before the
first landing pad, after a region is closed, and at the instruction that closes
a region nothing is checked.  Inside an open region a store must be the first
one of the region (`assert(!catchRegion->store)`), and a call or an invoke must
name the called function (`getCalledFunction()->getName()`). -/
def scanChecks : Bool → Bool → Bool → List Instruction → Bool
  | _, _, _, [] => true
  | open_, endOfCatch, stored, I :: rest =>
    if I.isLandingPad then scanChecks true false false rest
    -- it is outside of catch/finally region
    else if !open_ then scanChecks false endOfCatch stored rest
    else if endOfCatch then scanChecks false false stored rest
    else if I.isStore && stored then false
    else if I.isCallBase && I.calledFunction.isNone then false
    else scanChecks true (I.isCall && I.calledFunction == some "__cxa_end_catch")
      (stored || I.isStore) rest

/-! ## The begin and the end of each catch -/

/-- `getTypeNumber`: 0 for an integer type or the 32-bit `float` type, 1 for any
other type. -/
def getTypeNumber (catchValType : LType) : Int :=
  match catchValType with
  | LType.integer _ => 0
  | LType.float => 0
  -- default if char*, class etc
  | _ => 1

/-- The call of the intrinsic `name` created by `Builder.CreateCall`: it has no
operand bundle. -/
def mkIntrinsicCall (id : InstId) (name : String) (args : List LValue) : Instruction :=
  { id := id, kind := InstKind.call (some name), operands := args, bundles := [] }

/-- `CallBase::Create(callBase, opBundle, callBase)` with the bundle `funclet`,
followed by `replaceAllUsesWith` and `eraseFromParent`, on the instructions of a
list: the call or invoke `callBase` is replaced by a copy `newId` whose only
operand bundle is `funclet` with the catch pad, and its uses become uses of the
copy. -/
def setFuncletIn (catchPad : InstId) (callBase newId : InstId) (insts : List Instruction) :
    List Instruction :=
  insts.map fun I =>
    if I.id = callBase then
      { I with id := newId, bundles := [("funclet", [LValue.inst catchPad])] }
    else I.replaceUses callBase newId

/-- One round of the loop `set funcset`, on all blocks. -/
def setFunclet (catchPad : InstId) (callBase newId : InstId) (blocks : List BasicBlock) :
    List BasicBlock :=
  mapInsts (setFuncletIn catchPad callBase newId) blocks

/-- The rounds of the loop `set funcset` for the calls `calls`, with the copies
numbered from `newId` on, on the instructions of a list. -/
def setFuncletsIn (catchPad : InstId) : List InstId → InstId → List Instruction → List Instruction
  | [], _, insts => insts
  | callBase :: calls, newId, insts =>
    setFuncletsIn catchPad calls (newId + 1) (setFuncletIn catchPad callBase newId insts)

/-- The loop `set funcset` over the calls of a region.  The result is `none`
where a recorded call is no longer in the function. -/
def setFunclets (catchPad : InstId) :
    List InstId → List BasicBlock → InstId → Option (List BasicBlock × InstId)
  | [], blocks, nextInst => some (blocks, nextInst)
  | callBase :: calls, blocks, nextInst =>
    match findInst blocks callBase with
    | none => none
    | some _ =>
      setFunclets catchPad calls (setFunclet catchPad callBase nextInst blocks) (nextInst + 1)

/-- The state of the two loops over the regions: the function and the
instructions to remove. -/
structure PassState where
  F : Function
  toRemoveWorkSet : List InstId
  deriving DecidableEq, Repr

/-- The body of the loop `create begin of catch block` for one region.  The
result is `none` where the C++ code reaches `llvm_unreachable("not implemented")`
or `assert(varRef)`, or follows a pointer to an instruction that is not there. -/
def beginOfCatch (st : PassState) (catchRegion : CatchRegion) :
    Option (PassState × CatchRegion) :=
  match catchRegion.landingPad.bind (findInst st.F.blocks) with
  | none => none
  | some LPI =>
    match parentOf st.F.blocks LPI.id with
    | none => none
    | some CurrentBB =>
      -- split
      let ContinuationBB := st.F.nextBlock
      let blocks := splitBasicBlock LPI.id "catch" ContinuationBB st.F.nextInst st.F.blocks
      let blocks := eraseInst st.F.nextInst blocks
      let unwindDest : Option (Option BlockId) :=
        match catchRegion.unwindInfoOp with
        | none => some none /- unwind to caller if null -/
        | some II =>
          match (findInst st.F.blocks II).map Instruction.kind with
          | some (InstKind.invoke _ _ unwindDest) => some (some unwindDest)
          | _ => none
      match unwindDest with
      | none => none
      | some unwindDest =>
        let CSI := st.F.nextInst + 1
        let blocks := insertAtEnd CurrentBB.id
          [⟨CSI, InstKind.catchSwitch unwindDest [ContinuationBB], [LValue.tokenNone], []⟩] blocks
        let CPI := st.F.nextInst + 2
        match LPI.kind, LPI.operands with
        | InstKind.landingPad (true :: _), value :: _ =>
          -- check what is type of catch
          let created : Option (List BasicBlock) :=
            match value with
            | LValue.nullPtr _ =>
              -- catch (...) as catch value is null
              let nullI8Ptr := LValue.nullPtr (LType.integer 8)
              let iVal64 := LValue.constInt 32 64
              some (insertBefore LPI.id
                [⟨CPI, InstKind.catchPad CSI, [nullI8Ptr, iVal64, nullI8Ptr], []⟩] blocks)
            | _ =>
              match catchRegion.store.bind (findInst blocks) with
              | some ⟨varRef, InstKind.store pointerOperandType, [_, pointerOperand], _⟩ =>
                let iValTypeId := LValue.constInt 32 (getTypeNumber pointerOperandType)
                some (eraseInst varRef (insertBefore LPI.id
                  [⟨CPI, InstKind.catchPad CSI, [value, iValTypeId, pointerOperand], []⟩] blocks))
              | _ => none
          match created with
          | none => none
          | some blocks =>
            -- save stack
            let SP := st.F.nextInst + 3
            let blocks :=
              if catchRegion.hasAlloca then
                insertBefore LPI.id [mkIntrinsicCall SP "llvm.stacksave" []] blocks
              else blocks
            let stack := if catchRegion.hasAlloca then some (LValue.inst SP) else catchRegion.stack
            -- set funcset
            match setFunclets CPI catchRegion.calls blocks (st.F.nextInst + 4) with
            | none => none
            | some (blocks, nextInst) =>
              some ({ F := { blocks := blocks, nextBlock := st.F.nextBlock + 1, nextInst := nextInst },
                      toRemoveWorkSet := st.toRemoveWorkSet ++ [LPI.id] },
                    { catchRegion with stack := stack, catchPad := some CPI })
        | _, _ => none

/-- The loop `create begin of catch block` over the regions. -/
def beginOfCatches : PassState → List CatchRegion → Option (PassState × List CatchRegion)
  | st, [] => some (st, [])
  | st, catchRegion :: rest =>
    match beginOfCatch st catchRegion with
    | none => none
    | some (st, catchRegion) =>
      match beginOfCatches st rest with
      | none => none
      | some (st, rest) => some (st, catchRegion :: rest)

/-- The body of the loop `create end of catch block` for one region.  The result
is `none` where the C++ code hits `assert(catchRegion.stack)` or
`assert(catchRegion.catchPad)`, or follows a pointer to an instruction that is
not there. -/
def endOfCatch (st : PassState) (catchRegion : CatchRegion) : Option PassState :=
  match catchRegion.end_.bind (findInst st.F.blocks) with
  | none => none
  | some I =>
    match parentOf st.F.blocks I.id with
    | none => none
    | some parent =>
      -- the blocks, `retBlock`, `BI`, the insertion point of the builder, and the supply
      let found : Option (List BasicBlock × BlockId × Option InstId × InstId × BlockId × InstId) :=
        match I.kind with
        | InstKind.br (successor :: _) =>
          some (st.F.blocks, successor, some I.id, I.id, st.F.nextBlock, st.F.nextInst)
        | InstKind.br [] => none
        | InstKind.invoke _ normalDest _ =>
          some (st.F.blocks, normalDest, none, I.id, st.F.nextBlock, st.F.nextInst)
        | _ =>
          some (splitBasicBlock I.id "end.of.exception" st.F.nextBlock st.F.nextInst st.F.blocks,
            st.F.nextBlock, some st.F.nextInst, st.F.nextInst, st.F.nextBlock + 1,
            st.F.nextInst + 1)
      match found with
      | none => none
      | some (blocks, retBlock, BI, insertPoint, nextBlock, nextInst) =>
        if catchRegion.hasAlloca && catchRegion.stack.isNone then none else
        match catchRegion.catchPad with
        | none => none
        | some catchPad =>
          let blocks :=
            if catchRegion.hasAlloca then
              -- restore stack
              insertBefore insertPoint
                [mkIntrinsicCall nextInst "llvm.stackrestore" catchRegion.stack.toList] blocks
            else blocks
          let CR := nextInst + 1
          let blocks :=
            insertAtEnd parent.id [⟨CR, InstKind.catchRet catchPad retBlock, [], []⟩] blocks
          some { F := { blocks := blocks, nextBlock := nextBlock, nextInst := nextInst + 2 },
                 toRemoveWorkSet :=
                   match BI with
                   | some BI => st.toRemoveWorkSet ++ [BI] -- remove BranchInst
                   | none => st.toRemoveWorkSet }

/-- The loop `create end of catch block` over the regions. -/
def endOfCatches : PassState → List CatchRegion → Option PassState
  | st, [] => some st
  | st, catchRegion :: rest =>
    match endOfCatch st catchRegion with
    | none => none
    | some st => endOfCatches st rest

/-- The loop `remove`: the collected instructions are erased.  The result is
`none` where an instruction to erase is no longer in the function. -/
def removeInstructions : List InstId → List BasicBlock → Option (List BasicBlock)
  | [], blocks => some blocks
  | CI :: rest, blocks =>
    match findInst blocks CI with
    | none => none
    | some _ => removeInstructions rest (eraseInst CI blocks)

/-- `TypeScriptExceptionPass::runOnFunction`: the changed function and the flag
`MadeChange`; `none` where the C++ code fails. -/
def TypeScriptExceptionPass.runOnFunction (F : Function) : Option (Function × Bool) :=
  match scanInstructions ScanState.init (instructions F.blocks) with
  | none => none
  | some scanned =>
    -- create begin of catch block
    match beginOfCatches { F := F, toRemoveWorkSet := scanned.toRemoveWorkSet }
        scanned.catchRegionsWorkSet with
    | none => none
    | some (st, catchRegionsWorkSet) =>
      -- create end of catch block
      match endOfCatches st catchRegionsWorkSet with
      | none => none
      | some st =>
        -- remove
        match removeInstructions st.toRemoveWorkSet st.F.blocks with
        | none => none
        | some blocks =>
          some ({ st.F with blocks := blocks }, !catchRegionsWorkSet.isEmpty)

/-! ## Executing a flat control-flow graph

A small-step interpreter for blocks whose operations have no regions: integer
constants, integer arithmetic and comparison, variables with load and store,
casts, the two branches, and the exception markers.  A `throw` with an unwind
entry transfers control to the recorded block.  The trace lists the blocks in the
order they are entered. -/

structure ExecState where
  env : Value → Option Int
  mem : Value → Option Int
  trace : List BlockId

def ExecState.init : ExecState := ⟨fun _ => none, fun _ => none, []⟩

/-- What the run depends on besides the blocks: the unwind map of the context, and
whether a thrown value matches the declared type of the catch clause. -/
structure ExecEnv where
  unwind : OpId → Option BlockId
  catchTypeMatches : Bool

/-- No unwind entries. -/
def ExecEnv.plain : ExecEnv := ⟨fun _ => none, true⟩

def setValue (f : Value → Option Int) (v : Value) (x : Int) : Value → Option Int :=
  fun w => if w = v then some x else f w

/-- The values passed along a branch are bound to the arguments of the target. -/
def bindArgs (env : Value → Option Int) (target : BlockId) :
    Nat → List Int → Value → Option Int
  | _, [] => env
  | i, x :: xs => bindArgs (setValue env (Value.blockArg target i) x) target (i + 1) xs

def evalOperands (env : Value → Option Int) : List Value → Option (List Int)
  | [] => some []
  | v :: vs =>
    match env v, evalOperands env vs with
    | some x, some xs => some (x :: xs)
    | _, _ => none

/-- The effect of one operation: the next state, and the block control moves to
when the operation is a branch or a throw. -/
def execOp (E : ExecEnv) (st : ExecState) (op : Op) : Option (ExecState × Option BlockId) :=
  let res := Value.opResult op.id 0
  match op.kind, op.operands, op.successors with
  | OpKind.ConstantOp, [], [] =>
    match op.getAttr "value" with
    | some (Attr.int x) => some ({ st with env := setValue st.env res x }, none)
    | _ => none
  | OpKind.VariableOp, [init], [] =>
    (st.env init).map fun x => ({ st with mem := setValue st.mem res x }, none)
  | OpKind.LoadOp, [r], [] =>
    (st.mem r).map fun x => ({ st with env := setValue st.env res x }, none)
  | OpKind.StoreOp, [v, r], [] =>
    (st.env v).map fun x => ({ st with mem := setValue st.mem r x }, none)
  | OpKind.ArithmeticBinaryOp, [a, b], [] =>
    match st.env a, st.env b, op.getAttr "opCode" with
    | some x, some y, some (Attr.opCode SyntaxKind.PlusToken) =>
      some ({ st with env := setValue st.env res (x + y) }, none)
    | some x, some y, some (Attr.opCode SyntaxKind.MinusToken) =>
      some ({ st with env := setValue st.env res (x - y) }, none)
    | _, _, _ => none
  | OpKind.LogicalBinaryOp, [a, b], [] =>
    match st.env a, st.env b, op.getAttr "opCode" with
    | some x, some y, some (Attr.opCode SyntaxKind.LessThanToken) =>
      some ({ st with env := setValue st.env res (if x < y then 1 else 0) }, none)
    | _, _, _ => none
  | OpKind.CastOp, [a], [] =>
    (st.env a).map fun x =>
      let y : Int := if op.resultTypes = [Ty.i1] then (if x = 0 then 0 else 1) else x
      ({ st with env := setValue st.env res y }, none)
  | OpKind.BranchOp, [], [(dest, args)] =>
    (evalOperands st.env args).map fun xs =>
      ({ st with env := bindArgs st.env dest 0 xs }, some dest)
  | OpKind.CondBranchOp, [c], [(trueDest, trueArgs), (falseDest, falseArgs)] =>
    match st.env c with
    | some x =>
      if x = 0 then
        (evalOperands st.env falseArgs).map fun xs =>
          ({ st with env := bindArgs st.env falseDest 0 xs }, some falseDest)
      else
        (evalOperands st.env trueArgs).map fun xs =>
          ({ st with env := bindArgs st.env trueDest 0 xs }, some trueDest)
    | none => none
  -- a throw inside a try unwinds to the recorded catch dispatch block
  | OpKind.ThrowOp, [_], [] => (E.unwind op.id).map fun dest => (st, some dest)
  -- the type-match values, the landing pad and the begin-catch yield a handle
  | OpKind.NullOp, [], [] => some ({ st with env := setValue st.env res 0 }, none)
  | OpKind.TypeInfoPtrOp, [], [] => some ({ st with env := setValue st.env res 0 }, none)
  | OpKind.ThrowInfoPtrOp, [], [] => some ({ st with env := setValue st.env res 0 }, none)
  | OpKind.LandingPadOp, [_], [] => some ({ st with env := setValue st.env res 0 }, none)
  | OpKind.BeginCatchOp, [_], [] => some ({ st with env := setValue st.env res 0 }, none)
  | OpKind.CompareCatchTypeOp, [_, _], [] =>
    some ({ st with env := setValue st.env res (if E.catchTypeMatches then 1 else 0) }, none)
  | OpKind.CatchOp, [_], [] => some (st, none)
  | OpKind.EndCatchOp, [], [] => some (st, none)
  | _, _, _ => none

/-- The operations of a block are executed in order up to the first branch. -/
def execOps (E : ExecEnv) : ExecState → List Op → Option (ExecState × BlockId)
  | _, [] => none
  | st, op :: ops =>
    match execOp E st op with
    | some (st1, some dest) => some (st1, dest)
    | some (st1, none) => execOps E st1 ops
    | none => none

/-- Execution from block `cur` until block `stop` is reached; every block entered
on the way is appended to the trace.  One unit of fuel is used per block. -/
def runCFG (E : ExecEnv) (cfg : List Block) (stop : BlockId) :
    Nat → BlockId → ExecState → Option ExecState
  | 0, cur, st => if cur = stop then some st else none
  | fuel + 1, cur, st =>
    if cur = stop then some st
    else
      match findBlock cur cfg with
      | some b =>
        match execOps E { st with trace := st.trace ++ [cur] } b.ops with
        | some (st1, dest) => runCFG E cfg stop fuel dest st1
        | none => none
      | none => none

/-- The operations of a piece of a block without branches are executed in order. -/
def execStraight (E : ExecEnv) : ExecState → List Op → Option ExecState
  | st, [] => some st
  | st, op :: ops =>
    match execOp E st op with
    | some (st1, none) => execStraight E st1 ops
    | _ => none

/-! ## Edges and paths of a control-flow graph -/

/-- Calls, indirect calls and throws: the operations that are lowered with the
unwind entry recorded for them. -/
def Op.mayUnwind (op : Op) : Bool :=
  op.kind == OpKind.CallOp || op.kind == OpKind.CallIndirectOp || op.kind == OpKind.ThrowOp

/-- The blocks the operations of a block branch to. -/
def Block.explicitSuccessors (b : Block) : List BlockId :=
  b.ops.flatMap (fun op => op.successors.map Prod.fst)

/-- The unwind targets recorded for the calls and throws nested in a block. -/
def Block.unwindSuccessors (tsContext : TSContext) (b : Block) : List BlockId :=
  ((walkOps b.ops).filter Op.mayUnwind).filterMap (fun op => tsContext.unwind op.id)

/-- An edge of the control-flow graph: from a block to a block one of its
operations branches to, or unwinds to. -/
def Edge (tsContext : TSContext) (cfg : List Block) (u v : BlockId) : Prop :=
  ∃ b ∈ cfg, b.id = u ∧ (v ∈ b.explicitSuccessors ∨ v ∈ b.unwindSuccessors tsContext)

/-- A path: a list of blocks with an edge from each one to the next. -/
def IsPath (tsContext : TSContext) (cfg : List Block) (p : List BlockId) : Prop :=
  List.Chain' (Edge tsContext cfg) p

instance (tsContext : TSContext) (cfg : List Block) (u v : BlockId) :
    Decidable (Edge tsContext cfg u v) :=
  inferInstanceAs (Decidable (∃ b ∈ cfg, b.id = u ∧
    (v ∈ b.explicitSuccessors ∨ v ∈ b.unwindSuccessors tsContext)))

instance (tsContext : TSContext) (cfg : List Block) (p : List BlockId) :
    Decidable (IsPath tsContext cfg p) :=
  inferInstanceAs (Decidable (List.Chain' (Edge tsContext cfg) p))

/-! ## The counting loop `for (i = 0; i < N; i++) { counter++ }` -/

namespace CountingLoop

def iVar : Value := Value.opResult 1 0
def counterVar : Value := Value.opResult 2 0

/-- The block of the condition region: `i < N`. -/
def condBlock (N : Nat) : Block :=
  Block.mk 1 []
    [Op.simple 10 OpKind.LoadOp [iVar] [Ty.i32] [],
     Op.simple 11 OpKind.ConstantOp [] [Ty.i32] [("value", Attr.int N)],
     Op.simple 12 OpKind.LogicalBinaryOp [Value.opResult 10 0, Value.opResult 11 0] [Ty.boolean]
       [("opCode", Attr.opCode SyntaxKind.LessThanToken)],
     Op.simple 13 OpKind.ConditionOp [Value.opResult 12 0] [] []]

/-- The block of the body region: `counter = counter + 1`. -/
def bodyBlock : Block :=
  Block.mk 2 []
    [Op.simple 20 OpKind.LoadOp [counterVar] [Ty.i32] [],
     Op.simple 21 OpKind.ConstantOp [] [Ty.i32] [("value", Attr.int 1)],
     Op.simple 22 OpKind.ArithmeticBinaryOp [Value.opResult 20 0, Value.opResult 21 0] [Ty.i32]
       [("opCode", Attr.opCode SyntaxKind.PlusToken)],
     Op.simple 23 OpKind.StoreOp [Value.opResult 22 0, counterVar] [] [],
     Op.simple 24 OpKind.ResultOp [] [] []]

/-- The block of the increment region: `i = i + 1`. -/
def incrBlock : Block :=
  Block.mk 3 []
    [Op.simple 30 OpKind.LoadOp [iVar] [Ty.i32] [],
     Op.simple 31 OpKind.ConstantOp [] [Ty.i32] [("value", Attr.int 1)],
     Op.simple 32 OpKind.ArithmeticBinaryOp [Value.opResult 30 0, Value.opResult 31 0] [Ty.i32]
       [("opCode", Attr.opCode SyntaxKind.PlusToken)],
     Op.simple 33 OpKind.StoreOp [Value.opResult 32 0, iVar] [] [],
     Op.simple 34 OpKind.ResultOp [] [] []]

def forOp (N : Nat) : Op :=
  Op.mk 3 OpKind.ForOp [] [] [] [] [[condBlock N], [bodyBlock], [incrBlock]]

/-- The operations before the loop: `i = 0; counter = 0`. -/
def entryOps : List Op :=
  [Op.simple 0 OpKind.ConstantOp [] [Ty.i32] [("value", Attr.int 0)],
   Op.simple 1 OpKind.VariableOp [Value.opResult 0 0] [Ty.ref Ty.i32] [],
   Op.simple 2 OpKind.VariableOp [Value.opResult 0 0] [Ty.ref Ty.i32] []]

/-- The block holding the loop: `i = 0; counter = 0; for ...`. -/
def entryBlock (N : Nat) : Block :=
  Block.mk 0 [] (entryOps ++ [forOp N])

/-- The rewriter as the driver hands it to the pattern: insertion point at the
loop, which is the fourth operation of block 0. -/
def rewriter (N : Nat) : PatternRewriter :=
  { blocks := [entryBlock N], insertionBlock := 0, insertionPoint := 3,
    nextBlock := 4, nextOp := 100 }

/-- The blocks after `ForOpLowering`. -/
def lowered (N : Nat) : List Block :=
  match ForOpLowering TSContext.empty (forOp N) (rewriter N) with
  | some (_, rw) => rw.blocks
  | none => []

/-- Run the lowered loop from the original block until the continuation block. -/
def run (N fuel : Nat) : Option ExecState :=
  runCFG ExecEnv.plain (lowered N) 4 fuel 0 ExecState.init

end CountingLoop

/-! ## The conditional `if (c) { yield a } else { yield b }` -/

namespace IfExample

/-- The `then` region: `yield a`. -/
def thenBlock (a : Int) : Block :=
  Block.mk 1 []
    [Op.simple 10 OpKind.ConstantOp [] [Ty.i32] [("value", Attr.int a)],
     Op.simple 11 OpKind.ResultOp [Value.opResult 10 0] [] []]

/-- The `else` region: `yield b`. -/
def elseBlock (b : Int) : Block :=
  Block.mk 2 []
    [Op.simple 20 OpKind.ConstantOp [] [Ty.i32] [("value", Attr.int b)],
     Op.simple 21 OpKind.ResultOp [Value.opResult 20 0] [] []]

/-- The `if` with one result; its condition is the result of operation 0. -/
def ifOp (a b : Int) : Op :=
  Op.mk 1 OpKind.IfOp [Value.opResult 0 0] [Ty.i32] [] [] [[thenBlock a], [elseBlock b]]

/-- The operation before the `if`: the condition `c`. -/
def beforeOps (c : Int) : List Op :=
  [Op.simple 0 OpKind.ConstantOp [] [Ty.boolean] [("value", Attr.int c)]]

/-- The operation after the `if`: a variable initialised with the result of the `if`. -/
def afterOps : List Op :=
  [Op.simple 2 OpKind.VariableOp [Value.opResult 1 0] [Ty.ref Ty.i32] []]

/-- The rewriter as the driver hands it to the pattern: insertion point at the
`if`, the second operation of block 0. -/
def rewriter (a b c : Int) : PatternRewriter :=
  { blocks := [Block.mk 0 [] (beforeOps c ++ ifOp a b :: afterOps)],
    insertionBlock := 0, insertionPoint := 1, nextBlock := 3, nextOp := 100 }

/-- The same `if` without results and without an `else` region. -/
def ifOpNoResult (a : Int) : Op :=
  Op.mk 1 OpKind.IfOp [Value.opResult 0 0] [] [] []
    [[Block.mk 1 []
        [Op.simple 10 OpKind.ConstantOp [] [Ty.i32] [("value", Attr.int a)],
         Op.simple 11 OpKind.ResultOp [] [] []]], []]

def rewriterNoResult (a c : Int) : PatternRewriter :=
  { blocks := [Block.mk 0 [] (beforeOps c ++ ifOpNoResult a :: [])],
    insertionBlock := 0, insertionPoint := 1, nextBlock := 3, nextOp := 100 }

end IfExample

/-! ## A labelled loop with nested `break` and `continue` -/

namespace JumpLoop

/-- The body of the loop `L: for (;;) { if (v) { continue }; break L; continue M }`:
a `continue` without label nested in an `if`, a `break` with the label of the
loop, and a `continue` with another label. -/
def bodyBlock : Block :=
  Block.mk 2 []
    [Op.mk 20 OpKind.IfOp [Value.opResult 0 0] [] [] []
       [[Block.mk 5 []
          [Op.simple 21 OpKind.ContinueOp [] [] [],
           Op.simple 22 OpKind.ResultOp [] [] []]], []],
     Op.simple 23 OpKind.BreakOp [] [] [("label", Attr.str "L")],
     Op.simple 25 OpKind.ContinueOp [] [] [("label", Attr.str "M")],
     Op.simple 24 OpKind.ResultOp [] [] []]

def condBlock : Block := Block.mk 1 [] [Op.simple 13 OpKind.NoConditionOp [] [] []]

def incrBlock : Block := Block.mk 3 [] [Op.simple 34 OpKind.ResultOp [] [] []]

def forOp : Op :=
  Op.mk 3 OpKind.ForOp [] [] [("label", Attr.str "L")] [] [[condBlock], [bodyBlock], [incrBlock]]

def rewriter : PatternRewriter :=
  { blocks := [Block.mk 0 [] [Op.simple 0 OpKind.ConstantOp [] [Ty.boolean] [("value", Attr.int 1)],
                              forOp]],
    insertionBlock := 0, insertionPoint := 1, nextBlock := 4, nextOp := 100 }

end JumpLoop

/-! ## Lowering the `break` of the labelled loop -/

namespace JumpLoop

/-- The context and the rewriter after `ForOpLowering` of the labelled loop. -/
def afterFor : TSContext × PatternRewriter :=
  (ForOpLowering TSContext.empty forOp rewriter).getD (TSContext.empty, rewriter)

/-- The `break L` of the body. -/
def breakOp : Op := Op.simple 23 OpKind.BreakOp [] [] [("label", Attr.str "L")]

/-- The rewriter as the driver hands it to `BreakOpLowering`: insertion point at
the `break`, the second operation of the body block. -/
def breakRewriter : PatternRewriter :=
  { afterFor.2 with insertionBlock := 2, insertionPoint := 1 }

end JumpLoop

/-! ## `try { throw X } catch (e) { } finally { counter++ }` and
`try { } finally { counter++ }` -/

namespace TryExample

def counterVar : Value := Value.opResult 2 0

/-- The operations before the `try`: the thrown value, the counter and the
catch variable. -/
def beforeOps : List Op :=
  [Op.simple 0 OpKind.ConstantOp [] [Ty.i32] [("value", Attr.int 7)],
   Op.simple 1 OpKind.ConstantOp [] [Ty.i32] [("value", Attr.int 0)],
   Op.simple 2 OpKind.VariableOp [Value.opResult 1 0] [Ty.ref Ty.i32] [],
   Op.simple 4 OpKind.VariableOp [Value.opResult 1 0] [Ty.ref Ty.i32] []]

/-- The body `throw X`. -/
def bodyBlock : Block :=
  Block.mk 1 []
    [Op.simple 10 OpKind.ThrowOp [Value.opResult 0 0] [] [],
     Op.simple 11 OpKind.ResultOp [] [] []]

/-- The catch clause `catch (e) { }`. -/
def catchesBlock : Block :=
  Block.mk 2 []
    [Op.simple 20 OpKind.CatchOp [Value.opResult 4 0] [] [],
     Op.simple 21 OpKind.ResultOp [] [] []]

/-- The finally block `counter++`. -/
def finallyBlock : Block :=
  Block.mk 3 []
    [Op.simple 30 OpKind.LoadOp [counterVar] [Ty.i32] [],
     Op.simple 31 OpKind.ConstantOp [] [Ty.i32] [("value", Attr.int 1)],
     Op.simple 32 OpKind.ArithmeticBinaryOp [Value.opResult 30 0, Value.opResult 31 0] [Ty.i32]
       [("opCode", Attr.opCode SyntaxKind.PlusToken)],
     Op.simple 33 OpKind.StoreOp [Value.opResult 32 0, counterVar] [] [],
     Op.simple 34 OpKind.ResultOp [] [] []]

def tryOp : Op :=
  Op.mk 3 OpKind.TryOp [] [] [] [] [[bodyBlock], [catchesBlock], [finallyBlock]]

def rewriter : PatternRewriter :=
  { blocks := [Block.mk 0 [] (beforeOps ++ [tryOp])],
    insertionBlock := 0, insertionPoint := 4, nextBlock := 4, nextOp := 100 }

/-- The empty body and the empty catches region of `try { } finally { ... }`. -/
def emptyBodyBlock : Block := Block.mk 1 [] [Op.simple 11 OpKind.ResultOp [] [] []]

def emptyCatchesBlock : Block := Block.mk 2 [] [Op.simple 21 OpKind.ResultOp [] [] []]

def tryFinallyOp : Op :=
  Op.mk 3 OpKind.TryOp [] [] [] [] [[emptyBodyBlock], [emptyCatchesBlock], [finallyBlock]]

def rewriterFinally : PatternRewriter :=
  { blocks := [Block.mk 0 [] (beforeOps ++ [tryFinallyOp])],
    insertionBlock := 0, insertionPoint := 4, nextBlock := 4, nextOp := 100 }

end TryExample

/-! ## The loops `while (i < N) { counter++; i++ }` and
`do { counter++; i++ } while (i < N)` -/

namespace WhileExample

/-- The block of the body region: `counter = counter + 1; i = i + 1`. -/
def bodyBlock : Block :=
  Block.mk 2 []
    [Op.simple 20 OpKind.LoadOp [CountingLoop.counterVar] [Ty.i32] [],
     Op.simple 21 OpKind.ConstantOp [] [Ty.i32] [("value", Attr.int 1)],
     Op.simple 22 OpKind.ArithmeticBinaryOp [Value.opResult 20 0, Value.opResult 21 0] [Ty.i32]
       [("opCode", Attr.opCode SyntaxKind.PlusToken)],
     Op.simple 23 OpKind.StoreOp [Value.opResult 22 0, CountingLoop.counterVar] [] [],
     Op.simple 25 OpKind.LoadOp [CountingLoop.iVar] [Ty.i32] [],
     Op.simple 26 OpKind.ArithmeticBinaryOp [Value.opResult 25 0, Value.opResult 21 0] [Ty.i32]
       [("opCode", Attr.opCode SyntaxKind.PlusToken)],
     Op.simple 27 OpKind.StoreOp [Value.opResult 26 0, CountingLoop.iVar] [] [],
     Op.simple 24 OpKind.ResultOp [] [] []]

def whileOp (N : Nat) : Op :=
  Op.mk 3 OpKind.WhileOp [] [] [] [] [[CountingLoop.condBlock N], [bodyBlock]]

/-- The rewriter as the driver hands it to the pattern: insertion point at the
loop, the fourth operation of block 0. -/
def rewriter (N : Nat) : PatternRewriter :=
  { blocks := [Block.mk 0 [] (CountingLoop.entryOps ++ [whileOp N])],
    insertionBlock := 0, insertionPoint := 3, nextBlock := 4, nextOp := 100 }

def doWhileOp (N : Nat) : Op :=
  Op.mk 3 OpKind.DoWhileOp [] [] [] [] [[CountingLoop.condBlock N], [bodyBlock]]

def doWhileRewriter (N : Nat) : PatternRewriter :=
  { blocks := [Block.mk 0 [] (CountingLoop.entryOps ++ [doWhileOp N])],
    insertionBlock := 0, insertionPoint := 3, nextBlock := 4, nextOp := 100 }

/-- The blocks after `DoWhileOpLowering`. -/
def doWhileLowered (N : Nat) : List Block :=
  match DoWhileOpLowering TSContext.empty (doWhileOp N) (doWhileRewriter N) with
  | some (_, rw) => rw.blocks
  | none => []

/-- The condition block of the labelled loop: the condition is the result of
operation 0. -/
def jumpCondBlock : Block :=
  Block.mk 1 [] [Op.simple 13 OpKind.ConditionOp [Value.opResult 0 0] [] []]

/-- The loop `L: while (v) { if (v) { continue }; break L; continue M }`. -/
def jumpWhileOp : Op :=
  Op.mk 3 OpKind.WhileOp [] [] [("label", Attr.str "L")] [] [[jumpCondBlock], [JumpLoop.bodyBlock]]

def jumpRewriter : PatternRewriter :=
  { blocks := [Block.mk 0 [] [Op.simple 0 OpKind.ConstantOp [] [Ty.boolean] [("value", Attr.int 1)],
                              jumpWhileOp]],
    insertionBlock := 0, insertionPoint := 1, nextBlock := 4, nextOp := 100 }

/-- The body of the inner loop of `nestedOp`: `continue; break`. -/
def innerBody : Block :=
  Block.mk 6 []
    [Op.simple 60 OpKind.ContinueOp [] [] [], Op.simple 61 OpKind.BreakOp [] [] [],
     Op.simple 62 OpKind.ResultOp [] [] []]

/-- The inner loop of `nestedOp`: `for (;;) { continue; break }`. -/
def innerFor : Op :=
  Op.mk 50 OpKind.ForOp [] [] [] []
    [[Block.mk 5 [] [Op.simple 51 OpKind.NoConditionOp [] [] []]], [innerBody],
     [Block.mk 7 [] [Op.simple 70 OpKind.ResultOp [] [] []]]]

/-- The loop `while (v) { for (;;) { continue; break } }`. -/
def nestedOp : Op :=
  Op.mk 3 OpKind.WhileOp [] [] [] []
    [[jumpCondBlock], [Block.mk 2 [] [innerFor, Op.simple 24 OpKind.ResultOp [] [] []]]]

/-- The rewriter at `nestedOp`. -/
def nestedRewriter : PatternRewriter :=
  { blocks := [Block.mk 0 [] [Op.simple 0 OpKind.ConstantOp [] [Ty.boolean] [("value", Attr.int 1)],
                              nestedOp]],
    insertionBlock := 0, insertionPoint := 1, nextBlock := 8, nextOp := 100 }

/-- The context and the rewriter after the pattern of the outer loop. -/
def afterOuter : TSContext × PatternRewriter :=
  (applyPattern false TSContext.empty nestedOp nestedRewriter).getD
    (TSContext.empty, nestedRewriter)

/-- The rewriter at the inner loop, which the pattern of the outer loop has put
at the head of block 2. -/
def innerRewriter : PatternRewriter :=
  { afterOuter.2 with insertionBlock := 2, insertionPoint := 0 }

/-- The context and the rewriter after the pattern of the inner loop. -/
def afterInner : TSContext × PatternRewriter :=
  (applyPattern false afterOuter.1 innerFor innerRewriter).getD (afterOuter.1, innerRewriter)

end WhileExample

/-! ## Labels -/

namespace LabelExample

/-- Two blocks of a label region that both end in a `merge` terminator. -/
def mergeBlock1 : Block :=
  Block.mk 1 []
    [Op.simple 10 OpKind.ConstantOp [] [Ty.i32] [("value", Attr.int 1)],
     Op.simple 11 OpKind.MergeOp [] [] []]

def mergeBlock2 : Block := Block.mk 2 [] [Op.simple 20 OpKind.MergeOp [] [] []]

/-- A label whose region has two blocks that end in `merge`. -/
def twoMergeOp : Op :=
  Op.mk 3 OpKind.LabelOp [] [] [("label", Attr.str "outer")] [] [[mergeBlock1, mergeBlock2]]

def twoMergeRewriter : PatternRewriter :=
  { blocks := [Block.mk 0 [] [twoMergeOp]],
    insertionBlock := 0, insertionPoint := 0, nextBlock := 6, nextOp := 100 }

/-- The body of the inner loop: `continue outer; break outer; continue`. -/
def innerBody : Block :=
  Block.mk 3 []
    [Op.simple 30 OpKind.ContinueOp [] [] [("label", Attr.str "outer")],
     Op.simple 31 OpKind.BreakOp [] [] [("label", Attr.str "outer")],
     Op.simple 32 OpKind.ContinueOp [] [] [],
     Op.simple 33 OpKind.ResultOp [] [] []]

/-- The inner loop `for (;;) { ... }`, without a label of its own. -/
def innerFor : Op :=
  Op.mk 5 OpKind.ForOp [] [] [] []
    [[Block.mk 2 [] [Op.simple 21 OpKind.NoConditionOp [] [] []]],
     [innerBody],
     [Block.mk 4 [] [Op.simple 41 OpKind.ResultOp [] [] []]]]

/-- The block of the label region: the inner loop and the `merge` terminator. -/
def labelBlock : Block := Block.mk 1 [] [innerFor, Op.simple 12 OpKind.MergeOp [] [] []]

/-- The label `outer: for (;;) { continue outer; break outer; continue }`. -/
def labelOp : Op :=
  Op.mk 6 OpKind.LabelOp [] [] [("label", Attr.str "outer")] [] [[labelBlock]]

def rewriter : PatternRewriter :=
  { blocks := [Block.mk 0 [] [labelOp]],
    insertionBlock := 0, insertionPoint := 0, nextBlock := 6, nextOp := 100 }

end LabelExample

/-! ## A call, a throw and a catch -/

namespace CallExample

/-- The call `v = f(x)`. -/
def callOp : Op :=
  Op.simple 1 OpKind.CallOp [Value.opResult 0 0] [Ty.i32] [("callee", Attr.str "f")]

/-- The block `x = 7; v = f(x); w = v`. -/
def block : Block :=
  Block.mk 0 []
    [Op.simple 0 OpKind.ConstantOp [] [Ty.i32] [("value", Attr.int 7)],
     callOp,
     Op.simple 2 OpKind.VariableOp [Value.opResult 1 0] [Ty.ref Ty.i32] []]

/-- The rewriter as the driver hands it to the pattern: insertion point at the
call; block 7 stands for the catch dispatch block of an enclosing try. -/
def rewriter : PatternRewriter :=
  { blocks := [block, Block.mk 7 [] []],
    insertionBlock := 0, insertionPoint := 1, nextBlock := 8, nextOp := 100 }

/-- A context in which the call unwinds to block 7. -/
def unwindContext : TSContext :=
  { TSContext.empty with unwind := setEntry TSContext.empty.unwind 1 7 }

end CallExample

namespace TryExample

/-- The catch clause `catch (e) { throw X }`. -/
def rethrowCatchesBlock : Block :=
  Block.mk 2 []
    [Op.simple 20 OpKind.CatchOp [Value.opResult 4 0] [] [],
     Op.simple 22 OpKind.ThrowOp [Value.opResult 0 0] [] [],
     Op.simple 21 OpKind.ResultOp [] [] []]

/-- The statement `try { throw X } catch (e) { throw X } finally { counter++ }`. -/
def tryRethrowOp : Op :=
  Op.mk 3 OpKind.TryOp [] [] [] [] [[bodyBlock], [rethrowCatchesBlock], [finallyBlock]]

def rethrowRewriter : PatternRewriter :=
  { blocks := [Block.mk 0 [] (beforeOps ++ [tryRethrowOp])],
    insertionBlock := 0, insertionPoint := 4, nextBlock := 4, nextOp := 100 }

/-- The context and the rewriter after `TryOpLowering` of that statement. -/
def afterTry : TSContext × PatternRewriter :=
  (TryOpLowering false TSContext.empty tryRethrowOp rethrowRewriter).getD
    (TSContext.empty, rethrowRewriter)

/-- The `throw` of the body and the `throw` of the catch clause. -/
def throwInBody : Op := Op.simple 10 OpKind.ThrowOp [Value.opResult 0 0] [] []
def throwInCatch : Op := Op.simple 22 OpKind.ThrowOp [Value.opResult 0 0] [] []

/-- The rewriter as the driver hands it to `ThrowOpLowering` for the `throw` of
the catch clause: the third operation of block 5. -/
def throwInCatchRewriter : PatternRewriter :=
  { afterTry.2 with insertionBlock := 5, insertionPoint := 2 }

/-- The rewriter for the `throw` of the body: the second operation of block 1. -/
def throwInBodyRewriter : PatternRewriter :=
  { afterTry.2 with insertionBlock := 1, insertionPoint := 1 }

/-- The `catch` of the catch clause, and the rewriter as the driver hands it to
`CatchOpLowering`: the second operation of block 5. -/
def catchOp : Op := Op.simple 20 OpKind.CatchOp [Value.opResult 4 0] [] []

def catchRewriter : PatternRewriter :=
  { afterTry.2 with insertionBlock := 5, insertionPoint := 1 }

end TryExample

/-! ## Functions with `return`: `function f() { return 5; print }` and
`function g() { return; }` -/

namespace ReturnExample

/-- The entry operation of `f`: its result is the reference the returned value
is saved to. -/
def entryOp : Op := Op.simple 0 OpKind.EntryOp [] [Ty.ref Ty.i32] []

def returnValOp : Op :=
  Op.simple 2 OpKind.ReturnValOp [Value.opResult 1 0, Value.opResult 0 0] [] []

/-- The operations of `f` after the entry operation. -/
def bodyOps : List Op :=
  [Op.simple 1 OpKind.ConstantOp [] [Ty.i32] [("value", Attr.int 5)],
   returnValOp,
   Op.simple 3 OpKind.PrintOp [Value.opResult 1 0] [] [],
   Op.simple 4 OpKind.ExitOp [] [] []]

/-- The rewriter at the entry operation of `f`. -/
def rewriter : PatternRewriter :=
  { blocks := [Block.mk 0 [] (entryOp :: bodyOps)], insertionBlock := 0, insertionPoint := 0,
    nextBlock := 1, nextOp := 100 }

/-- The context and the rewriter after `EntryOpLowering`. -/
def afterEntry : TSContext × PatternRewriter :=
  (EntryOpLowering TSContext.empty entryOp rewriter).getD (TSContext.empty, rewriter)

/-- The return operation of `f` as it stands after `EntryOpLowering`: it saves to
the variable that replaced the result of the entry operation. -/
def returnValOpAfterEntry : Op :=
  Op.simple 2 OpKind.ReturnValOp [Value.opResult 1 0, Value.opResult 100 0] [] []

/-- The rewriter at the return operation of `f`, after `EntryOpLowering`. -/
def returnValRewriter : PatternRewriter :=
  { afterEntry.2 with insertionBlock := 0, insertionPoint := 2 }

/-- The entry operation of `g`, which has no result. -/
def entryOpNoResult : Op := Op.simple 0 OpKind.EntryOp [] [] []

def returnOp : Op := Op.simple 1 OpKind.ReturnOp [] [] []

/-- The rewriter at the entry operation of `g`. -/
def rewriterNoResult : PatternRewriter :=
  { blocks := [Block.mk 0 [] [entryOpNoResult, returnOp, Op.simple 2 OpKind.ExitOp [] [] []]],
    insertionBlock := 0, insertionPoint := 0, nextBlock := 1, nextOp := 100 }

/-- The context and the rewriter after `EntryOpLowering` of `g`. -/
def afterEntryNoResult : TSContext × PatternRewriter :=
  (EntryOpLowering TSContext.empty entryOpNoResult rewriterNoResult).getD
    (TSContext.empty, rewriterNoResult)

/-- The rewriter at the return operation of `g`, after `EntryOpLowering`. -/
def returnRewriter : PatternRewriter :=
  { afterEntryNoResult.2 with insertionBlock := 0, insertionPoint := 0 }

end ReturnExample

/-! ## The expressions `++x` and `x++` -/

namespace UnaryExample

/-- The operations before the expression: `x = 5`, and the load of `x`. -/
def beforeOps : List Op :=
  [mkConstantOp 0 5,
   Op.simple 1 OpKind.VariableOp [Value.opResult 0 0] [Ty.ref Ty.i32] [],
   mkLoadOp 2 Ty.i32 (Value.opResult 1 0)]

/-- The expression, with the code `++`, on the loaded value. -/
def unaryOp (kind : OpKind) : Op :=
  Op.simple 3 kind [Value.opResult 2 0] [Ty.i32]
    [("opCode", Attr.opCode SyntaxKind.PlusPlusToken)]

/-- The operation after the expression prints its value. -/
def afterOps : List Op := [Op.simple 4 OpKind.PrintOp [Value.opResult 3 0] [] []]

/-- The rewriter at the expression. -/
def rewriter (kind : OpKind) : PatternRewriter :=
  { blocks := [Block.mk 0 [] (beforeOps ++ unaryOp kind :: afterOps)],
    insertionBlock := 0, insertionPoint := 3, nextBlock := 1, nextOp := 100 }

/-- A unary expression with a code that is neither `++` nor `--`. -/
def otherOp (kind : OpKind) : Op :=
  Op.simple 3 kind [Value.opResult 2 0] [Ty.i32]
    [("opCode", Attr.opCode SyntaxKind.LessThanToken)]

/-- The rewriter at the expression `otherOp`. -/
def otherRewriter (kind : OpKind) : PatternRewriter :=
  { blocks := [Block.mk 0 [] (beforeOps ++ otherOp kind :: afterOps)],
    insertionBlock := 0, insertionPoint := 3, nextBlock := 1, nextOp := 100 }

end UnaryExample

/-! ## Functions for the pass -/

namespace PassExample

/-- The function `f` of `ReturnExample`: `function f() { return 5; print }`. -/
def returning : FuncOp :=
  { name := "f", numArguments := 0, results := [Ty.i32],
    body := ReturnExample.rewriter.blocks, nextBlock := 1, nextOp := 100 }

/-- The body of the loop of `first`: `break`. -/
def loopBody : Block :=
  Block.mk 2 [] [Op.simple 20 OpKind.BreakOp [] [] [], Op.simple 21 OpKind.ResultOp [] [] []]

/-- The loop of `first`: `for (;;) { break; }`. -/
def loopOp : Op :=
  Op.mk 3 OpKind.ForOp [] [] [] []
    [[Block.mk 1 [] [Op.simple 10 OpKind.NoConditionOp [] [] []]], [loopBody],
     [Block.mk 3 [] [Op.simple 30 OpKind.ResultOp [] [] []]]]

/-- The function `function loop() { for (;;) { break; } }`, as a body that is
only the loop. -/
def loopOnly : FuncOp :=
  { name := "loop", numArguments := 0, results := [],
    body := [Block.mk 0 [] [loopOp]], nextBlock := 4, nextOp := 100 }

/-- The function `g` of `ReturnExample`: `function g() { return; }`. -/
def plain : FuncOp :=
  { name := "g", numArguments := 0, results := [],
    body := ReturnExample.rewriterNoResult.blocks, nextBlock := 1, nextOp := 100 }

/-- A function body that is only a `return`, without an entry operation that
would make the return block. -/
def stray : FuncOp :=
  { name := "second", numArguments := 0, results := [],
    body := [Block.mk 0 [] [Op.simple 1 OpKind.ReturnOp [] [] []]],
    nextBlock := 1, nextOp := 100 }

/-- What is compared of a lowered function: for each operation its block, its
identity, its kind and the blocks it branches to. -/
def shape (function : FuncOp) : List (BlockId × OpId × OpKind × List BlockId) :=
  function.body.flatMap fun block =>
    block.ops.map fun op => (block.id, op.id, op.kind, op.successors.map Prod.fst)

end PassExample

/-! ## Functions with catch regions -/

namespace ExceptionExample

/-- The block of a typed catch that allocates: landing pad, begin of the catch,
the store of the exception value, an allocation, a call, the end of the catch,
and the branch to the block after the `try`. -/
def typedBlock : BasicBlock :=
  { id := 2, name := "lpad", insts := [
     ⟨10, InstKind.landingPad [true], [LValue.global "_ZTIi"], []⟩,
     ⟨11, InstKind.call (some "__cxa_begin_catch"), [LValue.inst 10], []⟩,
     ⟨12, InstKind.store (LType.pointer (LType.integer 32)),
       [LValue.inst 11, LValue.argument 0], []⟩,
     ⟨13, InstKind.alloca, [], []⟩,
     ⟨14, InstKind.call (some "print"), [LValue.inst 13], []⟩,
     ⟨15, InstKind.call (some "__cxa_end_catch"), [], []⟩,
     ⟨16, InstKind.br [1], [], []⟩] }

/-- `try { foo() } catch (e: number) { print(...) }`, with an allocation in the
catch. -/
def typed : Function :=
  { blocks := [
      { id := 0, name := "entry", insts := [⟨1, InstKind.invoke (some "foo") 1 2, [], []⟩] },
      { id := 1, name := "cont", insts := [⟨2, InstKind.other "ret", [], []⟩] },
      typedBlock],
    nextBlock := 3, nextInst := 100 }

/-- `try { foo() } catch { bar() }`: a catch of anything, whose body invokes
`bar` with an unwind destination of its own, and allocates nothing. -/
def catchAll : Function :=
  { blocks := [
      { id := 0, name := "entry", insts := [⟨1, InstKind.invoke (some "foo") 1 2, [], []⟩] },
      { id := 1, name := "cont", insts := [⟨2, InstKind.other "ret", [], []⟩] },
      { id := 2, name := "lpad", insts := [
         ⟨10, InstKind.landingPad [true], [LValue.nullPtr (LType.integer 8)], []⟩,
         ⟨11, InstKind.call (some "__cxa_begin_catch"), [LValue.inst 10], []⟩,
         ⟨12, InstKind.invoke (some "bar") 3 4, [], []⟩] },
      { id := 3, name := "invoke.cont", insts := [
         ⟨13, InstKind.call (some "__cxa_end_catch"), [], []⟩,
         ⟨14, InstKind.br [1], [], []⟩] },
      { id := 4, name := "outer", insts := [⟨15, InstKind.other "unreachable", [], []⟩] }],
    nextBlock := 5, nextInst := 100 }

/-- Two `try` statements one after the other, with an instruction before the
first landing pad and instructions between the two regions. -/
def twoRegions : Function :=
  { blocks := [
      { id := 0, name := "entry", insts := [
         ⟨1, InstKind.call (some "setup"), [], []⟩,
         ⟨2, InstKind.invoke (some "foo") 1 2, [], []⟩] },
      { id := 2, name := "lpad", insts := [
         ⟨10, InstKind.landingPad [true], [LValue.nullPtr (LType.integer 8)], []⟩,
         ⟨11, InstKind.call (some "__cxa_begin_catch"), [LValue.inst 10], []⟩,
         ⟨12, InstKind.call (some "__cxa_end_catch"), [], []⟩,
         ⟨13, InstKind.br [1], [], []⟩] },
      { id := 1, name := "cont", insts := [
         ⟨20, InstKind.alloca, [], []⟩,
         ⟨21, InstKind.call (some "between"), [], []⟩,
         ⟨22, InstKind.invoke (some "foo") 3 4, [], []⟩] },
      { id := 4, name := "lpad2", insts := [
         ⟨30, InstKind.landingPad [true], [LValue.nullPtr (LType.integer 8)], []⟩,
         ⟨31, InstKind.call (some "__cxa_begin_catch"), [LValue.inst 30], []⟩,
         ⟨32, InstKind.call (some "__cxa_end_catch"), [], []⟩,
         ⟨33, InstKind.br [3], [], []⟩] },
      { id := 3, name := "cont2", insts := [⟨40, InstKind.other "ret", [], []⟩] }],
    nextBlock := 5, nextInst := 100 }

/-- A catch whose end is an invoke of `__cxa_end_catch`; the block after it in
the function allocates, calls and stores. -/
def invokeEnd : Function :=
  { blocks := [
      { id := 0, name := "entry", insts := [⟨1, InstKind.invoke (some "foo") 1 2, [], []⟩] },
      { id := 2, name := "lpad", insts := [
         ⟨10, InstKind.landingPad [true], [LValue.nullPtr (LType.integer 8)], []⟩,
         ⟨11, InstKind.call (some "__cxa_begin_catch"), [LValue.inst 10], []⟩,
         ⟨12, InstKind.invoke (some "__cxa_end_catch") 1 3, [], []⟩] },
      { id := 1, name := "cont", insts := [
         ⟨20, InstKind.alloca, [], []⟩,
         ⟨21, InstKind.store (LType.pointer (LType.integer 32)),
           [LValue.constInt 32 0, LValue.inst 20], []⟩,
         ⟨22, InstKind.call (some "print"), [LValue.inst 20], []⟩,
         ⟨23, InstKind.other "ret", [], []⟩] },
      { id := 3, name := "outer", insts := [⟨30, InstKind.other "unreachable", [], []⟩] }],
    nextBlock := 4, nextInst := 100 }

/-- The landing pad of `catchAll`. -/
def catchAllPad : Instruction :=
  ⟨10, InstKind.landingPad [true], [LValue.nullPtr (LType.integer 8)], []⟩

/-- The instructions of `catchAll` after the landing pad, up to the call of
`__cxa_end_catch`. -/
def catchAllBody : List Instruction :=
  [⟨11, InstKind.call (some "__cxa_begin_catch"), [LValue.inst 10], []⟩,
   ⟨12, InstKind.invoke (some "bar") 3 4, [], []⟩]

/-- The region the scan records for `catchAll`. -/
def catchAllRegion : CatchRegion :=
  { CatchRegion.new with
    landingPad := some 10, calls := [11, 12], unwindInfoOp := some 12, end_ := some 14 }

/-- The landing pad of `typed`. -/
def typedPad : Instruction :=
  ⟨10, InstKind.landingPad [true], [LValue.global "_ZTIi"], []⟩

/-- The instructions of `typed` after the landing pad, up to the call of
`__cxa_end_catch`. -/
def typedBody : List Instruction :=
  [⟨11, InstKind.call (some "__cxa_begin_catch"), [LValue.inst 10], []⟩,
   ⟨12, InstKind.store (LType.pointer (LType.integer 32)),
     [LValue.inst 11, LValue.argument 0], []⟩,
   ⟨13, InstKind.alloca, [], []⟩,
   ⟨14, InstKind.call (some "print"), [LValue.inst 13], []⟩]

/-- The region the scan records for `typed`. -/
def typedRegion : CatchRegion :=
  { CatchRegion.new with
    landingPad := some 10, calls := [11, 14], store := some 12, hasAlloca := true,
    end_ := some 16 }

/-- The block `catch` of `typed` after the pass. -/
def typedLowered : List Instruction :=
  [⟨102, InstKind.catchPad 101,
     [LValue.global "_ZTIi", LValue.constInt 32 1, LValue.argument 0], []⟩,
   ⟨103, InstKind.call (some "llvm.stacksave"), [], []⟩,
   ⟨104, InstKind.call (some "__cxa_begin_catch"), [LValue.inst 10],
     [("funclet", [LValue.inst 102])]⟩,
   ⟨13, InstKind.alloca, [], []⟩,
   ⟨105, InstKind.call (some "print"), [LValue.inst 13], [("funclet", [LValue.inst 102])]⟩,
   ⟨106, InstKind.call (some "llvm.stackrestore"), [LValue.inst 103], []⟩,
   ⟨107, InstKind.catchRet 102 1, [], []⟩]

/-- The block `catch` of `invokeEnd` after the pass. -/
def invokeEndLowered : List Instruction :=
  [⟨102, InstKind.catchPad 101,
     [LValue.nullPtr (LType.integer 8), LValue.constInt 32 64,
       LValue.nullPtr (LType.integer 8)], []⟩,
   ⟨103, InstKind.call (some "llvm.stacksave"), [], []⟩,
   ⟨104, InstKind.call (some "__cxa_begin_catch"), [LValue.inst 10],
     [("funclet", [LValue.inst 102])]⟩,
   ⟨106, InstKind.call (some "llvm.stackrestore"), [LValue.inst 103], []⟩,
   ⟨107, InstKind.catchRet 102 1, [], []⟩]

/-- The state and the region of `typed` after the body of the loop of pass 2. -/
def typedBegun : PassState × CatchRegion :=
  (beginOfCatch { F := typed, toRemoveWorkSet := [15] } typedRegion).getD
    ({ F := typed, toRemoveWorkSet := [15] }, typedRegion)

/-- The instructions of the block `catch` of `typed` after pass 2, up to the
closing branch. -/
def typedCatch : List Instruction :=
  [⟨102, InstKind.catchPad 101,
     [LValue.global "_ZTIi", LValue.constInt 32 1, LValue.argument 0], []⟩,
   ⟨103, InstKind.call (some "llvm.stacksave"), [], []⟩,
   ⟨10, InstKind.landingPad [true], [LValue.global "_ZTIi"], []⟩,
   ⟨104, InstKind.call (some "__cxa_begin_catch"), [LValue.inst 10],
     [("funclet", [LValue.inst 102])]⟩,
   ⟨13, InstKind.alloca, [], []⟩,
   ⟨105, InstKind.call (some "print"), [LValue.inst 13], [("funclet", [LValue.inst 102])]⟩,
   ⟨15, InstKind.call (some "__cxa_end_catch"), [], []⟩]

/-- A catch of anything whose closing instruction, the one after the call of
`__cxa_end_catch`, is a return: neither a branch nor an invoke. -/
def splitEnd : Function :=
  { blocks := [
      { id := 0, name := "entry", insts := [⟨1, InstKind.invoke (some "foo") 1 2, [], []⟩] },
      { id := 1, name := "cont", insts := [⟨2, InstKind.other "ret", [], []⟩] },
      { id := 2, name := "lpad", insts := [
         ⟨10, InstKind.landingPad [true], [LValue.nullPtr (LType.integer 8)], []⟩,
         ⟨11, InstKind.call (some "__cxa_begin_catch"), [LValue.inst 10], []⟩,
         ⟨12, InstKind.call (some "__cxa_end_catch"), [], []⟩,
         ⟨13, InstKind.other "ret", [], []⟩] }],
    nextBlock := 3, nextInst := 100 }

/-- A function whose block `lpad` starts with the landing pad `pad`, followed by
the begin and the end of a catch and a branch. -/
def withPad (pad : Instruction) : Function :=
  { blocks := [
      { id := 0, name := "entry", insts := [⟨1, InstKind.invoke (some "foo") 1 2, [], []⟩] },
      { id := 1, name := "cont", insts := [⟨2, InstKind.other "ret", [], []⟩] },
      { id := 2, name := "lpad", insts := [
         pad,
         ⟨11, InstKind.call (some "__cxa_begin_catch"), [LValue.inst 10], []⟩,
         ⟨12, InstKind.call (some "__cxa_end_catch"), [], []⟩,
         ⟨13, InstKind.br [1], [], []⟩] }],
    nextBlock := 3, nextInst := 100 }

/-- A landing pad without clauses, `landingpad cleanup`. -/
def cleanupPad : Instruction := ⟨10, InstKind.landingPad [], [], []⟩

/-- A landing pad whose first clause is a filter, followed by a catch of
anything. -/
def filterPad : Instruction :=
  ⟨10, InstKind.landingPad [false, true],
    [LValue.global "filter", LValue.nullPtr (LType.integer 8)], []⟩

/-- A function without a landing pad; its call of `__cxa_end_catch` and its
store are in no catch region. -/
def noPad : Function :=
  { blocks := [
      { id := 0, name := "entry", insts := [
         ⟨1, InstKind.call (some "foo"), [], []⟩,
         ⟨2, InstKind.call (some "__cxa_end_catch"), [], []⟩,
         ⟨3, InstKind.store (LType.pointer (LType.integer 32)),
           [LValue.constInt 32 0, LValue.argument 0], []⟩,
         ⟨4, InstKind.br [1], [], []⟩] },
      { id := 1, name := "cont", insts := [⟨5, InstKind.other "ret", [], []⟩] }],
    nextBlock := 2, nextInst := 100 }

/-- The region the scan records for `withPad pad`. -/
def withPadRegion : CatchRegion :=
  { CatchRegion.new with landingPad := some 10, calls := [11], end_ := some 13 }

/-- The function `typed` and the flag `MadeChange` after the pass. -/
def typedAfter : Function × Bool :=
  (TypeScriptExceptionPass.runOnFunction typed).getD (typed, false)

/-- The function `twoRegions` and the flag `MadeChange` after the pass. -/
def twoRegionsAfter : Function × Bool :=
  (TypeScriptExceptionPass.runOnFunction twoRegions).getD (twoRegions, false)

end ExceptionExample

/-! # Theorems -/

/-! ## Basic facts about blocks and the rewriter -/

@[simp] theorem blockIds_nil : blockIds [] = [] := rfl

@[simp] theorem blockIds_cons (b : Block) (l : List Block) :
    blockIds (b :: l) = b.id :: blockIds l := rfl

@[simp] theorem blockIds_append (l r : List Block) :
    blockIds (l ++ r) = blockIds l ++ blockIds r := by
  simp [blockIds]

@[simp] theorem Block.id_mk (i : BlockId) (a : List Ty) (o : List Op) : (Block.mk i a o).id = i :=
  rfl

@[simp] theorem Block.ops_mk (i : BlockId) (a : List Ty) (o : List Op) : (Block.mk i a o).ops = o :=
  rfl

@[simp] theorem Block.argTypes_mk (i : BlockId) (a : List Ty) (o : List Op) :
    (Block.mk i a o).argTypes = a := rfl

@[simp] theorem Block.setOps_mk (i : BlockId) (a : List Ty) (o o2 : List Op) :
    (Block.mk i a o).setOps o2 = Block.mk i a o2 := rfl

theorem Block.eta (b : Block) : Block.mk b.id b.argTypes b.ops = b := by
  cases b; rfl

theorem modifyBlock_append_of_not_mem (i : BlockId) (g : Block → List Block) (l r : List Block)
    (hl : i ∉ blockIds l) : modifyBlock i g (l ++ r) = l ++ modifyBlock i g r := by
  induction l with
  | nil => simp
  | cons a l ih =>
    simp at hl
    have ha : a.id ≠ i := fun h => hl.1 h.symm
    simp [modifyBlock, ha]
    exact ih hl.2

theorem modifyBlock_cons_eq (i : BlockId) (g : Block → List Block) (a : Block) (l : List Block)
    (h : a.id = i) : modifyBlock i g (a :: l) = g a ++ l := by
  simp [modifyBlock, h]

theorem modifyBlock_cons_ne (i : BlockId) (g : Block → List Block) (a : Block) (l : List Block)
    (h : a.id ≠ i) : modifyBlock i g (a :: l) = a :: modifyBlock i g l := by
  simp [modifyBlock, h]

theorem modifyBlock_cons_ne2 (i : BlockId) (g : Block → List Block) (a : Block) (l : List Block)
    (h : i ≠ a.id) : modifyBlock i g (a :: l) = a :: modifyBlock i g l := by
  simp [modifyBlock, h.symm]

@[simp] theorem replaceUsesBlocks_nil (m : ValueMapping) : replaceUsesBlocks m [] = [] := by
  simp [replaceUsesBlocks]

@[simp] theorem replaceUsesBlocks_cons (m : ValueMapping) (b : Block) (r : List Block) :
    replaceUsesBlocks m (b :: r) = replaceUsesBlock m b :: replaceUsesBlocks m r := by
  simp [replaceUsesBlocks]

@[simp] theorem replaceUsesBlocks_append (m : ValueMapping) (l r : List Block) :
    replaceUsesBlocks m (l ++ r) = replaceUsesBlocks m l ++ replaceUsesBlocks m r := by
  induction l with
  | nil => simp
  | cons a l ih => simp [ih]

@[simp] theorem replaceUsesBlock_mk (m : ValueMapping) (i : BlockId) (a : List Ty) (o : List Op) :
    replaceUsesBlock m (Block.mk i a o) = Block.mk i a (replaceUsesOps m o) := by
  simp [replaceUsesBlock]

@[simp] theorem replaceUsesBlock_id (m : ValueMapping) (b : Block) :
    (replaceUsesBlock m b).id = b.id := by
  cases b; simp

@[simp] theorem replaceUsesOp_id (m : ValueMapping) (o : Op) : (replaceUsesOp m o).id = o.id := by
  cases o; simp [replaceUsesOp, Op.id]

@[simp] theorem replaceUsesOps_nil (m : ValueMapping) : replaceUsesOps m [] = [] := by
  simp [replaceUsesOps]

@[simp] theorem replaceUsesOps_cons (m : ValueMapping) (o : Op) (r : List Op) :
    replaceUsesOps m (o :: r) = replaceUsesOp m o :: replaceUsesOps m r := by
  simp [replaceUsesOps]

@[simp] theorem blockIds_replaceUsesBlocks (m : ValueMapping) (l : List Block) :
    blockIds (replaceUsesBlocks m l) = blockIds l := by
  induction l with
  | nil => simp
  | cons a l ih => simp [ih]

/-- A region with a last block is its other blocks followed by that block. -/
theorem region_eq_of_getLast? (r : List Block) (last : Block) (h : r.getLast? = some last) :
    r = r.dropLast ++ [Block.mk last.id last.argTypes last.ops] := by
  rw [Block.eta]
  exact (List.dropLast_append_getLast? last h).symm

/-- A block with a terminator is its other operations followed by the terminator. -/
theorem ops_eq_of_getTerminator (b : Block) (t : Op) (h : b.getTerminator = some t) :
    b.ops = b.ops.dropLast ++ [t] :=
  (List.dropLast_append_getLast? t h).symm

theorem Region.replaceTerminator_append_singleton (l : List Block) (i : BlockId) (a : List Ty)
    (o : List Op) (t : Op) (ops : List Op) :
    Region.replaceTerminator (l ++ [Block.mk i a (o ++ [t])]) ops
      = l ++ [Block.mk i a (o ++ ops)] := by
  simp [Region.replaceTerminator]

theorem Region.replaceTerminator_singleton (i : BlockId) (a : List Ty)
    (o : List Op) (t : Op) (ops : List Op) :
    Region.replaceTerminator [Block.mk i a (o ++ [t])] ops = [Block.mk i a (o ++ ops)] := by
  simp [Region.replaceTerminator]

theorem Region.replaceTerminator_cons_append (h : Block) (l : List Block) (i : BlockId)
    (a : List Ty) (o : List Op) (t : Op) (ops : List Op) :
    Region.replaceTerminator (h :: (l ++ [Block.mk i a (o ++ [t])])) ops
      = h :: (l ++ [Block.mk i a (o ++ ops)]) := by
  have := Region.replaceTerminator_append_singleton (h :: l) i a o t ops
  simpa using this

/-! ## ForOpLowering -/

/-- The blocks `ForOpLowering` leaves behind, and the context it returns, for a
well-formed `for` operation: the three regions sit between the original block
and the continuation block, with their terminators replaced by branches. -/
theorem ForOpLowering_eq (ctx : TSContext) (forOp : Op) (rw : PatternRewriter)
    (pre post : List Block) (cid : BlockId) (cargs : List Ty) (before after : List Op)
    (cond body incr condLast bodyLast incrLast : Block) (condTerm bodyTerm incrTerm : Op)
    (args : List Value) (newCondTerm : List Op)
    (hblocks : rw.blocks = pre ++ Block.mk cid cargs (before ++ forOp :: after) :: post)
    (hib : rw.insertionBlock = cid) (hip : rw.insertionPoint = before.length)
    (hcond1 : forOp.forCond.head? = some cond)
    (hcondL : forOp.forCond.getLast? = some condLast)
    (hcondT : condLast.getTerminator = some condTerm)
    (hbody1 : forOp.forBody.head? = some body)
    (hbodyL : forOp.forBody.getLast? = some bodyLast)
    (hbodyT : bodyLast.getTerminator = some bodyTerm)
    (hincr1 : forOp.forIncr.head? = some incr)
    (hincrL : forOp.forIncr.getLast? = some incrLast)
    (hincrT : incrLast.getTerminator = some incrTerm)
    (hct : (∃ c, condTerm.kind = OpKind.ConditionOp ∧ condTerm.operands = c :: args ∧
              newCondTerm = [mkCastOp (rw.nextOp + 1) Ty.i1 c,
                mkCondBranchOp (rw.nextOp + 2) (Value.opResult (rw.nextOp + 1) 0)
                  body.id args rw.nextBlock []]) ∨
           (condTerm.kind = OpKind.NoConditionOp ∧ args = [] ∧
              newCondTerm = [mkBranchOp (rw.nextOp + 1) body.id condTerm.operands]))
    (hbk : bodyTerm.kind = OpKind.ResultOp) (hik : incrTerm.kind = OpKind.ResultOp)
    (hres : forOp.getNumResults = args.length)
    (hdist : (blockIds (pre ++ Block.mk cid cargs (before ++ forOp :: after) ::
        (forOp.forCond ++ forOp.forBody ++ forOp.forIncr))).Nodup)
    (hfresh : rw.nextBlock ∉ blockIds (pre ++ Block.mk cid cargs (before ++ forOp :: after) ::
        (forOp.forCond ++ forOp.forBody ++ forOp.forIncr))) :
    ForOpLowering ctx forOp rw = some
      (forOp.forBody.walk.foldl
          (visitorBreakContinue forOp.labelAttr rw.nextBlock incr.id) ctx,
       { blocks := replaceUsesBlocks (forOp.results.zip args)
          (pre ++ Block.mk cid cargs (before ++ [mkBranchOp rw.nextOp cond.id forOp.operands]) ::
            (Region.replaceTerminator forOp.forCond newCondTerm
             ++ Region.replaceTerminator forOp.forBody
                  [mkBranchOp (rw.nextOp + 3) incr.id bodyTerm.operands]
             ++ Region.replaceTerminator forOp.forIncr
                  [mkBranchOp (rw.nextOp + 4) cond.id incrTerm.operands]
             ++ Block.mk rw.nextBlock [] after :: post))
         insertionBlock := rw.insertionBlock
         insertionPoint := rw.insertionPoint
         nextBlock := rw.nextBlock + 1
         nextOp := rw.nextOp + 5 }) := by
  have hcond := region_eq_of_getLast? _ _ hcondL
  have hbody := region_eq_of_getLast? _ _ hbodyL
  have hincr := region_eq_of_getLast? _ _ hincrL
  rw [ops_eq_of_getTerminator _ _ hcondT] at hcond
  rw [ops_eq_of_getTerminator _ _ hbodyT] at hbody
  rw [ops_eq_of_getTerminator _ _ hincrT] at hincr
  generalize forOp.forCond.dropLast = condInit at hcond
  generalize forOp.forBody.dropLast = bodyInit at hbody
  generalize forOp.forIncr.dropLast = incrInit at hincr
  generalize condLast.ops.dropLast = condOps at hcond
  generalize bodyLast.ops.dropLast = bodyOps at hbody
  generalize incrLast.ops.dropLast = incrOps at hincr
  have hnc : condTerm.kind = OpKind.NoConditionOp → ¬ condTerm.kind = OpKind.ConditionOp := by
    intro h; rw [h]; decide
  simp only [ForOpLowering, hcond1, hbody1, hincr1, hcondL, hbodyL, hincrL, hcondT, hbodyT, hincrT]
  have hbr : (if condTerm.kind = OpKind.ConditionOp then
          match condTerm.operands with
          | condition :: args =>
            some (args,
              [mkCastOp (rw.nextOp + 1) Ty.i1 condition,
               mkCondBranchOp (rw.nextOp + 2) (Value.opResult (rw.nextOp + 1) 0)
                 body.id args (rw.splitBlock rw.insertionBlock rw.insertionPoint).1 []])
          | [] => none
        else if condTerm.kind = OpKind.NoConditionOp then
          some ([], [mkBranchOp (rw.nextOp + 1) body.id condTerm.operands])
        else none) = some (args, newCondTerm) := by
    rcases hct with ⟨c, h1, h2, h3⟩ | ⟨h1, h2, h3⟩
    · simp [h1, h2, h3, PatternRewriter.splitBlock]
    · simp [h1, h2, h3]
  simp only [hbr, hbk, hik, hres, ne_eq, not_true_eq_false, if_false]
  congr 2
  simp only [PatternRewriter.replaceOp, PatternRewriter.eraseOp, PatternRewriter.replaceAllUsesWith,
    PatternRewriter.replaceTerminator, PatternRewriter.createAtEnd, PatternRewriter.inlineRegionBefore,
    PatternRewriter.splitBlock, hblocks, hib, hip]
  rw [hcond, hbody, hincr] at hdist hfresh
  rw [hbody] at hbody1
  rw [hincr] at hincr1
  rw [hcond, hbody, hincr]
  cases bodyInit <;> cases incrInit <;>
  · simp at hbody1 hincr1
    subst hbody1 hincr1
    simp [List.nodup_append, List.nodup_cons] at hdist hfresh
    simp [modifyBlock_append_of_not_mem, modifyBlock_cons_eq, modifyBlock_cons_ne,
      modifyBlock_cons_ne2, Region.replaceTerminator_append_singleton,
      Region.replaceTerminator_singleton, Region.replaceTerminator_cons_append, hdist, hfresh]

namespace CountingLoop

theorem counting_lowered_eq (N : Nat) : lowered N =
    [Block.mk 0 []
      [Op.simple 0 OpKind.ConstantOp [] [Ty.i32] [("value", Attr.int 0)],
       Op.simple 1 OpKind.VariableOp [Value.opResult 0 0] [Ty.ref Ty.i32] [],
       Op.simple 2 OpKind.VariableOp [Value.opResult 0 0] [Ty.ref Ty.i32] [],
       mkBranchOp 100 1 []],
     Block.mk 1 []
      [Op.simple 10 OpKind.LoadOp [iVar] [Ty.i32] [],
       Op.simple 11 OpKind.ConstantOp [] [Ty.i32] [("value", Attr.int N)],
       Op.simple 12 OpKind.LogicalBinaryOp [Value.opResult 10 0, Value.opResult 11 0] [Ty.boolean]
         [("opCode", Attr.opCode SyntaxKind.LessThanToken)],
       mkCastOp 101 Ty.i1 (Value.opResult 12 0),
       mkCondBranchOp 102 (Value.opResult 101 0) 2 [] 4 []],
     Block.mk 2 []
      [Op.simple 20 OpKind.LoadOp [counterVar] [Ty.i32] [],
       Op.simple 21 OpKind.ConstantOp [] [Ty.i32] [("value", Attr.int 1)],
       Op.simple 22 OpKind.ArithmeticBinaryOp [Value.opResult 20 0, Value.opResult 21 0] [Ty.i32]
         [("opCode", Attr.opCode SyntaxKind.PlusToken)],
       Op.simple 23 OpKind.StoreOp [Value.opResult 22 0, counterVar] [] [],
       mkBranchOp 103 3 []],
     Block.mk 3 []
      [Op.simple 30 OpKind.LoadOp [iVar] [Ty.i32] [],
       Op.simple 31 OpKind.ConstantOp [] [Ty.i32] [("value", Attr.int 1)],
       Op.simple 32 OpKind.ArithmeticBinaryOp [Value.opResult 30 0, Value.opResult 31 0] [Ty.i32]
         [("opCode", Attr.opCode SyntaxKind.PlusToken)],
       Op.simple 33 OpKind.StoreOp [Value.opResult 32 0, iVar] [] [],
       mkBranchOp 104 1 []],
     Block.mk 4 [] []] := by
  rfl

theorem exec_cond (N : Nat) (st : ExecState) (a : Int) (h : st.mem iVar = some a) :
    ∃ st1, execOps ExecEnv.plain st
      [Op.simple 10 OpKind.LoadOp [iVar] [Ty.i32] [],
       Op.simple 11 OpKind.ConstantOp [] [Ty.i32] [("value", Attr.int N)],
       Op.simple 12 OpKind.LogicalBinaryOp [Value.opResult 10 0, Value.opResult 11 0] [Ty.boolean]
         [("opCode", Attr.opCode SyntaxKind.LessThanToken)],
       mkCastOp 101 Ty.i1 (Value.opResult 12 0),
       mkCondBranchOp 102 (Value.opResult 101 0) 2 [] 4 []] = some (st1, if a < N then 2 else 4)
      ∧ st1.mem = st.mem ∧ st1.trace = st.trace := by
  by_cases hlt : a < (N : Int)
  · simp [execOps, execOp, Op.simple, Op.kind, Op.operands, Op.successors, Op.id, Op.getAttr,
      Op.attrs, Op.resultTypes, mkCastOp, mkCondBranchOp, Op.term, setValue, h, hlt, evalOperands, bindArgs]
  · simp [execOps, execOp, Op.simple, Op.kind, Op.operands, Op.successors, Op.id, Op.getAttr,
      Op.attrs, Op.resultTypes, mkCastOp, mkCondBranchOp, Op.term, setValue, h, hlt, evalOperands, bindArgs]

end CountingLoop



theorem runCFG_step (E : ExecEnv) (cfg : List Block) (stop cur dest : BlockId) (fuel : Nat) (st st1 : ExecState)
    (ops : List Op) (hne : cur ≠ stop)
    (hx : execOps E { st with trace := st.trace ++ [cur] } ops = some (st1, dest))
    (hb : (findBlock cur cfg).map Block.ops = some ops) :
    runCFG E cfg stop (fuel + 1) cur st = runCFG E cfg stop fuel dest st1 := by
  cases hf : findBlock cur cfg with
  | none => simp [hf] at hb
  | some b =>
    simp [hf] at hb
    simp [runCFG, hne, hf, hb, hx]

namespace CountingLoop

theorem exec_body (st : ExecState) (c : Int) (h : st.mem counterVar = some c) :
    ∃ st1, execOps ExecEnv.plain st
      [Op.simple 20 OpKind.LoadOp [counterVar] [Ty.i32] [],
       Op.simple 21 OpKind.ConstantOp [] [Ty.i32] [("value", Attr.int 1)],
       Op.simple 22 OpKind.ArithmeticBinaryOp [Value.opResult 20 0, Value.opResult 21 0] [Ty.i32]
         [("opCode", Attr.opCode SyntaxKind.PlusToken)],
       Op.simple 23 OpKind.StoreOp [Value.opResult 22 0, counterVar] [] [],
       mkBranchOp 103 3 []] = some (st1, 3)
      ∧ st1.mem = setValue st.mem counterVar (c + 1) ∧ st1.trace = st.trace := by
  simp [execOps, execOp, Op.simple, Op.kind, Op.operands, Op.successors, Op.id, Op.getAttr,
      Op.attrs, Op.resultTypes, mkBranchOp, Op.term, setValue, h, evalOperands, bindArgs]

theorem exec_incr (st : ExecState) (a : Int) (h : st.mem iVar = some a) :
    ∃ st1, execOps ExecEnv.plain st
      [Op.simple 30 OpKind.LoadOp [iVar] [Ty.i32] [],
       Op.simple 31 OpKind.ConstantOp [] [Ty.i32] [("value", Attr.int 1)],
       Op.simple 32 OpKind.ArithmeticBinaryOp [Value.opResult 30 0, Value.opResult 31 0] [Ty.i32]
         [("opCode", Attr.opCode SyntaxKind.PlusToken)],
       Op.simple 33 OpKind.StoreOp [Value.opResult 32 0, iVar] [] [],
       mkBranchOp 104 1 []] = some (st1, 1)
      ∧ st1.mem = setValue st.mem iVar (a + 1) ∧ st1.trace = st.trace := by
  simp [execOps, execOp, Op.simple, Op.kind, Op.operands, Op.successors, Op.id, Op.getAttr,
      Op.attrs, Op.resultTypes, mkBranchOp, Op.term, setValue, h, evalOperands, bindArgs]

theorem run_from_cond (N : Nat) : ∀ (d : Nat) (st : ExecState) (a c : Int),
    st.mem iVar = some a → st.mem counterVar = some c → a + d = N →
    ∃ st1, runCFG ExecEnv.plain (lowered N) 4 (3 * d + 1) 1 st = some st1
      ∧ st1.trace.count 2 = st.trace.count 2 + d
      ∧ st1.mem counterVar = some (c + d) := by
  intro d
  induction d with
  | zero =>
    intro st a c hi hc hN
    obtain ⟨st1, hx, hm, ht⟩ := exec_cond N { st with trace := st.trace ++ [1] } a hi
    have hlt : ¬ a < (N : Int) := by omega
    rw [if_neg hlt] at hx
    refine ⟨st1, ?_, ?_, ?_⟩
    · rw [runCFG_step ExecEnv.plain (lowered N) 4 1 4 0 st st1 _ (by decide) hx (by rw [counting_lowered_eq]; rfl)]
      simp [runCFG]
    · rw [ht]; simp
    · rw [hm]; simpa using hc
  | succ d ih =>
    intro st a c hi hc hN
    obtain ⟨st1, hx1, hm1, ht1⟩ := exec_cond N { st with trace := st.trace ++ [1] } a hi
    have hlt : a < (N : Int) := by omega
    rw [if_pos hlt] at hx1
    obtain ⟨st2, hx2, hm2, ht2⟩ := exec_body { st1 with trace := st1.trace ++ [2] } c
      (by rw [← hc]; exact congrFun hm1 counterVar)
    obtain ⟨st3, hx3, hm3, ht3⟩ := exec_incr { st2 with trace := st2.trace ++ [3] } a
      (by show st2.mem iVar = some a
          rw [hm2]; simp [setValue, iVar, counterVar]
          rw [← hi]; exact congrFun hm1 iVar)
    obtain ⟨st4, hr, hcnt, hmem⟩ := ih st3 (a + 1) (c + 1)
      (by rw [hm3]; simp [setValue])
      (by rw [hm3]; simp [setValue, iVar, counterVar]
          show st2.mem counterVar = _
          rw [hm2]; simp [setValue])
      (by push_cast at hN ⊢; omega)
    refine ⟨st4, ?_, ?_, ?_⟩
    · have e : 3 * (d + 1) + 1 = (3 * d + 1) + 1 + 1 + 1 := by ring
      rw [e, runCFG_step ExecEnv.plain (lowered N) 4 1 2 _ st st1 _ (by decide) hx1 (by rw [counting_lowered_eq]; rfl),
        runCFG_step ExecEnv.plain (lowered N) 4 2 3 _ st1 st2 _ (by decide) hx2 (by rw [counting_lowered_eq]; rfl),
        runCFG_step ExecEnv.plain (lowered N) 4 3 1 _ st2 st3 _ (by decide) hx3 (by rw [counting_lowered_eq]; rfl)]
      exact hr
    · rw [hcnt, ht3]
      show List.count 2 (st2.trace ++ [3]) + d = _
      rw [ht2]
      show List.count 2 ((st1.trace ++ [2]) ++ [3]) + d = _
      rw [ht1]
      simp [List.count_append]
      omega
    · rw [hmem]; push_cast; congr 1; ring

end CountingLoop


/-- C1: the lowered counting loop `for (i = 0; i < N; i++) { counter++ }`, run from
the original block (0) until the continuation block (4), enters the body entry
block (2) exactly `N` times and leaves `counter` at `N`, for every `N`, zero
included.  The run is given `3 * N + 2` units of fuel, one per block entered. -/
theorem for_loop_body_executes_N_times (N : Nat) :
    ∃ ctx rw st,
      ForOpLowering TSContext.empty (CountingLoop.forOp N) (CountingLoop.rewriter N) = some (ctx, rw)
      ∧ (CountingLoop.forOp N).forBody.head?.map Block.id = some 2
      ∧ (CountingLoop.rewriter N).nextBlock = 4
      ∧ runCFG ExecEnv.plain rw.blocks 4 (3 * N + 2) 0 ExecState.init = some st
      ∧ st.trace.count 2 = N
      ∧ st.mem CountingLoop.counterVar = some (N : Int) := by
  have hl := CountingLoop.counting_lowered_eq N
  unfold CountingLoop.lowered at hl
  cases hf : ForOpLowering TSContext.empty (CountingLoop.forOp N) (CountingLoop.rewriter N) with
  | none => rw [hf] at hl; simp at hl
  | some x =>
    rw [hf] at hl
    simp only at hl
    have hlow : CountingLoop.lowered N = x.2.blocks := by
      unfold CountingLoop.lowered; rw [hf]
    -- the entry block: i = 0, counter = 0, branch to the condition block
    have hentry : ∃ st1, execOps ExecEnv.plain { ExecState.init with trace := ExecState.init.trace ++ [0] }
        [Op.simple 0 OpKind.ConstantOp [] [Ty.i32] [("value", Attr.int 0)],
         Op.simple 1 OpKind.VariableOp [Value.opResult 0 0] [Ty.ref Ty.i32] [],
         Op.simple 2 OpKind.VariableOp [Value.opResult 0 0] [Ty.ref Ty.i32] [],
         mkBranchOp 100 1 []] = some (st1, 1)
        ∧ st1.mem CountingLoop.iVar = some 0 ∧ st1.mem CountingLoop.counterVar = some 0
        ∧ st1.trace = [0] := by
      simp [execOps, execOp, Op.simple, Op.kind, Op.operands, Op.successors, Op.id, Op.getAttr,
        Op.attrs, Op.resultTypes, mkBranchOp, Op.term, setValue, evalOperands, bindArgs,
        ExecState.init, CountingLoop.iVar, CountingLoop.counterVar]
    obtain ⟨st1, hx, hi, hc, ht⟩ := hentry
    obtain ⟨st2, hr, hcnt, hmem⟩ := CountingLoop.run_from_cond N N st1 0 0 hi hc (by simp)
    refine ⟨x.1, x.2, st2, rfl, rfl, rfl, ?_, ?_, ?_⟩
    · rw [← hlow]
      have e : 3 * N + 2 = (3 * N + 1) + 1 := by ring
      rw [e, runCFG_step ExecEnv.plain (CountingLoop.lowered N) 4 0 1 _ ExecState.init st1 _ (by decide) hx
        (by rw [CountingLoop.counting_lowered_eq]; rfl)]
      exact hr
    · rw [hcnt, ht]; simp
    · rw [hmem]; simp

/-- C2: for a well-formed `for` operation (regions non-empty, `cond` ending in a
`condition` or `no-condition` terminator, `body` and `incr` ending in a yield,
block identities distinct and the split-off continuation block new),
`ForOpLowering` succeeds and leaves these blocks: the original block ends in a
branch to the first block of `cond` carrying the loop inits; the last block of
`cond` ends in a cast of the condition and a conditional branch with true target
the first block of `body` and false target the continuation block
(`rw.nextBlock`), or in a branch to `body` for a `no-condition` terminator; the
last block of `body` ends in a branch to the first block of `incr`, the last
block of `incr` in a branch to the first block of `cond`.  The results of the
loop are replaced by the arguments of the condition everywhere. -/
theorem ForOpLowering_branch_structure (ctx : TSContext) (forOp : Op) (rw : PatternRewriter)
    (pre post : List Block) (cid : BlockId) (cargs : List Ty) (before after : List Op)
    (cond body incr condLast bodyLast incrLast : Block) (condTerm bodyTerm incrTerm : Op)
    (args : List Value) (newCondTerm : List Op)
    (hblocks : rw.blocks = pre ++ Block.mk cid cargs (before ++ forOp :: after) :: post)
    (hib : rw.insertionBlock = cid) (hip : rw.insertionPoint = before.length)
    (hcond1 : forOp.forCond.head? = some cond)
    (hcondL : forOp.forCond.getLast? = some condLast)
    (hcondT : condLast.getTerminator = some condTerm)
    (hbody1 : forOp.forBody.head? = some body)
    (hbodyL : forOp.forBody.getLast? = some bodyLast)
    (hbodyT : bodyLast.getTerminator = some bodyTerm)
    (hincr1 : forOp.forIncr.head? = some incr)
    (hincrL : forOp.forIncr.getLast? = some incrLast)
    (hincrT : incrLast.getTerminator = some incrTerm)
    (hct : (∃ c, condTerm.kind = OpKind.ConditionOp ∧ condTerm.operands = c :: args ∧
              newCondTerm = [mkCastOp (rw.nextOp + 1) Ty.i1 c,
                mkCondBranchOp (rw.nextOp + 2) (Value.opResult (rw.nextOp + 1) 0)
                  body.id args rw.nextBlock []]) ∨
           (condTerm.kind = OpKind.NoConditionOp ∧ args = [] ∧
              newCondTerm = [mkBranchOp (rw.nextOp + 1) body.id condTerm.operands]))
    (hbk : bodyTerm.kind = OpKind.ResultOp) (hik : incrTerm.kind = OpKind.ResultOp)
    (hres : forOp.getNumResults = args.length)
    (hdist : (blockIds (pre ++ Block.mk cid cargs (before ++ forOp :: after) ::
        (forOp.forCond ++ forOp.forBody ++ forOp.forIncr))).Nodup)
    (hfresh : rw.nextBlock ∉ blockIds (pre ++ Block.mk cid cargs (before ++ forOp :: after) ::
        (forOp.forCond ++ forOp.forBody ++ forOp.forIncr))) :
    ∃ ctx1 rw1, ForOpLowering ctx forOp rw = some (ctx1, rw1) ∧
      rw1.blocks = replaceUsesBlocks (forOp.results.zip args)
        (pre ++ Block.mk cid cargs (before ++ [mkBranchOp rw.nextOp cond.id forOp.operands]) ::
          (forOp.forCond.dropLast ++ [condLast.setOps (condLast.ops.dropLast ++ newCondTerm)]
           ++ (forOp.forBody.dropLast ++ [bodyLast.setOps (bodyLast.ops.dropLast ++
                [mkBranchOp (rw.nextOp + 3) incr.id bodyTerm.operands])])
           ++ (forOp.forIncr.dropLast ++ [incrLast.setOps (incrLast.ops.dropLast ++
                [mkBranchOp (rw.nextOp + 4) cond.id incrTerm.operands])])
           ++ Block.mk rw.nextBlock [] after :: post)) := by
  refine ⟨_, _, ForOpLowering_eq ctx forOp rw pre post cid cargs before after cond body incr
    condLast bodyLast incrLast condTerm bodyTerm incrTerm args newCondTerm hblocks hib hip
    hcond1 hcondL hcondT hbody1 hbodyL hbodyT hincr1 hincrL hincrT hct hbk hik hres hdist hfresh, ?_⟩
  simp [Region.replaceTerminator, hcondL, hbodyL, hincrL]

/-- Witness of C2: the counting loop with bound 3. -/
theorem ForOpLowering_branch_structure_witness :
    ∃ ctx1 rw1, ForOpLowering TSContext.empty (CountingLoop.forOp 3) (CountingLoop.rewriter 3)
        = some (ctx1, rw1) ∧
      rw1.blocks = replaceUsesBlocks ((CountingLoop.forOp 3).results.zip [])
        ([] ++ Block.mk 0 [] (CountingLoop.entryOps ++ [mkBranchOp 100 1 []]) ::
          ([] ++ [(CountingLoop.condBlock 3).setOps ((CountingLoop.condBlock 3).ops.dropLast ++
                  [mkCastOp 101 Ty.i1 (Value.opResult 12 0),
                   mkCondBranchOp 102 (Value.opResult 101 0) 2 [] 4 []])]
           ++ ([] ++ [CountingLoop.bodyBlock.setOps
                (CountingLoop.bodyBlock.ops.dropLast ++ [mkBranchOp 103 3 []])])
           ++ ([] ++ [CountingLoop.incrBlock.setOps
                (CountingLoop.incrBlock.ops.dropLast ++ [mkBranchOp 104 1 []])])
           ++ Block.mk 4 [] [] :: [])) :=
  ForOpLowering_branch_structure TSContext.empty (CountingLoop.forOp 3) (CountingLoop.rewriter 3)
    [] [] 0 [] CountingLoop.entryOps []
    (CountingLoop.condBlock 3) CountingLoop.bodyBlock CountingLoop.incrBlock
    (CountingLoop.condBlock 3) CountingLoop.bodyBlock CountingLoop.incrBlock
    (Op.simple 13 OpKind.ConditionOp [Value.opResult 12 0] [] [])
    (Op.simple 24 OpKind.ResultOp [] [] [])
    (Op.simple 34 OpKind.ResultOp [] [] [])
    []
    [mkCastOp 101 Ty.i1 (Value.opResult 12 0), mkCondBranchOp 102 (Value.opResult 101 0) 2 [] 4 []]
    rfl rfl rfl rfl rfl rfl rfl rfl rfl rfl rfl rfl
    (Or.inl ⟨Value.opResult 12 0, rfl, rfl, rfl⟩) rfl rfl rfl (by decide) (by decide)

/-! ## Break and continue targets recorded by the loops -/

theorem visitorBreakContinue_jumps_of_ne (label : Option String) (bt ct : BlockId)
    (ctx : TSContext) (op : Op) (i : OpId) (h : i ≠ op.id) :
    (visitorBreakContinue label bt ct ctx op).jumps i = ctx.jumps i := by
  unfold visitorBreakContinue
  split_ifs <;> simp [setEntry, h]

theorem foldl_visitorBreakContinue_jumps_of_not_mem (label : Option String) (bt ct : BlockId)
    (ops : List Op) (ctx : TSContext) (i : OpId) (h : i ∉ ops.map Op.id) :
    (ops.foldl (visitorBreakContinue label bt ct) ctx).jumps i = ctx.jumps i := by
  induction ops generalizing ctx with
  | nil => rfl
  | cons o ops ih =>
    simp at h
    simp only [List.foldl_cons]
    rw [ih _ (by simpa using h.2)]
    exact visitorBreakContinue_jumps_of_ne label bt ct ctx o i h.1

/-- After the walk, a visited `break` or `continue` that the construct takes has
the break or the continue target in `jumps`. -/
theorem foldl_visitorBreakContinue_jumps (label : Option String) (bt ct : BlockId)
    (ops : List Op) (ctx : TSContext) (hnd : (ops.map Op.id).Nodup) (op : Op) (hop : op ∈ ops)
    (hm : matchLabelOrNotSet label op.labelAttr = true) :
    (op.kind = OpKind.BreakOp →
      (ops.foldl (visitorBreakContinue label bt ct) ctx).jumps op.id = some bt) ∧
    (op.kind = OpKind.ContinueOp →
      (ops.foldl (visitorBreakContinue label bt ct) ctx).jumps op.id = some ct) := by
  induction ops generalizing ctx with
  | nil => simp at hop
  | cons o ops ih =>
    simp only [List.map_cons, List.nodup_cons] at hnd
    simp only [List.foldl_cons]
    rcases List.mem_cons.mp hop with h | h
    · subst h
      constructor
      · intro hk
        rw [foldl_visitorBreakContinue_jumps_of_not_mem _ _ _ _ _ _ hnd.1]
        simp [visitorBreakContinue, hk, hm, setEntry]
      · intro hk
        rw [foldl_visitorBreakContinue_jumps_of_not_mem _ _ _ _ _ _ hnd.1]
        simp [visitorBreakContinue, hk, hm, setEntry]
    · exact ih _ hnd.2 h

theorem matchLabelOrNotSet_of_unset_or_eq (loopLabel opLabel : Option String)
    (h : opLabel = none ∨ opLabel = loopLabel) : matchLabelOrNotSet loopLabel opLabel = true := by
  rcases h with h | h
  · simp [matchLabelOrNotSet, h]
  · subst h
    cases opLabel <;> simp [matchLabelOrNotSet]

/-- `ForOpLowering` succeeds on a `for` operation with non-empty regions and the
expected terminators, and returns the context the walk of the body produces. -/
theorem ForOpLowering_context (ctx : TSContext) (forOp : Op) (rw : PatternRewriter)
    (cond body incr condLast bodyLast incrLast : Block) (condTerm bodyTerm incrTerm : Op)
    (hcond1 : forOp.forCond.head? = some cond)
    (hcondL : forOp.forCond.getLast? = some condLast)
    (hcondT : condLast.getTerminator = some condTerm)
    (hbody1 : forOp.forBody.head? = some body)
    (hbodyL : forOp.forBody.getLast? = some bodyLast)
    (hbodyT : bodyLast.getTerminator = some bodyTerm)
    (hincr1 : forOp.forIncr.head? = some incr)
    (hincrL : forOp.forIncr.getLast? = some incrLast)
    (hincrT : incrLast.getTerminator = some incrTerm)
    (hct : (∃ c args, condTerm.kind = OpKind.ConditionOp ∧ condTerm.operands = c :: args ∧
              forOp.getNumResults = args.length) ∨
           (condTerm.kind = OpKind.NoConditionOp ∧ forOp.getNumResults = 0))
    (hbk : bodyTerm.kind = OpKind.ResultOp) (hik : incrTerm.kind = OpKind.ResultOp) :
    ∃ rw1, ForOpLowering ctx forOp rw = some
      (forOp.forBody.walk.foldl
          (visitorBreakContinue forOp.labelAttr rw.nextBlock incr.id) ctx, rw1) := by
  simp only [ForOpLowering, hcond1, hbody1, hincr1, hcondL, hbodyL, hincrL, hcondT, hbodyT, hincrT]
  rcases hct with ⟨c, args, h1, h2, h3⟩ | ⟨h1, h3⟩
  · simp [h1, h2, h3, hbk, hik, PatternRewriter.splitBlock]
  · simp [h1, h3, hbk, hik, PatternRewriter.splitBlock]

/-- C3: `ForOpLowering` succeeds and, for every `continue` nested at any depth in
the body whose label is unset or equals the label of the loop, records the first
block of the `incr` region in `jumps` (which is not the first block of `cond`),
and for every such `break` the continuation block (`rw.nextBlock`, the block
split off for the operations after the loop). -/
theorem ForOpLowering_jumps (ctx : TSContext) (forOp : Op) (rw : PatternRewriter)
    (cond body incr condLast bodyLast incrLast : Block) (condTerm bodyTerm incrTerm : Op)
    (hcond1 : forOp.forCond.head? = some cond)
    (hcondL : forOp.forCond.getLast? = some condLast)
    (hcondT : condLast.getTerminator = some condTerm)
    (hbody1 : forOp.forBody.head? = some body)
    (hbodyL : forOp.forBody.getLast? = some bodyLast)
    (hbodyT : bodyLast.getTerminator = some bodyTerm)
    (hincr1 : forOp.forIncr.head? = some incr)
    (hincrL : forOp.forIncr.getLast? = some incrLast)
    (hincrT : incrLast.getTerminator = some incrTerm)
    (hct : (∃ c args, condTerm.kind = OpKind.ConditionOp ∧ condTerm.operands = c :: args ∧
              forOp.getNumResults = args.length) ∨
           (condTerm.kind = OpKind.NoConditionOp ∧ forOp.getNumResults = 0))
    (hbk : bodyTerm.kind = OpKind.ResultOp) (hik : incrTerm.kind = OpKind.ResultOp)
    (hops : (forOp.forBody.walk.map Op.id).Nodup)
    (hne : incr.id ≠ cond.id) :
    ∃ ctx1 rw1, ForOpLowering ctx forOp rw = some (ctx1, rw1) ∧
      (∀ op ∈ forOp.forBody.walk, op.kind = OpKind.ContinueOp →
        (op.labelAttr = none ∨ op.labelAttr = forOp.labelAttr) →
        ctx1.jumps op.id = some incr.id ∧ ctx1.jumps op.id ≠ some cond.id) ∧
      (∀ op ∈ forOp.forBody.walk, op.kind = OpKind.BreakOp →
        (op.labelAttr = none ∨ op.labelAttr = forOp.labelAttr) →
        ctx1.jumps op.id = some rw.nextBlock) := by
  obtain ⟨rw1, h⟩ := ForOpLowering_context ctx forOp rw cond body incr condLast bodyLast incrLast
    condTerm bodyTerm incrTerm hcond1 hcondL hcondT hbody1 hbodyL hbodyT hincr1 hincrL hincrT hct
    hbk hik
  refine ⟨_, rw1, h, ?_, ?_⟩
  · intro op hop hk hl
    have := (foldl_visitorBreakContinue_jumps forOp.labelAttr rw.nextBlock incr.id _ ctx hops op hop
      (matchLabelOrNotSet_of_unset_or_eq _ _ hl)).2 hk
    rw [this]
    exact ⟨rfl, by simpa using hne⟩
  · intro op hop hk hl
    exact (foldl_visitorBreakContinue_jumps forOp.labelAttr rw.nextBlock incr.id _ ctx hops op hop
      (matchLabelOrNotSet_of_unset_or_eq _ _ hl)).1 hk

/-- Witness of C3: the labelled loop of `JumpLoop`. -/
theorem ForOpLowering_jumps_witness :
    ∃ ctx1 rw1, ForOpLowering TSContext.empty JumpLoop.forOp JumpLoop.rewriter = some (ctx1, rw1) ∧
      (∀ op ∈ JumpLoop.forOp.forBody.walk, op.kind = OpKind.ContinueOp →
        (op.labelAttr = none ∨ op.labelAttr = JumpLoop.forOp.labelAttr) →
        ctx1.jumps op.id = some JumpLoop.incrBlock.id ∧
        ctx1.jumps op.id ≠ some JumpLoop.condBlock.id) ∧
      (∀ op ∈ JumpLoop.forOp.forBody.walk, op.kind = OpKind.BreakOp →
        (op.labelAttr = none ∨ op.labelAttr = JumpLoop.forOp.labelAttr) →
        ctx1.jumps op.id = some JumpLoop.rewriter.nextBlock) :=
  ForOpLowering_jumps TSContext.empty JumpLoop.forOp JumpLoop.rewriter
    JumpLoop.condBlock JumpLoop.bodyBlock JumpLoop.incrBlock
    JumpLoop.condBlock JumpLoop.bodyBlock JumpLoop.incrBlock
    (Op.simple 13 OpKind.NoConditionOp [] [] [])
    (Op.simple 24 OpKind.ResultOp [] [] [])
    (Op.simple 34 OpKind.ResultOp [] [] [])
    rfl rfl rfl rfl rfl rfl rfl rfl rfl (Or.inr ⟨rfl, rfl⟩) rfl rfl (by decide) (by decide)

/-! ## IfOpLowering -/

@[simp] theorem Block.setOps_id (b : Block) (ops : List Op) : (b.setOps ops).id = b.id := rfl

@[simp] theorem Block.setOps_ops (b : Block) (ops : List Op) : (b.setOps ops).ops = ops := rfl

@[simp] theorem Block.setOps_argTypes (b : Block) (ops : List Op) :
    (b.setOps ops).argTypes = b.argTypes := rfl

@[simp] theorem Block.setOps_setOps (b : Block) (o1 o2 : List Op) :
    (b.setOps o1).setOps o2 = b.setOps o2 := rfl

@[simp] theorem blockIds_replaceTerminator (r : List Block) (ops : List Op) :
    blockIds (Region.replaceTerminator r ops) = blockIds r := by
  unfold Region.replaceTerminator
  cases h : r.getLast? with
  | none => rfl
  | some last =>
    have hr := (List.dropLast_append_getLast? last h).symm
    simp only
    conv_rhs => rw [hr]
    simp

theorem Region.replaceTerminator_of_getLast? (r : List Block) (last : Block) (ops : List Op)
    (h : r.getLast? = some last) :
    Region.replaceTerminator r ops = r.dropLast ++ [last.setOps (last.ops.dropLast ++ ops)] := by
  simp [Region.replaceTerminator, h]

/-- The rewriter `IfOpLowering` leaves behind for a well-formed `if` operation.
`continueBlock` is the block the regions branch to and `contBlocks` the block
created for it when the `if` has results; `elseBlock` is the false target and
`elseBlocks` the inlined `else` region when there is one. -/
theorem IfOpLowering_eq (ifOp : Op) (rw : PatternRewriter)
    (pre post : List Block) (cid : BlockId) (cargs : List Ty) (before after : List Op)
    (thenBlock thenLast : Block) (thenTerm : Op) (condition : Value)
    (continueBlock elseBlock : BlockId) (contBlocks elseBlocks : List Block) (newBlocks : Nat)
    (hblocks : rw.blocks = pre ++ Block.mk cid cargs (before ++ ifOp :: after) :: post)
    (hib : rw.insertionBlock = cid) (hip : rw.insertionPoint = before.length)
    (hthen1 : ifOp.thenRegion.head? = some thenBlock)
    (hthenL : ifOp.thenRegion.getLast? = some thenLast)
    (hthenT : thenLast.getTerminator = some thenTerm)
    (hcondition : ifOp.operands.head? = some condition)
    (hres : (ifOp.getNumResults = 0 ∧ continueBlock = rw.nextBlock ∧ contBlocks = [] ∧
              newBlocks = 1) ∨
            (ifOp.getNumResults ≠ 0 ∧ continueBlock = rw.nextBlock + 1 ∧
              contBlocks = [Block.mk (rw.nextBlock + 1) ifOp.resultTypes
                [mkBranchOp rw.nextOp rw.nextBlock []]] ∧ newBlocks = 2))
    (helse : (ifOp.elseRegion = [] ∧ elseBlock = continueBlock ∧ elseBlocks = []) ∨
             (∃ elseFirst elseLast elseTerm, ifOp.elseRegion.head? = some elseFirst ∧
                ifOp.elseRegion.getLast? = some elseLast ∧
                elseLast.getTerminator = some elseTerm ∧ elseBlock = elseFirst.id ∧
                elseBlocks = Region.replaceTerminator ifOp.elseRegion
                  [mkBranchOp (rw.nextOp + 2) continueBlock elseTerm.operands]))
    (hdist : cid ∉ blockIds pre)
    (hfresh1 : rw.nextBlock ∉ blockIds (pre ++ Block.mk cid cargs (before ++ ifOp :: after) ::
        (ifOp.thenRegion ++ ifOp.elseRegion)))
    (hfresh2 : rw.nextBlock + 1 ∉ blockIds (pre ++ Block.mk cid cargs (before ++ ifOp :: after) ::
        (ifOp.thenRegion ++ ifOp.elseRegion))) :
    IfOpLowering ifOp rw = some
      { blocks := replaceUsesBlocks
          (ifOp.results.zip ((List.range ifOp.getNumResults).map (Value.blockArg continueBlock)))
          (pre ++ Block.mk cid cargs (before ++
              [mkCastOp (rw.nextOp + 3) Ty.i1 condition,
               mkCondBranchOp (rw.nextOp + 4) (Value.opResult (rw.nextOp + 3) 0)
                 thenBlock.id [] elseBlock []]) ::
            (Region.replaceTerminator ifOp.thenRegion
                [mkBranchOp (rw.nextOp + 1) continueBlock thenTerm.operands]
             ++ elseBlocks ++ contBlocks ++ Block.mk rw.nextBlock [] after :: post))
        insertionBlock := rw.insertionBlock
        insertionPoint := rw.insertionPoint
        nextBlock := rw.nextBlock + newBlocks
        nextOp := rw.nextOp + 5 } := by
  simp only [IfOpLowering, hthen1, hthenL, hthenT, hcondition]
  simp only [blockIds_append, blockIds_cons, List.mem_append, List.mem_cons, not_or, Block.id_mk]
    at hfresh1 hfresh2
  have hK : rw.nextBlock ≠ rw.nextBlock + 1 := (Nat.succ_ne_self _).symm
  rcases hres with ⟨hr, hc, hcb, hnb⟩ | ⟨hr, hc, hcb, hnb⟩ <;>
  rcases helse with ⟨he, heb, hebs⟩ | ⟨elseFirst, elseLast, elseTerm, he1, heL, heT, heb, hebs⟩
  · subst hc hcb hnb heb hebs
    simp [hr, he, PatternRewriter.replaceOp, PatternRewriter.eraseOp,
      PatternRewriter.replaceAllUsesWith, PatternRewriter.createAtEnd,
      PatternRewriter.inlineRegionBefore, PatternRewriter.splitBlock, hblocks, hib, hip,
      modifyBlock_append_of_not_mem, modifyBlock_cons_eq, modifyBlock_cons_ne,
      modifyBlock_cons_ne2, hdist, hfresh1, hfresh2, hK]
  · subst hc hcb hnb heb hebs
    simp [hr, he1, heL, heT, PatternRewriter.replaceOp, PatternRewriter.eraseOp,
      PatternRewriter.replaceAllUsesWith, PatternRewriter.createAtEnd,
      PatternRewriter.inlineRegionBefore, PatternRewriter.splitBlock, hblocks, hib, hip,
      modifyBlock_append_of_not_mem, modifyBlock_cons_eq, modifyBlock_cons_ne,
      modifyBlock_cons_ne2, hdist, hfresh1, hfresh2, hK]
  · subst hc hcb hnb heb hebs
    simp [hr, he, PatternRewriter.replaceOp, PatternRewriter.eraseOp,
      PatternRewriter.replaceAllUsesWith, PatternRewriter.createAtEnd,
      PatternRewriter.createBlock,
      PatternRewriter.inlineRegionBefore, PatternRewriter.splitBlock, hblocks, hib, hip,
      modifyBlock_append_of_not_mem, modifyBlock_cons_eq, modifyBlock_cons_ne,
      modifyBlock_cons_ne2, hdist, hfresh1, hfresh2, hK]
  · subst hc hcb hnb heb hebs
    simp [hr, he1, heL, heT, PatternRewriter.replaceOp, PatternRewriter.eraseOp,
      PatternRewriter.replaceAllUsesWith, PatternRewriter.createAtEnd,
      PatternRewriter.createBlock,
      PatternRewriter.inlineRegionBefore, PatternRewriter.splitBlock, hblocks, hib, hip,
      modifyBlock_append_of_not_mem, modifyBlock_cons_eq, modifyBlock_cons_ne,
      modifyBlock_cons_ne2, hdist, hfresh1, hfresh2, hK]

/-- C4: for a well-formed `if` operation, `IfOpLowering` succeeds.  The block
that held the `if` ends in a cast of the condition to `i1` and a conditional
branch on it whose true target is the first block of the `then` region and whose
false target is `elseBlock`: the first block of the `else` region, or the
continuation block itself when the `else` region is empty.  The last block of
each inlined region ends in a branch to the continuation block carrying the
operands of the yield it replaces. -/
theorem IfOpLowering_branch_structure (ifOp : Op) (rw : PatternRewriter)
    (pre post : List Block) (cid : BlockId) (cargs : List Ty) (before after : List Op)
    (thenBlock thenLast : Block) (thenTerm : Op) (condition : Value)
    (continueBlock elseBlock : BlockId) (contBlocks elseBlocks : List Block)
    (hblocks : rw.blocks = pre ++ Block.mk cid cargs (before ++ ifOp :: after) :: post)
    (hib : rw.insertionBlock = cid) (hip : rw.insertionPoint = before.length)
    (hthen1 : ifOp.thenRegion.head? = some thenBlock)
    (hthenL : ifOp.thenRegion.getLast? = some thenLast)
    (hthenT : thenLast.getTerminator = some thenTerm)
    (hcondition : ifOp.operands.head? = some condition)
    (hres : (ifOp.getNumResults = 0 ∧ continueBlock = rw.nextBlock ∧ contBlocks = []) ∨
            (ifOp.getNumResults ≠ 0 ∧ continueBlock = rw.nextBlock + 1 ∧
              contBlocks = [Block.mk (rw.nextBlock + 1) ifOp.resultTypes
                [mkBranchOp rw.nextOp rw.nextBlock []]]))
    (helse : (ifOp.elseRegion = [] ∧ elseBlock = continueBlock ∧ elseBlocks = []) ∨
             (∃ elseFirst elseLast elseTerm, ifOp.elseRegion.head? = some elseFirst ∧
                ifOp.elseRegion.getLast? = some elseLast ∧
                elseLast.getTerminator = some elseTerm ∧ elseBlock = elseFirst.id ∧
                elseBlocks = ifOp.elseRegion.dropLast ++ [elseLast.setOps (elseLast.ops.dropLast ++
                  [mkBranchOp (rw.nextOp + 2) continueBlock elseTerm.operands])]))
    (hdist : cid ∉ blockIds pre)
    (hfresh1 : rw.nextBlock ∉ blockIds (pre ++ Block.mk cid cargs (before ++ ifOp :: after) ::
        (ifOp.thenRegion ++ ifOp.elseRegion)))
    (hfresh2 : rw.nextBlock + 1 ∉ blockIds (pre ++ Block.mk cid cargs (before ++ ifOp :: after) ::
        (ifOp.thenRegion ++ ifOp.elseRegion))) :
    ∃ rw1, IfOpLowering ifOp rw = some rw1 ∧
      rw1.blocks = replaceUsesBlocks
          (ifOp.results.zip ((List.range ifOp.getNumResults).map (Value.blockArg continueBlock)))
          (pre ++ Block.mk cid cargs (before ++
              [mkCastOp (rw.nextOp + 3) Ty.i1 condition,
               mkCondBranchOp (rw.nextOp + 4) (Value.opResult (rw.nextOp + 3) 0)
                 thenBlock.id [] elseBlock []]) ::
            ((ifOp.thenRegion.dropLast ++ [thenLast.setOps (thenLast.ops.dropLast ++
                [mkBranchOp (rw.nextOp + 1) continueBlock thenTerm.operands])])
             ++ elseBlocks ++ contBlocks ++ Block.mk rw.nextBlock [] after :: post)) := by
  have hres2 : ∃ newBlocks,
      (ifOp.getNumResults = 0 ∧ continueBlock = rw.nextBlock ∧ contBlocks = [] ∧
              newBlocks = 1) ∨
            (ifOp.getNumResults ≠ 0 ∧ continueBlock = rw.nextBlock + 1 ∧
              contBlocks = [Block.mk (rw.nextBlock + 1) ifOp.resultTypes
                [mkBranchOp rw.nextOp rw.nextBlock []]] ∧ newBlocks = 2) := by
    rcases hres with ⟨h1, h2, h3⟩ | ⟨h1, h2, h3⟩
    · exact ⟨1, Or.inl ⟨h1, h2, h3, rfl⟩⟩
    · exact ⟨2, Or.inr ⟨h1, h2, h3, rfl⟩⟩
  obtain ⟨newBlocks, hres2⟩ := hres2
  have helse2 : (ifOp.elseRegion = [] ∧ elseBlock = continueBlock ∧ elseBlocks = []) ∨
             (∃ elseFirst elseLast elseTerm, ifOp.elseRegion.head? = some elseFirst ∧
                ifOp.elseRegion.getLast? = some elseLast ∧
                elseLast.getTerminator = some elseTerm ∧ elseBlock = elseFirst.id ∧
                elseBlocks = Region.replaceTerminator ifOp.elseRegion
                  [mkBranchOp (rw.nextOp + 2) continueBlock elseTerm.operands]) := by
    rcases helse with h | ⟨f, l, t, h1, h2, h3, h4, h5⟩
    · exact Or.inl h
    · exact Or.inr ⟨f, l, t, h1, h2, h3, h4, by
        rw [h5, Region.replaceTerminator_of_getLast? _ _ _ h2]⟩
  refine ⟨_, IfOpLowering_eq ifOp rw pre post cid cargs before after thenBlock thenLast thenTerm
    condition continueBlock elseBlock contBlocks elseBlocks newBlocks hblocks hib hip hthen1 hthenL
    hthenT hcondition hres2 helse2 hdist hfresh1 hfresh2, ?_⟩
  simp [Region.replaceTerminator_of_getLast? _ _ _ hthenL]

/-- Witness of C4: the conditional `if (c) { yield 1 } else { yield 2 }`. -/
theorem IfOpLowering_branch_structure_witness :
    ∃ rw1, IfOpLowering (IfExample.ifOp 1 2) (IfExample.rewriter 1 2 1) = some rw1 ∧
      rw1.blocks = replaceUsesBlocks
          ((IfExample.ifOp 1 2).results.zip
            ((List.range (IfExample.ifOp 1 2).getNumResults).map (Value.blockArg 4)))
          ([] ++ Block.mk 0 [] (IfExample.beforeOps 1 ++
              [mkCastOp 103 Ty.i1 (Value.opResult 0 0),
               mkCondBranchOp 104 (Value.opResult 103 0) 1 [] 2 []]) ::
            (([] ++ [(IfExample.thenBlock 1).setOps ((IfExample.thenBlock 1).ops.dropLast ++
                [mkBranchOp 101 4 [Value.opResult 10 0]])])
             ++ [(IfExample.elseBlock 2).setOps ((IfExample.elseBlock 2).ops.dropLast ++
                [mkBranchOp 102 4 [Value.opResult 20 0]])]
             ++ [Block.mk 4 [Ty.i32] [mkBranchOp 100 3 []]]
             ++ Block.mk 3 [] IfExample.afterOps :: [])) :=
  IfOpLowering_branch_structure (IfExample.ifOp 1 2) (IfExample.rewriter 1 2 1)
    [] [] 0 [] (IfExample.beforeOps 1) IfExample.afterOps
    (IfExample.thenBlock 1) (IfExample.thenBlock 1)
    (Op.simple 11 OpKind.ResultOp [Value.opResult 10 0] [] [])
    (Value.opResult 0 0) 4 2 [Block.mk 4 [Ty.i32] [mkBranchOp 100 3 []]]
    [(IfExample.elseBlock 2).setOps ((IfExample.elseBlock 2).ops.dropLast ++
                [mkBranchOp 102 4 [Value.opResult 20 0]])]
    rfl rfl rfl rfl rfl rfl rfl
    (Or.inr ⟨by decide, rfl, rfl⟩)
    (Or.inr ⟨IfExample.elseBlock 2, IfExample.elseBlock 2,
      Op.simple 21 OpKind.ResultOp [Value.opResult 20 0] [] [], rfl, rfl, rfl, rfl, rfl⟩)
    (by decide) (by decide) (by decide)

namespace IfExample

theorem if_lowered_eq (a b c : Int) : IfOpLowering (ifOp a b) (rewriter a b c) = some
    { blocks :=
        [Block.mk 0 []
          [Op.simple 0 OpKind.ConstantOp [] [Ty.boolean] [("value", Attr.int c)],
           mkCastOp 103 Ty.i1 (Value.opResult 0 0),
           mkCondBranchOp 104 (Value.opResult 103 0) 1 [] 2 []],
         Block.mk 1 []
          [Op.simple 10 OpKind.ConstantOp [] [Ty.i32] [("value", Attr.int a)],
           mkBranchOp 101 4 [Value.opResult 10 0]],
         Block.mk 2 []
          [Op.simple 20 OpKind.ConstantOp [] [Ty.i32] [("value", Attr.int b)],
           mkBranchOp 102 4 [Value.opResult 20 0]],
         Block.mk 4 [Ty.i32] [mkBranchOp 100 3 []],
         Block.mk 3 [] [Op.simple 2 OpKind.VariableOp [Value.blockArg 4 0] [Ty.ref Ty.i32] []]],
      insertionBlock := 0, insertionPoint := 1, nextBlock := 5, nextOp := 105 } := by
  rfl

end IfExample

/-- C5: the lowered `if (c) { yield a } else { yield b }` with one result, run from
the block that held the `if` (0) until the block holding the operations after the
`if` (3), delivers `a` to the argument of the continuation block (4) when the
condition is true (non-zero) and `b` when it is false; that block argument is the
value that replaced the result of the `if` in the operation using it.  With
`a = 1` and `b = 2` the results are 1 and 2. -/
theorem if_lowering_delivers_yield (a b c : Int) :
    ∃ rw1 st,
      IfOpLowering (IfExample.ifOp a b) (IfExample.rewriter a b c) = some rw1
      ∧ runCFG ExecEnv.plain rw1.blocks 3 3 0 ExecState.init = some st
      ∧ st.env (Value.blockArg 4 0) = some (if c ≠ 0 then a else b)
      ∧ st.trace = [0, if c ≠ 0 then 1 else 2, 4]
      ∧ (findBlock 4 rw1.blocks).map Block.argTypes = some [Ty.i32]
      ∧ (IfExample.afterOps.map Op.operands) = [[Value.opResult 1 0]]
      ∧ (findBlock 3 rw1.blocks).map (fun blk => blk.ops.map Op.operands)
          = some [[Value.blockArg 4 0]] := by
  have hrun : ∃ st,
      runCFG ExecEnv.plain
        [Block.mk 0 []
          [Op.simple 0 OpKind.ConstantOp [] [Ty.boolean] [("value", Attr.int c)],
           mkCastOp 103 Ty.i1 (Value.opResult 0 0),
           mkCondBranchOp 104 (Value.opResult 103 0) 1 [] 2 []],
         Block.mk 1 []
          [Op.simple 10 OpKind.ConstantOp [] [Ty.i32] [("value", Attr.int a)],
           mkBranchOp 101 4 [Value.opResult 10 0]],
         Block.mk 2 []
          [Op.simple 20 OpKind.ConstantOp [] [Ty.i32] [("value", Attr.int b)],
           mkBranchOp 102 4 [Value.opResult 20 0]],
         Block.mk 4 [Ty.i32] [mkBranchOp 100 3 []],
         Block.mk 3 [] [Op.simple 2 OpKind.VariableOp [Value.blockArg 4 0] [Ty.ref Ty.i32] []]]
        3 3 0 ExecState.init = some st
      ∧ st.env (Value.blockArg 4 0) = some (if c ≠ 0 then a else b)
      ∧ st.trace = [0, if c ≠ 0 then 1 else 2, 4] := by
    by_cases hc : c = 0
    · simp [runCFG, findBlock, execOps, execOp, Op.simple, Op.kind, Op.operands, Op.successors,
        Op.id, Op.getAttr, Op.attrs, Op.resultTypes, mkBranchOp, mkCastOp, mkCondBranchOp, Op.term,
        setValue, evalOperands, bindArgs, ExecState.init, hc]
    · simp [runCFG, findBlock, execOps, execOp, Op.simple, Op.kind, Op.operands, Op.successors,
        Op.id, Op.getAttr, Op.attrs, Op.resultTypes, mkBranchOp, mkCastOp, mkCondBranchOp, Op.term,
        setValue, evalOperands, bindArgs, ExecState.init, hc]
  obtain ⟨st, h1, h2, h3⟩ := hrun
  exact ⟨_, st, IfExample.if_lowered_eq a b c, h1, h2, h3, rfl, rfl, rfl⟩

/-- C6 (counterexample): the `if` with one result and single-block `then` and
`else` regions of `IfExample` is lowered to five blocks, not to three blocks plus
one continuation block. -/
theorem if_lowering_block_count_counterexample :
    ∃ rw1, IfOpLowering (IfExample.ifOp 1 2) (IfExample.rewriter 1 2 1) = some rw1 ∧
      (IfExample.ifOp 1 2).getNumResults = 1 ∧
      (IfExample.ifOp 1 2).thenRegion.length = 1 ∧
      (IfExample.ifOp 1 2).elseRegion.length = 1 ∧
      (IfExample.rewriter 1 2 1).blocks.length = 1 ∧
      blockIds rw1.blocks = [0, 1, 2, 4, 3] ∧
      rw1.blocks.length ≠ 3 + 1 :=
  ⟨_, IfExample.if_lowered_eq 1 2 1, rfl, rfl, rfl, rfl, rfl, by decide⟩

/-- C6 (amended): for an `if` with single-block `then` and `else` regions in a
one-block region, `IfOpLowering` succeeds.  With exactly one result it leaves
five blocks: cond, then, else, a continuation block with exactly one argument
whose only operation branches to the fifth block, which holds the operations that
followed the `if`.  With no results it leaves four blocks, the last one being the
continuation, without block arguments. -/
theorem IfOpLowering_block_count (ifOp : Op) (rw : PatternRewriter)
    (cid : BlockId) (cargs : List Ty) (before after : List Op)
    (thenB elseB : Block) (thenTerm elseTerm : Op) (condition : Value)
    (hblocks : rw.blocks = [Block.mk cid cargs (before ++ ifOp :: after)])
    (hib : rw.insertionBlock = cid) (hip : rw.insertionPoint = before.length)
    (hthen : ifOp.thenRegion = [thenB]) (hthenT : thenB.getTerminator = some thenTerm)
    (helse : ifOp.elseRegion = [elseB]) (helseT : elseB.getTerminator = some elseTerm)
    (hcondition : ifOp.operands.head? = some condition)
    (hfresh1 : rw.nextBlock ∉ [cid, thenB.id, elseB.id])
    (hfresh2 : rw.nextBlock + 1 ∉ [cid, thenB.id, elseB.id]) :
    ∃ rw1, IfOpLowering ifOp rw = some rw1 ∧
      (ifOp.getNumResults = 1 →
        rw1.blocks.length = 5 ∧
        blockIds rw1.blocks = [cid, thenB.id, elseB.id, rw.nextBlock + 1, rw.nextBlock] ∧
        (rw1.blocks[3]?).map (fun blk => blk.argTypes.length) = some 1 ∧
        (rw1.blocks[3]?).map (fun blk => blk.ops.map Op.successors)
          = some [[(rw.nextBlock, [])]] ∧
        (rw1.blocks[4]?).map (fun blk => blk.ops.map Op.id) = some (after.map Op.id)) ∧
      (ifOp.getNumResults = 0 →
        rw1.blocks.length = 4 ∧
        blockIds rw1.blocks = [cid, thenB.id, elseB.id, rw.nextBlock] ∧
        (rw1.blocks[3]?).map Block.argTypes = some [] ∧
        (rw1.blocks[3]?).map (fun blk => blk.ops.map Op.id) = some (after.map Op.id)) := by
  have hopsid : ∀ (m : ValueMapping) (l : List Op),
      (replaceUsesOps m l).map Op.id = l.map Op.id := by
    intro m l
    induction l with
    | nil => simp
    | cons o l ih => simp [ih]
  by_cases hr : ifOp.getNumResults = 0
  · refine ⟨_, IfOpLowering_eq ifOp rw [] [] cid cargs before after thenB thenB thenTerm
      condition rw.nextBlock elseB.id [] (Region.replaceTerminator ifOp.elseRegion
        [mkBranchOp (rw.nextOp + 2) rw.nextBlock elseTerm.operands]) 1
      (by simpa using hblocks) hib hip (by simp [hthen]) (by simp [hthen]) hthenT hcondition
      (Or.inl ⟨hr, rfl, rfl, rfl⟩)
      (Or.inr ⟨elseB, elseB, elseTerm, by simp [helse], by simp [helse], helseT, rfl, rfl⟩)
      (by simp) (by simpa [hthen, helse] using hfresh1) (by simpa [hthen, helse] using hfresh2), ?_, ?_⟩
    · intro h1; omega
    · intro _
      simp [hthen, helse, Region.replaceTerminator, hopsid, mkBranchOp, Op.term, replaceUsesOp]
  · refine ⟨_, IfOpLowering_eq ifOp rw [] [] cid cargs before after thenB thenB thenTerm
      condition (rw.nextBlock + 1) elseB.id
      [Block.mk (rw.nextBlock + 1) ifOp.resultTypes [mkBranchOp rw.nextOp rw.nextBlock []]]
      (Region.replaceTerminator ifOp.elseRegion
        [mkBranchOp (rw.nextOp + 2) (rw.nextBlock + 1) elseTerm.operands]) 2
      (by simpa using hblocks) hib hip (by simp [hthen]) (by simp [hthen]) hthenT hcondition
      (Or.inr ⟨hr, rfl, rfl, rfl⟩)
      (Or.inr ⟨elseB, elseB, elseTerm, by simp [helse], by simp [helse], helseT, rfl, rfl⟩)
      (by simp) (by simpa [hthen, helse] using hfresh1) (by simpa [hthen, helse] using hfresh2), ?_, ?_⟩
    · intro h1
      have h1' : ifOp.resultTypes.length = 1 := h1
      simp [hthen, helse, Region.replaceTerminator, hopsid, mkBranchOp, Op.term, replaceUsesOp,
        Op.successors, replaceUsesSuccs, h1']
    · intro h0; exact absurd h0 hr

/-- Witness of C6 (amended): the conditional of `IfExample`. -/
theorem IfOpLowering_block_count_witness :
    ∃ rw1, IfOpLowering (IfExample.ifOp 1 2) (IfExample.rewriter 1 2 1) = some rw1 ∧
      ((IfExample.ifOp 1 2).getNumResults = 1 →
        rw1.blocks.length = 5 ∧
        blockIds rw1.blocks = [0, (IfExample.thenBlock 1).id, (IfExample.elseBlock 2).id, 3 + 1, 3] ∧
        (rw1.blocks[3]?).map (fun blk => blk.argTypes.length) = some 1 ∧
        (rw1.blocks[3]?).map (fun blk => blk.ops.map Op.successors) = some [[(3, [])]] ∧
        (rw1.blocks[4]?).map (fun blk => blk.ops.map Op.id)
          = some (IfExample.afterOps.map Op.id)) ∧
      ((IfExample.ifOp 1 2).getNumResults = 0 →
        rw1.blocks.length = 4 ∧
        blockIds rw1.blocks = [0, (IfExample.thenBlock 1).id, (IfExample.elseBlock 2).id, 3] ∧
        (rw1.blocks[3]?).map Block.argTypes = some [] ∧
        (rw1.blocks[3]?).map (fun blk => blk.ops.map Op.id)
          = some (IfExample.afterOps.map Op.id)) :=
  IfOpLowering_block_count (IfExample.ifOp 1 2) (IfExample.rewriter 1 2 1) 0 []
    (IfExample.beforeOps 1) IfExample.afterOps (IfExample.thenBlock 1) (IfExample.elseBlock 2)
    (Op.simple 11 OpKind.ResultOp [Value.opResult 10 0] [] [])
    (Op.simple 21 OpKind.ResultOp [Value.opResult 20 0] [] [])
    (Value.opResult 0 0) rfl rfl rfl rfl rfl rfl rfl rfl (by decide) (by decide)

/-! ## TryOpLowering -/

theorem ValueMapping.lookup_nil (v : Value) : ValueMapping.lookup [] v = v := rfl

mutual
theorem replaceUsesOp_nil : ∀ (o : Op), replaceUsesOp [] o = o
  | .mk i k os ts as ss rs => by
    have h1 : os.map (ValueMapping.lookup []) = os := by
      induction os with
      | nil => rfl
      | cons a l ih => simp [ih, ValueMapping.lookup_nil]
    simp [replaceUsesOp, h1, replaceUsesSuccs_nil ss, replaceUsesRegions_nil rs]
theorem replaceUsesSuccs_nil : ∀ (ss : List Successor), replaceUsesSuccs [] ss = ss
  | [] => by simp [replaceUsesSuccs]
  | (b, vs) :: ss => by
    have h1 : vs.map (ValueMapping.lookup []) = vs := by
      induction vs with
      | nil => rfl
      | cons a l ih => simp [ih, ValueMapping.lookup_nil]
    simp [replaceUsesSuccs, h1, replaceUsesSuccs_nil ss]
theorem replaceUsesRegions_nil : ∀ (rs : List (List Block)), replaceUsesRegions [] rs = rs
  | [] => by simp [replaceUsesRegions]
  | r :: rs => by simp [replaceUsesRegions, replaceUsesBlocks_nil_map r, replaceUsesRegions_nil rs]
theorem replaceUsesBlocks_nil_map : ∀ (bs : List Block), replaceUsesBlocks [] bs = bs
  | [] => by simp [replaceUsesBlocks]
  | b :: bs => by simp [replaceUsesBlock_nil b, replaceUsesBlocks_nil_map bs]
theorem replaceUsesBlock_nil : ∀ (b : Block), replaceUsesBlock [] b = b
  | .mk i ts ops => by simp [replaceUsesOps_nil_map ops]
theorem replaceUsesOps_nil_map : ∀ (os : List Op), replaceUsesOps [] os = os
  | [] => by simp
  | o :: os => by simp [replaceUsesOp_nil o, replaceUsesOps_nil_map os]
end

@[simp] theorem blockIds_prependOps (r : List Block) (ops : List Op) :
    blockIds (Region.prependOps r ops) = blockIds r := by
  cases r <;> simp [Region.prependOps]

theorem Region.replaceTerminator_singleton2 (b : Block) (ops : List Op) :
    Region.replaceTerminator [b] ops = [b.setOps (b.ops.dropLast ++ ops)] := by
  simp [Region.replaceTerminator]

theorem Region.replaceTerminator_append_singleton2 (l : List Block) (b : Block) (ops : List Op) :
    Region.replaceTerminator (l ++ [b]) ops = l ++ [b.setOps (b.ops.dropLast ++ ops)] := by
  simp [Region.replaceTerminator]

theorem Region.replaceTerminator_cons_append2 (h : Block) (l : List Block) (b : Block)
    (ops : List Op) :
    Region.replaceTerminator (h :: (l ++ [b])) ops
      = h :: (l ++ [b.setOps (b.ops.dropLast ++ ops)]) := by
  have := Region.replaceTerminator_append_singleton2 (h :: l) b ops
  simpa using this

/-- The result of `TryOpLowering` on a well-formed `try` operation: the context
with the unwind entries of the body and the catch binding, and the blocks, where
the three regions sit between the original block and the continuation block. -/
theorem TryOpLowering_eq (winException typed : Bool) (ctx : TSContext) (tryOp : Op)
    (rw : PatternRewriter)
    (pre post : List Block) (cid : BlockId) (cargs : List Ty) (before after : List Op)
    (bodyFirst bodyLast catchesFirst catchesLast finallyFirst finallyLast : Block)
    (bodyTerm catchesTerm finallyTerm : Op)
    (hblocks : rw.blocks = pre ++ Block.mk cid cargs (before ++ tryOp :: after) :: post)
    (hib : rw.insertionBlock = cid) (hip : rw.insertionPoint = before.length)
    (hbody1 : tryOp.tryBody.head? = some bodyFirst)
    (hbodyL : tryOp.tryBody.getLast? = some bodyLast)
    (hbodyT : bodyLast.getTerminator = some bodyTerm)
    (hcatches1 : tryOp.tryCatches.head? = some catchesFirst)
    (hcatchesL : tryOp.tryCatches.getLast? = some catchesLast)
    (hcatchesT : catchesLast.getTerminator = some catchesTerm)
    (hfinally1 : tryOp.tryFinallyBlock.head? = some finallyFirst)
    (hfinallyL : tryOp.tryFinallyBlock.getLast? = some finallyLast)
    (hfinallyT : finallyLast.getTerminator = some finallyTerm)
    (hbk : bodyTerm.kind = OpKind.ResultOp) (hck : catchesTerm.kind = OpKind.ResultOp)
    (hfk : finallyTerm.kind = OpKind.ResultOp)
    (hcatch : (catchOpsOf tryOp).length ≤ 1)
    (htyped : typed = (catchOpsOf tryOp).head?.isSome)
    (hres : tryOp.getNumResults = 0)
    (hdist : (blockIds (pre ++ Block.mk cid cargs (before ++ tryOp :: after) ::
        (tryOp.tryBody ++ tryOp.tryCatches ++ tryOp.tryFinallyBlock))).Nodup)
    (hfresh1 : rw.nextBlock ∉ blockIds (pre ++ Block.mk cid cargs (before ++ tryOp :: after) ::
        (tryOp.tryBody ++ tryOp.tryCatches ++ tryOp.tryFinallyBlock)))
    (hfresh2 : rw.nextBlock + 1 ∉ blockIds (pre ++
        Block.mk cid cargs (before ++ tryOp :: after) ::
        (tryOp.tryBody ++ tryOp.tryCatches ++ tryOp.tryFinallyBlock))) :
    TryOpLowering winException ctx tryOp rw = some
      (match (catchOpsOf tryOp).head? with
        | some catchOp =>
          { tryOp.tryBody.walk.foldl (visitorCallOpContinue catchesFirst.id) ctx with
            catchOpData :=
              setEntry (tryOp.tryBody.walk.foldl (visitorCallOpContinue catchesFirst.id)
                ctx).catchOpData catchOp.id (Value.opResult (rw.nextOp + 6) 0) }
        | none => tryOp.tryBody.walk.foldl (visitorCallOpContinue catchesFirst.id) ctx,
       { blocks :=
          pre ++ Block.mk cid cargs (before ++ [mkBranchOp rw.nextOp bodyFirst.id []]) ::
            (Region.replaceTerminator
                (Region.prependOps tryOp.tryBody
                  [if typed then Op.simple (rw.nextOp + 1) OpKind.TypeInfoPtrOp [] [Ty.i8Ptr] []
                   else Op.simple (rw.nextOp + 1) OpKind.NullOp [] [Ty.null] []])
                [mkBranchOp (rw.nextOp + 2) finallyFirst.id []]
             ++ (if !winException && typed then
                  Region.splitFirst
                    (Region.replaceTerminator
                      (Region.prependOps tryOp.tryCatches
                        [Op.simple (rw.nextOp + 3) OpKind.LandingPadOp
                           [Value.opResult (rw.nextOp + 1) 0] [Ty.landingPadTy]
                           [("cleanup", Attr.bool false)],
                         Op.simple (rw.nextOp + 4) OpKind.ThrowInfoPtrOp [] [Ty.i8Ptr] [],
                         Op.simple (rw.nextOp + 5) OpKind.CompareCatchTypeOp
                           [Value.opResult (rw.nextOp + 3) 0, Value.opResult (rw.nextOp + 4) 0]
                           [Ty.boolean] [],
                         Op.simple (rw.nextOp + 6) OpKind.BeginCatchOp
                           [Value.opResult (rw.nextOp + 3) 0] [Ty.i8Ptr] []])
                      [Op.simple (rw.nextOp + 7) OpKind.EndCatchOp [] [] [],
                       mkBranchOp (rw.nextOp + 8) finallyFirst.id []])
                    3 (rw.nextBlock + 1)
                    [mkCastOp (rw.nextOp + 9) Ty.i1 (Value.opResult (rw.nextOp + 5) 0),
                     mkCondBranchOp (rw.nextOp + 10) (Value.opResult (rw.nextOp + 9) 0)
                       (rw.nextBlock + 1) [] rw.nextBlock []]
                else
                  Region.replaceTerminator
                    (Region.prependOps tryOp.tryCatches
                      [Op.simple (rw.nextOp + 3) OpKind.LandingPadOp
                         [Value.opResult (rw.nextOp + 1) 0] [Ty.landingPadTy]
                         [("cleanup", Attr.bool false)],
                       Op.simple (rw.nextOp + 6) OpKind.BeginCatchOp
                         [Value.opResult (rw.nextOp + 3) 0] [Ty.i8Ptr] []])
                    [Op.simple (rw.nextOp + 7) OpKind.EndCatchOp [] [] [],
                     mkBranchOp (rw.nextOp + 8) finallyFirst.id []])
             ++ Region.replaceTerminator tryOp.tryFinallyBlock
                  [mkBranchOp (rw.nextOp + 11) rw.nextBlock finallyTerm.operands]
             ++ Block.mk rw.nextBlock [] after :: post)
         insertionBlock := rw.insertionBlock
         insertionPoint := rw.insertionPoint
         nextBlock := if !winException && typed then rw.nextBlock + 2 else rw.nextBlock + 1
         nextOp := rw.nextOp + 12 }) := by
  have hbody := region_eq_of_getLast? _ _ hbodyL
  have hcatches := region_eq_of_getLast? _ _ hcatchesL
  have hfinally := region_eq_of_getLast? _ _ hfinallyL
  rw [ops_eq_of_getTerminator _ _ hbodyT] at hbody
  rw [ops_eq_of_getTerminator _ _ hcatchesT] at hcatches
  rw [ops_eq_of_getTerminator _ _ hfinallyT] at hfinally
  generalize tryOp.tryBody.dropLast = bodyInit at hbody
  generalize tryOp.tryCatches.dropLast = catchesInit at hcatches
  generalize tryOp.tryFinallyBlock.dropLast = finallyInit at hfinally
  generalize bodyLast.ops.dropLast = bodyOps at hbody
  generalize catchesLast.ops.dropLast = catchesOps at hcatches
  generalize finallyLast.ops.dropLast = finallyOps at hfinally
  have hK : rw.nextBlock ≠ rw.nextBlock + 1 := (Nat.succ_ne_self _).symm
  have hlen : ¬ (catchOpsOf tryOp).length > 1 := by omega
  simp only [TryOpLowering, hlen, if_false, hbody1, hbodyL, hbodyT, hcatches1, hcatchesL, hcatchesT,
    hfinally1, hfinallyL, hfinallyT, hbk, hck, hfk, hres, ne_eq, not_true_eq_false, ← htyped]
  congr 2
  rw [hbody, hcatches, hfinally] at hdist hfresh1 hfresh2
  rw [hbody] at hbody1
  rw [hcatches] at hcatches1
  simp only [PatternRewriter.replaceOp, PatternRewriter.eraseOp, PatternRewriter.replaceAllUsesWith,
    PatternRewriter.replaceTerminator, PatternRewriter.createAtEnd, PatternRewriter.createAtStart,
    PatternRewriter.inlineRegionBefore, PatternRewriter.splitBlock, hblocks, hib, hip,
    replaceUsesBlocks_nil_map, List.zip_nil_right]
  rw [hbody, hcatches, hfinally]
  cases winException <;> cases typed <;> cases bodyInit <;> cases catchesInit <;>
  · simp at hbody1 hcatches1
    subst hbody1 hcatches1
    simp [List.nodup_append, List.nodup_cons] at hdist hfresh1 hfresh2
    simp [modifyBlock_append_of_not_mem, modifyBlock_cons_eq, modifyBlock_cons_ne,
      modifyBlock_cons_ne2, Region.replaceTerminator_append_singleton2,
      Region.replaceTerminator_singleton2, Region.replaceTerminator_cons_append2,
      List.dropLast_cons_of_ne_nil, Region.prependOps, Region.splitFirst, RTTIHelper.hasType, RTTIHelper.setType,
      RTTIHelper.new, RTTIHelper.typeInfoPtrValue, RTTIHelper.throwInfoPtrValue,
      hdist, hfresh1, hfresh2, hK]

theorem getLast?_cons_append_singleton {α : Type} (x : α) (l : List α) (y : α) :
    (x :: (l ++ [y])).getLast? = some y := by
  have h : x :: (l ++ [y]) = (x :: l) ++ [y] := rfl
  rw [h, List.getLast?_append]
  simp

/-- The last block of a region after operations were put in front of its first
block and the terminator of its last block was replaced: the operations that
preceded the old terminator are followed by the new ones. -/
theorem last_of_replaceTerminator_prependOps (r : List Block) (last : Block) (t : Op)
    (P T : List Op) (hL : r.getLast? = some last) (hT : last.getTerminator = some t) :
    ∃ bl ops, (Region.replaceTerminator (Region.prependOps r P) T).getLast? = some bl ∧
      bl.id = last.id ∧ bl.ops = ops ++ T ∧ last.ops.dropLast <:+ ops := by
  have hr := region_eq_of_getLast? _ _ hL
  rw [ops_eq_of_getTerminator _ _ hT] at hr
  generalize r.dropLast = init at hr
  generalize hlo : last.ops.dropLast = o at hr
  subst hr
  cases init with
  | nil =>
    refine ⟨Block.mk last.id last.argTypes (P ++ o ++ T), P ++ o, ?_, rfl, rfl, ?_⟩
    · simp [Region.prependOps, Region.replaceTerminator_singleton2, ← List.append_assoc,
        List.dropLast_concat]
    · exact List.suffix_append P o
  | cons h tl =>
    refine ⟨Block.mk last.id last.argTypes (o ++ T), o, ?_, rfl, rfl, ?_⟩
    · simp [Region.prependOps, Region.replaceTerminator_cons_append2,
        getLast?_cons_append_singleton]
    · exact List.suffix_refl o

/-- The last block of the catches region after the split at the compare. -/
theorem last_of_splitFirst (r : List Block) (last : Block) (t : Op)
    (a b c d : Op) (T X : List Op) (newBlock : BlockId)
    (hL : r.getLast? = some last) (hT : last.getTerminator = some t) :
    ∃ bl ops, (Region.splitFirst (Region.replaceTerminator (Region.prependOps r [a, b, c, d]) T)
          3 newBlock X).getLast? = some bl ∧
      bl.ops = ops ++ T ∧ last.ops.dropLast <:+ ops := by
  have hr := region_eq_of_getLast? _ _ hL
  rw [ops_eq_of_getTerminator _ _ hT] at hr
  generalize r.dropLast = init at hr
  generalize hlo : last.ops.dropLast = o at hr
  subst hr
  cases init with
  | nil =>
    refine ⟨Block.mk newBlock [] (d :: o ++ T), d :: o, ?_, rfl, ?_⟩
    · simp [Region.prependOps, Region.replaceTerminator_singleton2, Region.splitFirst,
        List.dropLast_cons_of_ne_nil]
    · exact List.suffix_cons d o
  | cons h tl =>
    refine ⟨Block.mk last.id last.argTypes (o ++ T), o, ?_, rfl, ?_⟩
    · simp [Region.prependOps, Region.replaceTerminator_cons_append2, Region.splitFirst,
        getLast?_cons_append_singleton]
    · exact List.suffix_refl o

/-- C8: for a well-formed `try` operation `TryOpLowering` succeeds, and in the
blocks it leaves (original block, body blocks, catches blocks, finally blocks,
continuation block): the last body block ends in a branch to the first block of
the finally region in place of its yield; the last catches block ends in an
end-catch marker followed by a branch to the first block of the finally region
in place of its yield; the last finally block ends in a branch to the
continuation block (`rw.nextBlock`) carrying the operands of its yield. -/
theorem TryOpLowering_yield_branches (winException : Bool) (ctx : TSContext) (tryOp : Op)
    (rw : PatternRewriter)
    (pre post : List Block) (cid : BlockId) (cargs : List Ty) (before after : List Op)
    (bodyFirst bodyLast catchesFirst catchesLast finallyFirst finallyLast : Block)
    (bodyTerm catchesTerm finallyTerm : Op)
    (hblocks : rw.blocks = pre ++ Block.mk cid cargs (before ++ tryOp :: after) :: post)
    (hib : rw.insertionBlock = cid) (hip : rw.insertionPoint = before.length)
    (hbody1 : tryOp.tryBody.head? = some bodyFirst)
    (hbodyL : tryOp.tryBody.getLast? = some bodyLast)
    (hbodyT : bodyLast.getTerminator = some bodyTerm)
    (hcatches1 : tryOp.tryCatches.head? = some catchesFirst)
    (hcatchesL : tryOp.tryCatches.getLast? = some catchesLast)
    (hcatchesT : catchesLast.getTerminator = some catchesTerm)
    (hfinally1 : tryOp.tryFinallyBlock.head? = some finallyFirst)
    (hfinallyL : tryOp.tryFinallyBlock.getLast? = some finallyLast)
    (hfinallyT : finallyLast.getTerminator = some finallyTerm)
    (hbk : bodyTerm.kind = OpKind.ResultOp) (hck : catchesTerm.kind = OpKind.ResultOp)
    (hfk : finallyTerm.kind = OpKind.ResultOp)
    (hcatch : (catchOpsOf tryOp).length ≤ 1)
    (hres : tryOp.getNumResults = 0)
    (hdist : (blockIds (pre ++ Block.mk cid cargs (before ++ tryOp :: after) ::
        (tryOp.tryBody ++ tryOp.tryCatches ++ tryOp.tryFinallyBlock))).Nodup)
    (hfresh1 : rw.nextBlock ∉ blockIds (pre ++ Block.mk cid cargs (before ++ tryOp :: after) ::
        (tryOp.tryBody ++ tryOp.tryCatches ++ tryOp.tryFinallyBlock)))
    (hfresh2 : rw.nextBlock + 1 ∉ blockIds (pre ++
        Block.mk cid cargs (before ++ tryOp :: after) ::
        (tryOp.tryBody ++ tryOp.tryCatches ++ tryOp.tryFinallyBlock))) :
    ∃ ctx1 rw1 bodyPart catchesPart,
      TryOpLowering winException ctx tryOp rw = some (ctx1, rw1) ∧
      rw1.blocks =
        pre ++ Block.mk cid cargs (before ++ [mkBranchOp rw.nextOp bodyFirst.id []]) ::
          (bodyPart ++ catchesPart
           ++ (tryOp.tryFinallyBlock.dropLast ++ [finallyLast.setOps (finallyLast.ops.dropLast ++
                [mkBranchOp (rw.nextOp + 11) rw.nextBlock finallyTerm.operands])])
           ++ Block.mk rw.nextBlock [] after :: post) ∧
      blockIds bodyPart = blockIds tryOp.tryBody ∧
      (∃ bl ops, bodyPart.getLast? = some bl ∧ bl.id = bodyLast.id ∧
        bl.ops = ops ++ [mkBranchOp (rw.nextOp + 2) finallyFirst.id []] ∧
        bodyLast.ops.dropLast <:+ ops) ∧
      (∃ cl ops, catchesPart.getLast? = some cl ∧
        cl.ops = ops ++ [Op.simple (rw.nextOp + 7) OpKind.EndCatchOp [] [] [],
                         mkBranchOp (rw.nextOp + 8) finallyFirst.id []] ∧
        catchesLast.ops.dropLast <:+ ops) := by
  have h := TryOpLowering_eq winException (catchOpsOf tryOp).head?.isSome ctx tryOp rw pre post cid
    cargs before after bodyFirst bodyLast catchesFirst catchesLast finallyFirst finallyLast bodyTerm
    catchesTerm finallyTerm hblocks hib hip hbody1 hbodyL hbodyT hcatches1 hcatchesL hcatchesT
    hfinally1 hfinallyL hfinallyT hbk hck hfk hcatch rfl hres hdist hfresh1 hfresh2
  rw [Region.replaceTerminator_of_getLast? tryOp.tryFinallyBlock _ _ hfinallyL] at h
  refine ⟨_, _, ?bp, ?cp, h, ?heq, ?h1, ?h2, ?h3⟩
  case heq => exact rfl
  case h1 => simp
  case h2 => exact last_of_replaceTerminator_prependOps _ _ _ _ _ hbodyL hbodyT
  case h3 =>
    cases hc : (!winException && (catchOpsOf tryOp).head?.isSome)
    · simp only [Bool.false_eq_true, if_false]
      obtain ⟨bl, ops, h1, _, h3, h4⟩ :=
        last_of_replaceTerminator_prependOps tryOp.tryCatches catchesLast catchesTerm
          [Op.simple (rw.nextOp + 3) OpKind.LandingPadOp
             [Value.opResult (rw.nextOp + 1) 0] [Ty.landingPadTy] [("cleanup", Attr.bool false)],
           Op.simple (rw.nextOp + 6) OpKind.BeginCatchOp
             [Value.opResult (rw.nextOp + 3) 0] [Ty.i8Ptr] []]
          [Op.simple (rw.nextOp + 7) OpKind.EndCatchOp [] [] [],
           mkBranchOp (rw.nextOp + 8) finallyFirst.id []] hcatchesL hcatchesT
      exact ⟨bl, ops, h1, h3, h4⟩
    · simp only [if_true]
      exact last_of_splitFirst _ _ _ _ _ _ _ _ _ _ hcatchesL hcatchesT

/-- Witness of C8: `try { throw X } catch (e) { } finally { counter++ }`. -/
theorem TryOpLowering_yield_branches_witness :
    ∃ ctx1 rw1 bodyPart catchesPart,
      TryOpLowering false TSContext.empty TryExample.tryOp TryExample.rewriter = some (ctx1, rw1) ∧
      rw1.blocks =
        [] ++ Block.mk 0 [] (TryExample.beforeOps ++ [mkBranchOp 100 TryExample.bodyBlock.id []]) ::
          (bodyPart ++ catchesPart
           ++ (TryExample.tryOp.tryFinallyBlock.dropLast ++
                [TryExample.finallyBlock.setOps (TryExample.finallyBlock.ops.dropLast ++
                  [mkBranchOp (100 + 11) 4 (Op.simple 34 OpKind.ResultOp [] [] []).operands])])
           ++ Block.mk 4 [] [] :: []) ∧
      blockIds bodyPart = blockIds TryExample.tryOp.tryBody ∧
      (∃ bl ops, bodyPart.getLast? = some bl ∧ bl.id = TryExample.bodyBlock.id ∧
        bl.ops = ops ++ [mkBranchOp (100 + 2) TryExample.finallyBlock.id []] ∧
        TryExample.bodyBlock.ops.dropLast <:+ ops) ∧
      (∃ cl ops, catchesPart.getLast? = some cl ∧
        cl.ops = ops ++ [Op.simple (100 + 7) OpKind.EndCatchOp [] [] [],
                         mkBranchOp (100 + 8) TryExample.finallyBlock.id []] ∧
        TryExample.catchesBlock.ops.dropLast <:+ ops) :=
  TryOpLowering_yield_branches false TSContext.empty TryExample.tryOp TryExample.rewriter
    [] [] 0 [] TryExample.beforeOps []
    TryExample.bodyBlock TryExample.bodyBlock TryExample.catchesBlock TryExample.catchesBlock
    TryExample.finallyBlock TryExample.finallyBlock
    (Op.simple 11 OpKind.ResultOp [] [] []) (Op.simple 21 OpKind.ResultOp [] [] [])
    (Op.simple 34 OpKind.ResultOp [] [] [])
    rfl rfl rfl rfl rfl rfl rfl rfl rfl rfl rfl rfl rfl rfl rfl (by decide) rfl
    (by decide) (by decide) (by decide)

/-! ## Unwind edges recorded by TryOpLowering -/

/-- Calls, indirect calls and throws: the operations `visitorCallOpContinue` marks. -/
theorem visitorCallOpContinue_unwind (target : BlockId) (ctx : TSContext) (op : Op) (i : OpId) :
    (visitorCallOpContinue target ctx op).unwind i =
      if i = op.id ∧ (op.kind = OpKind.CallOp ∨ op.kind = OpKind.CallIndirectOp ∨
          op.kind = OpKind.ThrowOp) then some target else ctx.unwind i := by
  unfold visitorCallOpContinue
  by_cases hi : i = op.id <;> by_cases h1 : op.kind = OpKind.CallOp <;>
    by_cases h2 : op.kind = OpKind.CallIndirectOp <;> by_cases h3 : op.kind = OpKind.ThrowOp <;>
    simp [hi, h1, h2, h3, setEntry]

theorem visitorCallOpContinue_other (target : BlockId) (ctx : TSContext) (op : Op) :
    (visitorCallOpContinue target ctx op).jumps = ctx.jumps ∧
    (visitorCallOpContinue target ctx op).catchOpData = ctx.catchOpData ∧
    (visitorCallOpContinue target ctx op).returnBlock = ctx.returnBlock := by
  unfold visitorCallOpContinue
  split_ifs <;> simp

theorem foldl_visitorCallOpContinue_other (target : BlockId) (ops : List Op) (ctx : TSContext) :
    (ops.foldl (visitorCallOpContinue target) ctx).jumps = ctx.jumps ∧
    (ops.foldl (visitorCallOpContinue target) ctx).catchOpData = ctx.catchOpData ∧
    (ops.foldl (visitorCallOpContinue target) ctx).returnBlock = ctx.returnBlock := by
  induction ops generalizing ctx with
  | nil => simp
  | cons o ops ih =>
    simp only [List.foldl_cons]
    obtain ⟨h1, h2, h3⟩ := ih (visitorCallOpContinue target ctx o)
    obtain ⟨g1, g2, g3⟩ := visitorCallOpContinue_other target ctx o
    exact ⟨h1.trans g1, h2.trans g2, h3.trans g3⟩

/-- The unwind map after the walk: the target for the identity of every visited
call, indirect call or throw, the old entry for every other identity. -/
theorem foldl_visitorCallOpContinue_unwind (target : BlockId) (ops : List Op) (ctx : TSContext)
    (i : OpId) :
    (ops.foldl (visitorCallOpContinue target) ctx).unwind i =
      if ∃ op ∈ ops, op.id = i ∧ (op.kind = OpKind.CallOp ∨ op.kind = OpKind.CallIndirectOp ∨
          op.kind = OpKind.ThrowOp) then some target else ctx.unwind i := by
  induction ops generalizing ctx with
  | nil => simp
  | cons o ops ih =>
    simp only [List.foldl_cons]
    rw [ih, visitorCallOpContinue_unwind]
    by_cases h1 : ∃ op ∈ ops, op.id = i ∧ (op.kind = OpKind.CallOp ∨
        op.kind = OpKind.CallIndirectOp ∨ op.kind = OpKind.ThrowOp)
    · have h2 : ∃ op ∈ o :: ops, op.id = i ∧ (op.kind = OpKind.CallOp ∨
          op.kind = OpKind.CallIndirectOp ∨ op.kind = OpKind.ThrowOp) := by
        obtain ⟨op, hop, h⟩ := h1
        exact ⟨op, List.mem_cons_of_mem _ hop, h⟩
      rw [if_pos h1, if_pos h2]
    · rw [if_neg h1]
      by_cases h3 : i = o.id ∧ (o.kind = OpKind.CallOp ∨ o.kind = OpKind.CallIndirectOp ∨
          o.kind = OpKind.ThrowOp)
      · have h2 : ∃ op ∈ o :: ops, op.id = i ∧ (op.kind = OpKind.CallOp ∨
            op.kind = OpKind.CallIndirectOp ∨ op.kind = OpKind.ThrowOp) :=
          ⟨o, List.mem_cons_self _ _, h3.1.symm, h3.2⟩
        rw [if_pos h3, if_pos h2]
      · have h2 : ¬ ∃ op ∈ o :: ops, op.id = i ∧ (op.kind = OpKind.CallOp ∨
            op.kind = OpKind.CallIndirectOp ∨ op.kind = OpKind.ThrowOp) := by
          rintro ⟨op, hop, h⟩
          rcases List.mem_cons.mp hop with rfl | hop
          · exact h3 ⟨h.1.symm, h.2⟩
          · exact h1 ⟨op, hop, h⟩
        rw [if_neg h3, if_neg h2]

/-- `TryOpLowering` succeeds on a `try` operation with non-empty regions that end
in yields, and returns the context the walk of the body produces, with the catch
binding added. -/
theorem TryOpLowering_context (winException : Bool) (ctx : TSContext) (tryOp : Op)
    (rw : PatternRewriter)
    (bodyFirst bodyLast catchesFirst catchesLast finallyFirst finallyLast : Block)
    (bodyTerm catchesTerm finallyTerm : Op)
    (hbody1 : tryOp.tryBody.head? = some bodyFirst)
    (hbodyL : tryOp.tryBody.getLast? = some bodyLast)
    (hbodyT : bodyLast.getTerminator = some bodyTerm)
    (hcatches1 : tryOp.tryCatches.head? = some catchesFirst)
    (hcatchesL : tryOp.tryCatches.getLast? = some catchesLast)
    (hcatchesT : catchesLast.getTerminator = some catchesTerm)
    (hfinally1 : tryOp.tryFinallyBlock.head? = some finallyFirst)
    (hfinallyL : tryOp.tryFinallyBlock.getLast? = some finallyLast)
    (hfinallyT : finallyLast.getTerminator = some finallyTerm)
    (hbk : bodyTerm.kind = OpKind.ResultOp) (hck : catchesTerm.kind = OpKind.ResultOp)
    (hfk : finallyTerm.kind = OpKind.ResultOp)
    (hcatch : (catchOpsOf tryOp).length ≤ 1)
    (hres : tryOp.getNumResults = 0) :
    ∃ rw1, TryOpLowering winException ctx tryOp rw = some
      (match (catchOpsOf tryOp).head? with
        | some catchOp =>
          { tryOp.tryBody.walk.foldl (visitorCallOpContinue catchesFirst.id) ctx with
            catchOpData :=
              setEntry (tryOp.tryBody.walk.foldl (visitorCallOpContinue catchesFirst.id)
                ctx).catchOpData catchOp.id (Value.opResult (rw.nextOp + 6) 0) }
        | none => tryOp.tryBody.walk.foldl (visitorCallOpContinue catchesFirst.id) ctx, rw1) := by
  have hlen : ¬ (catchOpsOf tryOp).length > 1 := by omega
  simp only [TryOpLowering, hlen, if_false, hbody1, hbodyL, hbodyT, hcatches1, hcatchesL, hcatchesT,
    hfinally1, hfinallyL, hfinallyT, hbk, hck, hfk, hres, ne_eq, not_true_eq_false]
  exact ⟨_, rfl⟩

/-- C9: `TryOpLowering` succeeds and sets `unwind[op]` to the first block of the
catches region for every call, indirect call and throw nested at any depth in
the body region; the entry of every identity that is not the identity of such an
operation of the body (operations of the catches and finally regions and outside
the try, whose identities differ from those of the body) is left as it was. -/
theorem TryOpLowering_unwind (winException : Bool) (ctx : TSContext) (tryOp : Op)
    (rw : PatternRewriter)
    (bodyFirst bodyLast catchesFirst catchesLast finallyFirst finallyLast : Block)
    (bodyTerm catchesTerm finallyTerm : Op)
    (hbody1 : tryOp.tryBody.head? = some bodyFirst)
    (hbodyL : tryOp.tryBody.getLast? = some bodyLast)
    (hbodyT : bodyLast.getTerminator = some bodyTerm)
    (hcatches1 : tryOp.tryCatches.head? = some catchesFirst)
    (hcatchesL : tryOp.tryCatches.getLast? = some catchesLast)
    (hcatchesT : catchesLast.getTerminator = some catchesTerm)
    (hfinally1 : tryOp.tryFinallyBlock.head? = some finallyFirst)
    (hfinallyL : tryOp.tryFinallyBlock.getLast? = some finallyLast)
    (hfinallyT : finallyLast.getTerminator = some finallyTerm)
    (hbk : bodyTerm.kind = OpKind.ResultOp) (hck : catchesTerm.kind = OpKind.ResultOp)
    (hfk : finallyTerm.kind = OpKind.ResultOp)
    (hcatch : (catchOpsOf tryOp).length ≤ 1)
    (hres : tryOp.getNumResults = 0) :
    ∃ ctx1 rw1, TryOpLowering winException ctx tryOp rw = some (ctx1, rw1) ∧
      (∀ op ∈ tryOp.tryBody.walk,
        (op.kind = OpKind.CallOp ∨ op.kind = OpKind.CallIndirectOp ∨ op.kind = OpKind.ThrowOp) →
        ctx1.unwind op.id = some catchesFirst.id) ∧
      (∀ i : OpId,
        (∀ op ∈ tryOp.tryBody.walk, op.id = i →
          ¬ (op.kind = OpKind.CallOp ∨ op.kind = OpKind.CallIndirectOp ∨
             op.kind = OpKind.ThrowOp)) →
        ctx1.unwind i = ctx.unwind i) ∧
      (∀ op ∈ tryOp.tryCatches.walk ++ tryOp.tryFinallyBlock.walk,
        op.id ∉ tryOp.tryBody.walk.map Op.id → ctx1.unwind op.id = ctx.unwind op.id) := by
  obtain ⟨rw1, h⟩ := TryOpLowering_context winException ctx tryOp rw bodyFirst bodyLast
    catchesFirst catchesLast finallyFirst finallyLast bodyTerm catchesTerm finallyTerm
    hbody1 hbodyL hbodyT hcatches1 hcatchesL hcatchesT hfinally1 hfinallyL hfinallyT hbk hck hfk
    hcatch hres
  have hu : ∀ i, (match (catchOpsOf tryOp).head? with
        | some catchOp =>
          { tryOp.tryBody.walk.foldl (visitorCallOpContinue catchesFirst.id) ctx with
            catchOpData :=
              setEntry (tryOp.tryBody.walk.foldl (visitorCallOpContinue catchesFirst.id)
                ctx).catchOpData catchOp.id (Value.opResult (rw.nextOp + 6) 0) }
        | none => tryOp.tryBody.walk.foldl (visitorCallOpContinue catchesFirst.id) ctx).unwind i
      = (tryOp.tryBody.walk.foldl (visitorCallOpContinue catchesFirst.id) ctx).unwind i := by
    intro i
    cases (catchOpsOf tryOp).head? <;> rfl
  have hnot : ∀ i : OpId,
      (∀ op ∈ tryOp.tryBody.walk, op.id = i →
        ¬ (op.kind = OpKind.CallOp ∨ op.kind = OpKind.CallIndirectOp ∨
           op.kind = OpKind.ThrowOp)) →
      (tryOp.tryBody.walk.foldl (visitorCallOpContinue catchesFirst.id) ctx).unwind i
        = ctx.unwind i := by
    intro i hi
    rw [foldl_visitorCallOpContinue_unwind, if_neg]
    rintro ⟨op, hop, h1, h2⟩
    exact hi op hop h1 h2
  refine ⟨_, rw1, h, ?_, ?_, ?_⟩
  · intro op hop hk
    rw [hu, foldl_visitorCallOpContinue_unwind, if_pos ⟨op, hop, rfl, hk⟩]
  · intro i hi
    rw [hu]
    exact hnot i hi
  · intro op _ hid
    rw [hu]
    apply hnot
    intro op2 hop2 heq _
    exact hid (List.mem_map.mpr ⟨op2, hop2, heq⟩)

/-- Witness of C9: `try { throw X } catch (e) { } finally { counter++ }`. -/
theorem TryOpLowering_unwind_witness :
    ∃ ctx1 rw1,
      TryOpLowering false TSContext.empty TryExample.tryOp TryExample.rewriter = some (ctx1, rw1) ∧
      (∀ op ∈ TryExample.tryOp.tryBody.walk,
        (op.kind = OpKind.CallOp ∨ op.kind = OpKind.CallIndirectOp ∨ op.kind = OpKind.ThrowOp) →
        ctx1.unwind op.id = some TryExample.catchesBlock.id) ∧
      (∀ i : OpId,
        (∀ op ∈ TryExample.tryOp.tryBody.walk, op.id = i →
          ¬ (op.kind = OpKind.CallOp ∨ op.kind = OpKind.CallIndirectOp ∨
             op.kind = OpKind.ThrowOp)) →
        ctx1.unwind i = TSContext.empty.unwind i) ∧
      (∀ op ∈ TryExample.tryOp.tryCatches.walk ++ TryExample.tryOp.tryFinallyBlock.walk,
        op.id ∉ TryExample.tryOp.tryBody.walk.map Op.id →
        ctx1.unwind op.id = TSContext.empty.unwind op.id) :=
  TryOpLowering_unwind false TSContext.empty TryExample.tryOp TryExample.rewriter
    TryExample.bodyBlock TryExample.bodyBlock TryExample.catchesBlock TryExample.catchesBlock
    TryExample.finallyBlock TryExample.finallyBlock
    (Op.simple 11 OpKind.ResultOp [] [] []) (Op.simple 21 OpKind.ResultOp [] [] [])
    (Op.simple 34 OpKind.ResultOp [] [] [])
    rfl rfl rfl rfl rfl rfl rfl rfl rfl rfl rfl rfl (by decide) rfl

/-- The first two blocks of the catches region after the split at the compare:
the entry block keeps the landing pad, the throw info and the compare, followed by
the new operations; the new block starts with the begin-catch. -/
theorem first_of_splitFirst (r : List Block) (first last : Block) (t : Op)
    (a b c d : Op) (T X : List Op) (newBlock : BlockId)
    (h1 : r.head? = some first) (hL : r.getLast? = some last)
    (hT : last.getTerminator = some t) :
    ∃ firstOps rest,
      Region.splitFirst (Region.replaceTerminator (Region.prependOps r [a, b, c, d]) T)
          3 newBlock X
        = Block.mk first.id first.argTypes ([a, b, c] ++ X) ::
            Block.mk newBlock [] (d :: firstOps) :: rest ∧
      first.ops.dropLast <+: firstOps ∧ blockIds rest = blockIds r.tail := by
  have hr := region_eq_of_getLast? _ _ hL
  rw [ops_eq_of_getTerminator _ _ hT] at hr
  generalize r.dropLast = init at hr
  generalize hlo : last.ops.dropLast = o at hr
  subst hr
  cases init with
  | nil =>
    simp at h1
    subst h1
    refine ⟨o ++ T, [], ?_, ?_, ?_⟩
    · simp [Region.prependOps, Region.replaceTerminator_singleton2, Region.splitFirst,
        List.dropLast_cons_of_ne_nil]
    · simp
    · simp
  | cons h tl =>
    simp at h1
    subst h1
    refine ⟨h.ops, tl ++ [Block.mk last.id last.argTypes (o ++ T)], ?_, ?_, ?_⟩
    · simp [Region.prependOps, Region.replaceTerminator_cons_append2, Region.splitFirst]
      cases h; rfl
    · exact List.dropLast_prefix _
    · simp

/-- C10: for a well-formed `try` operation, `TryOpLowering` leaves the original
block, the body blocks, the catches blocks, the finally blocks and the
continuation block (`rw.nextBlock`).  When the catch clause declares an exception
type and the build is not the Windows flavour, the catches entry block consists of
the landing pad, the throw info, the compare, a cast of the compare result and a
conditional branch on it whose true target is the new block `rw.nextBlock + 1`,
which starts with the begin-catch and holds the rest of the entry block, and whose
false target is the continuation block, which is not the first block of the
finally region.  Otherwise the catches blocks are those of the region, with the
landing pad and the begin-catch in front and the end-catch and the branch to the
finally region at the end, and no block is split off. -/
theorem TryOpLowering_catch_type_branch (winException : Bool) (ctx : TSContext) (tryOp : Op)
    (rw : PatternRewriter)
    (pre post : List Block) (cid : BlockId) (cargs : List Ty) (before after : List Op)
    (bodyFirst bodyLast catchesFirst catchesLast finallyFirst finallyLast : Block)
    (bodyTerm catchesTerm finallyTerm : Op)
    (hblocks : rw.blocks = pre ++ Block.mk cid cargs (before ++ tryOp :: after) :: post)
    (hib : rw.insertionBlock = cid) (hip : rw.insertionPoint = before.length)
    (hbody1 : tryOp.tryBody.head? = some bodyFirst)
    (hbodyL : tryOp.tryBody.getLast? = some bodyLast)
    (hbodyT : bodyLast.getTerminator = some bodyTerm)
    (hcatches1 : tryOp.tryCatches.head? = some catchesFirst)
    (hcatchesL : tryOp.tryCatches.getLast? = some catchesLast)
    (hcatchesT : catchesLast.getTerminator = some catchesTerm)
    (hfinally1 : tryOp.tryFinallyBlock.head? = some finallyFirst)
    (hfinallyL : tryOp.tryFinallyBlock.getLast? = some finallyLast)
    (hfinallyT : finallyLast.getTerminator = some finallyTerm)
    (hbk : bodyTerm.kind = OpKind.ResultOp) (hck : catchesTerm.kind = OpKind.ResultOp)
    (hfk : finallyTerm.kind = OpKind.ResultOp)
    (hcatch : (catchOpsOf tryOp).length ≤ 1)
    (hres : tryOp.getNumResults = 0)
    (hdist : (blockIds (pre ++ Block.mk cid cargs (before ++ tryOp :: after) ::
        (tryOp.tryBody ++ tryOp.tryCatches ++ tryOp.tryFinallyBlock))).Nodup)
    (hfresh1 : rw.nextBlock ∉ blockIds (pre ++ Block.mk cid cargs (before ++ tryOp :: after) ::
        (tryOp.tryBody ++ tryOp.tryCatches ++ tryOp.tryFinallyBlock)))
    (hfresh2 : rw.nextBlock + 1 ∉ blockIds (pre ++
        Block.mk cid cargs (before ++ tryOp :: after) ::
        (tryOp.tryBody ++ tryOp.tryCatches ++ tryOp.tryFinallyBlock))) :
    ∃ ctx1 rw1 bodyPart catchesPart finallyPart,
      TryOpLowering winException ctx tryOp rw = some (ctx1, rw1) ∧
      rw1.blocks =
        pre ++ Block.mk cid cargs (before ++ [mkBranchOp rw.nextOp bodyFirst.id []]) ::
          (bodyPart ++ catchesPart ++ finallyPart ++ Block.mk rw.nextBlock [] after :: post) ∧
      blockIds bodyPart = blockIds tryOp.tryBody ∧
      blockIds finallyPart = blockIds tryOp.tryFinallyBlock ∧
      rw.nextBlock ≠ finallyFirst.id ∧
      ((winException = false ∧ (catchOpsOf tryOp).head?.isSome = true) →
        ∃ firstOps rest,
          catchesPart =
            Block.mk catchesFirst.id catchesFirst.argTypes
              [Op.simple (rw.nextOp + 3) OpKind.LandingPadOp
                 [Value.opResult (rw.nextOp + 1) 0] [Ty.landingPadTy]
                 [("cleanup", Attr.bool false)],
               Op.simple (rw.nextOp + 4) OpKind.ThrowInfoPtrOp [] [Ty.i8Ptr] [],
               Op.simple (rw.nextOp + 5) OpKind.CompareCatchTypeOp
                 [Value.opResult (rw.nextOp + 3) 0, Value.opResult (rw.nextOp + 4) 0]
                 [Ty.boolean] [],
               mkCastOp (rw.nextOp + 9) Ty.i1 (Value.opResult (rw.nextOp + 5) 0),
               mkCondBranchOp (rw.nextOp + 10) (Value.opResult (rw.nextOp + 9) 0)
                 (rw.nextBlock + 1) [] rw.nextBlock []] ::
            Block.mk (rw.nextBlock + 1) []
              (Op.simple (rw.nextOp + 6) OpKind.BeginCatchOp
                 [Value.opResult (rw.nextOp + 3) 0] [Ty.i8Ptr] [] :: firstOps) :: rest ∧
          catchesFirst.ops.dropLast <+: firstOps ∧
          blockIds rest = blockIds tryOp.tryCatches.tail) ∧
      (¬ (winException = false ∧ (catchOpsOf tryOp).head?.isSome = true) →
        catchesPart =
          Region.replaceTerminator
            (Region.prependOps tryOp.tryCatches
              [Op.simple (rw.nextOp + 3) OpKind.LandingPadOp
                 [Value.opResult (rw.nextOp + 1) 0] [Ty.landingPadTy]
                 [("cleanup", Attr.bool false)],
               Op.simple (rw.nextOp + 6) OpKind.BeginCatchOp
                 [Value.opResult (rw.nextOp + 3) 0] [Ty.i8Ptr] []])
            [Op.simple (rw.nextOp + 7) OpKind.EndCatchOp [] [] [],
             mkBranchOp (rw.nextOp + 8) finallyFirst.id []] ∧
        blockIds catchesPart = blockIds tryOp.tryCatches) := by
  have h := TryOpLowering_eq winException (catchOpsOf tryOp).head?.isSome ctx tryOp rw pre post cid
    cargs before after bodyFirst bodyLast catchesFirst catchesLast finallyFirst finallyLast bodyTerm
    catchesTerm finallyTerm hblocks hib hip hbody1 hbodyL hbodyT hcatches1 hcatchesL hcatchesT
    hfinally1 hfinallyL hfinallyT hbk hck hfk hcatch rfl hres hdist hfresh1 hfresh2
  have hne : rw.nextBlock ≠ finallyFirst.id := by
    intro heq
    apply hfresh1
    have hmem : finallyFirst ∈ tryOp.tryFinallyBlock := List.mem_of_mem_head? hfinally1
    simp only [blockIds_append, blockIds_cons, List.mem_append, List.mem_cons]
    right; right; right
    rw [heq]
    exact List.mem_map.mpr ⟨finallyFirst, hmem, rfl⟩
  refine ⟨_, _, ?bp, ?cp, ?fp, h, ?heq, ?h1, ?h2, hne, ?h3, ?h4⟩
  case heq => exact rfl
  case h1 => simp
  case h2 => simp
  case h3 =>
    rintro ⟨hw, ht⟩
    simp only [hw, ht, Bool.not_false, Bool.and_self, if_true]
    exact first_of_splitFirst _ _ _ _ _ _ _ _ _ _ _ hcatches1 hcatchesL hcatchesT
  case h4 =>
    intro hn
    have hc : (!winException && (catchOpsOf tryOp).head?.isSome) = false := by
      cases winException <;> cases hh : (catchOpsOf tryOp).head?.isSome <;> simp_all
    simp [hc]

/-- Witness of C10: `try { throw X } catch (e) { } finally { counter++ }`, whose
catch clause declares the catch variable. -/
theorem TryOpLowering_catch_type_branch_witness :
    ∃ ctx1 rw1 bodyPart catchesPart finallyPart,
      TryOpLowering false TSContext.empty TryExample.tryOp TryExample.rewriter = some (ctx1, rw1) ∧
      rw1.blocks =
        [] ++ Block.mk 0 [] (TryExample.beforeOps ++ [mkBranchOp 100 TryExample.bodyBlock.id []]) ::
          (bodyPart ++ catchesPart ++ finallyPart ++ Block.mk 4 [] [] :: []) ∧
      blockIds bodyPart = blockIds TryExample.tryOp.tryBody ∧
      blockIds finallyPart = blockIds TryExample.tryOp.tryFinallyBlock ∧
      (4 : BlockId) ≠ TryExample.finallyBlock.id ∧
      ((false = false ∧ (catchOpsOf TryExample.tryOp).head?.isSome = true) →
        ∃ firstOps rest,
          catchesPart =
            Block.mk TryExample.catchesBlock.id TryExample.catchesBlock.argTypes
              [Op.simple (100 + 3) OpKind.LandingPadOp
                 [Value.opResult (100 + 1) 0] [Ty.landingPadTy]
                 [("cleanup", Attr.bool false)],
               Op.simple (100 + 4) OpKind.ThrowInfoPtrOp [] [Ty.i8Ptr] [],
               Op.simple (100 + 5) OpKind.CompareCatchTypeOp
                 [Value.opResult (100 + 3) 0, Value.opResult (100 + 4) 0]
                 [Ty.boolean] [],
               mkCastOp (100 + 9) Ty.i1 (Value.opResult (100 + 5) 0),
               mkCondBranchOp (100 + 10) (Value.opResult (100 + 9) 0)
                 (4 + 1) [] 4 []] ::
            Block.mk (4 + 1) []
              (Op.simple (100 + 6) OpKind.BeginCatchOp
                 [Value.opResult (100 + 3) 0] [Ty.i8Ptr] [] :: firstOps) :: rest ∧
          TryExample.catchesBlock.ops.dropLast <+: firstOps ∧
          blockIds rest = blockIds TryExample.tryOp.tryCatches.tail) ∧
      (¬ (false = false ∧ (catchOpsOf TryExample.tryOp).head?.isSome = true) →
        catchesPart =
          Region.replaceTerminator
            (Region.prependOps TryExample.tryOp.tryCatches
              [Op.simple (100 + 3) OpKind.LandingPadOp
                 [Value.opResult (100 + 1) 0] [Ty.landingPadTy]
                 [("cleanup", Attr.bool false)],
               Op.simple (100 + 6) OpKind.BeginCatchOp
                 [Value.opResult (100 + 3) 0] [Ty.i8Ptr] []])
            [Op.simple (100 + 7) OpKind.EndCatchOp [] [] [],
             mkBranchOp (100 + 8) TryExample.finallyBlock.id []] ∧
        blockIds catchesPart = blockIds TryExample.tryOp.tryCatches) :=
  TryOpLowering_catch_type_branch false TSContext.empty TryExample.tryOp TryExample.rewriter
    [] [] 0 [] TryExample.beforeOps []
    TryExample.bodyBlock TryExample.bodyBlock TryExample.catchesBlock TryExample.catchesBlock
    TryExample.finallyBlock TryExample.finallyBlock
    (Op.simple 11 OpKind.ResultOp [] [] []) (Op.simple 21 OpKind.ResultOp [] [] [])
    (Op.simple 34 OpKind.ResultOp [] [] [])
    rfl rfl rfl rfl rfl rfl rfl rfl rfl rfl rfl rfl rfl rfl rfl (by decide) rfl
    (by decide) (by decide) (by decide)

/-! ## Paths through the blocks of a lowered `try` -/

/-- Once a path is in the blocks `T ∪ {K}` it stays there until it ends at `K`. -/
theorem path_inside (E : BlockId → BlockId → Prop) (F T : List BlockId) (K : BlockId)
    (hTF : ∀ x ∈ T, x ∈ F)
    (h1 : ∀ u v, E u v → u ∈ F → v ∈ T ∨ v = K) :
    ∀ p : List BlockId, List.Chain' E p → (∀ x, p.head? = some x → x ∈ T ∨ x = K) →
      K ∉ p.dropLast → ∀ x ∈ p, x ∈ T ∨ x = K := by
  intro p
  induction p with
  | nil => intro _ _ _ x hx; simp at hx
  | cons a q ih =>
    intro hch hhead hK x hx
    have ha : a ∈ T ∨ a = K := hhead a rfl
    cases q with
    | nil =>
      simp at hx
      subst hx
      exact ha
    | cons b q2 =>
      rw [List.chain'_cons] at hch
      have hK2 : K ∉ a :: (b :: q2).dropLast := by simpa using hK
      have haK : a ≠ K := fun h => hK2 (by simp [h])
      have haT : a ∈ T := ha.resolve_right haK
      have hb : b ∈ T ∨ b = K := h1 a b hch.1 (hTF a haT)
      rcases List.mem_cons.mp hx with h | h
      · subst h; exact ha
      · exact ih hch.2 (fun y hy => by simp at hy; subst hy; exact hb)
          (fun hmem => hK2 (List.mem_cons_of_mem _ hmem)) x h

/-- A path that starts outside the blocks `F` and ends at its first visit of `K`
visits the entry `f` of `F` exactly once, when `F` is entered only at `f` and
left only towards `K`, and the only edge from outside `F` to `K` is the edge
from `c`, which is there only if `P` holds and which the path does not take. -/
theorem path_outside (E : BlockId → BlockId → Prop) (F T : List BlockId) (f K c : BlockId)
    (P : Prop)
    (hTF : ∀ x ∈ T, x ∈ F) (hF : ∀ x ∈ F, x = f ∨ x ∈ T) (hfF : f ∈ F) (hfT : f ∉ T)
    (hfK : f ≠ K)
    (h1 : ∀ u v, E u v → u ∈ F → v ∈ T ∨ v = K)
    (h2 : ∀ u v, E u v → u ∉ F → v ∉ T ∧ (v = K → u = c ∧ P)) :
    ∀ p : List BlockId, List.Chain' E p → (∀ x, p.head? = some x → x ∉ F ∧ x ≠ K) →
      p.getLast? = some K → K ∉ p.dropLast → (P → p.dropLast.getLast? ≠ some c) →
      p.count f = 1 := by
  intro p
  induction p with
  | nil => intro _ _ hl; simp at hl
  | cons a q ih =>
    intro hch hhead hlast hK hc
    have ha : a ∉ F ∧ a ≠ K := hhead a rfl
    cases q with
    | nil =>
      simp at hlast
      exact absurd hlast ha.2
    | cons b q2 =>
      rw [List.chain'_cons] at hch
      have hK2 : K ∉ a :: (b :: q2).dropLast := by simpa using hK
      have haf : a ≠ f := fun h => ha.1 (h ▸ hfF)
      have hcount : (a :: b :: q2).count f = (b :: q2).count f := by
        rw [List.count_cons_of_ne (Ne.symm haf)]
      rw [hcount]
      have hlast2 : (b :: q2).getLast? = some K := by
        simpa [List.getLast?_cons_cons] using hlast
      have hedge := h2 a b hch.1 ha.1
      by_cases hbF : b ∈ F
      · -- the path enters `F`: at `f`, and stays inside until `K`
        have hbf : b = f := (hF b hbF).resolve_right hedge.1
        subst hbf
        cases q2 with
        | nil =>
          simp at hlast2
          exact absurd hlast2 hfK
        | cons d q3 =>
          rw [List.chain'_cons] at hch
          have hK3 : K ∉ b :: (d :: q3).dropLast := by
            intro hmem
            exact hK2 (List.mem_cons_of_mem _ (by simpa using hmem))
          have hd : d ∈ T ∨ d = K := h1 b d hch.2.1 hbF
          have hin := path_inside E F T K hTF h1 (d :: q3) hch.2.2
            (fun y hy => by simp at hy; subst hy; exact hd)
            (fun hmem => hK3 (List.mem_cons_of_mem _ hmem))
          have hzero : (d :: q3).count b = 0 := by
            rw [List.count_eq_zero]
            intro hmem
            rcases hin b hmem with h | h
            · exact hfT h
            · exact hfK h
          rw [List.count_cons_self, hzero]
      · -- the next block is outside `F`
        have hbK : b ≠ K := by
          intro h
          subst h
          cases q2 with
          | nil =>
            apply hc (hedge.2 rfl).2
            simp
            exact (hedge.2 rfl).1
          | cons d q3 =>
            apply hK2
            simp
        exact ih hch.2 (fun y hy => by simp at hy; subst hy; exact ⟨hbF, hbK⟩) hlast2
          (fun hmem => hK2 (List.mem_cons_of_mem _ hmem))
          (by
            intro hP h
            apply hc hP
            cases q2 with
            | nil => simp at hlast2; exact absurd hlast2 hbK
            | cons d q3 =>
              simpa [List.dropLast, List.getLast?_cons_cons] using h)

/-! ## Operations and edges of the blocks of a lowered region -/

theorem mem_walkOps (x : Op) (l : List Op) : x ∈ walkOps l ↔ ∃ o ∈ l, x ∈ walkOp o := by
  induction l with
  | nil => simp [walkOps]
  | cons a l ih => simp [walkOps, ih]

theorem mem_walkBlocks (x : Op) (r : List Block) :
    x ∈ walkBlocks r ↔ ∃ b ∈ r, x ∈ walkOps b.ops := by
  induction r with
  | nil => simp [walkBlocks]
  | cons a r ih =>
    cases a with
    | mk i ts ops => simp [walkBlocks, walkBlock, ih]

theorem walkOp_of_no_regions (o : Op) (h : o.regions = []) : walkOp o = [o] := by
  cases o with
  | mk i k os ts as ss rs =>
    simp only [Op.regions] at h
    subst h
    simp [walkOp, walkRegions]

theorem mem_explicitSuccessors (b : Block) (v : BlockId) :
    v ∈ b.explicitSuccessors ↔ ∃ o ∈ b.ops, ∃ s ∈ o.successors, s.1 = v := by
  simp [Block.explicitSuccessors]

theorem mem_unwindSuccessors (ctx : TSContext) (b : Block) (v : BlockId) :
    v ∈ b.unwindSuccessors ctx ↔
      ∃ o ∈ walkOps b.ops, o.mayUnwind = true ∧ ctx.unwind o.id = some v := by
  simp [Block.unwindSuccessors, List.mem_filterMap, and_assoc]

/-- The successors of a block whose operations come from a block `b0` or from a
list of new operations without regions that cannot unwind. -/
theorem successors_of_ops_subset (ctx : TSContext) (b b0 : Block) (New : List Op)
    (P : BlockId → Prop)
    (hsub : ∀ o ∈ b.ops, o ∈ b0.ops ∨ o ∈ New)
    (h0 : ∀ v, (v ∈ b0.explicitSuccessors ∨ v ∈ b0.unwindSuccessors ctx) → P v)
    (hNE : ∀ o ∈ New, ∀ s ∈ o.successors, P s.1)
    (hNU : ∀ o ∈ New, o.regions = [] ∧ o.mayUnwind = false) :
    ∀ v, (v ∈ b.explicitSuccessors ∨ v ∈ b.unwindSuccessors ctx) → P v := by
  intro v hv
  rcases hv with hv | hv
  · rw [mem_explicitSuccessors] at hv
    obtain ⟨o, ho, s, hs, rfl⟩ := hv
    rcases hsub o ho with h | h
    · exact h0 _ (Or.inl ((mem_explicitSuccessors _ _).mpr ⟨o, h, s, hs, rfl⟩))
    · exact hNE o h s hs
  · rw [mem_unwindSuccessors] at hv
    obtain ⟨x, hx, hu, hv⟩ := hv
    rw [mem_walkOps] at hx
    obtain ⟨o, ho, hxo⟩ := hx
    rcases hsub o ho with h | h
    · exact h0 _ (Or.inr ((mem_unwindSuccessors _ _ _).mpr
        ⟨x, (mem_walkOps _ _).mpr ⟨o, h, hxo⟩, hu, hv⟩))
    · rw [walkOp_of_no_regions o (hNU o h).1] at hxo
      simp at hxo
      subst hxo
      rw [(hNU x h).2] at hu
      exact absurd hu (by decide)

/-- A block of a region whose terminator was replaced comes from a block of the
region with the same identity; its operations are operations of that block or
the new ones. -/
theorem mem_replaceTerminator (r : List Block) (T : List Op) (b : Block)
    (h : b ∈ Region.replaceTerminator r T) :
    ∃ b0 ∈ r, b.id = b0.id ∧ ∀ o ∈ b.ops, o ∈ b0.ops ∨ o ∈ T := by
  unfold Region.replaceTerminator at h
  cases hl : r.getLast? with
  | none =>
    rw [hl] at h
    exact ⟨b, h, rfl, fun o ho => Or.inl ho⟩
  | some last =>
    rw [hl] at h
    simp only [List.mem_append, List.mem_singleton] at h
    rcases h with h | h
    · exact ⟨b, List.mem_of_mem_dropLast h, rfl, fun o ho => Or.inl ho⟩
    · subst h
      refine ⟨last, List.mem_of_mem_getLast? hl, rfl, ?_⟩
      intro o ho
      simp only [Block.setOps_ops, List.mem_append] at ho
      rcases ho with ho | ho
      · exact Or.inl (List.mem_of_mem_dropLast ho)
      · exact Or.inr ho

theorem mem_prependOps (r : List Block) (P : List Op) (b : Block)
    (h : b ∈ Region.prependOps r P) :
    ∃ b0 ∈ r, b.id = b0.id ∧ ∀ o ∈ b.ops, o ∈ b0.ops ∨ o ∈ P := by
  cases r with
  | nil => simp [Region.prependOps] at h
  | cons first rest =>
    simp only [Region.prependOps, List.mem_cons] at h
    rcases h with h | h
    · subst h
      refine ⟨first, by simp, rfl, ?_⟩
      intro o ho
      simp only [Block.setOps_ops, List.mem_append] at ho
      exact ho.symm
    · exact ⟨b, by simp [h], rfl, fun o ho => Or.inl ho⟩

/-- A block of a region whose first block was split: the entry block with the
new operations, the new block, or another block of the region. -/
theorem mem_splitFirst (r : List Block) (pos : Nat) (nb : BlockId) (X : List Op) (b : Block)
    (h : b ∈ Region.splitFirst r pos nb X) :
    ∃ b0 ∈ r, (∀ o ∈ b.ops, o ∈ b0.ops ∨ o ∈ X) ∧
      ((b.id = b0.id ∧ r.head? = some b0) ∨ (b.id = nb ∧ ∀ o ∈ b.ops, o ∈ b0.ops) ∨
       (b = b0 ∧ b ∈ r.tail)) := by
  cases r with
  | nil => simp [Region.splitFirst] at h
  | cons first rest =>
    simp only [Region.splitFirst, List.mem_cons] at h
    rcases h with h | h | h
    · subst h
      refine ⟨first, by simp, ?_, Or.inl ⟨rfl, rfl⟩⟩
      intro o ho
      simp only [Block.setOps_ops, List.mem_append] at ho
      rcases ho with ho | ho
      · exact Or.inl (List.mem_of_mem_take ho)
      · exact Or.inr ho
    · subst h
      refine ⟨first, by simp, ?_, Or.inr (Or.inl ⟨rfl, ?_⟩)⟩
      · intro o ho
        exact Or.inl (List.mem_of_mem_drop ho)
      · intro o ho
        exact List.mem_of_mem_drop ho
    · exact ⟨b, by simp [h], fun o ho => Or.inl ho, Or.inr (Or.inr ⟨rfl, h⟩)⟩

theorem mem_lowered_region (r : List Block) (P T : List Op) (b : Block)
    (h : b ∈ Region.replaceTerminator (Region.prependOps r P) T) :
    ∃ b0 ∈ r, b.id = b0.id ∧ ∀ o ∈ b.ops, o ∈ b0.ops ∨ o ∈ P ++ T := by
  obtain ⟨b1, hb1, hid1, hops1⟩ := mem_replaceTerminator _ _ _ h
  obtain ⟨b0, hb0, hid0, hops0⟩ := mem_prependOps _ _ _ hb1
  refine ⟨b0, hb0, hid1.trans hid0, ?_⟩
  intro o ho
  rcases hops1 o ho with h1 | h1
  · rcases hops0 o h1 with h0 | h0
    · exact Or.inl h0
    · exact Or.inr (List.mem_append_left _ h0)
  · exact Or.inr (List.mem_append_right _ h1)

theorem head?_id_of_blockIds_eq (r s : List Block) (a b : Block) (h : blockIds r = blockIds s)
    (hr : r.head? = some a) (hs : s.head? = some b) : a.id = b.id := by
  cases r with
  | nil => simp at hr
  | cons x r =>
    cases s with
    | nil => simp at hs
    | cons y s =>
      simp only [List.head?_cons, Option.some.injEq] at hr hs
      subst hr
      subst hs
      simp only [blockIds_cons, List.cons.injEq] at h
      exact h.1

theorem mem_lowered_split (r : List Block) (P T X : List Op) (pos : Nat) (nb : BlockId)
    (first b : Block) (hfirst : r.head? = some first)
    (h : b ∈ Region.splitFirst (Region.replaceTerminator (Region.prependOps r P) T) pos nb X) :
    ∃ b0 ∈ r,
      (b.id = first.id ∧ ∀ o ∈ b.ops, o ∈ b0.ops ∨ o ∈ (P ++ T) ++ X) ∨
      ((b.id = b0.id ∨ b.id = nb) ∧ ∀ o ∈ b.ops, o ∈ b0.ops ∨ o ∈ P ++ T) := by
  obtain ⟨b1, hb1, hops1, hcase⟩ := mem_splitFirst _ _ _ _ _ h
  obtain ⟨b0, hb0, hid0, hops0⟩ := mem_lowered_region _ _ _ _ hb1
  refine ⟨b0, hb0, ?_⟩
  rcases hcase with ⟨hid, hhead⟩ | ⟨hid, hsub⟩ | ⟨heq, _⟩
  · left
    refine ⟨?_, ?_⟩
    · rw [hid]
      exact head?_id_of_blockIds_eq _ r b1 first (by simp) hhead hfirst
    · intro o ho
      rcases hops1 o ho with h1 | h1
      · rcases hops0 o h1 with h0 | h0
        · exact Or.inl h0
        · exact Or.inr (List.mem_append_left _ h0)
      · exact Or.inr (List.mem_append_right _ h1)
  · right
    exact ⟨Or.inr hid, fun o ho => hops0 o (hsub o ho)⟩
  · right
    subst heq
    exact ⟨Or.inl hid0, hops0⟩

/-- The finally region is passed exactly once when the blocks of the finally
region branch only into its tail or to the continuation, and the other blocks
never branch into the tail and reach the continuation only from the catch
dispatch block, and from there only if `P` holds (there is a compare of the
catch type). -/
theorem finally_once_of_edges (ctx1 : TSContext) (G : List Block) (F T : List BlockId)
    (f K c : BlockId) (P : Prop)
    (hTF : ∀ x ∈ T, x ∈ F) (hF : ∀ x ∈ F, x = f ∨ x ∈ T) (hfF : f ∈ F) (hfT : f ∉ T)
    (hfK : f ≠ K)
    (hA : ∀ b ∈ G, ∀ v, (v ∈ b.explicitSuccessors ∨ v ∈ b.unwindSuccessors ctx1) →
      (b.id ∈ F → v ∈ T ∨ v = K) ∧ (b.id ∉ F → v ∉ T ∧ (v = K → b.id = c ∧ P))) :
    ∀ p : List BlockId, IsPath ctx1 G p → (∀ x, p.head? = some x → x ∉ F ∧ x ≠ K) →
      p.getLast? = some K → K ∉ p.dropLast → (P → p.dropLast.getLast? ≠ some c) →
      p.count f = 1 := by
  intro p hp
  refine path_outside (Edge ctx1 G) F T f K c P hTF hF hfF hfT hfK ?_ ?_ p hp
  · rintro u v ⟨b, hb, rfl, hv⟩ hu
    exact (hA b hb v hv).1 hu
  · rintro u v ⟨b, hb, rfl, hv⟩ hu
    exact (hA b hb v hv).2 hu

theorem outside_block_edges (ctx1 : TSContext) (F T : List BlockId) (K : BlockId)
    (hTF : ∀ x ∈ T, x ∈ F)
    (hU : ∀ i v, ctx1.unwind i = some v → v ∉ F ∧ v ≠ K)
    (b b0 : Block) (New : List Op)
    (hsub : ∀ o ∈ b.ops, o ∈ b0.ops ∨ o ∈ New)
    (h0E : ∀ v ∈ b0.explicitSuccessors, v ∉ F ∧ v ≠ K)
    (hNE : ∀ o ∈ New, ∀ s ∈ o.successors, s.1 ∉ T ∧ s.1 ≠ K)
    (hNU : ∀ o ∈ New, o.regions = [] ∧ o.mayUnwind = false) :
    ∀ v, (v ∈ b.explicitSuccessors ∨ v ∈ b.unwindSuccessors ctx1) → v ∉ T ∧ v ≠ K := by
  refine successors_of_ops_subset ctx1 b b0 New (fun v => v ∉ T ∧ v ≠ K) hsub ?_ hNE hNU
  intro v hv
  rcases hv with hv | hv
  · exact ⟨fun h => (h0E v hv).1 (hTF v h), (h0E v hv).2⟩
  · rw [mem_unwindSuccessors] at hv
    obtain ⟨o, _, _, hov⟩ := hv
    exact ⟨fun h => (hU _ _ hov).1 (hTF v h), (hU _ _ hov).2⟩

theorem finally_block_edges (ctx1 : TSContext) (T : List BlockId) (K : BlockId)
    (b b0 : Block) (New : List Op)
    (hsub : ∀ o ∈ b.ops, o ∈ b0.ops ∨ o ∈ New)
    (h0E : ∀ v ∈ b0.explicitSuccessors, v ∈ T)
    (h0U : ∀ o ∈ walkOps b0.ops, o.mayUnwind = true → ctx1.unwind o.id = none)
    (hNE : ∀ o ∈ New, ∀ s ∈ o.successors, s.1 = K)
    (hNU : ∀ o ∈ New, o.regions = [] ∧ o.mayUnwind = false) :
    ∀ v, (v ∈ b.explicitSuccessors ∨ v ∈ b.unwindSuccessors ctx1) → v ∈ T ∨ v = K := by
  refine successors_of_ops_subset ctx1 b b0 New (fun v => v ∈ T ∨ v = K) hsub ?_
    (fun o ho s hs => Or.inr (hNE o ho s hs)) hNU
  intro v hv
  rcases hv with hv | hv
  · exact Or.inl (h0E v hv)
  · rw [mem_unwindSuccessors] at hv
    obtain ⟨o, ho, hu, hov⟩ := hv
    rw [h0U o ho hu] at hov
    exact absurd hov (by simp)

theorem blockIds_eq_cons_tail (r : List Block) (first : Block) (h : r.head? = some first) :
    blockIds r = first.id :: blockIds r.tail := by
  cases r with
  | nil => simp at h
  | cons a r =>
    simp only [List.head?_cons, Option.some.injEq] at h
    subst h
    simp

theorem mem_blockIds_of_mem (r : List Block) (b : Block) (h : b ∈ r) : b.id ∈ blockIds r :=
  List.mem_map.mpr ⟨b, h, rfl⟩

theorem mem_blockIds_of_head? (r : List Block) (b : Block) (h : r.head? = some b) :
    b.id ∈ blockIds r :=
  mem_blockIds_of_mem r b (List.mem_of_mem_head? h)

/-- The path property of the blocks produced by `TryOpLowering`, for a try whose
regions are entered at their first block and left through their yield only.  A
path is excluded only where the lowering has made a compare of the catch type
(not the Windows flavour, and a catch clause that declares a type), and then
only if it arrives at the continuation from the catch dispatch block, that is
by the false edge of the conditional branch on the compare. -/
theorem TryOpLowering_paths_through_finally (winException : Bool) (ctx : TSContext) (tryOp : Op)
    (rw : PatternRewriter)
    (pre post : List Block) (cid : BlockId) (cargs : List Ty) (before after : List Op)
    (bodyFirst bodyLast catchesFirst catchesLast finallyFirst finallyLast : Block)
    (bodyTerm catchesTerm finallyTerm : Op)
    (hblocks : rw.blocks = pre ++ Block.mk cid cargs (before ++ tryOp :: after) :: post)
    (hib : rw.insertionBlock = cid) (hip : rw.insertionPoint = before.length)
    (hbody1 : tryOp.tryBody.head? = some bodyFirst)
    (hbodyL : tryOp.tryBody.getLast? = some bodyLast)
    (hbodyT : bodyLast.getTerminator = some bodyTerm)
    (hcatches1 : tryOp.tryCatches.head? = some catchesFirst)
    (hcatchesL : tryOp.tryCatches.getLast? = some catchesLast)
    (hcatchesT : catchesLast.getTerminator = some catchesTerm)
    (hfinally1 : tryOp.tryFinallyBlock.head? = some finallyFirst)
    (hfinallyL : tryOp.tryFinallyBlock.getLast? = some finallyLast)
    (hfinallyT : finallyLast.getTerminator = some finallyTerm)
    (hbk : bodyTerm.kind = OpKind.ResultOp) (hck : catchesTerm.kind = OpKind.ResultOp)
    (hfk : finallyTerm.kind = OpKind.ResultOp)
    (hcatch : (catchOpsOf tryOp).length ≤ 1)
    (hres : tryOp.getNumResults = 0)
    (hdist : (blockIds (pre ++ Block.mk cid cargs (before ++ tryOp :: after) ::
        (tryOp.tryBody ++ tryOp.tryCatches ++ tryOp.tryFinallyBlock))).Nodup)
    (hfresh1 : rw.nextBlock ∉ blockIds (pre ++ Block.mk cid cargs (before ++ tryOp :: after) ::
        (tryOp.tryBody ++ tryOp.tryCatches ++ tryOp.tryFinallyBlock)))
    (hfresh2 : rw.nextBlock + 1 ∉ blockIds (pre ++
        Block.mk cid cargs (before ++ tryOp :: after) ::
        (tryOp.tryBody ++ tryOp.tryCatches ++ tryOp.tryFinallyBlock)))
    (hpost : ∀ b ∈ post, b.id ∉ blockIds tryOp.tryFinallyBlock)
    (hfinE : ∀ b ∈ tryOp.tryFinallyBlock, ∀ v ∈ b.explicitSuccessors,
        v ∈ blockIds tryOp.tryFinallyBlock.tail)
    (hfinU : ∀ op ∈ tryOp.tryFinallyBlock.walk, op.mayUnwind = true →
        ctx.unwind op.id = none ∧ op.id ∉ tryOp.tryBody.walk.map Op.id)
    (hisoE : ∀ b ∈ rw.blocks ++ tryOp.tryBody ++ tryOp.tryCatches, ∀ v ∈ b.explicitSuccessors,
        v ∉ blockIds tryOp.tryFinallyBlock ∧ v ≠ rw.nextBlock)
    (hisoU : ∀ i v, ctx.unwind i = some v →
        v ∉ blockIds tryOp.tryFinallyBlock ∧ v ≠ rw.nextBlock) :
    ∃ ctx1 rw1, TryOpLowering winException ctx tryOp rw = some (ctx1, rw1) ∧
      ∀ p : List BlockId, IsPath ctx1 rw1.blocks p →
        (p.head? = some cid ∨ p.head? = some bodyFirst.id) →
        p.getLast? = some rw.nextBlock → rw.nextBlock ∉ p.dropLast →
        ((winException = false ∧ (catchOpsOf tryOp).head?.isSome = true) →
          p.dropLast.getLast? ≠ some catchesFirst.id) →
        p.count finallyFirst.id = 1 := by
  have h := TryOpLowering_eq winException (catchOpsOf tryOp).head?.isSome ctx tryOp rw
    pre post cid cargs before after
    bodyFirst bodyLast catchesFirst catchesLast finallyFirst finallyLast
    bodyTerm catchesTerm finallyTerm hblocks hib hip
    hbody1 hbodyL hbodyT hcatches1 hcatchesL hcatchesT hfinally1 hfinallyL hfinallyT hbk hck hfk
    hcatch rfl hres hdist hfresh1 hfresh2
  have hFeq := blockIds_eq_cons_tail _ _ hfinally1
  have hbF := mem_blockIds_of_head? _ _ hbody1
  have hcF := mem_blockIds_of_head? _ _ hcatches1
  have hd := hdist
  simp [List.nodup_append, List.nodup_cons, blockIds] at hd
  obtain ⟨_, ⟨⟨_, _, hFc⟩, _, ⟨_, hFnd, hCFd⟩, _, hBFd⟩, _, _, _, hPFd⟩ := hd
  have hf1 := hfresh1
  simp [blockIds] at hf1
  obtain ⟨_, hKc, hKB, hKC, hKF⟩ := hf1
  have hf2 := hfresh2
  simp [blockIds] at hf2
  obtain ⟨_, _, _, _, hK1F⟩ := hf2
  -- the finally region: its first block, and the rest
  have hTF : ∀ x ∈ blockIds tryOp.tryFinallyBlock.tail, x ∈ blockIds tryOp.tryFinallyBlock := by
    rw [hFeq]
    exact fun x hx => List.mem_cons_of_mem _ hx
  have hF : ∀ x ∈ blockIds tryOp.tryFinallyBlock,
      x = finallyFirst.id ∨ x ∈ blockIds tryOp.tryFinallyBlock.tail := by
    rw [hFeq]
    exact fun x hx => List.mem_cons.mp hx
  have hfF : finallyFirst.id ∈ blockIds tryOp.tryFinallyBlock := mem_blockIds_of_head? _ _ hfinally1
  have hfT : finallyFirst.id ∉ blockIds tryOp.tryFinallyBlock.tail := by
    have h2 : (blockIds tryOp.tryFinallyBlock).Nodup := hFnd
    rw [hFeq] at h2
    exact (List.nodup_cons.mp h2).1
  have hfK : finallyFirst.id ≠ rw.nextBlock := hKF _ (List.mem_of_mem_head? hfinally1)
  have hnotF : ∀ (r : List Block), (List.map Block.id r).Disjoint
      (List.map Block.id tryOp.tryFinallyBlock) → ∀ b0 ∈ r, b0.id ∉ blockIds tryOp.tryFinallyBlock :=
    fun r hr b0 hb0 hin => hr (List.mem_map.mpr ⟨b0, hb0, rfl⟩) hin
  have hcidF : cid ∉ blockIds tryOp.tryFinallyBlock := by
    intro hin
    obtain ⟨x, hx, hxe⟩ := List.mem_map.mp hin
    exact hFc x hx hxe
  have hKnF : rw.nextBlock ∉ blockIds tryOp.tryFinallyBlock := by
    intro hin
    obtain ⟨x, hx, hxe⟩ := List.mem_map.mp hin
    exact hKF x hx hxe
  have hK1nF : rw.nextBlock + 1 ∉ blockIds tryOp.tryFinallyBlock := by
    intro hin
    obtain ⟨x, hx, hxe⟩ := List.mem_map.mp hin
    exact hK1F x hx hxe
  have hcnF : catchesFirst.id ∉ blockIds tryOp.tryFinallyBlock :=
    hnotF _ hCFd _ (List.mem_of_mem_head? hcatches1)
  have hbnF : bodyFirst.id ∉ blockIds tryOp.tryFinallyBlock :=
    hnotF _ hBFd _ (List.mem_of_mem_head? hbody1)
  have hcK : catchesFirst.id ≠ rw.nextBlock := hKC _ (List.mem_of_mem_head? hcatches1)
  -- the result of the lowering
  rcases hres1 : TryOpLowering winException ctx tryOp rw with _ | ⟨ctx1, rw1⟩
  · rw [hres1] at h
    exact absurd h (by simp)
  rw [hres1] at h
  simp only [Option.some.injEq, Prod.mk.injEq] at h
  obtain ⟨hc1, hr1⟩ := h
  have hcu : ctx1.unwind =
      (tryOp.tryBody.walk.foldl (visitorCallOpContinue catchesFirst.id) ctx).unwind := by
    rw [hc1]
    cases (catchOpsOf tryOp).head? <;> rfl
  have hU : ∀ i v, ctx1.unwind i = some v →
      v ∉ blockIds tryOp.tryFinallyBlock ∧ v ≠ rw.nextBlock := by
    intro i v hiv
    rw [hcu, foldl_visitorCallOpContinue_unwind] at hiv
    split_ifs at hiv
    · cases hiv
      exact ⟨hcnF, hcK⟩
    · exact hisoU i v hiv
  have hUfin : ∀ b0 ∈ tryOp.tryFinallyBlock, ∀ o ∈ walkOps b0.ops, o.mayUnwind = true →
      ctx1.unwind o.id = none := by
    intro b0 hb0 o ho hu
    have hw : o ∈ tryOp.tryFinallyBlock.walk := (mem_walkBlocks _ _).mpr ⟨b0, hb0, ho⟩
    obtain ⟨hn, hid⟩ := hfinU o hw hu
    rw [hcu, foldl_visitorCallOpContinue_unwind, if_neg, hn]
    rintro ⟨op, hop, he, _⟩
    exact hid (List.mem_map.mpr ⟨op, hop, he⟩)
  have hbK : bodyFirst.id ≠ rw.nextBlock := hKB _ (List.mem_of_mem_head? hbody1)
  refine ⟨ctx1, rw1, rfl, ?_⟩
  clear hc1
  intro p hp hhead hlast hK hc
  refine finally_once_of_edges ctx1 rw1.blocks _ _ finallyFirst.id rw.nextBlock catchesFirst.id
    (winException = false ∧ (catchOpsOf tryOp).head?.isSome = true)
    hTF hF hfF hfT hfK ?_ p hp ?_ hlast hK hc
  · intro b hb v hv
    have hout : b.id ∉ blockIds tryOp.tryFinallyBlock →
        (v ∉ blockIds tryOp.tryFinallyBlock.tail ∧ v ≠ rw.nextBlock) →
        (b.id ∈ blockIds tryOp.tryFinallyBlock →
          v ∈ blockIds tryOp.tryFinallyBlock.tail ∨ v = rw.nextBlock) ∧
        (b.id ∉ blockIds tryOp.tryFinallyBlock →
          v ∉ blockIds tryOp.tryFinallyBlock.tail ∧ (v = rw.nextBlock → b.id = catchesFirst.id ∧
            (winException = false ∧ (catchOpsOf tryOp).head?.isSome = true))) :=
      fun hn hq => ⟨fun hin => absurd hin hn, fun _ => ⟨hq.1, fun e => absurd e hq.2⟩⟩
    rw [hr1] at hb
    simp only [List.mem_append, List.mem_cons] at hb
    rcases hb with hb | hb | (((hb | hb) | hb) | hb | hb)
    · -- a block before the one that held the try
      exact hout (hnotF _ hPFd b hb) (outside_block_edges ctx1 _ _ _ hTF hU b b []
        (fun o ho => Or.inl ho) (hisoE b (by rw [hblocks]; simp [hb])) (by simp) (by simp) v hv)
    · -- the block that held the try, now ending in the branch into the body
      subst hb
      refine hout hcidF (outside_block_edges ctx1 _ _ _ hTF hU _
        (Block.mk cid cargs (before ++ tryOp :: after)) [mkBranchOp rw.nextOp bodyFirst.id []]
        ?_ (hisoE _ (by rw [hblocks]; simp)) ?_ ?_ v hv)
      · intro o ho
        simp only [Block.ops_mk, List.mem_append, List.mem_cons] at ho ⊢
        rcases ho with ho | ho
        · exact Or.inl (Or.inl ho)
        · exact Or.inr ho
      · intro o ho s hs
        simp only [List.mem_singleton] at ho
        subst ho
        simp only [mkBranchOp, Op.term, Op.successors, List.mem_singleton] at hs
        subst hs
        exact ⟨fun hin => hbnF (hTF _ hin), hbK⟩
      · intro o ho
        simp only [List.mem_singleton] at ho
        subst ho
        exact ⟨rfl, rfl⟩
    · -- a block of the body
      obtain ⟨b0, hb0, hid, hsub⟩ := mem_lowered_region _ _ _ _ hb
      refine hout (hid ▸ hnotF _ hBFd b0 hb0) (outside_block_edges ctx1 _ _ _ hTF hU b b0 _ hsub
        (hisoE b0 (by simp [hb0])) ?_ ?_ v hv)
      · intro o ho s hs
        simp only [List.mem_append, List.mem_singleton] at ho
        rcases ho with ho | ho
        · subst ho
          split_ifs at hs <;> simp [Op.simple, Op.successors] at hs
        · subst ho
          simp only [mkBranchOp, Op.term, Op.successors, List.mem_singleton] at hs
          subst hs
          exact ⟨hfT, hfK⟩
      · intro o ho
        simp only [List.mem_append, List.mem_singleton] at ho
        rcases ho with ho | ho
        · subst ho
          split_ifs <;> exact ⟨rfl, rfl⟩
        · subst ho
          exact ⟨rfl, rfl⟩
    · -- a block of the catches
      split_ifs at hb with hcond
      · obtain ⟨b0, hb0, hcase⟩ := mem_lowered_split _ _ _ _ _ _ catchesFirst b hcatches1 hb
        have h0 := outside_block_edges ctx1 _ _ _ hTF hU b0 b0 []
          (fun o ho => Or.inl ho) (hisoE b0 (by simp [hb0])) (by simp) (by simp)
        rcases hcase with ⟨hid, hsub⟩ | ⟨hid, hsub⟩
        · -- the catch dispatch block, ending in the conditional branch
          have hP : winException = false ∧ (catchOpsOf tryOp).head?.isSome = true := by
            simpa using hcond
          refine ⟨fun hin => absurd (hid ▸ hin) hcnF, fun _ => ⟨?_, fun _ => ⟨hid, hP⟩⟩⟩
          refine successors_of_ops_subset ctx1 b b0 _
            (fun v => v ∉ blockIds tryOp.tryFinallyBlock.tail) hsub
            (fun w hw => (h0 w hw).1) ?_ ?_ v hv
          · intro o ho s hs
            simp only [List.mem_append, List.mem_cons, List.mem_singleton, List.not_mem_nil,
              or_false] at ho
            rcases ho with ((ho | ho | ho | ho) | ho | ho) | ho | ho <;> subst ho <;>
              simp only [mkBranchOp, mkCondBranchOp, mkCastOp, Op.simple, Op.term, Op.successors,
                List.mem_singleton, List.mem_cons, List.not_mem_nil, or_false] at hs
            · subst hs
              exact hfT
            · rcases hs with hs | hs <;> subst hs
              · exact fun hin => hK1nF (hTF _ hin)
              · exact fun hin => hKnF (hTF _ hin)
          · intro o ho
            simp only [List.mem_append, List.mem_cons, List.mem_singleton, List.not_mem_nil,
              or_false] at ho
            rcases ho with ((ho | ho | ho | ho) | ho | ho) | ho | ho <;> subst ho <;>
              exact ⟨rfl, rfl⟩
        · -- the rest of the catch body
          have hidF : b.id ∉ blockIds tryOp.tryFinallyBlock := by
            rcases hid with hid | hid
            · exact hid ▸ hnotF _ hCFd b0 hb0
            · exact hid ▸ hK1nF
          refine hout hidF (outside_block_edges ctx1 _ _ _ hTF hU b b0 _ hsub
            (hisoE b0 (by simp [hb0])) ?_ ?_ v hv)
          · intro o ho s hs
            simp only [List.mem_append, List.mem_cons, List.mem_singleton, List.not_mem_nil,
              or_false] at ho
            rcases ho with (ho | ho | ho | ho) | ho | ho <;> subst ho <;>
              simp only [mkBranchOp, Op.simple, Op.term, Op.successors,
                List.mem_singleton, List.not_mem_nil] at hs
            subst hs
            exact ⟨hfT, hfK⟩
          · intro o ho
            simp only [List.mem_append, List.mem_cons, List.mem_singleton, List.not_mem_nil,
              or_false] at ho
            rcases ho with (ho | ho | ho | ho) | ho | ho <;> subst ho <;> exact ⟨rfl, rfl⟩
      · obtain ⟨b0, hb0, hid, hsub⟩ := mem_lowered_region _ _ _ _ hb
        refine hout (hid ▸ hnotF _ hCFd b0 hb0) (outside_block_edges ctx1 _ _ _ hTF hU b b0 _
          hsub (hisoE b0 (by simp [hb0])) ?_ ?_ v hv)
        · intro o ho s hs
          simp only [List.mem_append, List.mem_cons, List.mem_singleton, List.not_mem_nil,
            or_false] at ho
          rcases ho with (ho | ho) | ho | ho <;> subst ho <;>
            simp only [mkBranchOp, Op.simple, Op.term, Op.successors,
              List.mem_singleton, List.not_mem_nil] at hs
          subst hs
          exact ⟨hfT, hfK⟩
        · intro o ho
          simp only [List.mem_append, List.mem_cons, List.mem_singleton, List.not_mem_nil,
            or_false] at ho
          rcases ho with (ho | ho) | ho | ho <;> subst ho <;> exact ⟨rfl, rfl⟩
    · -- a block of the finally region
      obtain ⟨b0, hb0, hid, hsub⟩ := mem_replaceTerminator _ _ _ hb
      refine ⟨fun _ => finally_block_edges ctx1 _ _ b b0 _ hsub (hfinE b0 hb0) (hUfin b0 hb0)
        ?_ ?_ v hv, fun hn => absurd (hid ▸ mem_blockIds_of_mem _ _ hb0) hn⟩
      · intro o ho s hs
        simp only [List.mem_singleton] at ho
        subst ho
        simp only [mkBranchOp, Op.term, Op.successors, List.mem_singleton] at hs
        subst hs
        rfl
      · intro o ho
        simp only [List.mem_singleton] at ho
        subst ho
        exact ⟨rfl, rfl⟩
    · -- the continuation block
      subst hb
      refine hout hKnF (outside_block_edges ctx1 _ _ _ hTF hU _
        (Block.mk cid cargs (before ++ tryOp :: after)) []
        ?_ (hisoE _ (by rw [hblocks]; simp)) (by simp) (by simp) v hv)
      intro o ho
      simp only [Block.ops_mk, List.mem_append, List.mem_cons] at ho ⊢
      exact Or.inl (Or.inr (Or.inr ho))
    · -- a block after the one that held the try
      exact hout (hpost b hb) (outside_block_edges ctx1 _ _ _ hTF hU b b []
        (fun o ho => Or.inl ho) (hisoE b (by rw [hblocks]; simp [hb])) (by simp) (by simp) v hv)
  · intro x hx
    rcases hhead with h1 | h1
    · rw [h1] at hx
      cases hx
      exact ⟨hcidF, fun e => hKc e.symm⟩
    · rw [h1] at hx
      cases hx
      exact ⟨hbnF, hbK⟩

/-- C7: in the blocks produced by `TryOpLowering`, for a try whose finally region
is entered at its first block only and left through its yield only, and whose
body and catches do not branch into the finally region or to the continuation,
every path from the block ending in the branch into the body (or from the first
block of the body) that ends at its first visit of the continuation block
passes the first block of the finally region exactly once.  A path is excepted
only where the lowering has made a compare of the catch type (the build is not
the Windows flavour and the catch clause declares a type), and only if it
arrives at the continuation from the catch dispatch block, whose one edge to
the continuation is the false edge of the conditional branch on the compare.
The lowered `try { throw X } catch (e) { } finally { counter++ }`, run with a
thrown value that matches the catch type, and the lowered
`try { } finally { counter++ }` enter the finally block once and leave the
counter at 1; so does the first of them lowered in the Windows flavour, which
has no compare, whether or not the type matches. -/
theorem try_finally_exactly_once :
    (∀ (winException : Bool) (ctx : TSContext) (tryOp : Op) (rw : PatternRewriter)
        (pre post : List Block) (cid : BlockId) (cargs : List Ty) (before after : List Op)
        (bodyFirst bodyLast catchesFirst catchesLast finallyFirst finallyLast : Block)
        (bodyTerm catchesTerm finallyTerm : Op),
      rw.blocks = pre ++ Block.mk cid cargs (before ++ tryOp :: after) :: post →
      rw.insertionBlock = cid →
      rw.insertionPoint = before.length →
      tryOp.tryBody.head? = some bodyFirst →
      tryOp.tryBody.getLast? = some bodyLast →
      bodyLast.getTerminator = some bodyTerm →
      tryOp.tryCatches.head? = some catchesFirst →
      tryOp.tryCatches.getLast? = some catchesLast →
      catchesLast.getTerminator = some catchesTerm →
      tryOp.tryFinallyBlock.head? = some finallyFirst →
      tryOp.tryFinallyBlock.getLast? = some finallyLast →
      finallyLast.getTerminator = some finallyTerm →
      bodyTerm.kind = OpKind.ResultOp →
      catchesTerm.kind = OpKind.ResultOp →
      finallyTerm.kind = OpKind.ResultOp →
      (catchOpsOf tryOp).length ≤ 1 →
      tryOp.getNumResults = 0 →
      (blockIds (pre ++ Block.mk cid cargs (before ++ tryOp :: after) ::
        (tryOp.tryBody ++ tryOp.tryCatches ++ tryOp.tryFinallyBlock))).Nodup →
      rw.nextBlock ∉ blockIds (pre ++ Block.mk cid cargs (before ++ tryOp :: after) ::
        (tryOp.tryBody ++ tryOp.tryCatches ++ tryOp.tryFinallyBlock)) →
      rw.nextBlock + 1 ∉ blockIds (pre ++
        Block.mk cid cargs (before ++ tryOp :: after) ::
        (tryOp.tryBody ++ tryOp.tryCatches ++ tryOp.tryFinallyBlock)) →
      (∀ b ∈ post, b.id ∉ blockIds tryOp.tryFinallyBlock) →
      (∀ b ∈ tryOp.tryFinallyBlock, ∀ v ∈ b.explicitSuccessors,
        v ∈ blockIds tryOp.tryFinallyBlock.tail) →
      (∀ op ∈ tryOp.tryFinallyBlock.walk, op.mayUnwind = true →
        ctx.unwind op.id = none ∧ op.id ∉ tryOp.tryBody.walk.map Op.id) →
      (∀ b ∈ rw.blocks ++ tryOp.tryBody ++ tryOp.tryCatches, ∀ v ∈ b.explicitSuccessors,
        v ∉ blockIds tryOp.tryFinallyBlock ∧ v ≠ rw.nextBlock) →
      (∀ i v, ctx.unwind i = some v →
        v ∉ blockIds tryOp.tryFinallyBlock ∧ v ≠ rw.nextBlock) →
      ∃ ctx1 rw1, TryOpLowering winException ctx tryOp rw = some (ctx1, rw1) ∧
      ∀ p : List BlockId, IsPath ctx1 rw1.blocks p →
        (p.head? = some cid ∨ p.head? = some bodyFirst.id) →
        p.getLast? = some rw.nextBlock → rw.nextBlock ∉ p.dropLast →
        ((winException = false ∧ (catchOpsOf tryOp).head?.isSome = true) →
          p.dropLast.getLast? ≠ some catchesFirst.id) →
        p.count finallyFirst.id = 1) ∧
    (∃ ctx1 rw1 st,
      TryOpLowering false TSContext.empty TryExample.tryOp TryExample.rewriter = some (ctx1, rw1) ∧
      runCFG ⟨ctx1.unwind, true⟩ rw1.blocks 4 10 0 ExecState.init = some st ∧
      st.trace = [0, 1, 2, 5, 3] ∧ IsPath ctx1 rw1.blocks [0, 1, 2, 5, 3, 4] ∧
      st.trace.count TryExample.finallyBlock.id = 1 ∧
      st.mem TryExample.counterVar = some 1) ∧
    (∃ ctx1 rw1 st,
      TryOpLowering false TSContext.empty TryExample.tryFinallyOp TryExample.rewriterFinally
        = some (ctx1, rw1) ∧
      runCFG ⟨ctx1.unwind, true⟩ rw1.blocks 4 10 0 ExecState.init = some st ∧
      st.trace = [0, 1, 3] ∧ IsPath ctx1 rw1.blocks [0, 1, 3, 4] ∧
      st.trace.count TryExample.finallyBlock.id = 1 ∧
      st.mem TryExample.counterVar = some 1) ∧
    (∀ typeMatches : Bool, ∃ ctx1 rw1 st,
      TryOpLowering true TSContext.empty TryExample.tryOp TryExample.rewriter = some (ctx1, rw1) ∧
      runCFG ⟨ctx1.unwind, typeMatches⟩ rw1.blocks 4 10 0 ExecState.init = some st ∧
      st.trace = [0, 1, 2, 3] ∧ IsPath ctx1 rw1.blocks [0, 1, 2, 3, 4] ∧
      st.trace.count TryExample.finallyBlock.id = 1 ∧
      st.mem TryExample.counterVar = some 1) :=
  ⟨TryOpLowering_paths_through_finally,
   ⟨_, _, _, rfl, rfl, rfl,
    by simp only [IsPath, List.chain'_cons, List.chain'_singleton, and_true]; decide, rfl, rfl⟩,
   ⟨_, _, _, rfl, rfl, rfl,
    by simp only [IsPath, List.chain'_cons, List.chain'_singleton, and_true]; decide, rfl, rfl⟩,
   fun typeMatches => by
    cases typeMatches <;>
      exact ⟨_, _, _, rfl, rfl, rfl,
        by simp only [IsPath, List.chain'_cons, List.chain'_singleton, and_true]; decide,
        rfl, rfl⟩⟩

/-- Witness of C7: `try { throw X } catch (e) { } finally { counter++ }` lowered
in the Windows flavour, where no compare is made and no path is excepted. -/
theorem try_finally_exactly_once_witness :
    ∃ ctx1 rw1,
      TryOpLowering true TSContext.empty TryExample.tryOp TryExample.rewriter = some (ctx1, rw1) ∧
      ∀ p : List BlockId, IsPath ctx1 rw1.blocks p →
        (p.head? = some 0 ∨ p.head? = some TryExample.bodyBlock.id) →
        p.getLast? = some 4 → (4 : BlockId) ∉ p.dropLast →
        ((true = false ∧ (catchOpsOf TryExample.tryOp).head?.isSome = true) →
          p.dropLast.getLast? ≠ some TryExample.catchesBlock.id) →
        p.count TryExample.finallyBlock.id = 1 :=
  try_finally_exactly_once.1 true TSContext.empty TryExample.tryOp TryExample.rewriter
    [] [] 0 [] TryExample.beforeOps []
    TryExample.bodyBlock TryExample.bodyBlock TryExample.catchesBlock TryExample.catchesBlock
    TryExample.finallyBlock TryExample.finallyBlock
    (Op.simple 11 OpKind.ResultOp [] [] []) (Op.simple 21 OpKind.ResultOp [] [] [])
    (Op.simple 34 OpKind.ResultOp [] [] [])
    rfl rfl rfl rfl rfl rfl rfl rfl rfl rfl rfl rfl rfl rfl rfl (by decide) rfl
    (by decide) (by decide) (by decide)
    (by simp) (by decide) (by decide) (by decide) (by simp [TSContext.empty])

/-- In the Windows flavour, and for a catch clause without a type, every path
counts: the statement of C7 without the exception, for the two examples. -/
theorem try_finally_every_path :
    (∃ ctx1 rw1,
      TryOpLowering true TSContext.empty TryExample.tryOp TryExample.rewriter = some (ctx1, rw1) ∧
      ∀ p : List BlockId, IsPath ctx1 rw1.blocks p → p.head? = some 0 →
        p.getLast? = some 4 → (4 : BlockId) ∉ p.dropLast →
        p.count TryExample.finallyBlock.id = 1) ∧
    (∃ ctx1 rw1,
      TryOpLowering false TSContext.empty TryExample.tryFinallyOp TryExample.rewriterFinally
        = some (ctx1, rw1) ∧
      ∀ p : List BlockId, IsPath ctx1 rw1.blocks p → p.head? = some 0 →
        p.getLast? = some 4 → (4 : BlockId) ∉ p.dropLast →
        p.count TryExample.finallyBlock.id = 1) := by
  constructor
  · obtain ⟨ctx1, rw1, h, hp⟩ := TryOpLowering_paths_through_finally true TSContext.empty
      TryExample.tryOp TryExample.rewriter
      [] [] 0 [] TryExample.beforeOps []
      TryExample.bodyBlock TryExample.bodyBlock TryExample.catchesBlock TryExample.catchesBlock
      TryExample.finallyBlock TryExample.finallyBlock
      (Op.simple 11 OpKind.ResultOp [] [] []) (Op.simple 21 OpKind.ResultOp [] [] [])
      (Op.simple 34 OpKind.ResultOp [] [] [])
      rfl rfl rfl rfl rfl rfl rfl rfl rfl rfl rfl rfl rfl rfl rfl (by decide) rfl
      (by decide) (by decide) (by decide)
      (by simp) (by decide) (by decide) (by decide) (by simp [TSContext.empty])
    exact ⟨ctx1, rw1, h, fun p h1 h2 h3 h4 =>
      hp p h1 (Or.inl h2) h3 h4 (fun hc => absurd hc.1 (by decide))⟩
  · obtain ⟨ctx1, rw1, h, hp⟩ := TryOpLowering_paths_through_finally false TSContext.empty
      TryExample.tryFinallyOp TryExample.rewriterFinally
      [] [] 0 [] TryExample.beforeOps []
      TryExample.emptyBodyBlock TryExample.emptyBodyBlock TryExample.emptyCatchesBlock
      TryExample.emptyCatchesBlock
      TryExample.finallyBlock TryExample.finallyBlock
      (Op.simple 11 OpKind.ResultOp [] [] []) (Op.simple 21 OpKind.ResultOp [] [] [])
      (Op.simple 34 OpKind.ResultOp [] [] [])
      rfl rfl rfl rfl rfl rfl rfl rfl rfl rfl rfl rfl rfl rfl rfl (by decide) rfl
      (by decide) (by decide) (by decide)
      (by simp) (by decide) (by decide) (by decide) (by simp [TSContext.empty])
    exact ⟨ctx1, rw1, h, fun p h1 h2 h3 h4 =>
      hp p h1 (Or.inl h2) h3 h4 (fun hc => absurd hc.2 (by decide))⟩

/-! ## WhileOpLowering and DoWhileOpLowering -/

/-- The blocks `WhileOpLowering` leaves behind, and the context it returns, for a
well-formed `while` operation: the `cond` and `body` regions sit between the
original block and the continuation block, with their terminators replaced by
branches. -/
theorem WhileOpLowering_eq (ctx : TSContext) (whileOp : Op) (rw : PatternRewriter)
    (pre post : List Block) (cid : BlockId) (cargs : List Ty) (before after : List Op)
    (cond body condLast bodyLast : Block) (condTerm bodyTerm : Op)
    (c : Value) (args : List Value)
    (hblocks : rw.blocks = pre ++ Block.mk cid cargs (before ++ whileOp :: after) :: post)
    (hib : rw.insertionBlock = cid) (hip : rw.insertionPoint = before.length)
    (hcond1 : whileOp.whileCond.head? = some cond)
    (hcondL : whileOp.whileCond.getLast? = some condLast)
    (hcondT : condLast.getTerminator = some condTerm)
    (hbody1 : whileOp.whileBody.head? = some body)
    (hbodyL : whileOp.whileBody.getLast? = some bodyLast)
    (hbodyT : bodyLast.getTerminator = some bodyTerm)
    (hck : condTerm.kind = OpKind.ConditionOp) (hco : condTerm.operands = c :: args)
    (hbk : bodyTerm.kind = OpKind.ResultOp)
    (hres : whileOp.getNumResults = args.length)
    (hdist : (blockIds (pre ++ Block.mk cid cargs (before ++ whileOp :: after) ::
        (whileOp.whileCond ++ whileOp.whileBody))).Nodup)
    (hfresh : rw.nextBlock ∉ blockIds (pre ++ Block.mk cid cargs (before ++ whileOp :: after) ::
        (whileOp.whileCond ++ whileOp.whileBody))) :
    WhileOpLowering ctx whileOp rw = some
      (whileOp.whileBody.walk.foldl
          (visitorBreakContinue whileOp.labelAttr rw.nextBlock cond.id) ctx,
       { blocks := replaceUsesBlocks (whileOp.results.zip args)
          (pre ++ Block.mk cid cargs (before ++ [mkBranchOp rw.nextOp cond.id whileOp.operands]) ::
            (Region.replaceTerminator whileOp.whileCond
                [mkCastOp (rw.nextOp + 1) Ty.i1 c,
                 mkCondBranchOp (rw.nextOp + 2) (Value.opResult (rw.nextOp + 1) 0)
                   body.id args rw.nextBlock []]
             ++ Region.replaceTerminator whileOp.whileBody
                  [mkBranchOp (rw.nextOp + 3) cond.id bodyTerm.operands]
             ++ Block.mk rw.nextBlock [] after :: post))
         insertionBlock := rw.insertionBlock
         insertionPoint := rw.insertionPoint
         nextBlock := rw.nextBlock + 1
         nextOp := rw.nextOp + 4 }) := by
  have hcond := region_eq_of_getLast? _ _ hcondL
  have hbody := region_eq_of_getLast? _ _ hbodyL
  rw [ops_eq_of_getTerminator _ _ hcondT] at hcond
  rw [ops_eq_of_getTerminator _ _ hbodyT] at hbody
  generalize whileOp.whileCond.dropLast = condInit at hcond
  generalize whileOp.whileBody.dropLast = bodyInit at hbody
  generalize condLast.ops.dropLast = condOps at hcond
  generalize bodyLast.ops.dropLast = bodyOps at hbody
  simp only [WhileOpLowering, hcond1, hbody1, hcondL, hbodyL, hcondT, hbodyT, hck, hco, hbk, hres,
    ne_eq, not_true_eq_false, if_false]
  congr 2
  simp only [PatternRewriter.replaceOp, PatternRewriter.eraseOp, PatternRewriter.replaceAllUsesWith,
    PatternRewriter.replaceTerminator, PatternRewriter.createAtEnd, PatternRewriter.inlineRegionBefore,
    PatternRewriter.splitBlock, hblocks, hib, hip]
  rw [hcond, hbody] at hdist hfresh
  rw [hbody] at hbody1
  rw [hcond] at hcond1
  rw [hcond, hbody]
  cases bodyInit <;> cases condInit <;>
  · simp at hbody1 hcond1
    subst hbody1 hcond1
    simp [List.nodup_append, List.nodup_cons] at hdist hfresh
    simp [modifyBlock_append_of_not_mem, modifyBlock_cons_eq, modifyBlock_cons_ne,
      modifyBlock_cons_ne2, Region.replaceTerminator_append_singleton,
      Region.replaceTerminator_singleton, Region.replaceTerminator_cons_append, hdist, hfresh]

/-- The blocks `DoWhileOpLowering` leaves behind, and the context it returns,
for a well-formed `do-while` operation: the `body` region comes first, then the
`cond` region, between the original block and the continuation block. -/
theorem DoWhileOpLowering_eq (ctx : TSContext) (doWhileOp : Op) (rw : PatternRewriter)
    (pre post : List Block) (cid : BlockId) (cargs : List Ty) (before after : List Op)
    (cond body condLast bodyLast : Block) (condTerm bodyTerm : Op)
    (c : Value) (args : List Value)
    (hblocks : rw.blocks = pre ++ Block.mk cid cargs (before ++ doWhileOp :: after) :: post)
    (hib : rw.insertionBlock = cid) (hip : rw.insertionPoint = before.length)
    (hcond1 : doWhileOp.doWhileCond.head? = some cond)
    (hcondL : doWhileOp.doWhileCond.getLast? = some condLast)
    (hcondT : condLast.getTerminator = some condTerm)
    (hbody1 : doWhileOp.doWhileBody.head? = some body)
    (hbodyL : doWhileOp.doWhileBody.getLast? = some bodyLast)
    (hbodyT : bodyLast.getTerminator = some bodyTerm)
    (hck : condTerm.kind = OpKind.ConditionOp) (hco : condTerm.operands = c :: args)
    (hbk : bodyTerm.kind = OpKind.ResultOp)
    (hres : doWhileOp.getNumResults = args.length)
    (hdist : (blockIds (pre ++ Block.mk cid cargs (before ++ doWhileOp :: after) ::
        (doWhileOp.doWhileBody ++ doWhileOp.doWhileCond))).Nodup)
    (hfresh : rw.nextBlock ∉ blockIds (pre ++ Block.mk cid cargs (before ++ doWhileOp :: after) ::
        (doWhileOp.doWhileBody ++ doWhileOp.doWhileCond))) :
    DoWhileOpLowering ctx doWhileOp rw = some
      (doWhileOp.doWhileBody.walk.foldl
          (visitorBreakContinue doWhileOp.labelAttr rw.nextBlock cond.id) ctx,
       { blocks := replaceUsesBlocks (doWhileOp.results.zip args)
          (pre ++ Block.mk cid cargs
              (before ++ [mkBranchOp rw.nextOp body.id doWhileOp.operands]) ::
            (Region.replaceTerminator doWhileOp.doWhileBody
                  [mkBranchOp (rw.nextOp + 1) cond.id bodyTerm.operands]
             ++ Region.replaceTerminator doWhileOp.doWhileCond
                [mkCastOp (rw.nextOp + 2) Ty.i1 c,
                 mkCondBranchOp (rw.nextOp + 3) (Value.opResult (rw.nextOp + 2) 0)
                   body.id args rw.nextBlock []]
             ++ Block.mk rw.nextBlock [] after :: post))
         insertionBlock := rw.insertionBlock
         insertionPoint := rw.insertionPoint
         nextBlock := rw.nextBlock + 1
         nextOp := rw.nextOp + 4 }) := by
  have hcond := region_eq_of_getLast? _ _ hcondL
  have hbody := region_eq_of_getLast? _ _ hbodyL
  rw [ops_eq_of_getTerminator _ _ hcondT] at hcond
  rw [ops_eq_of_getTerminator _ _ hbodyT] at hbody
  generalize doWhileOp.doWhileCond.dropLast = condInit at hcond
  generalize doWhileOp.doWhileBody.dropLast = bodyInit at hbody
  generalize condLast.ops.dropLast = condOps at hcond
  generalize bodyLast.ops.dropLast = bodyOps at hbody
  simp only [DoWhileOpLowering, hcond1, hbody1, hcondL, hbodyL, hcondT, hbodyT, hck, hco, hbk,
    hres, ne_eq, not_true_eq_false, if_false]
  congr 2
  simp only [PatternRewriter.replaceOp, PatternRewriter.eraseOp, PatternRewriter.replaceAllUsesWith,
    PatternRewriter.replaceTerminator, PatternRewriter.createAtEnd, PatternRewriter.inlineRegionBefore,
    PatternRewriter.splitBlock, hblocks, hib, hip]
  rw [hcond, hbody] at hdist hfresh
  rw [hbody] at hbody1
  rw [hcond] at hcond1
  rw [hcond, hbody]
  cases bodyInit <;> cases condInit <;>
  · simp at hbody1 hcond1
    subst hbody1 hcond1
    simp [List.nodup_append, List.nodup_cons] at hdist hfresh
    simp [modifyBlock_append_of_not_mem, modifyBlock_cons_eq, modifyBlock_cons_ne,
      modifyBlock_cons_ne2, Region.replaceTerminator_append_singleton,
      Region.replaceTerminator_singleton, Region.replaceTerminator_cons_append, hdist, hfresh]

/-- C11: for a well-formed `while` operation (regions non-empty, `cond` ending in
a `condition` terminator with condition `c` and arguments `args`, `body` ending
in a yield, block identities distinct and the split-off continuation block new),
`WhileOpLowering` succeeds and leaves these blocks: the original block ends in a
branch to the first block of `cond` carrying the loop inits; the last block of
`cond` ends in a cast of the condition and a conditional branch with true target
the first block of `body`, carrying the arguments of the condition, and false
target the continuation block (`rw.nextBlock`); the last block of `body` ends in
a branch to the first block of `cond` carrying the yielded values.  The results
of the loop are replaced by the arguments of the condition everywhere. -/
theorem WhileOpLowering_branch_structure (ctx : TSContext) (whileOp : Op) (rw : PatternRewriter)
    (pre post : List Block) (cid : BlockId) (cargs : List Ty) (before after : List Op)
    (cond body condLast bodyLast : Block) (condTerm bodyTerm : Op)
    (c : Value) (args : List Value)
    (hblocks : rw.blocks = pre ++ Block.mk cid cargs (before ++ whileOp :: after) :: post)
    (hib : rw.insertionBlock = cid) (hip : rw.insertionPoint = before.length)
    (hcond1 : whileOp.whileCond.head? = some cond)
    (hcondL : whileOp.whileCond.getLast? = some condLast)
    (hcondT : condLast.getTerminator = some condTerm)
    (hbody1 : whileOp.whileBody.head? = some body)
    (hbodyL : whileOp.whileBody.getLast? = some bodyLast)
    (hbodyT : bodyLast.getTerminator = some bodyTerm)
    (hck : condTerm.kind = OpKind.ConditionOp) (hco : condTerm.operands = c :: args)
    (hbk : bodyTerm.kind = OpKind.ResultOp)
    (hres : whileOp.getNumResults = args.length)
    (hdist : (blockIds (pre ++ Block.mk cid cargs (before ++ whileOp :: after) ::
        (whileOp.whileCond ++ whileOp.whileBody))).Nodup)
    (hfresh : rw.nextBlock ∉ blockIds (pre ++ Block.mk cid cargs (before ++ whileOp :: after) ::
        (whileOp.whileCond ++ whileOp.whileBody))) :
    ∃ ctx1 rw1, WhileOpLowering ctx whileOp rw = some (ctx1, rw1) ∧
      rw1.blocks = replaceUsesBlocks (whileOp.results.zip args)
        (pre ++ Block.mk cid cargs (before ++ [mkBranchOp rw.nextOp cond.id whileOp.operands]) ::
          (whileOp.whileCond.dropLast ++ [condLast.setOps (condLast.ops.dropLast ++
                [mkCastOp (rw.nextOp + 1) Ty.i1 c,
                 mkCondBranchOp (rw.nextOp + 2) (Value.opResult (rw.nextOp + 1) 0)
                   body.id args rw.nextBlock []])]
           ++ (whileOp.whileBody.dropLast ++ [bodyLast.setOps (bodyLast.ops.dropLast ++
                [mkBranchOp (rw.nextOp + 3) cond.id bodyTerm.operands])])
           ++ Block.mk rw.nextBlock [] after :: post)) := by
  refine ⟨_, _, WhileOpLowering_eq ctx whileOp rw pre post cid cargs before after cond body
    condLast bodyLast condTerm bodyTerm c args hblocks hib hip
    hcond1 hcondL hcondT hbody1 hbodyL hbodyT hck hco hbk hres hdist hfresh, ?_⟩
  simp [Region.replaceTerminator, hcondL, hbodyL]

/-- Witness of C11: the loop `while (i < 3) { counter++; i++ }`. -/
theorem WhileOpLowering_branch_structure_witness :
    ∃ ctx1 rw1, WhileOpLowering TSContext.empty (WhileExample.whileOp 3) (WhileExample.rewriter 3)
        = some (ctx1, rw1) ∧
      rw1.blocks = replaceUsesBlocks ((WhileExample.whileOp 3).results.zip [])
        ([] ++ Block.mk 0 [] (CountingLoop.entryOps ++ [mkBranchOp 100 1 []]) ::
          ([] ++ [(CountingLoop.condBlock 3).setOps ((CountingLoop.condBlock 3).ops.dropLast ++
                  [mkCastOp 101 Ty.i1 (Value.opResult 12 0),
                   mkCondBranchOp 102 (Value.opResult 101 0) 2 [] 4 []])]
           ++ ([] ++ [WhileExample.bodyBlock.setOps
                (WhileExample.bodyBlock.ops.dropLast ++ [mkBranchOp 103 1 []])])
           ++ Block.mk 4 [] [] :: [])) :=
  WhileOpLowering_branch_structure TSContext.empty (WhileExample.whileOp 3)
    (WhileExample.rewriter 3) [] [] 0 [] CountingLoop.entryOps []
    (CountingLoop.condBlock 3) WhileExample.bodyBlock
    (CountingLoop.condBlock 3) WhileExample.bodyBlock
    (Op.simple 13 OpKind.ConditionOp [Value.opResult 12 0] [] [])
    (Op.simple 24 OpKind.ResultOp [] [] [])
    (Value.opResult 12 0) []
    rfl rfl rfl rfl rfl rfl rfl rfl rfl rfl rfl rfl rfl (by decide) (by decide)

/-- The walk leaves the entry of an identity as it was when no visited operation
with that identity is taken by the construct. -/
theorem foldl_visitorBreakContinue_jumps_of_no_match (label : Option String) (bt ct : BlockId)
    (ops : List Op) (ctx : TSContext) (i : OpId)
    (h : ∀ o ∈ ops, o.id = i → matchLabelOrNotSet label o.labelAttr = false) :
    (ops.foldl (visitorBreakContinue label bt ct) ctx).jumps i = ctx.jumps i := by
  induction ops generalizing ctx with
  | nil => rfl
  | cons o ops ih =>
    simp only [List.foldl_cons]
    rw [ih _ (fun o2 ho2 => h o2 (List.mem_cons_of_mem _ ho2))]
    by_cases hi : i = o.id
    · have hm := h o (List.mem_cons_self _ _) hi.symm
      simp [visitorBreakContinue, hm]
    · exact visitorBreakContinue_jumps_of_ne label bt ct ctx o i hi

theorem eq_of_mem_of_id_eq (ops : List Op) (hnd : (ops.map Op.id).Nodup) (a b : Op)
    (ha : a ∈ ops) (hb : b ∈ ops) (h : a.id = b.id) : a = b :=
  List.inj_on_of_nodup_map hnd ha hb h

theorem matchLabelOrNotSet_of_set_ne (loopLabel : Option String) (l : String)
    (h : loopLabel ≠ some l) : matchLabelOrNotSet loopLabel (some l) = false := by
  simp [matchLabelOrNotSet, h]

/-- `WhileOpLowering` succeeds on a `while` operation with non-empty regions and
the expected terminators, and returns the context the walk of the body produces. -/
theorem WhileOpLowering_context (ctx : TSContext) (whileOp : Op) (rw : PatternRewriter)
    (cond body condLast bodyLast : Block) (condTerm bodyTerm : Op)
    (c : Value) (args : List Value)
    (hcond1 : whileOp.whileCond.head? = some cond)
    (hcondL : whileOp.whileCond.getLast? = some condLast)
    (hcondT : condLast.getTerminator = some condTerm)
    (hbody1 : whileOp.whileBody.head? = some body)
    (hbodyL : whileOp.whileBody.getLast? = some bodyLast)
    (hbodyT : bodyLast.getTerminator = some bodyTerm)
    (hck : condTerm.kind = OpKind.ConditionOp) (hco : condTerm.operands = c :: args)
    (hbk : bodyTerm.kind = OpKind.ResultOp)
    (hres : whileOp.getNumResults = args.length) :
    ∃ rw1, WhileOpLowering ctx whileOp rw = some
      (whileOp.whileBody.walk.foldl
          (visitorBreakContinue whileOp.labelAttr rw.nextBlock cond.id) ctx, rw1) := by
  simp only [WhileOpLowering, hcond1, hbody1, hcondL, hbodyL, hcondT, hbodyT, hck, hco, hbk, hres,
    ne_eq, not_true_eq_false, if_false]
  exact ⟨_, rfl⟩

/-- C12: `WhileOpLowering` succeeds and records in `jumps` the continuation block
(`rw.nextBlock`, the block split off for the operations after the loop) for
every `break` nested at any depth in the body whose label is unset or equals the
label of the loop, and the first block of `cond` for every such `continue`; the
entry of a `break` or `continue` of the body whose label is set and differs from
the label of the loop is left as it was. -/
theorem WhileOpLowering_jumps (ctx : TSContext) (whileOp : Op) (rw : PatternRewriter)
    (cond body condLast bodyLast : Block) (condTerm bodyTerm : Op)
    (c : Value) (args : List Value)
    (hcond1 : whileOp.whileCond.head? = some cond)
    (hcondL : whileOp.whileCond.getLast? = some condLast)
    (hcondT : condLast.getTerminator = some condTerm)
    (hbody1 : whileOp.whileBody.head? = some body)
    (hbodyL : whileOp.whileBody.getLast? = some bodyLast)
    (hbodyT : bodyLast.getTerminator = some bodyTerm)
    (hck : condTerm.kind = OpKind.ConditionOp) (hco : condTerm.operands = c :: args)
    (hbk : bodyTerm.kind = OpKind.ResultOp)
    (hres : whileOp.getNumResults = args.length)
    (hops : (whileOp.whileBody.walk.map Op.id).Nodup) :
    ∃ ctx1 rw1, WhileOpLowering ctx whileOp rw = some (ctx1, rw1) ∧
      (∀ op ∈ whileOp.whileBody.walk, op.kind = OpKind.BreakOp →
        (op.labelAttr = none ∨ op.labelAttr = whileOp.labelAttr) →
        ctx1.jumps op.id = some rw.nextBlock) ∧
      (∀ op ∈ whileOp.whileBody.walk, op.kind = OpKind.ContinueOp →
        (op.labelAttr = none ∨ op.labelAttr = whileOp.labelAttr) →
        ctx1.jumps op.id = some cond.id) ∧
      (∀ op ∈ whileOp.whileBody.walk, (op.kind = OpKind.BreakOp ∨ op.kind = OpKind.ContinueOp) →
        ∀ l, op.labelAttr = some l → whileOp.labelAttr ≠ some l →
        ctx1.jumps op.id = ctx.jumps op.id) := by
  obtain ⟨rw1, h⟩ := WhileOpLowering_context ctx whileOp rw cond body condLast bodyLast
    condTerm bodyTerm c args hcond1 hcondL hcondT hbody1 hbodyL hbodyT hck hco hbk hres
  refine ⟨_, rw1, h, ?_, ?_, ?_⟩
  · intro op hop hk hl
    exact (foldl_visitorBreakContinue_jumps whileOp.labelAttr rw.nextBlock cond.id _ ctx hops op
      hop (matchLabelOrNotSet_of_unset_or_eq _ _ hl)).1 hk
  · intro op hop hk hl
    exact (foldl_visitorBreakContinue_jumps whileOp.labelAttr rw.nextBlock cond.id _ ctx hops op
      hop (matchLabelOrNotSet_of_unset_or_eq _ _ hl)).2 hk
  · intro op hop _ l hl hne
    apply foldl_visitorBreakContinue_jumps_of_no_match
    intro o ho hid
    rw [eq_of_mem_of_id_eq _ hops o op ho hop hid, hl]
    exact matchLabelOrNotSet_of_set_ne _ _ hne

/-- Witness of C12: the labelled loop `L: while (v) { ... }` of `WhileExample`. -/
theorem WhileOpLowering_jumps_witness :
    ∃ ctx1 rw1, WhileOpLowering TSContext.empty WhileExample.jumpWhileOp WhileExample.jumpRewriter
        = some (ctx1, rw1) ∧
      (∀ op ∈ WhileExample.jumpWhileOp.whileBody.walk, op.kind = OpKind.BreakOp →
        (op.labelAttr = none ∨ op.labelAttr = WhileExample.jumpWhileOp.labelAttr) →
        ctx1.jumps op.id = some WhileExample.jumpRewriter.nextBlock) ∧
      (∀ op ∈ WhileExample.jumpWhileOp.whileBody.walk, op.kind = OpKind.ContinueOp →
        (op.labelAttr = none ∨ op.labelAttr = WhileExample.jumpWhileOp.labelAttr) →
        ctx1.jumps op.id = some WhileExample.jumpCondBlock.id) ∧
      (∀ op ∈ WhileExample.jumpWhileOp.whileBody.walk,
        (op.kind = OpKind.BreakOp ∨ op.kind = OpKind.ContinueOp) →
        ∀ l, op.labelAttr = some l → WhileExample.jumpWhileOp.labelAttr ≠ some l →
        ctx1.jumps op.id = TSContext.empty.jumps op.id) :=
  WhileOpLowering_jumps TSContext.empty WhileExample.jumpWhileOp WhileExample.jumpRewriter
    WhileExample.jumpCondBlock JumpLoop.bodyBlock WhileExample.jumpCondBlock JumpLoop.bodyBlock
    (Op.simple 13 OpKind.ConditionOp [Value.opResult 0 0] [] [])
    (Op.simple 24 OpKind.ResultOp [] [] [])
    (Value.opResult 0 0) []
    rfl rfl rfl rfl rfl rfl rfl rfl rfl rfl (by decide)

/-! ## Properties of the interpreter -/

/-- An operation moves control only along one of its successors, or, for a
`throw`, to its unwind target. -/
theorem execOp_dest (E : ExecEnv) (st st1 : ExecState) (op : Op) (d : BlockId)
    (h : execOp E st op = some (st1, some d)) :
    (∃ s ∈ op.successors, s.1 = d) ∨ (op.kind = OpKind.ThrowOp ∧ E.unwind op.id = some d) := by
  unfold execOp at h
  split at h
  all_goals first
    | (split at h <;> simp_all)
    | simp_all
  · obtain ⟨_, _, _, h⟩ := h
    exact h
  · split at h <;>
      simp only [Option.map_eq_some', Prod.mk.injEq, Option.some.injEq] at h <;>
      obtain ⟨_, _, _, h⟩ := h <;> simp [h]

/-- Operations do not touch the trace. -/
theorem execOp_trace (E : ExecEnv) (st st1 : ExecState) (op : Op) (d : Option BlockId)
    (h : execOp E st op = some (st1, d)) : st1.trace = st.trace := by
  unfold execOp at h
  split at h
  all_goals first
    | (split at h <;> simp_all)
    | simp_all
  all_goals (try split at h)
  all_goals (try simp only [Option.map_eq_some', Prod.mk.injEq, Option.some.injEq] at h)
  all_goals first
    | (obtain ⟨_, _, h, _⟩ := h; subst h; rfl)
    | (obtain ⟨h, _⟩ := h; subst h; rfl)

theorem execOps_trace (E : ExecEnv) (ops : List Op) (st st1 : ExecState) (d : BlockId)
    (h : execOps E st ops = some (st1, d)) : st1.trace = st.trace := by
  induction ops generalizing st with
  | nil => simp [execOps] at h
  | cons o ops ih =>
    simp only [execOps] at h
    split at h
    · simp only [Option.some.injEq, Prod.mk.injEq] at h
      rename_i st2 d2 heq
      rw [← h.1]
      exact execOp_trace E st st2 o _ heq
    · rename_i st2 heq
      rw [ih st2 h]
      exact execOp_trace E st st2 o _ heq
    · simp at h

/-- The block control moves to after a list of operations is a successor of one
of them, or the unwind target of a `throw` among them. -/
theorem execOps_dest (E : ExecEnv) (ops : List Op) (st st1 : ExecState) (d : BlockId)
    (h : execOps E st ops = some (st1, d)) :
    ∃ op ∈ ops, (∃ s ∈ op.successors, s.1 = d) ∨
      (op.kind = OpKind.ThrowOp ∧ E.unwind op.id = some d) := by
  induction ops generalizing st with
  | nil => simp [execOps] at h
  | cons o ops ih =>
    simp only [execOps] at h
    split at h
    · simp only [Option.some.injEq, Prod.mk.injEq] at h
      rename_i st2 d2 heq
      rw [h.2] at heq
      exact ⟨o, List.mem_cons_self _ _, execOp_dest E st st2 o d heq⟩
    · rename_i st2 heq
      obtain ⟨op, hop, hd⟩ := ih st2 h
      exact ⟨op, List.mem_cons_of_mem _ hop, hd⟩
    · simp at h

/-- A run that does not start at the stop block enters the block it starts at:
the trace grows by that block and the blocks entered after it. -/
theorem runCFG_trace (E : ExecEnv) (cfg : List Block) (stop : BlockId) (fuel : Nat)
    (cur : BlockId) (st st1 : ExecState)
    (h : runCFG E cfg stop fuel cur st = some st1) :
    (cur = stop ∧ st1 = st) ∨ (cur ≠ stop ∧ ∃ rest, st1.trace = st.trace ++ cur :: rest) := by
  induction fuel generalizing cur st with
  | zero =>
    simp only [runCFG] at h
    split at h
    · left
      simp only [Option.some.injEq] at h
      exact ⟨by assumption, h.symm⟩
    · simp at h
  | succ fuel ih =>
    simp only [runCFG] at h
    split at h
    · left
      simp only [Option.some.injEq] at h
      exact ⟨by assumption, h.symm⟩
    · right
      refine ⟨by assumption, ?_⟩
      split at h
      · split at h
        · rename_i b hb st2 dest heq
          have ht := execOps_trace E _ _ _ _ heq
          rcases ih dest st2 h with ⟨_, h2⟩ | ⟨_, rest, h2⟩
          · subst h2
            exact ⟨[], by simp [ht]⟩
          · exact ⟨dest :: rest, by simp [h2, ht]⟩
        · simp at h
      · simp at h

/-! ## The do-while loop enters its body first -/

theorem replaceUsesOp_kind (m : ValueMapping) (o : Op) : (replaceUsesOp m o).kind = o.kind := by
  cases o; simp [replaceUsesOp, Op.kind]

theorem replaceUsesSuccs_fst (m : ValueMapping) (ss : List Successor) :
    (replaceUsesSuccs m ss).map Prod.fst = ss.map Prod.fst := by
  induction ss with
  | nil => simp [replaceUsesSuccs]
  | cons s ss ih =>
    cases s with
    | mk b vs => simp [replaceUsesSuccs, ih]

theorem replaceUsesOp_successors_fst (m : ValueMapping) (o : Op) :
    (replaceUsesOp m o).successors.map Prod.fst = o.successors.map Prod.fst := by
  cases o; simp [replaceUsesOp, Op.successors, replaceUsesSuccs_fst]

theorem mem_replaceUsesOps (m : ValueMapping) (x : Op) (l : List Op) :
    x ∈ replaceUsesOps m l ↔ ∃ o ∈ l, x = replaceUsesOp m o := by
  induction l with
  | nil => simp
  | cons a l ih => simp [ih]

theorem findBlock_append_cons (i : BlockId) (l : List Block) (b : Block) (r : List Block)
    (hl : i ∉ blockIds l) (hb : b.id = i) : findBlock i (l ++ b :: r) = some b := by
  induction l with
  | nil => simp [findBlock, hb]
  | cons a l ih =>
    simp only [blockIds_cons, List.mem_cons, not_or] at hl
    have ha : ¬ a.id = i := fun h => hl.1 h.symm
    have := ih hl.2
    simp only [findBlock] at this ⊢
    simp [List.find?_cons, ha, this]

/-- When the operations of a block before its last one neither branch nor throw,
control leaves the block along a successor of the last operation. -/
theorem execOps_dest_of_last (E : ExecEnv) (m : ValueMapping) (before : List Op) (t : Op)
    (st st1 : ExecState) (d : BlockId)
    (hbefore : ∀ o ∈ before, o.successors = [] ∧ o.kind ≠ OpKind.ThrowOp)
    (ht : t.kind ≠ OpKind.ThrowOp)
    (h : execOps E st (replaceUsesOps m (before ++ [t])) = some (st1, d)) :
    d ∈ t.successors.map Prod.fst := by
  obtain ⟨op, hop, hd⟩ := execOps_dest E _ _ _ _ h
  rw [mem_replaceUsesOps] at hop
  obtain ⟨o, ho, rfl⟩ := hop
  have hsucc : ∀ s ∈ (replaceUsesOp m o).successors, s.1 ∈ o.successors.map Prod.fst := by
    intro s hs
    rw [← replaceUsesOp_successors_fst m o]
    exact List.mem_map.mpr ⟨s, hs, rfl⟩
  rw [replaceUsesOp_kind] at hd
  simp only [List.mem_append, List.mem_singleton] at ho
  rcases ho with ho | ho
  · rcases hd with ⟨s, hs, _⟩ | ⟨hk, _⟩
    · have := hsucc s hs
      rw [(hbefore o ho).1] at this
      simp at this
    · exact absurd hk (hbefore o ho).2
  · subst ho
    rcases hd with ⟨s, hs, hsd⟩ | ⟨hk, _⟩
    · rw [← hsd]
      exact hsucc s hs
    · exact absurd hk ht

/-- C13: for a well-formed `do-while` operation `DoWhileOpLowering` succeeds and
leaves these blocks: the original block ends in a branch to the first block of
`body` (not of `cond`) carrying the inits; the last block of `body` ends in a
branch to the first block of `cond`; the last block of `cond` ends in a cast of
the condition and a conditional branch to the first block of `body` on true and
to the continuation block on false.  Consequently, when the operations before
the loop neither branch nor throw, control leaves the original block for the
first block of `body`, and every run of the lowered blocks from the original
block enters the first block of `body` right after it: the body is entered at
least once, before any block of `cond`. -/
theorem DoWhileOpLowering_enters_body_first (ctx : TSContext) (doWhileOp : Op)
    (rw : PatternRewriter)
    (pre post : List Block) (cid : BlockId) (cargs : List Ty) (before after : List Op)
    (cond body condLast bodyLast : Block) (condTerm bodyTerm : Op)
    (c : Value) (args : List Value)
    (hblocks : rw.blocks = pre ++ Block.mk cid cargs (before ++ doWhileOp :: after) :: post)
    (hib : rw.insertionBlock = cid) (hip : rw.insertionPoint = before.length)
    (hcond1 : doWhileOp.doWhileCond.head? = some cond)
    (hcondL : doWhileOp.doWhileCond.getLast? = some condLast)
    (hcondT : condLast.getTerminator = some condTerm)
    (hbody1 : doWhileOp.doWhileBody.head? = some body)
    (hbodyL : doWhileOp.doWhileBody.getLast? = some bodyLast)
    (hbodyT : bodyLast.getTerminator = some bodyTerm)
    (hck : condTerm.kind = OpKind.ConditionOp) (hco : condTerm.operands = c :: args)
    (hbk : bodyTerm.kind = OpKind.ResultOp)
    (hres : doWhileOp.getNumResults = args.length)
    (hdist : (blockIds (pre ++ Block.mk cid cargs (before ++ doWhileOp :: after) ::
        (doWhileOp.doWhileBody ++ doWhileOp.doWhileCond))).Nodup)
    (hfresh : rw.nextBlock ∉ blockIds (pre ++ Block.mk cid cargs (before ++ doWhileOp :: after) ::
        (doWhileOp.doWhileBody ++ doWhileOp.doWhileCond)))
    (hbefore : ∀ o ∈ before, o.successors = [] ∧ o.kind ≠ OpKind.ThrowOp) :
    ∃ ctx1 rw1, DoWhileOpLowering ctx doWhileOp rw = some (ctx1, rw1) ∧
      rw1.blocks = replaceUsesBlocks (doWhileOp.results.zip args)
        (pre ++ Block.mk cid cargs
            (before ++ [mkBranchOp rw.nextOp body.id doWhileOp.operands]) ::
          (doWhileOp.doWhileBody.dropLast ++ [bodyLast.setOps (bodyLast.ops.dropLast ++
                [mkBranchOp (rw.nextOp + 1) cond.id bodyTerm.operands])]
           ++ (doWhileOp.doWhileCond.dropLast ++ [condLast.setOps (condLast.ops.dropLast ++
                [mkCastOp (rw.nextOp + 2) Ty.i1 c,
                 mkCondBranchOp (rw.nextOp + 3) (Value.opResult (rw.nextOp + 2) 0)
                   body.id args rw.nextBlock []])])
           ++ Block.mk rw.nextBlock [] after :: post)) ∧
      cid ∉ blockIds doWhileOp.doWhileCond ∧ body.id ∉ blockIds doWhileOp.doWhileCond ∧
      (∀ (E : ExecEnv) (st st1 : ExecState) (d : BlockId) (b : Block),
        findBlock cid rw1.blocks = some b → execOps E st b.ops = some (st1, d) → d = body.id) ∧
      (∀ (E : ExecEnv) (stop : BlockId) (fuel : Nat) (st st1 : ExecState),
        stop ≠ cid → stop ≠ body.id →
        runCFG E rw1.blocks stop fuel cid st = some st1 →
        ∃ rest, st1.trace = st.trace ++ cid :: body.id :: rest) := by
  have heq := DoWhileOpLowering_eq ctx doWhileOp rw pre post cid cargs before after cond body
    condLast bodyLast condTerm bodyTerm c args hblocks hib hip
    hcond1 hcondL hcondT hbody1 hbodyL hbodyT hck hco hbk hres hdist hfresh
  have hd := hdist
  simp [List.nodup_append, List.nodup_cons, blockIds] at hd
  obtain ⟨_, ⟨⟨_, hCc⟩, _, _, hBC⟩, hPc, _, _⟩ := hd
  have hcidC : cid ∉ blockIds doWhileOp.doWhileCond := by
    intro hin
    obtain ⟨x, hx, hxe⟩ := List.mem_map.mp hin
    exact hCc x hx hxe
  have hbodyC : body.id ∉ blockIds doWhileOp.doWhileCond := fun hin =>
    hBC (List.mem_map.mpr ⟨body, List.mem_of_mem_head? hbody1, rfl⟩) hin
  have hcidP : cid ∉ blockIds pre := by
    intro hin
    obtain ⟨x, hx, hxe⟩ := List.mem_map.mp hin
    exact hPc x hx hxe
  rcases hres1 : DoWhileOpLowering ctx doWhileOp rw with _ | ⟨ctx1, rw1⟩
  · rw [hres1] at heq
    exact absurd heq (by simp)
  rw [hres1] at heq
  simp only [Option.some.injEq, Prod.mk.injEq] at heq
  obtain ⟨_, hr1⟩ := heq
  have hbl : rw1.blocks = replaceUsesBlocks (doWhileOp.results.zip args) pre ++
      Block.mk cid cargs (replaceUsesOps (doWhileOp.results.zip args)
        (before ++ [mkBranchOp rw.nextOp body.id doWhileOp.operands])) ::
      replaceUsesBlocks (doWhileOp.results.zip args)
        (Region.replaceTerminator doWhileOp.doWhileBody
            [mkBranchOp (rw.nextOp + 1) cond.id bodyTerm.operands]
         ++ Region.replaceTerminator doWhileOp.doWhileCond
            [mkCastOp (rw.nextOp + 2) Ty.i1 c,
             mkCondBranchOp (rw.nextOp + 3) (Value.opResult (rw.nextOp + 2) 0)
               body.id args rw.nextBlock []]
         ++ Block.mk rw.nextBlock [] after :: post) := by
    rw [hr1]
    simp
  have hfind : findBlock cid rw1.blocks = some (Block.mk cid cargs
      (replaceUsesOps (doWhileOp.results.zip args)
        (before ++ [mkBranchOp rw.nextOp body.id doWhileOp.operands]))) := by
    rw [hbl]
    exact findBlock_append_cons cid _ _ _ (by simpa using hcidP) rfl
  have hstep : ∀ (E : ExecEnv) (st st1 : ExecState) (d : BlockId) (b : Block),
      findBlock cid rw1.blocks = some b → execOps E st b.ops = some (st1, d) → d = body.id := by
    intro E st st1 d b hb hex
    rw [hfind] at hb
    simp only [Option.some.injEq] at hb
    subst hb
    have := execOps_dest_of_last E _ before _ st st1 d hbefore
      (by simp [mkBranchOp, Op.term, Op.kind]) hex
    simpa [mkBranchOp, Op.term, Op.successors] using this
  refine ⟨ctx1, rw1, rfl, ?_, hcidC, hbodyC, hstep, ?_⟩
  · rw [hr1]
    simp [Region.replaceTerminator, hcondL, hbodyL]
  · intro E stop fuel st st1 hs1 hs2 hrun
    cases fuel with
    | zero =>
      simp only [runCFG] at hrun
      rw [if_neg (fun h => hs1 h.symm)] at hrun
      exact absurd hrun (by simp)
    | succ fuel =>
      simp only [runCFG] at hrun
      rw [if_neg (fun h => hs1 h.symm), hfind] at hrun
      simp only at hrun
      split at hrun
      · rename_i st2 dest hex
        have hdest := hstep E _ st2 dest _ hfind hex
        have ht := execOps_trace E _ _ _ _ hex
        subst hdest
        rcases runCFG_trace E _ _ _ _ _ _ hrun with ⟨h1, _⟩ | ⟨_, rest, h2⟩
        · exact absurd h1.symm hs2
        · exact ⟨rest, by simp [h2, ht]⟩
      · simp at hrun

/-- Witness of C13: the loop `do { counter++; i++ } while (i < 3)`. -/
theorem DoWhileOpLowering_enters_body_first_witness :
    ∃ ctx1 rw1, DoWhileOpLowering TSContext.empty (WhileExample.doWhileOp 3)
        (WhileExample.doWhileRewriter 3) = some (ctx1, rw1) ∧
      rw1.blocks = replaceUsesBlocks ((WhileExample.doWhileOp 3).results.zip [])
        ([] ++ Block.mk 0 [] (CountingLoop.entryOps ++ [mkBranchOp 100 2 []]) ::
          ([] ++ [WhileExample.bodyBlock.setOps
                (WhileExample.bodyBlock.ops.dropLast ++ [mkBranchOp (100 + 1) 1 []])]
           ++ ([] ++ [(CountingLoop.condBlock 3).setOps ((CountingLoop.condBlock 3).ops.dropLast ++
                  [mkCastOp (100 + 2) Ty.i1 (Value.opResult 12 0),
                   mkCondBranchOp (100 + 3) (Value.opResult (100 + 2) 0) 2 [] 4 []])])
           ++ Block.mk 4 [] [] :: [])) ∧
      (0 : BlockId) ∉ blockIds (WhileExample.doWhileOp 3).doWhileCond ∧
      (2 : BlockId) ∉ blockIds (WhileExample.doWhileOp 3).doWhileCond ∧
      (∀ (E : ExecEnv) (st st1 : ExecState) (d : BlockId) (b : Block),
        findBlock 0 rw1.blocks = some b → execOps E st b.ops = some (st1, d) → d = 2) ∧
      (∀ (E : ExecEnv) (stop : BlockId) (fuel : Nat) (st st1 : ExecState),
        stop ≠ 0 → stop ≠ 2 →
        runCFG E rw1.blocks stop fuel 0 st = some st1 →
        ∃ rest, st1.trace = st.trace ++ 0 :: 2 :: rest) :=
  DoWhileOpLowering_enters_body_first TSContext.empty (WhileExample.doWhileOp 3)
    (WhileExample.doWhileRewriter 3) [] [] 0 [] CountingLoop.entryOps []
    (CountingLoop.condBlock 3) WhileExample.bodyBlock
    (CountingLoop.condBlock 3) WhileExample.bodyBlock
    (Op.simple 13 OpKind.ConditionOp [Value.opResult 12 0] [] [])
    (Op.simple 24 OpKind.ResultOp [] [] [])
    (Value.opResult 12 0) []
    rfl rfl rfl rfl rfl rfl rfl rfl rfl rfl rfl rfl rfl (by decide) (by decide) (by decide)

/-- The lowered `do { counter++; i++ } while (i < N)` with `N = 0` and `N = 3`,
run from the original block to the continuation block: the body is entered
once even though the condition is false from the start. -/
theorem doWhile_example_runs :
    (∃ st, runCFG ExecEnv.plain (WhileExample.doWhileLowered 0) 4 10 0 ExecState.init = some st ∧
      st.trace = [0, 2, 1] ∧ st.mem CountingLoop.counterVar = some 1) ∧
    (∃ st, runCFG ExecEnv.plain (WhileExample.doWhileLowered 3) 4 10 0 ExecState.init = some st ∧
      st.trace = [0, 2, 1, 2, 1, 2, 1] ∧ st.mem CountingLoop.counterVar = some 3) :=
  ⟨⟨_, rfl, rfl, rfl⟩, ⟨_, rfl, rfl, rfl⟩⟩

/-! ## LabelOpLowering -/

theorem findMergeBlock_of_no_merge (cur : Block) (r : List Block)
    (h : ∀ b ∈ r, ∃ t, b.getTerminator = some t ∧ t.kind ≠ OpKind.MergeOp) :
    findMergeBlock cur r = some cur := by
  induction r with
  | nil => rfl
  | cons b r ih =>
    obtain ⟨t, ht, hk⟩ := h b (List.mem_cons_self _ _)
    simp only [findMergeBlock, ht, hk, if_false]
    exact ih (fun b2 hb2 => h b2 (List.mem_cons_of_mem _ hb2))

/-- The loop over the blocks finds the last block that ends in a `MergeOp`. -/
theorem findMergeBlock_eq (cur : Block) (r1 : List Block) (m : Block) (r2 : List Block) (t : Op)
    (h1 : ∀ b ∈ r1, b.getTerminator ≠ none)
    (hm : m.getTerminator = some t) (hk : t.kind = OpKind.MergeOp)
    (h2 : ∀ b ∈ r2, ∃ t, b.getTerminator = some t ∧ t.kind ≠ OpKind.MergeOp) :
    findMergeBlock cur (r1 ++ m :: r2) = some m := by
  induction r1 generalizing cur with
  | nil =>
    simp only [List.nil_append, findMergeBlock, hm, hk, if_true]
    exact findMergeBlock_of_no_merge m r2 h2
  | cons b r1 ih =>
    have hb := h1 b (List.mem_cons_self _ _)
    have ih2 := fun c => ih c (fun b2 hb2 => h1 b2 (List.mem_cons_of_mem _ hb2))
    cases hbt : b.getTerminator with
    | none => exact absurd hbt hb
    | some tb =>
      simp only [List.cons_append, findMergeBlock, hbt]
      split_ifs
      · exact ih2 b
      · exact ih2 cur

/-- The blocks `LabelOpLowering` leaves behind, and the context it returns, for a
label whose region is `r1 ++ m :: r2` with `m` the last block that ends in a
`MergeOp`: only the terminator of `m` is replaced. -/
theorem LabelOpLowering_eq (ctx : TSContext) (labelOp : Op) (rw : PatternRewriter)
    (pre post : List Block) (cid : BlockId) (cargs : List Ty) (before after : List Op)
    (begin back m : Block) (r1 r2 : List Block) (mergeOp : Op)
    (hblocks : rw.blocks = pre ++ Block.mk cid cargs (before ++ labelOp :: after) :: post)
    (hib : rw.insertionBlock = cid) (hip : rw.insertionPoint = before.length)
    (hregion : labelOp.labelRegion = r1 ++ m :: r2)
    (hbegin : labelOp.labelRegion.head? = some begin)
    (hback : labelOp.labelRegion.getLast? = some back)
    (h1 : ∀ b ∈ r1, b.getTerminator ≠ none)
    (hm : m.getTerminator = some mergeOp) (hk : mergeOp.kind = OpKind.MergeOp)
    (h2 : ∀ b ∈ r2, ∃ t, b.getTerminator = some t ∧ t.kind ≠ OpKind.MergeOp)
    (hres : labelOp.getNumResults = 0)
    (hdist : (blockIds (pre ++ Block.mk cid cargs (before ++ labelOp :: after) ::
        labelOp.labelRegion)).Nodup)
    (hfresh : rw.nextBlock ∉ blockIds (pre ++ Block.mk cid cargs (before ++ labelOp :: after) ::
        labelOp.labelRegion)) :
    LabelOpLowering ctx labelOp rw = some
      (labelOp.labelRegion.walk.foldl
          (visitorBreakContinue labelOp.labelAttr rw.nextBlock begin.id) ctx,
       { blocks :=
          pre ++ Block.mk cid cargs (before ++ [mkBranchOp rw.nextOp begin.id []]) ::
            (r1 ++ m.setOps (m.ops.dropLast ++ [mkBranchOp (rw.nextOp + 1) rw.nextBlock []]) :: r2
             ++ Block.mk rw.nextBlock [] after :: post)
         insertionBlock := rw.insertionBlock
         insertionPoint := rw.insertionPoint
         nextBlock := rw.nextBlock + 1
         nextOp := rw.nextOp + 2 }) := by
  have hfind : findMergeBlock back labelOp.labelRegion = some m := by
    rw [hregion]
    exact findMergeBlock_eq back r1 m r2 mergeOp h1 hm hk h2
  simp only [LabelOpLowering, hbegin, hback, hfind, hm, hk, hres, ne_eq, not_true_eq_false,
    if_false]
  congr 2
  simp only [PatternRewriter.replaceOp, PatternRewriter.eraseOp, PatternRewriter.replaceAllUsesWith,
    PatternRewriter.replaceTerminator, PatternRewriter.createAtEnd, PatternRewriter.inlineRegionBefore,
    PatternRewriter.splitBlock, hblocks, hib, hip, List.zip_nil_right, replaceUsesBlocks_nil_map]
  rw [hregion] at hdist hfresh ⊢
  cases m with
  | mk mi ma mo =>
    simp [List.nodup_append, List.nodup_cons] at hdist hfresh
    simp [modifyBlock_append_of_not_mem, modifyBlock_cons_eq, modifyBlock_cons_ne,
      modifyBlock_cons_ne2, hdist, hfresh]

/-- C14 (counterexample): the label of `LabelExample` whose region has two blocks
that end in a `merge` terminator is lowered, and the first of them still ends in
the `merge` terminator, not in a branch. -/
theorem LabelOpLowering_two_merges_counterexample :
    ∃ ctx1 rw1, LabelOpLowering TSContext.empty LabelExample.twoMergeOp
        LabelExample.twoMergeRewriter = some (ctx1, rw1) ∧
      LabelExample.twoMergeOp.labelRegion = [LabelExample.mergeBlock1, LabelExample.mergeBlock2] ∧
      LabelExample.mergeBlock1.getTerminator.map Op.kind = some OpKind.MergeOp ∧
      LabelExample.mergeBlock2.getTerminator.map Op.kind = some OpKind.MergeOp ∧
      rw1.blocks.map (fun b => (b.id, b.getTerminator.map Op.kind)) =
        [(0, some OpKind.BranchOp), (1, some OpKind.MergeOp), (2, some OpKind.BranchOp),
         (6, none)] ∧
      ¬ (∀ b ∈ rw1.blocks, b.getTerminator.map Op.kind ≠ some OpKind.MergeOp) :=
  ⟨_, _, rfl, rfl, rfl, rfl, rfl, by decide⟩

/-- C14 (amended): for a label whose region is `r1 ++ m :: r2`, with `m` the last
block that ends in a `merge` terminator, `LabelOpLowering` succeeds; `m` ends in
an unconditional branch to the continuation block (`rw.nextBlock`) and the other
blocks of the region are as they were.  When no block of `r1` ends in `merge`,
that is when exactly one block of the region did, no block of the region ends in
a `merge` terminator afterwards. -/
theorem LabelOpLowering_merge (ctx : TSContext) (labelOp : Op) (rw : PatternRewriter)
    (pre post : List Block) (cid : BlockId) (cargs : List Ty) (before after : List Op)
    (begin back m : Block) (r1 r2 : List Block) (mergeOp : Op)
    (hblocks : rw.blocks = pre ++ Block.mk cid cargs (before ++ labelOp :: after) :: post)
    (hib : rw.insertionBlock = cid) (hip : rw.insertionPoint = before.length)
    (hregion : labelOp.labelRegion = r1 ++ m :: r2)
    (hbegin : labelOp.labelRegion.head? = some begin)
    (hback : labelOp.labelRegion.getLast? = some back)
    (h1 : ∀ b ∈ r1, b.getTerminator ≠ none)
    (hm : m.getTerminator = some mergeOp) (hk : mergeOp.kind = OpKind.MergeOp)
    (h2 : ∀ b ∈ r2, ∃ t, b.getTerminator = some t ∧ t.kind ≠ OpKind.MergeOp)
    (hres : labelOp.getNumResults = 0)
    (hdist : (blockIds (pre ++ Block.mk cid cargs (before ++ labelOp :: after) ::
        labelOp.labelRegion)).Nodup)
    (hfresh : rw.nextBlock ∉ blockIds (pre ++ Block.mk cid cargs (before ++ labelOp :: after) ::
        labelOp.labelRegion)) :
    ∃ ctx1 rw1 m1, LabelOpLowering ctx labelOp rw = some (ctx1, rw1) ∧
      rw1.blocks =
        pre ++ Block.mk cid cargs (before ++ [mkBranchOp rw.nextOp begin.id []]) ::
          (r1 ++ m1 :: r2 ++ Block.mk rw.nextBlock [] after :: post) ∧
      m1.id = m.id ∧
      m1.ops = m.ops.dropLast ++ [mkBranchOp (rw.nextOp + 1) rw.nextBlock []] ∧
      m1.getTerminator = some (mkBranchOp (rw.nextOp + 1) rw.nextBlock []) ∧
      ((∀ b ∈ r1, ∀ t, b.getTerminator = some t → t.kind ≠ OpKind.MergeOp) →
        ∀ b ∈ r1 ++ m1 :: r2, ∀ t, b.getTerminator = some t → t.kind ≠ OpKind.MergeOp) := by
  have hterm : (m.setOps (m.ops.dropLast ++
      [mkBranchOp (rw.nextOp + 1) rw.nextBlock []])).getTerminator =
      some (mkBranchOp (rw.nextOp + 1) rw.nextBlock []) := by
    simp [Block.getTerminator]
  refine ⟨_, _, m.setOps (m.ops.dropLast ++ [mkBranchOp (rw.nextOp + 1) rw.nextBlock []]),
    LabelOpLowering_eq ctx labelOp rw pre post cid cargs before after begin back m r1 r2 mergeOp
      hblocks hib hip hregion hbegin hback h1 hm hk h2 hres hdist hfresh,
    rfl, rfl, rfl, hterm, ?_⟩
  intro hr1 b hb t ht
  simp only [List.mem_append, List.mem_cons] at hb
  rcases hb with hb | hb | hb
  · exact hr1 b hb t ht
  · subst hb
    rw [hterm] at ht
    simp only [Option.some.injEq] at ht
    subst ht
    simp [mkBranchOp, Op.term, Op.kind]
  · obtain ⟨t2, ht2, hk2⟩ := h2 b hb
    rw [ht2] at ht
    simp only [Option.some.injEq] at ht
    subst ht
    exact hk2

/-- Witness of C14: the label `outer` of `LabelExample`, whose region is one
block that ends in `merge`. -/
theorem LabelOpLowering_merge_witness :
    ∃ ctx1 rw1 m1, LabelOpLowering TSContext.empty LabelExample.labelOp LabelExample.rewriter
        = some (ctx1, rw1) ∧
      rw1.blocks =
        [] ++ Block.mk 0 [] ([] ++ [mkBranchOp 100 LabelExample.labelBlock.id []]) ::
          ([] ++ m1 :: [] ++ Block.mk 6 [] [] :: []) ∧
      m1.id = LabelExample.labelBlock.id ∧
      m1.ops = LabelExample.labelBlock.ops.dropLast ++ [mkBranchOp (100 + 1) 6 []] ∧
      m1.getTerminator = some (mkBranchOp (100 + 1) 6 []) ∧
      ((∀ b ∈ ([] : List Block), ∀ t, b.getTerminator = some t → t.kind ≠ OpKind.MergeOp) →
        ∀ b ∈ [] ++ m1 :: [], ∀ t, b.getTerminator = some t → t.kind ≠ OpKind.MergeOp) :=
  LabelOpLowering_merge TSContext.empty LabelExample.labelOp LabelExample.rewriter
    [] [] 0 [] [] [] LabelExample.labelBlock LabelExample.labelBlock LabelExample.labelBlock
    [] [] (Op.simple 12 OpKind.MergeOp [] [] [])
    rfl rfl rfl rfl rfl rfl (by simp) rfl rfl (by simp) rfl (by decide) (by decide)

/-! ## Nesting of walks -/

mutual
theorem walkOp_nested : ∀ (f : Op) (y : Op), y ∈ walkOp f → ∀ x ∈ walkOp y, x ∈ walkOp f
  | .mk i k os ts as ss rs, y, hy, x, hx => by
    simp only [walkOp, List.mem_append, List.mem_singleton] at hy ⊢
    rcases hy with hy | hy
    · exact Or.inl (walkRegions_nested rs y hy x hx)
    · subst hy
      simpa [walkOp] using hx
theorem walkRegions_nested : ∀ (rs : List (List Block)) (y : Op), y ∈ walkRegions rs →
    ∀ x ∈ walkOp y, x ∈ walkRegions rs
  | [], y, hy, _, _ => by simp [walkRegions] at hy
  | r :: rs, y, hy, x, hx => by
    simp only [walkRegions, List.mem_append] at hy ⊢
    rcases hy with hy | hy
    · exact Or.inl (walkBlocks_nested r y hy x hx)
    · exact Or.inr (walkRegions_nested rs y hy x hx)
theorem walkBlocks_nested : ∀ (bs : List Block) (y : Op), y ∈ walkBlocks bs →
    ∀ x ∈ walkOp y, x ∈ walkBlocks bs
  | [], y, hy, _, _ => by simp [walkBlocks] at hy
  | b :: bs, y, hy, x, hx => by
    simp only [walkBlocks, List.mem_append] at hy ⊢
    rcases hy with hy | hy
    · exact Or.inl (walkBlock_nested b y hy x hx)
    · exact Or.inr (walkBlocks_nested bs y hy x hx)
theorem walkBlock_nested : ∀ (b : Block) (y : Op), y ∈ walkBlock b →
    ∀ x ∈ walkOp y, x ∈ walkBlock b
  | .mk _ _ ops, y, hy, x, hx => by
    simp only [walkBlock] at hy ⊢
    exact walkOps_nested ops y hy x hx
theorem walkOps_nested : ∀ (os : List Op) (y : Op), y ∈ walkOps os →
    ∀ x ∈ walkOp y, x ∈ walkOps os
  | [], y, hy, _, _ => by simp [walkOps] at hy
  | o :: os, y, hy, x, hx => by
    simp only [walkOps, List.mem_append] at hy ⊢
    rcases hy with hy | hy
    · exact Or.inl (walkOp_nested o y hy x hx)
    · exact Or.inr (walkOps_nested os y hy x hx)
end

theorem walkBlocks_getD_subset (rs : List (List Block)) (i : Nat) (x : Op)
    (h : x ∈ walkBlocks (rs.getD i [])) : x ∈ walkRegions rs := by
  induction rs generalizing i with
  | nil => simp [walkBlocks] at h
  | cons r rs ih =>
    cases i with
    | zero =>
      simp only [List.getD_cons_zero] at h
      simp [walkRegions, h]
    | succ i =>
      simp only [List.getD_cons_succ] at h
      simp [walkRegions, ih i h]

/-- The operations nested in a region of an operation are nested in the
operation. -/
theorem walk_region_subset (f : Op) (i : Nat) (x : Op) (h : x ∈ (f.region i).walk) :
    x ∈ walkOp f := by
  cases f with
  | mk id k os ts as ss rs =>
    simp only [Op.region, Op.regions, Region.walk] at h
    simp only [walkOp, List.mem_append]
    exact Or.inl (walkBlocks_getD_subset rs i x h)

/-- The operations nested in a region of an operation of a walk belong to the
walk. -/
theorem walk_nested (r : Region) (f : Op) (i : Nat) (x : Op) (hf : f ∈ r.walk)
    (h : x ∈ (f.region i).walk) : x ∈ r.walk :=
  walkBlocks_nested r f hf x (walk_region_subset f i x h)

/-- `LabelOpLowering` succeeds on a label whose region is not empty and has a
block ending in `merge`, and returns the context the walk of the region
produces. -/
theorem LabelOpLowering_context (ctx : TSContext) (labelOp : Op) (rw : PatternRewriter)
    (begin back m : Block) (mergeOp : Op)
    (hbegin : labelOp.labelRegion.head? = some begin)
    (hback : labelOp.labelRegion.getLast? = some back)
    (hfind : findMergeBlock back labelOp.labelRegion = some m)
    (hm : m.getTerminator = some mergeOp) (hk : mergeOp.kind = OpKind.MergeOp)
    (hres : labelOp.getNumResults = 0) :
    ∃ rw1, LabelOpLowering ctx labelOp rw = some
      (labelOp.labelRegion.walk.foldl
          (visitorBreakContinue labelOp.labelAttr rw.nextBlock begin.id) ctx, rw1) := by
  simp only [LabelOpLowering, hbegin, hback, hfind, hm, hk, hres, ne_eq, not_true_eq_false,
    if_false]
  exact ⟨_, rfl⟩

/-- C15: a label `l` whose region contains, at any depth, a `for` loop that does
not carry the label `l` is lowered by `LabelOpLowering`, and the loop is then
lowered by `ForOpLowering` (from any state of the rewriter).  For a
`continue l` nested in the body of the loop, `jumps` then holds the first block
of the region of the label, and for a `break l` the continuation block of the
label (`rw.nextBlock`): the walk of the body of the inner loop leaves both
entries as the lowering of the label wrote them, so they are not the `cond` or
`incr` block of the inner loop or its continuation block, which differ from the
first block of the region of the label. -/
theorem label_jumps_survive_inner_loop (ctx : TSContext) (labelOp forOp : Op)
    (rw : PatternRewriter) (l : String)
    (begin back m : Block) (mergeOp : Op)
    (cond body incr condLast bodyLast incrLast : Block) (condTerm bodyTerm incrTerm : Op)
    (hbegin : labelOp.labelRegion.head? = some begin)
    (hback : labelOp.labelRegion.getLast? = some back)
    (hfind : findMergeBlock back labelOp.labelRegion = some m)
    (hm : m.getTerminator = some mergeOp) (hk : mergeOp.kind = OpKind.MergeOp)
    (hres : labelOp.getNumResults = 0)
    (hcond1 : forOp.forCond.head? = some cond)
    (hcondL : forOp.forCond.getLast? = some condLast)
    (hcondT : condLast.getTerminator = some condTerm)
    (hbody1 : forOp.forBody.head? = some body)
    (hbodyL : forOp.forBody.getLast? = some bodyLast)
    (hbodyT : bodyLast.getTerminator = some bodyTerm)
    (hincr1 : forOp.forIncr.head? = some incr)
    (hincrL : forOp.forIncr.getLast? = some incrLast)
    (hincrT : incrLast.getTerminator = some incrTerm)
    (hct : (∃ c args, condTerm.kind = OpKind.ConditionOp ∧ condTerm.operands = c :: args ∧
              forOp.getNumResults = args.length) ∨
           (condTerm.kind = OpKind.NoConditionOp ∧ forOp.getNumResults = 0))
    (hbk : bodyTerm.kind = OpKind.ResultOp) (hik : incrTerm.kind = OpKind.ResultOp)
    (hlabel : labelOp.labelAttr = some l)
    (hfor : forOp ∈ labelOp.labelRegion.walk)
    (hforLabel : forOp.labelAttr ≠ some l)
    (hops : (labelOp.labelRegion.walk.map Op.id).Nodup)
    (hne1 : begin.id ≠ cond.id) (hne2 : begin.id ≠ incr.id) :
    ∃ ctx1 rw1, LabelOpLowering ctx labelOp rw = some (ctx1, rw1) ∧
      ∀ rw2 : PatternRewriter, ∃ ctx2 rw3, ForOpLowering ctx1 forOp rw2 = some (ctx2, rw3) ∧
        (∀ op ∈ forOp.forBody.walk, op.kind = OpKind.ContinueOp → op.labelAttr = some l →
          ctx2.jumps op.id = some begin.id ∧ ctx2.jumps op.id = ctx1.jumps op.id ∧
          ctx2.jumps op.id ≠ some cond.id ∧ ctx2.jumps op.id ≠ some incr.id ∧
          (rw2.nextBlock ≠ begin.id → ctx2.jumps op.id ≠ some rw2.nextBlock)) ∧
        (∀ op ∈ forOp.forBody.walk, op.kind = OpKind.BreakOp → op.labelAttr = some l →
          ctx2.jumps op.id = some rw.nextBlock ∧ ctx2.jumps op.id = ctx1.jumps op.id ∧
          (rw2.nextBlock ≠ rw.nextBlock → ctx2.jumps op.id ≠ some rw2.nextBlock)) := by
  obtain ⟨rw1, h⟩ := LabelOpLowering_context ctx labelOp rw begin back m mergeOp hbegin hback
    hfind hm hk hres
  refine ⟨_, rw1, h, ?_⟩
  intro rw2
  obtain ⟨rw3, h3⟩ := ForOpLowering_context
    (labelOp.labelRegion.walk.foldl
      (visitorBreakContinue labelOp.labelAttr rw.nextBlock begin.id) ctx)
    forOp rw2 cond body incr condLast bodyLast incrLast
    condTerm bodyTerm incrTerm hcond1 hcondL hcondT hbody1 hbodyL hbodyT hincr1 hincrL hincrT hct
    hbk hik
  have hsub : ∀ op ∈ forOp.forBody.walk, op ∈ labelOp.labelRegion.walk :=
    fun op hop => walk_nested _ forOp 1 op hfor hop
  -- the walk of the body of the inner loop leaves the entry of an operation labelled `l`
  have hkeep : ∀ op ∈ forOp.forBody.walk, op.labelAttr = some l → ∀ c0 : TSContext,
      (forOp.forBody.walk.foldl
        (visitorBreakContinue forOp.labelAttr rw2.nextBlock incr.id) c0).jumps op.id
        = c0.jumps op.id := by
    intro op hop hl c0
    apply foldl_visitorBreakContinue_jumps_of_no_match
    intro o ho hid
    rw [eq_of_mem_of_id_eq _ hops o op (hsub o ho) (hsub op hop) hid, hl]
    exact matchLabelOrNotSet_of_set_ne _ _ hforLabel
  have hmatch : ∀ op : Op, op.labelAttr = some l →
      matchLabelOrNotSet labelOp.labelAttr op.labelAttr = true := by
    intro op hl
    exact matchLabelOrNotSet_of_unset_or_eq _ _ (Or.inr (by rw [hl, hlabel]))
  refine ⟨_, rw3, h3, ?_, ?_⟩
  · intro op hop hkind hl
    have h1 := (foldl_visitorBreakContinue_jumps labelOp.labelAttr rw.nextBlock begin.id _ ctx
      hops op (hsub op hop) (hmatch op hl)).2 hkind
    have h2 := hkeep op hop hl (labelOp.labelRegion.walk.foldl
      (visitorBreakContinue labelOp.labelAttr rw.nextBlock begin.id) ctx)
    rw [h2, h1]
    refine ⟨rfl, rfl, ?_, ?_, ?_⟩
    · simpa using hne1
    · simpa using hne2
    · intro hne
      simpa using hne.symm
  · intro op hop hkind hl
    have h1 := (foldl_visitorBreakContinue_jumps labelOp.labelAttr rw.nextBlock begin.id _ ctx
      hops op (hsub op hop) (hmatch op hl)).1 hkind
    have h2 := hkeep op hop hl (labelOp.labelRegion.walk.foldl
      (visitorBreakContinue labelOp.labelAttr rw.nextBlock begin.id) ctx)
    rw [h2, h1]
    refine ⟨rfl, rfl, ?_⟩
    intro hne
    simpa using hne.symm

/-- Witness of C15: `outer: for (;;) { continue outer; break outer; continue }`. -/
theorem label_jumps_survive_inner_loop_witness :
    ∃ ctx1 rw1, LabelOpLowering TSContext.empty LabelExample.labelOp LabelExample.rewriter
        = some (ctx1, rw1) ∧
      ∀ rw2 : PatternRewriter, ∃ ctx2 rw3,
        ForOpLowering ctx1 LabelExample.innerFor rw2 = some (ctx2, rw3) ∧
        (∀ op ∈ LabelExample.innerFor.forBody.walk, op.kind = OpKind.ContinueOp →
          op.labelAttr = some "outer" →
          ctx2.jumps op.id = some LabelExample.labelBlock.id ∧
          ctx2.jumps op.id = ctx1.jumps op.id ∧
          ctx2.jumps op.id ≠ some 2 ∧ ctx2.jumps op.id ≠ some 4 ∧
          (rw2.nextBlock ≠ LabelExample.labelBlock.id → ctx2.jumps op.id ≠ some rw2.nextBlock)) ∧
        (∀ op ∈ LabelExample.innerFor.forBody.walk, op.kind = OpKind.BreakOp →
          op.labelAttr = some "outer" →
          ctx2.jumps op.id = some LabelExample.rewriter.nextBlock ∧
          ctx2.jumps op.id = ctx1.jumps op.id ∧
          (rw2.nextBlock ≠ LabelExample.rewriter.nextBlock →
            ctx2.jumps op.id ≠ some rw2.nextBlock)) :=
  label_jumps_survive_inner_loop TSContext.empty LabelExample.labelOp LabelExample.innerFor
    LabelExample.rewriter "outer"
    LabelExample.labelBlock LabelExample.labelBlock LabelExample.labelBlock
    (Op.simple 12 OpKind.MergeOp [] [] [])
    (Block.mk 2 [] [Op.simple 21 OpKind.NoConditionOp [] [] []]) LabelExample.innerBody
    (Block.mk 4 [] [Op.simple 41 OpKind.ResultOp [] [] []])
    (Block.mk 2 [] [Op.simple 21 OpKind.NoConditionOp [] [] []]) LabelExample.innerBody
    (Block.mk 4 [] [Op.simple 41 OpKind.ResultOp [] [] []])
    (Op.simple 21 OpKind.NoConditionOp [] [] [])
    (Op.simple 33 OpKind.ResultOp [] [] [])
    (Op.simple 41 OpKind.ResultOp [] [] [])
    rfl rfl rfl rfl rfl rfl rfl rfl rfl rfl rfl rfl rfl rfl rfl (Or.inr ⟨rfl, rfl⟩) rfl rfl
    rfl (List.mem_iff_getElem.mpr ⟨6, by decide, rfl⟩) (by decide) (by decide) (by decide)
    (by decide)

/-! ## Break and continue -/

theorem eraseP_id_append_cons (before after : List Op) (op : Op)
    (hid : ∀ o ∈ before, o.id ≠ op.id) :
    (before ++ op :: after).eraseP (fun o => o.id == op.id) = before ++ after := by
  rw [List.eraseP_append_right]
  · simp
  · intro b hb
    simpa using hid b hb

theorem modifyBlock_append_cons (i : BlockId) (g : Block → List Block) (l : List Block)
    (b : Block) (r : List Block) (hl : i ∉ blockIds l) (hb : b.id = i) :
    modifyBlock i g (l ++ b :: r) = l ++ (g b ++ r) := by
  rw [modifyBlock_append_of_not_mem _ _ _ _ hl, modifyBlock_cons_eq _ _ _ _ hb]

/-- The blocks `BreakOpLowering` and `ContinueOpLowering` leave behind for an
operation with a target in `jumps`: the block ends in the branch to the target,
and the operations that followed go to a new block. -/
theorem BreakOpLowering_eq (ctx : TSContext) (op : Op) (rw : PatternRewriter)
    (pre post : List Block) (cid : BlockId) (cargs : List Ty) (before after : List Op)
    (jump : BlockId)
    (hblocks : rw.blocks = pre ++ Block.mk cid cargs (before ++ op :: after) :: post)
    (hib : rw.insertionBlock = cid) (hip : rw.insertionPoint = before.length)
    (hjump : ctx.jumps op.id = some jump)
    (hres : op.getNumResults = 0)
    (hcid : cid ∉ blockIds pre)
    (hid : ∀ o ∈ before, o.id ≠ op.id) (hnew : rw.nextOp ≠ op.id) :
    BreakOpLowering ctx op rw = some
      { blocks := pre ++ Block.mk cid cargs (before ++ [mkBranchOp rw.nextOp jump []]) ::
          Block.mk rw.nextBlock [] after :: post
        insertionBlock := cid
        insertionPoint := before.length + 1
        nextBlock := rw.nextBlock + 1
        nextOp := rw.nextOp + 1 } := by
  have hres2 : op.results = [] := by
    simp only [Op.getNumResults] at hres
    simp [Op.results, hres]
  have herase : (before ++ mkBranchOp rw.nextOp jump [] :: op :: after).eraseP
      (fun o => o.id == op.id) = before ++ mkBranchOp rw.nextOp jump [] :: after := by
    have := eraseP_id_append_cons (before ++ [mkBranchOp rw.nextOp jump []]) after op (by
      intro o ho
      simp only [List.mem_append, List.mem_singleton] at ho
      rcases ho with ho | ho
      · exact hid o ho
      · subst ho
        simpa [mkBranchOp, Op.term, Op.id] using hnew)
    simpa using this
  have htake : (before ++ mkBranchOp rw.nextOp jump [] :: after).take (before.length + 1)
      = before ++ [mkBranchOp rw.nextOp jump []] := by
    have h : before ++ mkBranchOp rw.nextOp jump [] :: after
        = (before ++ [mkBranchOp rw.nextOp jump []]) ++ after := by simp
    rw [h, List.take_left']
    simp
  have hdrop : (before ++ mkBranchOp rw.nextOp jump [] :: after).drop (before.length + 1)
      = after := by
    have h : before ++ mkBranchOp rw.nextOp jump [] :: after
        = (before ++ [mkBranchOp rw.nextOp jump []]) ++ after := by simp
    rw [h, List.drop_left']
    simp
  simp only [BreakOpLowering, hjump, hres, ne_eq, not_true_eq_false, if_false,
    CodeLogicHelper.CutBlock, PatternRewriter.create, PatternRewriter.replaceOp,
    PatternRewriter.replaceAllUsesWith, PatternRewriter.eraseOp, PatternRewriter.splitBlock,
    hblocks, hib, hip, hres2, List.zip_nil_left, replaceUsesBlocks_nil_map]
  simp [modifyBlock_append_cons _ _ _ _ _ hcid, herase, htake, hdrop]

theorem ContinueOpLowering_eq_BreakOpLowering (ctx : TSContext) (op : Op) (rw : PatternRewriter) :
    ContinueOpLowering ctx op rw = BreakOpLowering ctx op rw := rfl

/-- C16: for a `break` or `continue` operation `op` with a target `jump` in
`jumps`, standing in block `cid` between the operations `before` and `after`,
`BreakOpLowering` and `ContinueOpLowering` succeed and leave the same blocks:
block `cid` holds `before` followed by an unconditional branch without operands
to `jump`, which is its terminator; the operations `after` are no longer in that
block (they are cut off into the new block `rw.nextBlock`), and `op` is gone. -/
theorem BreakOpLowering_branch (ctx : TSContext) (op : Op) (rw : PatternRewriter)
    (pre post : List Block) (cid : BlockId) (cargs : List Ty) (before after : List Op)
    (jump : BlockId)
    (hblocks : rw.blocks = pre ++ Block.mk cid cargs (before ++ op :: after) :: post)
    (hib : rw.insertionBlock = cid) (hip : rw.insertionPoint = before.length)
    (hjump : ctx.jumps op.id = some jump)
    (hres : op.getNumResults = 0)
    (hcid : cid ∉ blockIds pre)
    (hid : ∀ o ∈ before, o.id ≠ op.id) (hnew : rw.nextOp ≠ op.id) :
    ∃ rw1 b, BreakOpLowering ctx op rw = some rw1 ∧ ContinueOpLowering ctx op rw = some rw1 ∧
      rw1.blocks = pre ++ b :: Block.mk rw.nextBlock [] after :: post ∧
      b.id = cid ∧
      b.ops = before ++ [mkBranchOp rw.nextOp jump []] ∧
      b.getTerminator = some (mkBranchOp rw.nextOp jump []) ∧
      (mkBranchOp rw.nextOp jump []).kind = OpKind.BranchOp ∧
      (mkBranchOp rw.nextOp jump []).operands = [] ∧
      (mkBranchOp rw.nextOp jump []).successors = [(jump, [])] := by
  have h := BreakOpLowering_eq ctx op rw pre post cid cargs before after jump hblocks hib hip
    hjump hres hcid hid hnew
  refine ⟨_, Block.mk cid cargs (before ++ [mkBranchOp rw.nextOp jump []]), h, h, rfl, rfl, rfl,
    ?_, rfl, rfl, rfl⟩
  simp [Block.getTerminator]

/-- Witness of C16: the `break L` of the lowered loop of `JumpLoop`, whose target
is the continuation block 4. -/
theorem BreakOpLowering_branch_witness :
    ∃ rw1 b, BreakOpLowering JumpLoop.afterFor.1 JumpLoop.breakOp JumpLoop.breakRewriter
        = some rw1 ∧
      ContinueOpLowering JumpLoop.afterFor.1 JumpLoop.breakOp JumpLoop.breakRewriter = some rw1 ∧
      rw1.blocks = JumpLoop.breakRewriter.blocks.take 2 ++ b ::
        Block.mk JumpLoop.breakRewriter.nextBlock []
          [Op.simple 25 OpKind.ContinueOp [] [] [("label", Attr.str "M")], mkBranchOp 103 3 []] ::
        JumpLoop.breakRewriter.blocks.drop 3 ∧
      b.id = 2 ∧
      b.ops = JumpLoop.bodyBlock.ops.take 1 ++ [mkBranchOp JumpLoop.breakRewriter.nextOp 4 []] ∧
      b.getTerminator = some (mkBranchOp JumpLoop.breakRewriter.nextOp 4 []) ∧
      (mkBranchOp JumpLoop.breakRewriter.nextOp 4 []).kind = OpKind.BranchOp ∧
      (mkBranchOp JumpLoop.breakRewriter.nextOp 4 []).operands = [] ∧
      (mkBranchOp JumpLoop.breakRewriter.nextOp 4 []).successors = [(4, [])] :=
  BreakOpLowering_branch JumpLoop.afterFor.1 JumpLoop.breakOp JumpLoop.breakRewriter
    (JumpLoop.breakRewriter.blocks.take 2) (JumpLoop.breakRewriter.blocks.drop 3) 2 []
    (JumpLoop.bodyBlock.ops.take 1)
    [Op.simple 25 OpKind.ContinueOp [] [] [("label", Attr.str "M")], mkBranchOp 103 3 []]
    4 rfl rfl rfl rfl rfl (by decide) (by decide) (by decide)

/-! ## Entries of `jumps` are never removed -/

theorem visitorBreakContinue_jumps_isSome (label : Option String) (bt ct : BlockId)
    (ctx : TSContext) (op : Op) (i : OpId) (h : (ctx.jumps i).isSome = true) :
    ((visitorBreakContinue label bt ct ctx op).jumps i).isSome = true := by
  unfold visitorBreakContinue
  split_ifs <;> first | exact h | (simp only [setEntry]; split_ifs <;> simp [h])

theorem foldl_visitorBreakContinue_jumps_isSome (label : Option String) (bt ct : BlockId)
    (ops : List Op) (ctx : TSContext) (i : OpId) (h : (ctx.jumps i).isSome = true) :
    ((ops.foldl (visitorBreakContinue label bt ct) ctx).jumps i).isSome = true := by
  induction ops generalizing ctx with
  | nil => exact h
  | cons o ops ih =>
    simp only [List.foldl_cons]
    exact ih _ (visitorBreakContinue_jumps_isSome label bt ct ctx o i h)

/-- After the walk, every visited `break` or `continue` that the construct takes
has an entry in `jumps`. -/
theorem foldl_visitorBreakContinue_jumps_isSome_of_mem (label : Option String) (bt ct : BlockId)
    (ops : List Op) (ctx : TSContext) (op : Op) (hop : op ∈ ops)
    (hk : op.kind = OpKind.BreakOp ∨ op.kind = OpKind.ContinueOp)
    (hm : matchLabelOrNotSet label op.labelAttr = true) :
    ((ops.foldl (visitorBreakContinue label bt ct) ctx).jumps op.id).isSome = true := by
  induction ops generalizing ctx with
  | nil => simp at hop
  | cons o ops ih =>
    simp only [List.foldl_cons]
    rcases List.mem_cons.mp hop with h | h
    · subst h
      apply foldl_visitorBreakContinue_jumps_isSome
      rcases hk with hk | hk
      · simp [visitorBreakContinue, hk, hm, setEntry]
      · simp [visitorBreakContinue, hk, hm, setEntry]
    · exact ih _ h

/-- The context `ForOpLowering` returns is the one the walk of the body produces. -/
theorem ForOpLowering_context_inv (ctx : TSContext) (op : Op) (rw : PatternRewriter)
    (ctx1 : TSContext) (rw1 : PatternRewriter) (h : ForOpLowering ctx op rw = some (ctx1, rw1)) :
    ∃ bt ct, ctx1 = op.forBody.walk.foldl (visitorBreakContinue op.labelAttr bt ct) ctx := by
  simp only [ForOpLowering] at h
  repeat' split at h
  all_goals first
    | (simp only [Option.some.injEq, Prod.mk.injEq] at h; exact ⟨_, _, h.1.symm⟩)
    | (exact absurd h (by simp))

theorem WhileOpLowering_context_inv (ctx : TSContext) (op : Op) (rw : PatternRewriter)
    (ctx1 : TSContext) (rw1 : PatternRewriter) (h : WhileOpLowering ctx op rw = some (ctx1, rw1)) :
    ∃ bt ct, ctx1 = op.whileBody.walk.foldl (visitorBreakContinue op.labelAttr bt ct) ctx := by
  simp only [WhileOpLowering] at h
  repeat' split at h
  all_goals first
    | (simp only [Option.some.injEq, Prod.mk.injEq] at h; exact ⟨_, _, h.1.symm⟩)
    | (exact absurd h (by simp))

theorem DoWhileOpLowering_context_inv (ctx : TSContext) (op : Op) (rw : PatternRewriter)
    (ctx1 : TSContext) (rw1 : PatternRewriter)
    (h : DoWhileOpLowering ctx op rw = some (ctx1, rw1)) :
    ∃ bt ct, ctx1 = op.doWhileBody.walk.foldl (visitorBreakContinue op.labelAttr bt ct) ctx := by
  simp only [DoWhileOpLowering] at h
  repeat' split at h
  all_goals first
    | (simp only [Option.some.injEq, Prod.mk.injEq] at h; exact ⟨_, _, h.1.symm⟩)
    | (exact absurd h (by simp))

theorem LabelOpLowering_context_inv (ctx : TSContext) (op : Op) (rw : PatternRewriter)
    (ctx1 : TSContext) (rw1 : PatternRewriter) (h : LabelOpLowering ctx op rw = some (ctx1, rw1)) :
    ∃ bt ct, ctx1 = op.labelRegion.walk.foldl (visitorBreakContinue op.labelAttr bt ct) ctx := by
  simp only [LabelOpLowering] at h
  repeat' split at h
  all_goals first
    | (simp only [Option.some.injEq, Prod.mk.injEq] at h; exact ⟨_, _, h.1.symm⟩)
    | (exact absurd h (by simp))

/-- `TryOpLowering` does not write to `jumps`. -/
theorem TryOpLowering_jumps_inv (winException : Bool) (ctx : TSContext) (op : Op)
    (rw : PatternRewriter) (ctx1 : TSContext) (rw1 : PatternRewriter)
    (h : TryOpLowering winException ctx op rw = some (ctx1, rw1)) : ctx1.jumps = ctx.jumps := by
  simp only [TryOpLowering] at h
  repeat' split at h
  all_goals first
    | (simp only [Option.some.injEq, Prod.mk.injEq] at h
       rw [← h.1]
       exact (foldl_visitorCallOpContinue_other _ _ _).1)
    | (exact absurd h (by simp))

theorem ConstructLowering_context (ctx0 : TSContext) (c : Op) (ctx1 : TSContext) (r : Region)
    (h : ConstructLowering ctx0 c ctx1 r) :
    ∃ bt ct, ctx1 = r.walk.foldl (visitorBreakContinue c.labelAttr bt ct) ctx0 := by
  cases h with
  | forOp rw rw1 h => exact ForOpLowering_context_inv ctx0 c rw ctx1 rw1 h
  | whileOp rw rw1 h => exact WhileOpLowering_context_inv ctx0 c rw ctx1 rw1 h
  | doWhileOp rw rw1 h => exact DoWhileOpLowering_context_inv ctx0 c rw ctx1 rw1 h
  | labelOp rw rw1 h => exact LabelOpLowering_context_inv ctx0 c rw ctx1 rw1 h

theorem ContextStep_jumps_isSome (ctx ctx1 : TSContext) (h : ContextStep ctx ctx1) (i : OpId)
    (hi : (ctx.jumps i).isSome = true) : (ctx1.jumps i).isSome = true := by
  cases h
  · rename_i c r hc
    obtain ⟨bt, ct, rfl⟩ := ConstructLowering_context ctx c ctx1 r hc
    exact foldl_visitorBreakContinue_jumps_isSome _ _ _ _ _ _ hi
  · rename_i win op rw rw1 ht
    rw [TryOpLowering_jumps_inv win ctx op rw ctx1 rw1 ht]
    exact hi

theorem ContextSteps_jumps_isSome (ctx ctx1 : TSContext) (h : ContextSteps ctx ctx1) (i : OpId)
    (hi : (ctx.jumps i).isSome = true) : (ctx1.jumps i).isSome = true := by
  induction h with
  | refl => exact hi
  | tail _ hstep ih => exact ContextStep_jumps_isSome _ _ hstep i ih

/-- C17: lowering a `break` or `continue` for which `jumps` holds no target fails:
`BreakOpLowering` and `ContinueOpLowering` return no rewriter state, so no branch
is emitted.  Conversely, when the operation is nested in the region that the
lowering of a loop or of a label walks, its label is unset or equals the label
of that construct, and the construct was lowered before (any number of other
patterns may have been applied since), `jumps` holds a target and both lowerings
succeed. -/
theorem break_continue_target_resolved :
    (∀ (ctx : TSContext) (op : Op) (rw : PatternRewriter), ctx.jumps op.id = none →
      BreakOpLowering ctx op rw = none ∧ ContinueOpLowering ctx op rw = none) ∧
    (∀ (ctx0 : TSContext) (c : Op) (ctx1 : TSContext) (r : Region) (op : Op) (ctx2 : TSContext)
        (rw2 : PatternRewriter),
      ConstructLowering ctx0 c ctx1 r → op ∈ r.walk →
      (op.kind = OpKind.BreakOp ∨ op.kind = OpKind.ContinueOp) →
      (op.labelAttr = none ∨ op.labelAttr = c.labelAttr) →
      op.getNumResults = 0 →
      ContextSteps ctx1 ctx2 →
      (∃ jump, ctx2.jumps op.id = some jump) ∧
      (BreakOpLowering ctx2 op rw2).isSome = true ∧
      (ContinueOpLowering ctx2 op rw2).isSome = true) := by
  refine ⟨?_, ?_⟩
  · intro ctx op rw h
    simp [BreakOpLowering, ContinueOpLowering, h]
  · intro ctx0 c ctx1 r op ctx2 rw2 hc hop hk hl hres hsteps
    obtain ⟨bt, ct, rfl⟩ := ConstructLowering_context ctx0 c ctx1 r hc
    have h1 := foldl_visitorBreakContinue_jumps_isSome_of_mem c.labelAttr bt ct r.walk ctx0 op hop
      hk (matchLabelOrNotSet_of_unset_or_eq _ _ hl)
    have h2 := ContextSteps_jumps_isSome _ _ hsteps op.id h1
    obtain ⟨jump, hj⟩ := Option.isSome_iff_exists.mp h2
    refine ⟨⟨jump, hj⟩, ?_, ?_⟩
    · simp [BreakOpLowering, hj, hres]
    · simp [ContinueOpLowering, hj, hres]

/-- Witness of C17: in the lowered loop of `JumpLoop`, `continue M`, whose label
no construct carries, has no target and is not lowered; `break L` has one. -/
theorem break_continue_target_resolved_witness :
    (BreakOpLowering JumpLoop.afterFor.1
        (Op.simple 25 OpKind.ContinueOp [] [] [("label", Attr.str "M")])
        JumpLoop.breakRewriter = none ∧
      ContinueOpLowering JumpLoop.afterFor.1
        (Op.simple 25 OpKind.ContinueOp [] [] [("label", Attr.str "M")])
        JumpLoop.breakRewriter = none) ∧
    ((∃ jump, JumpLoop.afterFor.1.jumps JumpLoop.breakOp.id = some jump) ∧
      (BreakOpLowering JumpLoop.afterFor.1 JumpLoop.breakOp JumpLoop.breakRewriter).isSome = true ∧
      (ContinueOpLowering JumpLoop.afterFor.1 JumpLoop.breakOp JumpLoop.breakRewriter).isSome
        = true) :=
  ⟨break_continue_target_resolved.1 JumpLoop.afterFor.1
      (Op.simple 25 OpKind.ContinueOp [] [] [("label", Attr.str "M")]) JumpLoop.breakRewriter rfl,
   break_continue_target_resolved.2 TSContext.empty JumpLoop.forOp JumpLoop.afterFor.1
      JumpLoop.forOp.forBody JumpLoop.breakOp JumpLoop.afterFor.1 JumpLoop.breakRewriter
      (ConstructLowering.forOp JumpLoop.rewriter JumpLoop.afterFor.2 rfl)
      (List.mem_iff_getElem.mpr ⟨3, by decide, rfl⟩) (Or.inl rfl) (Or.inr rfl) rfl
      Relation.ReflTransGen.refl⟩

/-! ## Calls -/

theorem replaceUsesOps_append (m : ValueMapping) (l r : List Op) :
    replaceUsesOps m (l ++ r) = replaceUsesOps m l ++ replaceUsesOps m r := by
  induction l with
  | nil => simp
  | cons a l ih => simp [ih]

theorem eraseP_id_replaceUsesOps (m : ValueMapping) (before after : List Op) (op : Op)
    (hid : ∀ o ∈ before, o.id ≠ op.id) :
    (replaceUsesOps m (before ++ op :: after)).eraseP (fun o => o.id == op.id)
      = replaceUsesOps m (before ++ after) := by
  rw [replaceUsesOps_append, replaceUsesOps_append, replaceUsesOps_cons]
  have := eraseP_id_append_cons (replaceUsesOps m before) (replaceUsesOps m after)
    (replaceUsesOp m op) (by
      intro o ho
      rw [mem_replaceUsesOps] at ho
      obtain ⟨o2, ho2, rfl⟩ := ho
      simpa using hid o2 ho2)
  simpa using this

/-- The blocks after `CallOpLowering` or `CallIndirectOpLowering` (with the
`callee` attribute `callee`, empty for an indirect call) of a call that has an
unwind entry: the block is split at the call and ends in the invoke. -/
theorem call_to_invoke_blocks (op : Op) (rw : PatternRewriter)
    (pre post : List Block) (cid : BlockId) (cargs : List Ty) (before after : List Op)
    (unwind : BlockId) (callee : List (String × Attr))
    (hblocks : rw.blocks = pre ++ Block.mk cid cargs (before ++ op :: after) :: post)
    (hib : rw.insertionBlock = cid) (hip : rw.insertionPoint = before.length)
    (hcid : cid ∉ blockIds pre) (hfresh : rw.nextBlock ≠ cid)
    (hfresh2 : rw.nextBlock ∉ blockIds pre) :
    (((CodeLogicHelper.CutBlockAndSetInsertPointToEndOfBlock rw).2.createAtEnd cid
        [mkInvokeOp rw.nextOp op.resultTypes callee op.operands
          (CodeLogicHelper.CutBlockAndSetInsertPointToEndOfBlock rw).1 unwind]).eraseOp
        (CodeLogicHelper.CutBlockAndSetInsertPointToEndOfBlock rw).1 op.id).blocks
      = pre ++ Block.mk cid cargs
          (before ++ [mkInvokeOp rw.nextOp op.resultTypes callee op.operands rw.nextBlock unwind])
        :: Block.mk rw.nextBlock [] after :: post := by
  simp only [CodeLogicHelper.CutBlockAndSetInsertPointToEndOfBlock, CodeLogicHelper.CutBlock,
    PatternRewriter.createAtEnd, PatternRewriter.eraseOp, PatternRewriter.splitBlock,
    hblocks, hib, hip]
  simp [modifyBlock_append_cons _ _ _ _ _ hcid, modifyBlock_append_of_not_mem _ _ _ _ hfresh2,
    modifyBlock_cons_eq, modifyBlock_cons_ne2, hfresh]

/-- The blocks after `CallOpLowering` or `CallIndirectOpLowering` of a call
without unwind entry: the call is replaced in place by the internal call, whose
results replace the results of the call. -/
theorem call_to_internal_blocks (op : Op) (rw : PatternRewriter)
    (pre post : List Block) (cid : BlockId) (cargs : List Ty) (before after : List Op)
    (callee : List (String × Attr))
    (hblocks : rw.blocks = pre ++ Block.mk cid cargs (before ++ op :: after) :: post)
    (hib : rw.insertionBlock = cid) (hip : rw.insertionPoint = before.length)
    (hcid : cid ∉ blockIds pre)
    (hid : ∀ o ∈ before, o.id ≠ op.id) (hnew : rw.nextOp ≠ op.id) :
    ((rw.create [mkCallInternalOp rw.nextOp op.resultTypes callee op.operands]).replaceOp cid op
        (mkCallInternalOp rw.nextOp op.resultTypes callee op.operands).results).blocks
      = replaceUsesBlocks
          (op.results.zip (mkCallInternalOp rw.nextOp op.resultTypes callee op.operands).results)
          (pre ++ Block.mk cid cargs
            (before ++ mkCallInternalOp rw.nextOp op.resultTypes callee op.operands :: after)
            :: post) := by
  have hcid2 : ∀ m : ValueMapping, cid ∉ blockIds (replaceUsesBlocks m pre) := by
    intro m
    simpa using hcid
  have herase := fun m : ValueMapping => eraseP_id_replaceUsesOps m
    (before ++ [mkCallInternalOp rw.nextOp op.resultTypes callee op.operands]) after op (by
      intro o ho
      simp only [List.mem_append, List.mem_singleton] at ho
      rcases ho with ho | ho
      · exact hid o ho
      · subst ho
        simpa [mkCallInternalOp, Op.simple, Op.id] using hnew)
  simp only [List.append_assoc, List.singleton_append] at herase
  simp only [PatternRewriter.create, PatternRewriter.replaceOp, PatternRewriter.eraseOp,
    PatternRewriter.replaceAllUsesWith, hblocks, hib, hip]
  simp [modifyBlock_append_cons _ _ _ _ _ hcid, modifyBlock_append_cons _ _ _ _ _ (hcid2 _),
    herase]

/-- C18: for a call `op` standing in block `cid` between the operations `before`
and `after`, `CallOpLowering` and `CallIndirectOpLowering` leave these blocks.
When `unwind` holds a block for the call, block `cid` is split at the call: it
keeps `before` and ends in an invoke with the callee, the operands and the result
types of the call, whose normal destination is the split-off block
(`rw.nextBlock`, which holds `after`) and whose unwind destination is the
recorded block.  When there is no entry, the call is replaced in place by an
internal call with the same callee, operands and result types, whose results
replace those of the call, and no block is added. -/
theorem CallOpLowering_invoke_or_call (ctx : TSContext) (op : Op) (rw : PatternRewriter)
    (pre post : List Block) (cid : BlockId) (cargs : List Ty) (before after : List Op)
    (hblocks : rw.blocks = pre ++ Block.mk cid cargs (before ++ op :: after) :: post)
    (hib : rw.insertionBlock = cid) (hip : rw.insertionPoint = before.length)
    (hcid : cid ∉ blockIds pre) (hfresh : rw.nextBlock ≠ cid)
    (hfresh2 : rw.nextBlock ∉ blockIds pre)
    (hid : ∀ o ∈ before, o.id ≠ op.id) (hnew : rw.nextOp ≠ op.id) :
    (CallOpLowering ctx op rw).blocks =
      (match ctx.unwind op.id with
       | some unwind =>
         pre ++ Block.mk cid cargs
            (before ++ [Op.mk rw.nextOp OpKind.InvokeOp op.operands op.resultTypes op.calleeAttr
              [(rw.nextBlock, []), (unwind, [])] []])
          :: Block.mk rw.nextBlock [] after :: post
       | none =>
         replaceUsesBlocks
          (op.results.zip ((List.range op.resultTypes.length).map (Value.opResult rw.nextOp)))
          (pre ++ Block.mk cid cargs
            (before ++ Op.mk rw.nextOp OpKind.CallInternalOp op.operands op.resultTypes
              op.calleeAttr [] [] :: after) :: post)) ∧
    (CallIndirectOpLowering ctx op rw).blocks =
      (match ctx.unwind op.id with
       | some unwind =>
         pre ++ Block.mk cid cargs
            (before ++ [Op.mk rw.nextOp OpKind.InvokeOp op.operands op.resultTypes []
              [(rw.nextBlock, []), (unwind, [])] []])
          :: Block.mk rw.nextBlock [] after :: post
       | none =>
         replaceUsesBlocks
          (op.results.zip ((List.range op.resultTypes.length).map (Value.opResult rw.nextOp)))
          (pre ++ Block.mk cid cargs
            (before ++ Op.mk rw.nextOp OpKind.CallInternalOp op.operands op.resultTypes
              [] [] [] :: after) :: post)) ∧
    (CallOpLowering ctx op rw).blocks.length =
      (if (ctx.unwind op.id).isSome then rw.blocks.length + 1 else rw.blocks.length) := by
  have hinv := fun unwind callee => call_to_invoke_blocks op rw pre post cid cargs before after
    unwind callee hblocks hib hip hcid hfresh hfresh2
  have hint := fun callee => call_to_internal_blocks op rw pre post cid cargs before after callee
    hblocks hib hip hcid hid hnew
  have hlen : ∀ (m : ValueMapping) (l : List Block), (replaceUsesBlocks m l).length = l.length := by
    intro m l
    induction l with
    | nil => simp
    | cons a l ih => simp [ih]
  cases hu : ctx.unwind op.id with
  | some unwind =>
    refine ⟨?_, ?_, ?_⟩
    · simp only [CallOpLowering, hu, hib]
      exact hinv unwind op.calleeAttr
    · simp only [CallIndirectOpLowering, hu, hib]
      exact hinv unwind []
    · simp only [CallOpLowering, hu, hib]
      rw [hinv unwind op.calleeAttr, hblocks]
      simp only [List.length_append, List.length_cons, Option.isSome_some, if_true]
      omega
  | none =>
    refine ⟨?_, ?_, ?_⟩
    · simp only [CallOpLowering, hu, hib]
      exact hint op.calleeAttr
    · simp only [CallIndirectOpLowering, hu, hib]
      exact hint []
    · simp only [CallOpLowering, hu, hib]
      rw [hint op.calleeAttr, hblocks, hlen]
      simp

/-- Witness of C18: the call `v = f(x)` of `CallExample` with an unwind entry. -/
theorem CallOpLowering_invoke_or_call_witness :
    (CallOpLowering CallExample.unwindContext CallExample.callOp CallExample.rewriter).blocks =
      (match CallExample.unwindContext.unwind CallExample.callOp.id with
       | some unwind =>
         [] ++ Block.mk 0 []
            ([Op.simple 0 OpKind.ConstantOp [] [Ty.i32] [("value", Attr.int 7)]] ++
              [Op.mk 100 OpKind.InvokeOp CallExample.callOp.operands
                CallExample.callOp.resultTypes CallExample.callOp.calleeAttr
                [(8, []), (unwind, [])] []])
          :: Block.mk 8 [] [Op.simple 2 OpKind.VariableOp [Value.opResult 1 0] [Ty.ref Ty.i32] []]
          :: [Block.mk 7 [] []]
       | none =>
         replaceUsesBlocks
          (CallExample.callOp.results.zip
            ((List.range CallExample.callOp.resultTypes.length).map (Value.opResult 100)))
          ([] ++ Block.mk 0 []
            ([Op.simple 0 OpKind.ConstantOp [] [Ty.i32] [("value", Attr.int 7)]] ++
              Op.mk 100 OpKind.CallInternalOp CallExample.callOp.operands
                CallExample.callOp.resultTypes CallExample.callOp.calleeAttr [] [] ::
              [Op.simple 2 OpKind.VariableOp [Value.opResult 1 0] [Ty.ref Ty.i32] []])
            :: [Block.mk 7 [] []])) ∧
    (CallIndirectOpLowering CallExample.unwindContext CallExample.callOp
        CallExample.rewriter).blocks =
      (match CallExample.unwindContext.unwind CallExample.callOp.id with
       | some unwind =>
         [] ++ Block.mk 0 []
            ([Op.simple 0 OpKind.ConstantOp [] [Ty.i32] [("value", Attr.int 7)]] ++
              [Op.mk 100 OpKind.InvokeOp CallExample.callOp.operands
                CallExample.callOp.resultTypes [] [(8, []), (unwind, [])] []])
          :: Block.mk 8 [] [Op.simple 2 OpKind.VariableOp [Value.opResult 1 0] [Ty.ref Ty.i32] []]
          :: [Block.mk 7 [] []]
       | none =>
         replaceUsesBlocks
          (CallExample.callOp.results.zip
            ((List.range CallExample.callOp.resultTypes.length).map (Value.opResult 100)))
          ([] ++ Block.mk 0 []
            ([Op.simple 0 OpKind.ConstantOp [] [Ty.i32] [("value", Attr.int 7)]] ++
              Op.mk 100 OpKind.CallInternalOp CallExample.callOp.operands
                CallExample.callOp.resultTypes [] [] [] ::
              [Op.simple 2 OpKind.VariableOp [Value.opResult 1 0] [Ty.ref Ty.i32] []])
            :: [Block.mk 7 [] []])) ∧
    (CallOpLowering CallExample.unwindContext CallExample.callOp CallExample.rewriter).blocks.length
      = (if (CallExample.unwindContext.unwind CallExample.callOp.id).isSome
          then CallExample.rewriter.blocks.length + 1 else CallExample.rewriter.blocks.length) :=
  CallOpLowering_invoke_or_call CallExample.unwindContext CallExample.callOp CallExample.rewriter
    [] [Block.mk 7 [] []] 0 []
    [Op.simple 0 OpKind.ConstantOp [] [Ty.i32] [("value", Attr.int 7)]]
    [Op.simple 2 OpKind.VariableOp [Value.opResult 1 0] [Ty.ref Ty.i32] []]
    rfl rfl rfl (by decide) (by decide) (by decide) (by decide) (by decide)

/-- The two cases of the call of `CallExample`, evaluated: with the unwind entry
the block is split and ends in the invoke to blocks 8 and 7; without it the call
becomes an internal call whose result the next operation uses. -/
theorem call_example_lowered :
    (CallOpLowering CallExample.unwindContext CallExample.callOp CallExample.rewriter).blocks.map
        (fun b => (b.id, b.ops.map (fun o => (o.id, o.kind, o.operands, o.successors))))
      = [(0, [(0, OpKind.ConstantOp, [], []),
              (100, OpKind.InvokeOp, [Value.opResult 0 0], [(8, []), (7, [])])]),
         (8, [(2, OpKind.VariableOp, [Value.opResult 1 0], [])]),
         (7, [])] ∧
    (CallOpLowering TSContext.empty CallExample.callOp CallExample.rewriter).blocks.map
        (fun b => (b.id, b.ops.map (fun o => (o.id, o.kind, o.operands, o.successors))))
      = [(0, [(0, OpKind.ConstantOp, [], []),
              (100, OpKind.CallInternalOp, [Value.opResult 0 0], []),
              (2, OpKind.VariableOp, [Value.opResult 100 0], [])]),
         (7, [])] :=
  ⟨rfl, rfl⟩

/-! ## Throw -/

/-- The blocks after an operation of block `cid` is replaced by `newOp`, created
at the insertion point, and the rest of the block is cut off. -/
theorem replace_and_cut_blocks (op newOp : Op) (rw : PatternRewriter)
    (pre post : List Block) (cid : BlockId) (cargs : List Ty) (before after : List Op)
    (hblocks : rw.blocks = pre ++ Block.mk cid cargs (before ++ op :: after) :: post)
    (hib : rw.insertionBlock = cid) (hip : rw.insertionPoint = before.length)
    (hres : op.getNumResults = 0)
    (hcid : cid ∉ blockIds pre)
    (hid : ∀ o ∈ before, o.id ≠ op.id) (hnew : newOp.id ≠ op.id) :
    (CodeLogicHelper.CutBlock ((rw.create [newOp]).replaceOp cid op [])).2 =
      { blocks := pre ++ Block.mk cid cargs (before ++ [newOp]) ::
          Block.mk rw.nextBlock [] after :: post
        insertionBlock := cid
        insertionPoint := before.length + 1
        nextBlock := rw.nextBlock + 1
        nextOp := rw.nextOp } := by
  have hres2 : op.results = [] := by
    simp only [Op.getNumResults] at hres
    simp [Op.results, hres]
  have herase : (before ++ newOp :: op :: after).eraseP
      (fun o => o.id == op.id) = before ++ newOp :: after := by
    have := eraseP_id_append_cons (before ++ [newOp]) after op (by
      intro o ho
      simp only [List.mem_append, List.mem_singleton] at ho
      rcases ho with ho | ho
      · exact hid o ho
      · subst ho
        exact hnew)
    simpa using this
  have htake : (before ++ newOp :: after).take (before.length + 1) = before ++ [newOp] := by
    have h : before ++ newOp :: after = (before ++ [newOp]) ++ after := by simp
    rw [h, List.take_left']
    simp
  have hdrop : (before ++ newOp :: after).drop (before.length + 1) = after := by
    have h : before ++ newOp :: after = (before ++ [newOp]) ++ after := by simp
    rw [h, List.drop_left']
    simp
  simp only [CodeLogicHelper.CutBlock, PatternRewriter.create, PatternRewriter.replaceOp,
    PatternRewriter.replaceAllUsesWith, PatternRewriter.eraseOp, PatternRewriter.splitBlock,
    hblocks, hib, hip, hres2, List.zip_nil_left, replaceUsesBlocks_nil_map]
  simp [modifyBlock_append_cons _ _ _ _ _ hcid, herase, htake, hdrop]

/-- The result of `ThrowOpLowering`: the throw is replaced by the unwinding throw
when `unwind` holds a block for it and by the throw call otherwise; the rest of
the block is cut off. -/
theorem ThrowOpLowering_eq (ctx : TSContext) (throwOp : Op) (rw : PatternRewriter)
    (pre post : List Block) (cid : BlockId) (cargs : List Ty) (before after : List Op)
    (exception : Value)
    (hblocks : rw.blocks = pre ++ Block.mk cid cargs (before ++ throwOp :: after) :: post)
    (hib : rw.insertionBlock = cid) (hip : rw.insertionPoint = before.length)
    (hexc : throwOp.operands.head? = some exception)
    (hres : throwOp.getNumResults = 0)
    (hcid : cid ∉ blockIds pre)
    (hid : ∀ o ∈ before, o.id ≠ throwOp.id) (hnew : rw.nextOp ≠ throwOp.id) :
    ThrowOpLowering ctx throwOp rw = some
      { blocks := pre ++ Block.mk cid cargs (before ++
            [match ctx.unwind throwOp.id with
             | some unwind => Op.term rw.nextOp OpKind.ThrowUnwindOp [exception] [(unwind, [])]
             | none => Op.simple rw.nextOp OpKind.ThrowCallOp [exception] [] []]) ::
          Block.mk rw.nextBlock [] after :: post
        insertionBlock := cid
        insertionPoint := before.length + 1
        nextBlock := rw.nextBlock + 1
        nextOp := rw.nextOp + 1 } := by
  have hnew2 : (match ctx.unwind throwOp.id with
      | some unwind => Op.term rw.nextOp OpKind.ThrowUnwindOp [exception] [(unwind, [])]
      | none => Op.simple rw.nextOp OpKind.ThrowCallOp [exception] [] []).id ≠ throwOp.id := by
    cases ctx.unwind throwOp.id <;> simpa [Op.term, Op.simple, Op.id] using hnew
  have h := replace_and_cut_blocks throwOp _ rw pre post cid cargs before after hblocks hib hip
    hres hcid hid hnew2
  simp only [ThrowOpLowering, hexc, hres, ne_eq, not_true_eq_false, if_false, hib]
  rw [h]

/-- C19 (counterexample): in `try { throw X } catch (e) { throw X } finally { ... }`
the `throw` of the catch clause is nested in the try, in its catches region; after
`TryOpLowering` it has no unwind entry, and `ThrowOpLowering` replaces it by the
plain throw call, not by the unwinding throw. -/
theorem ThrowOpLowering_in_catch_counterexample :
    ∃ rw1, TryExample.throwInCatch ∈ TryExample.tryRethrowOp.tryCatches.walk ∧
      TryOpLowering false TSContext.empty TryExample.tryRethrowOp TryExample.rethrowRewriter
        = some TryExample.afterTry ∧
      TryExample.afterTry.1.unwind TryExample.throwInCatch.id = none ∧
      ThrowOpLowering TryExample.afterTry.1 TryExample.throwInCatch
        TryExample.throwInCatchRewriter = some rw1 ∧
      (findBlock 5 rw1.blocks).map (fun b => b.ops.map (fun o => (o.kind, o.successors)))
        = some [(OpKind.BeginCatchOp, []), (OpKind.CatchOp, []), (OpKind.ThrowCallOp, [])] ∧
      ¬ (∃ b ∈ rw1.blocks, ∃ o ∈ b.ops, o.kind = OpKind.ThrowUnwindOp) :=
  ⟨_, List.mem_iff_getElem.mpr ⟨1, by decide, rfl⟩, rfl, rfl, rfl, rfl, by decide⟩

/-- C19 (amended): after `TryOpLowering` of a well-formed `try`, `ThrowOpLowering`
of a `throw` standing in block `cid` between `before` and `after` succeeds.  The
throw is replaced by an operation `newOp` with which block `cid` ends, and the
operations `after` are cut off into the new block `rw.nextBlock`.  `newOp` is the
unwinding throw to the block that `unwind` holds for the throw, when it holds
one, and the plain throw call otherwise.  For a throw nested in the body region
of the try, that is the unwinding throw to the first block of the catches
region; for a throw that is not in the body region (one in the catches or finally
region, or outside the try) and had no entry before, it is the plain throw
call. -/
theorem ThrowOpLowering_after_try (winException : Bool) (ctx : TSContext) (tryOp : Op)
    (rw0 : PatternRewriter)
    (bodyFirst bodyLast catchesFirst catchesLast finallyFirst finallyLast : Block)
    (bodyTerm catchesTerm finallyTerm : Op)
    (hbody1 : tryOp.tryBody.head? = some bodyFirst)
    (hbodyL : tryOp.tryBody.getLast? = some bodyLast)
    (hbodyT : bodyLast.getTerminator = some bodyTerm)
    (hcatches1 : tryOp.tryCatches.head? = some catchesFirst)
    (hcatchesL : tryOp.tryCatches.getLast? = some catchesLast)
    (hcatchesT : catchesLast.getTerminator = some catchesTerm)
    (hfinally1 : tryOp.tryFinallyBlock.head? = some finallyFirst)
    (hfinallyL : tryOp.tryFinallyBlock.getLast? = some finallyLast)
    (hfinallyT : finallyLast.getTerminator = some finallyTerm)
    (hbk : bodyTerm.kind = OpKind.ResultOp) (hck : catchesTerm.kind = OpKind.ResultOp)
    (hfk : finallyTerm.kind = OpKind.ResultOp)
    (hcatch : (catchOpsOf tryOp).length ≤ 1)
    (hres : tryOp.getNumResults = 0) :
    ∃ ctx1 rw01, TryOpLowering winException ctx tryOp rw0 = some (ctx1, rw01) ∧
      ∀ (throwOp : Op) (rw : PatternRewriter) (pre post : List Block) (cid : BlockId)
        (cargs : List Ty) (before after : List Op) (exception : Value),
        rw.blocks = pre ++ Block.mk cid cargs (before ++ throwOp :: after) :: post →
        rw.insertionBlock = cid → rw.insertionPoint = before.length →
        throwOp.kind = OpKind.ThrowOp →
        throwOp.operands.head? = some exception →
        throwOp.getNumResults = 0 →
        cid ∉ blockIds pre → (∀ o ∈ before, o.id ≠ throwOp.id) → rw.nextOp ≠ throwOp.id →
        ∃ rw1 newOp, ThrowOpLowering ctx1 throwOp rw = some rw1 ∧
          rw1.blocks = pre ++ Block.mk cid cargs (before ++ [newOp]) ::
            Block.mk rw.nextBlock [] after :: post ∧
          newOp = (match ctx1.unwind throwOp.id with
            | some unwind => Op.term rw.nextOp OpKind.ThrowUnwindOp [exception] [(unwind, [])]
            | none => Op.simple rw.nextOp OpKind.ThrowCallOp [exception] [] []) ∧
          (throwOp ∈ tryOp.tryBody.walk →
            newOp = Op.term rw.nextOp OpKind.ThrowUnwindOp [exception] [(catchesFirst.id, [])]) ∧
          (throwOp.id ∉ tryOp.tryBody.walk.map Op.id → ctx.unwind throwOp.id = none →
            newOp = Op.simple rw.nextOp OpKind.ThrowCallOp [exception] [] []) := by
  obtain ⟨rw01, h⟩ := TryOpLowering_context winException ctx tryOp rw0 bodyFirst bodyLast
    catchesFirst catchesLast finallyFirst finallyLast bodyTerm catchesTerm finallyTerm
    hbody1 hbodyL hbodyT hcatches1 hcatchesL hcatchesT hfinally1 hfinallyL hfinallyT hbk hck hfk
    hcatch hres
  refine ⟨_, rw01, h, ?_⟩
  intro throwOp rw pre post cid cargs before after exception hblocks hib hip hkind hexc hres2
    hcid hid hnew
  have heq := ThrowOpLowering_eq
    (match (catchOpsOf tryOp).head? with
      | some catchOp =>
        { tryOp.tryBody.walk.foldl (visitorCallOpContinue catchesFirst.id) ctx with
          catchOpData :=
            setEntry (tryOp.tryBody.walk.foldl (visitorCallOpContinue catchesFirst.id)
              ctx).catchOpData catchOp.id (Value.opResult (rw0.nextOp + 6) 0) }
      | none => tryOp.tryBody.walk.foldl (visitorCallOpContinue catchesFirst.id) ctx)
    throwOp rw pre post cid cargs before after exception hblocks hib hip hexc hres2 hcid hid hnew
  have hu : (match (catchOpsOf tryOp).head? with
        | some catchOp =>
          { tryOp.tryBody.walk.foldl (visitorCallOpContinue catchesFirst.id) ctx with
            catchOpData :=
              setEntry (tryOp.tryBody.walk.foldl (visitorCallOpContinue catchesFirst.id)
                ctx).catchOpData catchOp.id (Value.opResult (rw0.nextOp + 6) 0) }
        | none => tryOp.tryBody.walk.foldl (visitorCallOpContinue catchesFirst.id) ctx).unwind
          throwOp.id
      = (tryOp.tryBody.walk.foldl (visitorCallOpContinue catchesFirst.id) ctx).unwind
          throwOp.id := by
    cases (catchOpsOf tryOp).head? <;> rfl
  refine ⟨_, _, heq, rfl, rfl, ?_, ?_⟩
  · intro hmem
    rw [hu, foldl_visitorCallOpContinue_unwind,
      if_pos ⟨throwOp, hmem, rfl, Or.inr (Or.inr hkind)⟩]
  · intro hnot hnone
    rw [hu, foldl_visitorCallOpContinue_unwind, if_neg, hnone]
    rintro ⟨op, hop, he, _⟩
    exact hnot (List.mem_map.mpr ⟨op, hop, he⟩)

/-- Witness of C19: `try { throw X } catch (e) { throw X } finally { counter++ }`. -/
theorem ThrowOpLowering_after_try_witness :
    ∃ ctx1 rw01, TryOpLowering false TSContext.empty TryExample.tryRethrowOp
        TryExample.rethrowRewriter = some (ctx1, rw01) ∧
      ∀ (throwOp : Op) (rw : PatternRewriter) (pre post : List Block) (cid : BlockId)
        (cargs : List Ty) (before after : List Op) (exception : Value),
        rw.blocks = pre ++ Block.mk cid cargs (before ++ throwOp :: after) :: post →
        rw.insertionBlock = cid → rw.insertionPoint = before.length →
        throwOp.kind = OpKind.ThrowOp →
        throwOp.operands.head? = some exception →
        throwOp.getNumResults = 0 →
        cid ∉ blockIds pre → (∀ o ∈ before, o.id ≠ throwOp.id) → rw.nextOp ≠ throwOp.id →
        ∃ rw1 newOp, ThrowOpLowering ctx1 throwOp rw = some rw1 ∧
          rw1.blocks = pre ++ Block.mk cid cargs (before ++ [newOp]) ::
            Block.mk rw.nextBlock [] after :: post ∧
          newOp = (match ctx1.unwind throwOp.id with
            | some unwind => Op.term rw.nextOp OpKind.ThrowUnwindOp [exception] [(unwind, [])]
            | none => Op.simple rw.nextOp OpKind.ThrowCallOp [exception] [] []) ∧
          (throwOp ∈ TryExample.tryRethrowOp.tryBody.walk →
            newOp = Op.term rw.nextOp OpKind.ThrowUnwindOp [exception]
              [(TryExample.rethrowCatchesBlock.id, [])]) ∧
          (throwOp.id ∉ TryExample.tryRethrowOp.tryBody.walk.map Op.id →
            TSContext.empty.unwind throwOp.id = none →
            newOp = Op.simple rw.nextOp OpKind.ThrowCallOp [exception] [] []) :=
  ThrowOpLowering_after_try false TSContext.empty TryExample.tryRethrowOp
    TryExample.rethrowRewriter
    TryExample.bodyBlock TryExample.bodyBlock TryExample.rethrowCatchesBlock
    TryExample.rethrowCatchesBlock TryExample.finallyBlock TryExample.finallyBlock
    (Op.simple 11 OpKind.ResultOp [] [] []) (Op.simple 21 OpKind.ResultOp [] [] [])
    (Op.simple 34 OpKind.ResultOp [] [] [])
    rfl rfl rfl rfl rfl rfl rfl rfl rfl rfl rfl rfl (by decide) rfl

/-- The two throws of the example, lowered: the `throw` of the body becomes the
unwinding throw to the catch dispatch block 2 and the branch after it is cut off
into block 6. -/
theorem throw_example_lowered :
    (ThrowOpLowering TryExample.afterTry.1 TryExample.throwInBody
        TryExample.throwInBodyRewriter).map (fun rw => rw.blocks.map (fun b =>
          (b.id, b.ops.map (fun o => (o.id, o.kind, o.successors))))) =
      some [(0, [(0, OpKind.ConstantOp, []), (1, OpKind.ConstantOp, []),
                 (2, OpKind.VariableOp, []), (4, OpKind.VariableOp, []),
                 (100, OpKind.BranchOp, [(1, [])])]),
            (1, [(101, OpKind.TypeInfoPtrOp, []), (112, OpKind.ThrowUnwindOp, [(2, [])])]),
            (6, [(102, OpKind.BranchOp, [(3, [])])]),
            (2, [(103, OpKind.LandingPadOp, []), (104, OpKind.ThrowInfoPtrOp, []),
                 (105, OpKind.CompareCatchTypeOp, []), (109, OpKind.CastOp, []),
                 (110, OpKind.CondBranchOp, [(5, []), (4, [])])]),
            (5, [(106, OpKind.BeginCatchOp, []), (20, OpKind.CatchOp, []),
                 (22, OpKind.ThrowOp, []), (107, OpKind.EndCatchOp, []),
                 (108, OpKind.BranchOp, [(3, [])])]),
            (3, [(30, OpKind.LoadOp, []), (31, OpKind.ConstantOp, []),
                 (32, OpKind.ArithmeticBinaryOp, []), (33, OpKind.StoreOp, []),
                 (111, OpKind.BranchOp, [(4, [])])]),
            (4, [])] :=
  rfl

/-! ## Catch -/

/-- The result of `CatchOpLowering` for a catch with a recorded value: the
operation that saves the value to the catch variable stands in the place of the
catch. -/
theorem CatchOpLowering_eq (ctx : TSContext) (catchOp : Op) (rw : PatternRewriter)
    (pre post : List Block) (cid : BlockId) (cargs : List Ty) (before after : List Op)
    (value catchArg : Value)
    (hblocks : rw.blocks = pre ++ Block.mk cid cargs (before ++ catchOp :: after) :: post)
    (hib : rw.insertionBlock = cid) (hip : rw.insertionPoint = before.length)
    (hdata : ctx.catchOpData catchOp.id = some value)
    (harg : catchOp.operands.head? = some catchArg)
    (hcid : cid ∉ blockIds pre)
    (hid : ∀ o ∈ before, o.id ≠ catchOp.id) (hnew : rw.nextOp ≠ catchOp.id) :
    CatchOpLowering ctx catchOp rw = some
      { blocks := pre ++ Block.mk cid cargs (before ++
            Op.simple rw.nextOp OpKind.SaveCatchVarOp [value, catchArg] [] [] :: after) :: post
        insertionBlock := cid
        insertionPoint := before.length + 1
        nextBlock := rw.nextBlock
        nextOp := rw.nextOp + 1 } := by
  have herase : (before ++ Op.simple rw.nextOp OpKind.SaveCatchVarOp [value, catchArg] [] [] ::
      catchOp :: after).eraseP (fun o => o.id == catchOp.id)
      = before ++ Op.simple rw.nextOp OpKind.SaveCatchVarOp [value, catchArg] [] [] :: after := by
    have := eraseP_id_append_cons
      (before ++ [Op.simple rw.nextOp OpKind.SaveCatchVarOp [value, catchArg] [] []]) after
      catchOp (by
        intro o ho
        simp only [List.mem_append, List.mem_singleton] at ho
        rcases ho with ho | ho
        · exact hid o ho
        · subst ho
          simpa [Op.simple, Op.id] using hnew)
    simpa using this
  simp only [CatchOpLowering, hdata, harg, PatternRewriter.create, PatternRewriter.eraseOp,
    hblocks, hib, hip]
  simp [modifyBlock_append_cons _ _ _ _ _ hcid, herase]

/-- `CatchOpLowering` succeeds exactly when a value is recorded for the catch
(the catch having its argument). -/
theorem CatchOpLowering_isSome (ctx : TSContext) (catchOp : Op) (rw : PatternRewriter)
    (catchArg : Value) (harg : catchOp.operands.head? = some catchArg) :
    (CatchOpLowering ctx catchOp rw).isSome = (ctx.catchOpData catchOp.id).isSome := by
  cases h : ctx.catchOpData catchOp.id <;> simp [CatchOpLowering, h, harg]

/-- An operation put in front of the first block of a region is still there after
the terminator of the last block is replaced. -/
theorem mem_ops_of_prependOps (r : List Block) (last : Block) (t : Op) (P T : List Op) (x : Op)
    (hL : r.getLast? = some last) (hT : last.getTerminator = some t) (hx : x ∈ P) :
    ∃ b ∈ Region.replaceTerminator (Region.prependOps r P) T, x ∈ b.ops := by
  have hr := region_eq_of_getLast? _ _ hL
  rw [ops_eq_of_getTerminator _ _ hT] at hr
  generalize r.dropLast = init at hr
  generalize hlo : last.ops.dropLast = o at hr
  subst hr
  cases init with
  | nil =>
    refine ⟨Block.mk last.id last.argTypes (P ++ o ++ T), ?_, ?_⟩
    · simp [Region.prependOps, Region.replaceTerminator_singleton2, ← List.append_assoc,
        List.dropLast_concat]
    · simp [hx]
  | cons h tl =>
    refine ⟨h.setOps (P ++ h.ops), ?_, ?_⟩
    · simp [Region.prependOps, Region.replaceTerminator_cons_append2]
    · simp [hx]

/-- C20: after `TryOpLowering` of a well-formed `try` whose catches region holds the
catch operation `catchOp`, `catchOpData` holds for it the result of the begin-catch
operation that the lowering created in the catches blocks, and `CatchOpLowering`
of the catch, standing in block `cid` between `before` and `after`, succeeds: the
operation that saves this value to the catch variable (the argument of the catch)
stands in the place of the catch, which is gone.  In any context,
`CatchOpLowering` succeeds exactly when `catchOpData` holds a value for the catch,
and returns no rewriter state (nothing is emitted) when it holds none. -/
theorem CatchOpLowering_after_try (winException : Bool) (ctx : TSContext) (tryOp catchOp : Op)
    (rw0 : PatternRewriter)
    (pre0 post0 : List Block) (cid0 : BlockId) (cargs0 : List Ty) (before0 after0 : List Op)
    (bodyFirst bodyLast catchesFirst catchesLast finallyFirst finallyLast : Block)
    (bodyTerm catchesTerm finallyTerm : Op)
    (hblocks0 : rw0.blocks = pre0 ++ Block.mk cid0 cargs0 (before0 ++ tryOp :: after0) :: post0)
    (hib0 : rw0.insertionBlock = cid0) (hip0 : rw0.insertionPoint = before0.length)
    (hbody1 : tryOp.tryBody.head? = some bodyFirst)
    (hbodyL : tryOp.tryBody.getLast? = some bodyLast)
    (hbodyT : bodyLast.getTerminator = some bodyTerm)
    (hcatches1 : tryOp.tryCatches.head? = some catchesFirst)
    (hcatchesL : tryOp.tryCatches.getLast? = some catchesLast)
    (hcatchesT : catchesLast.getTerminator = some catchesTerm)
    (hfinally1 : tryOp.tryFinallyBlock.head? = some finallyFirst)
    (hfinallyL : tryOp.tryFinallyBlock.getLast? = some finallyLast)
    (hfinallyT : finallyLast.getTerminator = some finallyTerm)
    (hbk : bodyTerm.kind = OpKind.ResultOp) (hck : catchesTerm.kind = OpKind.ResultOp)
    (hfk : finallyTerm.kind = OpKind.ResultOp)
    (hcatch : (catchOpsOf tryOp).length ≤ 1)
    (hres : tryOp.getNumResults = 0)
    (hdist : (blockIds (pre0 ++ Block.mk cid0 cargs0 (before0 ++ tryOp :: after0) ::
        (tryOp.tryBody ++ tryOp.tryCatches ++ tryOp.tryFinallyBlock))).Nodup)
    (hfresh1 : rw0.nextBlock ∉ blockIds (pre0 ++
        Block.mk cid0 cargs0 (before0 ++ tryOp :: after0) ::
        (tryOp.tryBody ++ tryOp.tryCatches ++ tryOp.tryFinallyBlock)))
    (hfresh2 : rw0.nextBlock + 1 ∉ blockIds (pre0 ++
        Block.mk cid0 cargs0 (before0 ++ tryOp :: after0) ::
        (tryOp.tryBody ++ tryOp.tryCatches ++ tryOp.tryFinallyBlock)))
    (hcatchOp : (catchOpsOf tryOp).head? = some catchOp) :
    ∃ ctx1 rw01, TryOpLowering winException ctx tryOp rw0 = some (ctx1, rw01) ∧
      ctx1.catchOpData catchOp.id = some (Value.opResult (rw0.nextOp + 6) 0) ∧
      (∃ b ∈ rw01.blocks, ∃ o ∈ b.ops, o.kind = OpKind.BeginCatchOp ∧
        o.results = [Value.opResult (rw0.nextOp + 6) 0]) ∧
      ∀ (rw : PatternRewriter) (pre post : List Block) (cid : BlockId) (cargs : List Ty)
        (before after : List Op) (catchArg : Value),
        rw.blocks = pre ++ Block.mk cid cargs (before ++ catchOp :: after) :: post →
        rw.insertionBlock = cid → rw.insertionPoint = before.length →
        catchOp.operands.head? = some catchArg →
        cid ∉ blockIds pre → (∀ o ∈ before, o.id ≠ catchOp.id) → rw.nextOp ≠ catchOp.id →
        (∃ rw1, CatchOpLowering ctx1 catchOp rw = some rw1 ∧
          rw1.blocks = pre ++ Block.mk cid cargs (before ++
            Op.simple rw.nextOp OpKind.SaveCatchVarOp
              [Value.opResult (rw0.nextOp + 6) 0, catchArg] [] [] :: after) :: post) ∧
        (∀ ctx2 : TSContext,
          (CatchOpLowering ctx2 catchOp rw).isSome = (ctx2.catchOpData catchOp.id).isSome) ∧
        (∀ ctx2 : TSContext, ctx2.catchOpData catchOp.id = none →
          CatchOpLowering ctx2 catchOp rw = none) := by
  have h := TryOpLowering_eq winException (catchOpsOf tryOp).head?.isSome ctx tryOp rw0
    pre0 post0 cid0 cargs0 before0 after0
    bodyFirst bodyLast catchesFirst catchesLast finallyFirst finallyLast
    bodyTerm catchesTerm finallyTerm hblocks0 hib0 hip0
    hbody1 hbodyL hbodyT hcatches1 hcatchesL hcatchesT hfinally1 hfinallyL hfinallyT hbk hck hfk
    hcatch rfl hres hdist hfresh1 hfresh2
  rcases hres1 : TryOpLowering winException ctx tryOp rw0 with _ | ⟨ctx1, rw01⟩
  · rw [hres1] at h
    exact absurd h (by simp)
  rw [hres1] at h
  simp only [Option.some.injEq, Prod.mk.injEq] at h
  obtain ⟨hc1, hr1⟩ := h
  rw [hcatchOp] at hc1 hr1
  simp only [Option.isSome_some, if_true, Bool.and_true] at hc1 hr1
  have hdata : ctx1.catchOpData catchOp.id = some (Value.opResult (rw0.nextOp + 6) 0) := by
    rw [hc1]
    simp [setEntry]
  have hbegin : ∃ b ∈ rw01.blocks, ∃ o ∈ b.ops, o.kind = OpKind.BeginCatchOp ∧
      o.results = [Value.opResult (rw0.nextOp + 6) 0] := by
    cases winException with
    | false =>
      obtain ⟨firstOps, rest, heq, _, _⟩ := first_of_splitFirst tryOp.tryCatches catchesFirst
        catchesLast catchesTerm
        (Op.simple (rw0.nextOp + 3) OpKind.LandingPadOp
          [Value.opResult (rw0.nextOp + 1) 0] [Ty.landingPadTy] [("cleanup", Attr.bool false)])
        (Op.simple (rw0.nextOp + 4) OpKind.ThrowInfoPtrOp [] [Ty.i8Ptr] [])
        (Op.simple (rw0.nextOp + 5) OpKind.CompareCatchTypeOp
          [Value.opResult (rw0.nextOp + 3) 0, Value.opResult (rw0.nextOp + 4) 0] [Ty.boolean] [])
        (Op.simple (rw0.nextOp + 6) OpKind.BeginCatchOp
          [Value.opResult (rw0.nextOp + 3) 0] [Ty.i8Ptr] [])
        [Op.simple (rw0.nextOp + 7) OpKind.EndCatchOp [] [] [],
         mkBranchOp (rw0.nextOp + 8) finallyFirst.id []]
        [mkCastOp (rw0.nextOp + 9) Ty.i1 (Value.opResult (rw0.nextOp + 5) 0),
         mkCondBranchOp (rw0.nextOp + 10) (Value.opResult (rw0.nextOp + 9) 0)
           (rw0.nextBlock + 1) [] rw0.nextBlock []]
        (rw0.nextBlock + 1) hcatches1 hcatchesL hcatchesT
      refine ⟨Block.mk (rw0.nextBlock + 1) []
        (Op.simple (rw0.nextOp + 6) OpKind.BeginCatchOp
          [Value.opResult (rw0.nextOp + 3) 0] [Ty.i8Ptr] [] :: firstOps), ?_,
        _, List.mem_cons_self _ _, rfl, rfl⟩
      rw [hr1]
      simp only [Bool.not_false, if_true, heq]
      simp
    | true =>
      obtain ⟨b, hb, hx⟩ := mem_ops_of_prependOps tryOp.tryCatches catchesLast catchesTerm
        [Op.simple (rw0.nextOp + 3) OpKind.LandingPadOp
           [Value.opResult (rw0.nextOp + 1) 0] [Ty.landingPadTy] [("cleanup", Attr.bool false)],
         Op.simple (rw0.nextOp + 6) OpKind.BeginCatchOp
           [Value.opResult (rw0.nextOp + 3) 0] [Ty.i8Ptr] []]
        [Op.simple (rw0.nextOp + 7) OpKind.EndCatchOp [] [] [],
         mkBranchOp (rw0.nextOp + 8) finallyFirst.id []]
        (Op.simple (rw0.nextOp + 6) OpKind.BeginCatchOp
           [Value.opResult (rw0.nextOp + 3) 0] [Ty.i8Ptr] [])
        hcatchesL hcatchesT (by simp)
      refine ⟨b, ?_, _, hx, rfl, rfl⟩
      rw [hr1]
      simp only [Bool.not_true, Bool.false_eq_true, if_false]
      simp [hb]
  refine ⟨ctx1, rw01, rfl, hdata, hbegin, ?_⟩
  intro rw pre post cid cargs before after catchArg hblocks hib hip harg hcid hid hnew
  refine ⟨⟨_, CatchOpLowering_eq ctx1 catchOp rw pre post cid cargs before after _ catchArg
    hblocks hib hip hdata harg hcid hid hnew, rfl⟩, ?_, ?_⟩
  · intro ctx2
    exact CatchOpLowering_isSome ctx2 catchOp rw catchArg harg
  · intro ctx2 hnone
    simp [CatchOpLowering, hnone]

/-- Witness of C20: `try { throw X } catch (e) { throw X } finally { counter++ }`. -/
theorem CatchOpLowering_after_try_witness :
    ∃ ctx1 rw01, TryOpLowering false TSContext.empty TryExample.tryRethrowOp
        TryExample.rethrowRewriter = some (ctx1, rw01) ∧
      ctx1.catchOpData TryExample.catchOp.id = some (Value.opResult (100 + 6) 0) ∧
      (∃ b ∈ rw01.blocks, ∃ o ∈ b.ops, o.kind = OpKind.BeginCatchOp ∧
        o.results = [Value.opResult (100 + 6) 0]) ∧
      ∀ (rw : PatternRewriter) (pre post : List Block) (cid : BlockId) (cargs : List Ty)
        (before after : List Op) (catchArg : Value),
        rw.blocks = pre ++ Block.mk cid cargs (before ++ TryExample.catchOp :: after) :: post →
        rw.insertionBlock = cid → rw.insertionPoint = before.length →
        TryExample.catchOp.operands.head? = some catchArg →
        cid ∉ blockIds pre → (∀ o ∈ before, o.id ≠ TryExample.catchOp.id) →
        rw.nextOp ≠ TryExample.catchOp.id →
        (∃ rw1, CatchOpLowering ctx1 TryExample.catchOp rw = some rw1 ∧
          rw1.blocks = pre ++ Block.mk cid cargs (before ++
            Op.simple rw.nextOp OpKind.SaveCatchVarOp
              [Value.opResult (100 + 6) 0, catchArg] [] [] :: after) :: post) ∧
        (∀ ctx2 : TSContext,
          (CatchOpLowering ctx2 TryExample.catchOp rw).isSome
            = (ctx2.catchOpData TryExample.catchOp.id).isSome) ∧
        (∀ ctx2 : TSContext, ctx2.catchOpData TryExample.catchOp.id = none →
          CatchOpLowering ctx2 TryExample.catchOp rw = none) :=
  CatchOpLowering_after_try false TSContext.empty TryExample.tryRethrowOp TryExample.catchOp
    TryExample.rethrowRewriter [] [] 0 [] TryExample.beforeOps []
    TryExample.bodyBlock TryExample.bodyBlock TryExample.rethrowCatchesBlock
    TryExample.rethrowCatchesBlock TryExample.finallyBlock TryExample.finallyBlock
    (Op.simple 11 OpKind.ResultOp [] [] []) (Op.simple 21 OpKind.ResultOp [] [] [])
    (Op.simple 34 OpKind.ResultOp [] [] [])
    rfl rfl rfl rfl rfl rfl rfl rfl rfl rfl rfl rfl rfl rfl rfl (by decide) rfl
    (by decide) (by decide) (by decide) rfl

/-- The catch of the example, lowered after its try: the save of the begin-catch
result 106 to the catch variable stands in its place; in the empty context the
lowering fails. -/
theorem catch_example_lowered :
    (CatchOpLowering TryExample.afterTry.1 TryExample.catchOp TryExample.catchRewriter).map
        (fun rw => (findBlock 5 rw.blocks).map
          (fun b => b.ops.map (fun o => (o.id, o.kind, o.operands)))) =
      some (some [(106, OpKind.BeginCatchOp, [Value.opResult 103 0]),
                  (112, OpKind.SaveCatchVarOp, [Value.opResult 106 0, Value.opResult 4 0]),
                  (22, OpKind.ThrowOp, [Value.opResult 0 0]),
                  (107, OpKind.EndCatchOp, []),
                  (108, OpKind.BranchOp, [])]) ∧
    CatchOpLowering TSContext.empty TryExample.catchOp TryExample.catchRewriter = none :=
  ⟨rfl, rfl⟩
/-! ## Entry, exit and return -/

/-- The blocks after operations are created at the insertion point and the
matched operation is replaced by values: the created operations stand where the
operation stood, and the uses of its results are replaced everywhere. -/
theorem create_replaceOp_blocks (op : Op) (rw : PatternRewriter) (created : List Op)
    (values : List Value)
    (pre post : List Block) (cid : BlockId) (cargs : List Ty) (before after : List Op)
    (hblocks : rw.blocks = pre ++ Block.mk cid cargs (before ++ op :: after) :: post)
    (hib : rw.insertionBlock = cid) (hip : rw.insertionPoint = before.length)
    (hcid : cid ∉ blockIds pre)
    (hid : ∀ o ∈ before, o.id ≠ op.id) (hnew : ∀ o ∈ created, o.id ≠ op.id) :
    ((rw.create created).replaceOp cid op values).blocks
      = replaceUsesBlocks (op.results.zip values)
          (pre ++ Block.mk cid cargs (before ++ created ++ after) :: post) := by
  have hcid2 : ∀ m : ValueMapping, cid ∉ blockIds (replaceUsesBlocks m pre) := by
    intro m
    simpa using hcid
  have herase := fun m : ValueMapping => eraseP_id_replaceUsesOps m
    (before ++ created) after op (by
      intro o ho
      simp only [List.mem_append] at ho
      rcases ho with ho | ho
      · exact hid o ho
      · exact hnew o ho)
  simp only [List.append_assoc] at herase
  simp only [PatternRewriter.create, PatternRewriter.replaceOp, PatternRewriter.eraseOp,
    PatternRewriter.replaceAllUsesWith, hblocks, hib, hip]
  simp [modifyBlock_append_cons _ _ _ _ _ hcid, modifyBlock_append_cons _ _ _ _ _ (hcid2 _),
    herase]

theorem ValueMapping.lookup_singleton (a b v : Value) :
    ValueMapping.lookup [(a, b)] v = if a = v then b else v := by
  by_cases h : a = v
  · simp [ValueMapping.lookup, List.find?, h]
  · have hb : (a == v) = false := by simpa using h
    simp [ValueMapping.lookup, List.find?, h, hb]

/-- The blocks `EntryOpLowering` leaves behind for an entry operation without
result. -/
theorem EntryOpLowering_eq_no_result (ctx : TSContext) (op : Op) (rw : PatternRewriter)
    (pre post : List Block) (cid : BlockId) (cargs : List Ty) (before after : List Op)
    (hblocks : rw.blocks = pre ++ Block.mk cid cargs (before ++ op :: after) :: post)
    (hib : rw.insertionBlock = cid) (hip : rw.insertionPoint = before.length)
    (hcid : cid ∉ blockIds pre) (hfresh : rw.nextBlock ∉ blockIds rw.blocks)
    (hid : ∀ o ∈ before, o.id ≠ op.id)
    (hres : op.resultTypes = []) :
    EntryOpLowering ctx op rw = some
      ({ ctx with returnBlock := some rw.nextBlock },
       { blocks := pre ++ Block.mk cid cargs (before ++ after) :: post ++
           [Block.mk rw.nextBlock [] [mkReturnInternalOp rw.nextOp []]]
         insertionBlock := cid
         insertionPoint := before.length
         nextBlock := rw.nextBlock + 1
         nextOp := rw.nextOp + 1 }) := by
  rw [hblocks] at hfresh
  simp only [blockIds_append, blockIds_cons, Block.id_mk, List.mem_append, List.mem_cons,
    not_or] at hfresh
  have hne : rw.nextBlock ≠ cid := hfresh.2.1
  have hpost : rw.nextBlock ∉ blockIds post := hfresh.2.2
  simp only [EntryOpLowering, hres, PatternRewriter.createBlockAtEnd,
    PatternRewriter.createAtEnd, PatternRewriter.eraseOp, hblocks, hib, hip]
  simp [modifyBlock_append_of_not_mem _ _ _ _ hfresh.1, modifyBlock_append_cons _ _ _ _ _ hcid,
    modifyBlock_cons_ne2, hne, modifyBlock_append_of_not_mem _ _ _ _ hpost,
    modifyBlock_cons_eq, eraseP_id_append_cons _ _ _ hid]

/-- The blocks `EntryOpLowering` leaves behind for an entry operation with a
result of a reference type. -/
theorem EntryOpLowering_eq_result (ctx : TSContext) (op : Op) (rw : PatternRewriter)
    (pre post : List Block) (cid : BlockId) (cargs : List Ty) (before after : List Op)
    (elementType : Ty)
    (hblocks : rw.blocks = pre ++ Block.mk cid cargs (before ++ op :: after) :: post)
    (hib : rw.insertionBlock = cid) (hip : rw.insertionPoint = before.length)
    (hcid : cid ∉ blockIds pre) (hfresh : rw.nextBlock ∉ blockIds rw.blocks)
    (hid : ∀ o ∈ before, o.id ≠ op.id) (hnew : rw.nextOp ≠ op.id)
    (hnew1 : rw.nextOp + 1 ≠ op.id)
    (hres : op.resultTypes = [Ty.ref elementType]) :
    EntryOpLowering ctx op rw = some
      ({ ctx with returnBlock := some rw.nextBlock },
       { blocks := replaceUsesBlocks [(Value.opResult op.id 0, Value.opResult rw.nextOp 0)]
             (pre ++ Block.mk cid cargs
               (before ++ mkVariableOp rw.nextOp (Ty.ref elementType) [] :: after) :: post) ++
           [Block.mk rw.nextBlock []
             [mkLoadOp (rw.nextOp + 1) elementType (Value.opResult rw.nextOp 0),
              mkReturnInternalOp (rw.nextOp + 2) [Value.opResult (rw.nextOp + 1) 0]]]
         insertionBlock := cid
         insertionPoint := before.length + 1
         nextBlock := rw.nextBlock + 1
         nextOp := rw.nextOp + 3 }) := by
  rw [hblocks] at hfresh
  simp only [blockIds_append, blockIds_cons, Block.id_mk, List.mem_append, List.mem_cons,
    not_or] at hfresh
  have hne : rw.nextBlock ≠ cid := hfresh.2.1
  have hpost : rw.nextBlock ∉ blockIds post := hfresh.2.2
  have hcid2 : ∀ m : ValueMapping, cid ∉ blockIds (replaceUsesBlocks m pre) := by
    intro m
    simpa using hcid
  have herase := fun m : ValueMapping => eraseP_id_replaceUsesOps m
    (before ++ [mkVariableOp rw.nextOp (Ty.ref elementType) []]) after op (by
      intro o ho
      simp only [List.mem_append, List.mem_singleton] at ho
      rcases ho with ho | ho
      · exact hid o ho
      · subst ho
        simpa [mkVariableOp, Op.simple, Op.id] using hnew)
  simp only [List.append_assoc, List.singleton_append] at herase
  have hres2 : op.results = [Value.opResult op.id 0] := by
    simp [Op.results, hres, List.range_succ]
  have hlook : ValueMapping.lookup [(Value.opResult op.id 0, Value.opResult rw.nextOp 0)]
      (Value.opResult rw.nextOp 0) = Value.opResult rw.nextOp 0 := by
    simp [ValueMapping.lookup_singleton, hnew.symm]
  have hlook2 : ValueMapping.lookup [(Value.opResult op.id 0, Value.opResult rw.nextOp 0)]
      (Value.opResult (rw.nextOp + 1) 0) = Value.opResult (rw.nextOp + 1) 0 := by
    simp [ValueMapping.lookup_singleton, hnew1.symm]
  simp only [EntryOpLowering, hres, PatternRewriter.createBlockAtEnd, PatternRewriter.create,
    PatternRewriter.createAtEnd, PatternRewriter.replaceOp, PatternRewriter.replaceAllUsesWith,
    PatternRewriter.eraseOp, hblocks, hib, hip, hres2]
  simp [modifyBlock_append_of_not_mem _ _ _ _ hfresh.1, modifyBlock_append_cons _ _ _ _ _ hcid,
    modifyBlock_append_cons _ _ _ _ _ (hcid2 _),
    modifyBlock_cons_ne2, hne, modifyBlock_append_of_not_mem _ _ _ _ hpost,
    modifyBlock_cons_eq, herase, replaceUsesBlock, replaceUsesOps, replaceUsesOp,
    mkLoadOp, mkReturnInternalOp, Op.simple, replaceUsesSuccs, replaceUsesRegions, hlook, hlook2]

/-- C21: for an entry operation `op` standing in block `cid` between the
operations `before` and `after`, with `rw.nextBlock` and the new operations
fresh, `EntryOpLowering` succeeds, records the block `rw.nextBlock` in
`returnBlock`, and adds exactly this one block, at the end.  Without a result, no
variable is created: the old blocks only lose the entry operation, and the new
block holds a single `ReturnInternalOp` without operands.  With a result of type
`ref elementType`, a variable (the slot) is created in place of the entry
operation, every use of the result of the entry operation is replaced by the
variable, and the new block loads the variable and returns the loaded value. -/
theorem EntryOpLowering_return_block (ctx : TSContext) (op : Op) (rw : PatternRewriter)
    (pre post : List Block) (cid : BlockId) (cargs : List Ty) (before after : List Op)
    (hblocks : rw.blocks = pre ++ Block.mk cid cargs (before ++ op :: after) :: post)
    (hib : rw.insertionBlock = cid) (hip : rw.insertionPoint = before.length)
    (hcid : cid ∉ blockIds pre) (hfresh : rw.nextBlock ∉ blockIds rw.blocks)
    (hid : ∀ o ∈ before, o.id ≠ op.id) (hnew : rw.nextOp ≠ op.id)
    (hnew1 : rw.nextOp + 1 ≠ op.id) :
    (op.resultTypes = [] →
      ∃ ctx1 rw1, EntryOpLowering ctx op rw = some (ctx1, rw1) ∧
        ctx1.returnBlock = some rw.nextBlock ∧
        blockIds rw1.blocks = blockIds rw.blocks ++ [rw.nextBlock] ∧
        rw1.blocks = (pre ++ Block.mk cid cargs (before ++ after) :: post) ++
          [Block.mk rw.nextBlock [] [mkReturnInternalOp rw.nextOp []]] ∧
        (mkReturnInternalOp rw.nextOp []).kind = OpKind.ReturnInternalOp ∧
        (mkReturnInternalOp rw.nextOp []).operands = []) ∧
    (∀ elementType, op.resultTypes = [Ty.ref elementType] →
      ∃ ctx1 rw1, EntryOpLowering ctx op rw = some (ctx1, rw1) ∧
        ctx1.returnBlock = some rw.nextBlock ∧
        blockIds rw1.blocks = blockIds rw.blocks ++ [rw.nextBlock] ∧
        op.results = [Value.opResult op.id 0] ∧
        (mkVariableOp rw.nextOp (Ty.ref elementType) []).results = [Value.opResult rw.nextOp 0] ∧
        (mkLoadOp (rw.nextOp + 1) elementType (Value.opResult rw.nextOp 0)).results
          = [Value.opResult (rw.nextOp + 1) 0] ∧
        rw1.blocks =
          replaceUsesBlocks [(Value.opResult op.id 0, Value.opResult rw.nextOp 0)]
            (pre ++ Block.mk cid cargs
              (before ++ mkVariableOp rw.nextOp (Ty.ref elementType) [] :: after) :: post) ++
          [Block.mk rw.nextBlock []
            [mkLoadOp (rw.nextOp + 1) elementType (Value.opResult rw.nextOp 0),
             mkReturnInternalOp (rw.nextOp + 2) [Value.opResult (rw.nextOp + 1) 0]]]) := by
  constructor
  · intro hres
    refine ⟨_, _, EntryOpLowering_eq_no_result ctx op rw pre post cid cargs before after hblocks
      hib hip hcid hfresh hid hres, rfl, ?_, ?_, rfl, rfl⟩
    · simp [hblocks]
    · simp
  · intro elementType hres
    refine ⟨_, _, EntryOpLowering_eq_result ctx op rw pre post cid cargs before after elementType
      hblocks hib hip hcid hfresh hid hnew hnew1 hres, rfl, ?_, ?_, ?_, ?_, rfl⟩
    · simp [hblocks, blockIds_replaceUsesBlocks]
    · simp [Op.results, hres, List.range_succ]
    · simp [Op.results, mkVariableOp, Op.simple, Op.resultTypes, Op.id, List.range_succ]
    · simp [Op.results, mkLoadOp, Op.simple, Op.resultTypes, Op.id, List.range_succ]

/-- Witness of C21: the entry operation of the function `f` of `ReturnExample`,
whose result is a reference to an integer. -/
theorem EntryOpLowering_return_block_witness :
    ∃ ctx1 rw1, EntryOpLowering TSContext.empty ReturnExample.entryOp ReturnExample.rewriter
        = some (ctx1, rw1) ∧
      ctx1.returnBlock = some 1 ∧
      blockIds rw1.blocks = [0, 1] ∧
      ReturnExample.entryOp.results = [Value.opResult 0 0] ∧
      (mkVariableOp 100 (Ty.ref Ty.i32) []).results = [Value.opResult 100 0] ∧
      (mkLoadOp 101 Ty.i32 (Value.opResult 100 0)).results = [Value.opResult 101 0] ∧
      rw1.blocks =
        replaceUsesBlocks [(Value.opResult 0 0, Value.opResult 100 0)]
          ([] ++ Block.mk 0 []
            ([] ++ mkVariableOp 100 (Ty.ref Ty.i32) [] :: ReturnExample.bodyOps) :: []) ++
        [Block.mk 1 []
          [mkLoadOp 101 Ty.i32 (Value.opResult 100 0),
           mkReturnInternalOp 102 [Value.opResult 101 0]]] :=
  (EntryOpLowering_return_block TSContext.empty ReturnExample.entryOp ReturnExample.rewriter
    [] [] 0 [] [] ReturnExample.bodyOps rfl rfl rfl (by decide) (by decide) (by simp)
    (by decide) (by decide)).2 Ty.i32 rfl

/-- The blocks `ReturnOpLowering` leaves behind: the block ends in the branch to
the return block, and the operations after the `return` go to a new block. -/
theorem ReturnOpLowering_eq (ctx : TSContext) (op : Op) (rw : PatternRewriter)
    (pre post : List Block) (cid : BlockId) (cargs : List Ty) (before after : List Op)
    (retBlock : BlockId)
    (hblocks : rw.blocks = pre ++ Block.mk cid cargs (before ++ op :: after) :: post)
    (hib : rw.insertionBlock = cid) (hip : rw.insertionPoint = before.length)
    (hret : ctx.returnBlock = some retBlock)
    (hcid : cid ∉ blockIds pre) (hfresh : rw.nextBlock ≠ cid)
    (hfresh2 : rw.nextBlock ∉ blockIds pre) :
    ReturnOpLowering ctx op rw = some
      { blocks := pre ++ Block.mk cid cargs (before ++ [mkBranchOp rw.nextOp retBlock []]) ::
          Block.mk rw.nextBlock [] after :: post
        insertionBlock := cid
        insertionPoint := before.length
        nextBlock := rw.nextBlock + 1
        nextOp := rw.nextOp + 1 } := by
  simp only [ReturnOpLowering, hret, PatternRewriter.createAtEnd, PatternRewriter.eraseOp,
    PatternRewriter.splitBlock, hblocks, hib, hip]
  simp [modifyBlock_append_cons _ _ _ _ _ hcid, modifyBlock_append_of_not_mem _ _ _ _ hfresh2,
    modifyBlock_cons_eq, modifyBlock_cons_ne2, hfresh]

/-- The blocks `ReturnValOpLowering` leaves behind: the block ends in the store
of the returned value and the branch to the return block, and the operations
after the `return` go to a new block. -/
theorem ReturnValOpLowering_eq (ctx : TSContext) (op : Op) (rw : PatternRewriter)
    (pre post : List Block) (cid : BlockId) (cargs : List Ty) (before after : List Op)
    (retBlock : BlockId) (operand reference : Value)
    (hblocks : rw.blocks = pre ++ Block.mk cid cargs (before ++ op :: after) :: post)
    (hib : rw.insertionBlock = cid) (hip : rw.insertionPoint = before.length)
    (hret : ctx.returnBlock = some retBlock)
    (hops : op.operands = [operand, reference])
    (hcid : cid ∉ blockIds pre) (hfresh : rw.nextBlock ≠ cid)
    (hfresh2 : rw.nextBlock ∉ blockIds pre) :
    ReturnValOpLowering ctx op rw = some
      { blocks := pre ++ Block.mk cid cargs
            (before ++ [mkStoreOp rw.nextOp operand reference,
              mkBranchOp (rw.nextOp + 1) retBlock []]) ::
          Block.mk rw.nextBlock [] after :: post
        insertionBlock := cid
        insertionPoint := before.length + 1
        nextBlock := rw.nextBlock + 1
        nextOp := rw.nextOp + 2 } := by
  have htake : (before ++ mkStoreOp rw.nextOp operand reference :: op :: after).take
      (before.length + 1) = before ++ [mkStoreOp rw.nextOp operand reference] := by
    have h : before ++ mkStoreOp rw.nextOp operand reference :: op :: after
        = (before ++ [mkStoreOp rw.nextOp operand reference]) ++ op :: after := by simp
    rw [h, List.take_left']
    simp
  have hdrop : (before ++ mkStoreOp rw.nextOp operand reference :: op :: after).drop
      (before.length + 1) = op :: after := by
    have h : before ++ mkStoreOp rw.nextOp operand reference :: op :: after
        = (before ++ [mkStoreOp rw.nextOp operand reference]) ++ op :: after := by simp
    rw [h, List.drop_left']
    simp
  simp only [ReturnValOpLowering, hret, hops, PatternRewriter.create,
    PatternRewriter.createAtEnd, PatternRewriter.eraseOp,
    PatternRewriter.splitBlock, hblocks, hib, hip]
  simp [modifyBlock_append_cons _ _ _ _ _ hcid, modifyBlock_append_of_not_mem _ _ _ _ hfresh2,
    modifyBlock_cons_eq, modifyBlock_cons_ne2, hfresh, htake, hdrop]

/-- `EntryOpLowering` records the new block, `rw.nextBlock`, as the return block. -/
theorem EntryOpLowering_returnBlock_inv (ctx : TSContext) (op : Op) (rw : PatternRewriter)
    (ctx1 : TSContext) (rw1 : PatternRewriter) (h : EntryOpLowering ctx op rw = some (ctx1, rw1)) :
    ctx1.returnBlock = some rw.nextBlock := by
  simp only [EntryOpLowering] at h
  repeat' split at h
  all_goals first
    | (simp only [Option.some.injEq, Prod.mk.injEq] at h
       rw [← h.1]
       rfl)
    | (exact absurd h (by simp))

theorem foldl_visitorBreakContinue_returnBlock (label : Option String) (bt ct : BlockId)
    (ops : List Op) (ctx : TSContext) :
    (ops.foldl (visitorBreakContinue label bt ct) ctx).returnBlock = ctx.returnBlock := by
  induction ops generalizing ctx with
  | nil => rfl
  | cons o ops ih =>
    simp only [List.foldl_cons]
    rw [ih]
    unfold visitorBreakContinue
    split_ifs <;> rfl

/-- `TryOpLowering` does not write to `returnBlock`. -/
theorem TryOpLowering_returnBlock_inv (winException : Bool) (ctx : TSContext) (op : Op)
    (rw : PatternRewriter) (ctx1 : TSContext) (rw1 : PatternRewriter)
    (h : TryOpLowering winException ctx op rw = some (ctx1, rw1)) :
    ctx1.returnBlock = ctx.returnBlock := by
  simp only [TryOpLowering] at h
  repeat' split at h
  all_goals first
    | (simp only [Option.some.injEq, Prod.mk.injEq] at h
       rw [← h.1]
       exact (foldl_visitorCallOpContinue_other _ _ _).2.2)
    | (exact absurd h (by simp))

/-- The loops, the label and the `try` leave the return block as it is. -/
theorem ContextStep_returnBlock (ctx ctx1 : TSContext) (h : ContextStep ctx ctx1) :
    ctx1.returnBlock = ctx.returnBlock := by
  cases h
  · rename_i c r hc
    obtain ⟨bt, ct, rfl⟩ := ConstructLowering_context ctx c ctx1 r hc
    exact foldl_visitorBreakContinue_returnBlock _ _ _ _ _
  · rename_i win op rw rw1 ht
    exact TryOpLowering_returnBlock_inv win ctx op rw ctx1 rw1 ht

theorem ContextSteps_returnBlock (ctx ctx1 : TSContext) (h : ContextSteps ctx ctx1) :
    ctx1.returnBlock = ctx.returnBlock := by
  induction h with
  | refl => rfl
  | tail _ hstep ih => exact (ContextStep_returnBlock _ _ hstep).trans ih

/-- C22: let `EntryOpLowering` have recorded its new block `rw0.nextBlock`, and
let any number of loops, labels and `try` constructs be lowered afterwards.  For
a return operation `op` standing in block `cid` between the operations `before`
and `after`, `ReturnOpLowering` succeeds: block `cid` keeps `before` and ends in
an unconditional branch without operands to `rw0.nextBlock`, and the operations
`after` make up the new block `rw.nextBlock`, which follows `cid`.  For a return
with the operands `operand` and `reference`, `ReturnValOpLowering` does the same
and puts a store of `operand` to `reference` before the branch. -/
theorem ReturnOpLowering_branch (ctx0 ctxE ctx : TSContext) (entryOp : Op)
    (rw0 rwE : PatternRewriter) (op : Op) (rw : PatternRewriter)
    (pre post : List Block) (cid : BlockId) (cargs : List Ty) (before after : List Op)
    (operand reference : Value)
    (hentry : EntryOpLowering ctx0 entryOp rw0 = some (ctxE, rwE))
    (hsteps : ContextSteps ctxE ctx)
    (hblocks : rw.blocks = pre ++ Block.mk cid cargs (before ++ op :: after) :: post)
    (hib : rw.insertionBlock = cid) (hip : rw.insertionPoint = before.length)
    (hcid : cid ∉ blockIds pre) (hfresh : rw.nextBlock ≠ cid)
    (hfresh2 : rw.nextBlock ∉ blockIds pre) :
    ctx.returnBlock = some rw0.nextBlock ∧
    (∃ rw1 b, ReturnOpLowering ctx op rw = some rw1 ∧
      rw1.blocks = pre ++ b :: Block.mk rw.nextBlock [] after :: post ∧
      b.id = cid ∧
      b.ops = before ++ [mkBranchOp rw.nextOp rw0.nextBlock []] ∧
      b.getTerminator = some (mkBranchOp rw.nextOp rw0.nextBlock []) ∧
      (mkBranchOp rw.nextOp rw0.nextBlock []).kind = OpKind.BranchOp ∧
      (mkBranchOp rw.nextOp rw0.nextBlock []).successors = [(rw0.nextBlock, [])]) ∧
    (op.operands = [operand, reference] →
      ∃ rw1 b, ReturnValOpLowering ctx op rw = some rw1 ∧
        rw1.blocks = pre ++ b :: Block.mk rw.nextBlock [] after :: post ∧
        b.id = cid ∧
        b.ops = before ++ [mkStoreOp rw.nextOp operand reference,
          mkBranchOp (rw.nextOp + 1) rw0.nextBlock []] ∧
        (mkStoreOp rw.nextOp operand reference).kind = OpKind.StoreOp ∧
        (mkStoreOp rw.nextOp operand reference).operands = [operand, reference] ∧
        b.getTerminator = some (mkBranchOp (rw.nextOp + 1) rw0.nextBlock []) ∧
        (mkBranchOp (rw.nextOp + 1) rw0.nextBlock []).kind = OpKind.BranchOp ∧
        (mkBranchOp (rw.nextOp + 1) rw0.nextBlock []).successors = [(rw0.nextBlock, [])]) := by
  have hret : ctx.returnBlock = some rw0.nextBlock := by
    rw [ContextSteps_returnBlock ctxE ctx hsteps]
    exact EntryOpLowering_returnBlock_inv ctx0 entryOp rw0 ctxE rwE hentry
  refine ⟨hret, ?_, ?_⟩
  · refine ⟨_, Block.mk cid cargs (before ++ [mkBranchOp rw.nextOp rw0.nextBlock []]),
      ReturnOpLowering_eq ctx op rw pre post cid cargs before after rw0.nextBlock hblocks hib hip
        hret hcid hfresh hfresh2, rfl, rfl, rfl, ?_, rfl, rfl⟩
    simp [Block.getTerminator]
  · intro hops
    refine ⟨_, Block.mk cid cargs (before ++ [mkStoreOp rw.nextOp operand reference,
        mkBranchOp (rw.nextOp + 1) rw0.nextBlock []]),
      ReturnValOpLowering_eq ctx op rw pre post cid cargs before after rw0.nextBlock operand
        reference hblocks hib hip hret hops hcid hfresh hfresh2, rfl, rfl, rfl, rfl, rfl, ?_,
      rfl, rfl⟩
    simp [Block.getTerminator]

/-- Witness of C22: the `return 5` of the function `f` of `ReturnExample`, after
the entry operation has been lowered; the reference it saves to is the variable
100 that replaced the result of the entry operation, and the operation after it
goes to the new block 2. -/
theorem ReturnOpLowering_branch_witness :
    ReturnExample.afterEntry.1.returnBlock = some ReturnExample.rewriter.nextBlock ∧
    (∃ rw1 b, ReturnOpLowering ReturnExample.afterEntry.1 ReturnExample.returnValOpAfterEntry
        ReturnExample.returnValRewriter = some rw1 ∧
      rw1.blocks = [] ++ b :: Block.mk ReturnExample.returnValRewriter.nextBlock []
        (ReturnExample.bodyOps.drop 2) :: ReturnExample.afterEntry.2.blocks.drop 1 ∧
      b.id = 0 ∧
      b.ops = [mkVariableOp 100 (Ty.ref Ty.i32) [],
          Op.simple 1 OpKind.ConstantOp [] [Ty.i32] [("value", Attr.int 5)]] ++
        [mkBranchOp ReturnExample.returnValRewriter.nextOp ReturnExample.rewriter.nextBlock []] ∧
      b.getTerminator = some
        (mkBranchOp ReturnExample.returnValRewriter.nextOp ReturnExample.rewriter.nextBlock []) ∧
      (mkBranchOp ReturnExample.returnValRewriter.nextOp ReturnExample.rewriter.nextBlock []).kind
        = OpKind.BranchOp ∧
      (mkBranchOp ReturnExample.returnValRewriter.nextOp
        ReturnExample.rewriter.nextBlock []).successors
        = [(ReturnExample.rewriter.nextBlock, [])]) ∧
    (ReturnExample.returnValOpAfterEntry.operands = [Value.opResult 1 0, Value.opResult 100 0] →
      ∃ rw1 b, ReturnValOpLowering ReturnExample.afterEntry.1 ReturnExample.returnValOpAfterEntry
          ReturnExample.returnValRewriter = some rw1 ∧
        rw1.blocks = [] ++ b :: Block.mk ReturnExample.returnValRewriter.nextBlock []
          (ReturnExample.bodyOps.drop 2) :: ReturnExample.afterEntry.2.blocks.drop 1 ∧
        b.id = 0 ∧
        b.ops = [mkVariableOp 100 (Ty.ref Ty.i32) [],
            Op.simple 1 OpKind.ConstantOp [] [Ty.i32] [("value", Attr.int 5)]] ++
          [mkStoreOp ReturnExample.returnValRewriter.nextOp (Value.opResult 1 0)
              (Value.opResult 100 0),
            mkBranchOp (ReturnExample.returnValRewriter.nextOp + 1)
              ReturnExample.rewriter.nextBlock []] ∧
        (mkStoreOp ReturnExample.returnValRewriter.nextOp (Value.opResult 1 0)
          (Value.opResult 100 0)).kind = OpKind.StoreOp ∧
        (mkStoreOp ReturnExample.returnValRewriter.nextOp (Value.opResult 1 0)
          (Value.opResult 100 0)).operands = [Value.opResult 1 0, Value.opResult 100 0] ∧
        b.getTerminator = some (mkBranchOp (ReturnExample.returnValRewriter.nextOp + 1)
          ReturnExample.rewriter.nextBlock []) ∧
        (mkBranchOp (ReturnExample.returnValRewriter.nextOp + 1)
          ReturnExample.rewriter.nextBlock []).kind = OpKind.BranchOp ∧
        (mkBranchOp (ReturnExample.returnValRewriter.nextOp + 1)
          ReturnExample.rewriter.nextBlock []).successors
          = [(ReturnExample.rewriter.nextBlock, [])]) :=
  ReturnOpLowering_branch TSContext.empty ReturnExample.afterEntry.1 ReturnExample.afterEntry.1
    ReturnExample.entryOp ReturnExample.rewriter ReturnExample.afterEntry.2
    ReturnExample.returnValOpAfterEntry ReturnExample.returnValRewriter
    [] (ReturnExample.afterEntry.2.blocks.drop 1) 0 []
    [mkVariableOp 100 (Ty.ref Ty.i32) [],
      Op.simple 1 OpKind.ConstantOp [] [Ty.i32] [("value", Attr.int 5)]]
    (ReturnExample.bodyOps.drop 2) (Value.opResult 1 0) (Value.opResult 100 0)
    rfl Relation.ReflTransGen.refl rfl rfl rfl (by decide) (by decide) (by decide)

/-! ## Prefix and postfix increment and decrement -/

theorem walkOps_append (l r : List Op) : walkOps (l ++ r) = walkOps l ++ walkOps r := by
  induction l with
  | nil => simp [walkOps]
  | cons a l ih => simp [walkOps, ih]

theorem walkBlocks_append (l r : List Block) :
    walkBlocks (l ++ r) = walkBlocks l ++ walkBlocks r := by
  induction l with
  | nil => simp [walkBlocks]
  | cons a l ih => simp [walkBlocks, ih]

theorem walkBlocks_cons_mk (i : BlockId) (a : List Ty) (ops : List Op) (r : List Block) :
    walkBlocks (Block.mk i a ops :: r) = walkOps ops ++ walkBlocks r := by
  simp [walkBlocks, walkBlock]

/-- Operations created at the insertion point do not change what defines a value,
as long as their identities are new. -/
theorem getDefiningOp_create (rw : PatternRewriter) (created : List Op) (v : Value)
    (pre post : List Block) (cid : BlockId) (cargs : List Ty) (before rest : List Op)
    (hblocks : rw.blocks = pre ++ Block.mk cid cargs (before ++ rest) :: post)
    (hib : rw.insertionBlock = cid) (hip : rw.insertionPoint = before.length)
    (hcid : cid ∉ blockIds pre)
    (hnew : ∀ o ∈ walkOps created, ∀ i idx, v = Value.opResult i idx → o.id ≠ i) :
    getDefiningOp (rw.create created).blocks v = getDefiningOp rw.blocks v := by
  cases v with
  | blockArg b idx => rfl
  | opResult i idx =>
    have hnone : (walkOps created).find? (fun o => o.id == i) = none := by
      rw [List.find?_eq_none]
      intro o ho
      simpa using hnew o ho i idx rfl
    simp only [getDefiningOp, PatternRewriter.create, hblocks, hib, hip]
    simp [modifyBlock_append_cons _ _ _ _ _ hcid, walkBlocks_append, walkBlocks_cons_mk,
      walkOps_append, List.find?_append, hnone]

/-- The rewriter after operations are created at the insertion point. -/
theorem create_eq (rw : PatternRewriter) (created : List Op)
    (pre post : List Block) (cid : BlockId) (cargs : List Ty) (before rest : List Op)
    (hblocks : rw.blocks = pre ++ Block.mk cid cargs (before ++ rest) :: post)
    (hib : rw.insertionBlock = cid) (hip : rw.insertionPoint = before.length)
    (hcid : cid ∉ blockIds pre) :
    rw.create created =
      { blocks := pre ++ Block.mk cid cargs ((before ++ created) ++ rest) :: post
        insertionBlock := cid
        insertionPoint := (before ++ created).length
        nextBlock := rw.nextBlock
        nextOp := rw.nextOp } := by
  cases rw with
  | mk blocks ib ip nb no =>
    simp only at hblocks hib hip
    subst hblocks hib hip
    simp [PatternRewriter.create, modifyBlock_append_cons _ _ _ _ _ hcid]

/-- The blocks after both unary patterns: the created operations and the store
of `saveResult` stand where the expression stood, and the uses of the expression
are replaced by `repl`. -/
theorem unary_lowering_blocks (op : Op) (rw : PatternRewriter) (created : List Op)
    (id : OpId) (operand1 storeValue repl reference : Value) (ld : Op)
    (pre post : List Block) (cid : BlockId) (cargs : List Ty) (before after : List Op)
    (hblocks : rw.blocks = pre ++ Block.mk cid cargs (before ++ op :: after) :: post)
    (hib : rw.insertionBlock = cid) (hip : rw.insertionPoint = before.length)
    (hcid : cid ∉ blockIds pre)
    (hid : ∀ o ∈ before, o.id ≠ op.id) (hnew : ∀ o ∈ created, o.id ≠ op.id)
    (hstore : id ≠ op.id)
    (hdef : getDefiningOp rw.blocks operand1 = some ld) (hld : ld.kind = OpKind.LoadOp)
    (hldops : ld.operands = [reference])
    (hwalk : ∀ o ∈ walkOps created, ∀ i idx, operand1 = Value.opResult i idx → o.id ≠ i) :
    ∃ rw1, CodeLogicHelper.saveResult (rw.create created) id operand1 storeValue = some rw1 ∧
      (rw1.replaceOp cid op [repl]).blocks =
        replaceUsesBlocks (op.results.zip [repl])
          (pre ++ Block.mk cid cargs
            (before ++ created ++ [mkStoreOp id storeValue reference] ++ after) :: post) := by
  have hdef2 := getDefiningOp_create rw created operand1 pre post cid cargs before (op :: after)
    hblocks hib hip hcid hwalk
  have hA := create_eq rw created pre post cid cargs before (op :: after) hblocks hib hip hcid
  refine ⟨(rw.create created).create [mkStoreOp id storeValue reference], ?_, ?_⟩
  · simp [CodeLogicHelper.saveResult, hdef2, hdef, hld, hldops]
  · rw [hA]
    have := create_replaceOp_blocks op
      { blocks := pre ++ Block.mk cid cargs ((before ++ created) ++ op :: after) :: post
        insertionBlock := cid
        insertionPoint := (before ++ created).length
        nextBlock := rw.nextBlock
        nextOp := rw.nextOp } [mkStoreOp id storeValue reference] [repl] pre post cid cargs
      (before ++ created) after rfl rfl rfl hcid (by
        intro o ho
        rcases List.mem_append.mp ho with h | h
        · exact hid o h
        · exact hnew o h) (by
        intro o ho
        simp only [List.mem_singleton] at ho
        subst ho
        simpa [mkStoreOp, Op.simple, Op.id] using hstore)
    simpa using this

theorem unaryArithmetic_of_not_optional (nextOp : OpId) (opCode : SyntaxKind) (ty : Ty)
    (operand1 : Value) (hty : ∀ e, ty ≠ Ty.optional e) :
    unaryArithmetic nextOp opCode ty operand1 =
      ([mkConstantOp nextOp 1,
        mkArithmeticBinaryOp (nextOp + 1) ty (unaryToBinaryOpCode opCode) operand1
          (Value.opResult nextOp 0)], Value.opResult (nextOp + 1) 0, nextOp + 2) := by
  cases ty <;> first | rfl | exact absurd rfl (hty _)

theorem unaryArithmetic_optional (nextOp : OpId) (opCode : SyntaxKind) (e : Ty)
    (operand1 : Value) :
    unaryArithmetic nextOp opCode (Ty.optional e) operand1 =
      ([mkConstantOp nextOp 1, mkCastOp (nextOp + 1) e operand1,
        mkArithmeticBinaryOp (nextOp + 2) e (unaryToBinaryOpCode opCode)
          (Value.opResult (nextOp + 1) 0) (Value.opResult nextOp 0),
        mkCastOp (nextOp + 3) (Ty.optional e) (Value.opResult (nextOp + 2) 0)],
       Value.opResult (nextOp + 3) 0, nextOp + 4) := rfl

/-- Running the operations created for a unary expression whose type is not
optional: the new value is the operand plus or minus one, and it is what the
store saves. -/
theorem exec_unary_plain (E : ExecEnv) (st : ExecState) (x : Int) (n : OpId) (ty : Ty)
    (code : SyntaxKind) (operand1 reference : Value)
    (hx : st.env operand1 = some x)
    (hv : ∀ (i : Nat) idx, operand1 = Value.opResult i idx → i < n)
    (hcode : code = SyntaxKind.PlusPlusToken ∨ code = SyntaxKind.MinusMinusToken) :
    ∃ st1, execStraight E st
        [mkConstantOp n 1,
         mkArithmeticBinaryOp (n + 1) ty (unaryToBinaryOpCode code) operand1 (Value.opResult n 0),
         mkStoreOp (n + 2) (Value.opResult (n + 1) 0) reference] = some st1 ∧
      st1.env (Value.opResult (n + 1) 0)
        = some (if code = SyntaxKind.PlusPlusToken then x + 1 else x - 1) ∧
      st1.mem reference = some (if code = SyntaxKind.PlusPlusToken then x + 1 else x - 1) ∧
      st1.env operand1 = some x := by
  have h0 : operand1 ≠ Value.opResult n 0 := fun h => absurd (hv n 0 h) (by simp)
  have h1 : operand1 ≠ Value.opResult (n + 1) 0 := fun h => absurd (hv (n + 1) 0 h) (by simp)
  rcases hcode with rfl | rfl
  · simp [execStraight, execOp, mkConstantOp, mkArithmeticBinaryOp, mkStoreOp, Op.simple,
      Op.kind, Op.operands, Op.successors, Op.getAttr, Op.attrs, Op.id, setValue,
      unaryToBinaryOpCode, h0, h1, hx]
  · simp [execStraight, execOp, mkConstantOp, mkArithmeticBinaryOp, mkStoreOp, Op.simple,
      Op.kind, Op.operands, Op.successors, Op.getAttr, Op.attrs, Op.id, setValue,
      unaryToBinaryOpCode, h0, h1, hx]

/-- Running the operations created for a unary expression of an optional type:
the operand is cast to the element type, the arithmetic is done there, and the
new value is cast back and saved. -/
theorem exec_unary_optional (E : ExecEnv) (st : ExecState) (x : Int) (n : OpId) (e : Ty)
    (code : SyntaxKind) (operand1 reference : Value)
    (hx : st.env operand1 = some x)
    (hv : ∀ (i : Nat) idx, operand1 = Value.opResult i idx → i < n)
    (he : e ≠ Ty.i1)
    (hcode : code = SyntaxKind.PlusPlusToken ∨ code = SyntaxKind.MinusMinusToken) :
    ∃ st1, execStraight E st
        [mkConstantOp n 1, mkCastOp (n + 1) e operand1,
         mkArithmeticBinaryOp (n + 2) e (unaryToBinaryOpCode code)
           (Value.opResult (n + 1) 0) (Value.opResult n 0),
         mkCastOp (n + 3) (Ty.optional e) (Value.opResult (n + 2) 0),
         mkStoreOp (n + 4) (Value.opResult (n + 3) 0) reference] = some st1 ∧
      st1.env (Value.opResult (n + 3) 0)
        = some (if code = SyntaxKind.PlusPlusToken then x + 1 else x - 1) ∧
      st1.mem reference = some (if code = SyntaxKind.PlusPlusToken then x + 1 else x - 1) ∧
      st1.env operand1 = some x := by
  have h0 : operand1 ≠ Value.opResult n 0 := fun h => absurd (hv n 0 h) (by simp)
  have h1 : operand1 ≠ Value.opResult (n + 1) 0 := fun h => absurd (hv (n + 1) 0 h) (by simp)
  have h2 : operand1 ≠ Value.opResult (n + 2) 0 := fun h => absurd (hv (n + 2) 0 h) (by simp)
  have h3 : operand1 ≠ Value.opResult (n + 3) 0 := fun h => absurd (hv (n + 3) 0 h) (by simp)
  rcases hcode with rfl | rfl
  · simp [execStraight, execOp, mkConstantOp, mkArithmeticBinaryOp, mkStoreOp, mkCastOp,
      Op.simple, Op.kind, Op.operands, Op.successors, Op.getAttr, Op.attrs, Op.id,
      Op.resultTypes, setValue, unaryToBinaryOpCode, h0, h1, h2, h3, hx, he]
  · simp [execStraight, execOp, mkConstantOp, mkArithmeticBinaryOp, mkStoreOp, mkCastOp,
      Op.simple, Op.kind, Op.operands, Op.successors, Op.getAttr, Op.attrs, Op.id,
      Op.resultTypes, setValue, unaryToBinaryOpCode, h0, h1, h2, h3, hx, he]

theorem replaceUsesBlocks_split (m : ValueMapping) (pre post : List Block) (cid : BlockId)
    (cargs : List Ty) (before created after : List Op) :
    replaceUsesBlocks m (pre ++ Block.mk cid cargs (before ++ created ++ after) :: post) =
      replaceUsesBlocks m pre ++ Block.mk cid cargs
        (replaceUsesOps m before ++ replaceUsesOps m created ++ replaceUsesOps m after) ::
        replaceUsesBlocks m post := by
  simp [replaceUsesBlock_mk, replaceUsesOps_append]

/-- The two unary patterns for an expression whose type is not optional. -/
theorem unary_lowering_plain (op : Op) (rw : PatternRewriter)
    (pre post : List Block) (cid : BlockId) (cargs : List Ty) (before after : List Op)
    (operand1 reference : Value) (ld : Op) (ty : Ty) (code : SyntaxKind)
    (hblocks : rw.blocks = pre ++ Block.mk cid cargs (before ++ op :: after) :: post)
    (hib : rw.insertionBlock = cid) (hip : rw.insertionPoint = before.length)
    (hcid : cid ∉ blockIds pre) (hid : ∀ o ∈ before, o.id ≠ op.id)
    (hops : op.operands = [operand1]) (hres : op.resultTypes = [ty])
    (hcodeq : op.opCode = some code)
    (hdef : getDefiningOp rw.blocks operand1 = some ld) (hld : ld.kind = OpKind.LoadOp)
    (hldops : ld.operands = [reference])
    (hfresh : op.id < rw.nextOp) (hv : ∀ (i : Nat) idx, operand1 = Value.opResult i idx → i < rw.nextOp)
    (hself : operand1 ≠ Value.opResult op.id 0) (hself2 : reference ≠ Value.opResult op.id 0)
    (hty : ∀ e, ty ≠ Ty.optional e) :
    (∃ rw1, PrefixUnaryOpLowering op rw = some rw1 ∧
      rw1.blocks =
        replaceUsesBlocks [(Value.opResult op.id 0, Value.opResult (rw.nextOp + 1) 0)] pre ++
        Block.mk cid cargs
          (replaceUsesOps [(Value.opResult op.id 0, Value.opResult (rw.nextOp + 1) 0)] before ++
            [mkConstantOp rw.nextOp 1,
             mkArithmeticBinaryOp (rw.nextOp + 1) ty (unaryToBinaryOpCode code) operand1
               (Value.opResult rw.nextOp 0),
             mkStoreOp (rw.nextOp + 2) (Value.opResult (rw.nextOp + 1) 0) reference] ++
            replaceUsesOps [(Value.opResult op.id 0, Value.opResult (rw.nextOp + 1) 0)] after) ::
        replaceUsesBlocks [(Value.opResult op.id 0, Value.opResult (rw.nextOp + 1) 0)] post) ∧
    (∃ rw1, PostfixUnaryOpLowering op rw = some rw1 ∧
      rw1.blocks =
        replaceUsesBlocks [(Value.opResult op.id 0, operand1)] pre ++
        Block.mk cid cargs
          (replaceUsesOps [(Value.opResult op.id 0, operand1)] before ++
            [mkConstantOp rw.nextOp 1,
             mkArithmeticBinaryOp (rw.nextOp + 1) ty (unaryToBinaryOpCode code) operand1
               (Value.opResult rw.nextOp 0),
             mkStoreOp (rw.nextOp + 2) (Value.opResult (rw.nextOp + 1) 0) reference] ++
            replaceUsesOps [(Value.opResult op.id 0, operand1)] after) ::
        replaceUsesBlocks [(Value.opResult op.id 0, operand1)] post) := by
  have hua := unaryArithmetic_of_not_optional rw.nextOp code ty operand1 hty
  have hres2 : op.results = [Value.opResult op.id 0] := by
    simp [Op.results, hres, List.range_succ]
  have hn0 : rw.nextOp ≠ op.id := Nat.ne_of_gt hfresh
  have hn1 : rw.nextOp + 1 ≠ op.id := Nat.ne_of_gt (Nat.lt_succ_of_lt hfresh)
  have hn2 : rw.nextOp + 2 ≠ op.id :=
    Nat.ne_of_gt (Nat.lt_succ_of_lt (Nat.lt_succ_of_lt hfresh))
  have hnew : ∀ o ∈ [mkConstantOp rw.nextOp 1,
      mkArithmeticBinaryOp (rw.nextOp + 1) ty (unaryToBinaryOpCode code) operand1
        (Value.opResult rw.nextOp 0)], o.id ≠ op.id := by
    intro o ho
    simp only [List.mem_cons, List.mem_singleton, List.not_mem_nil, or_false] at ho
    rcases ho with rfl | rfl
    · simpa [mkConstantOp, Op.simple, Op.id] using hn0
    · simpa [mkArithmeticBinaryOp, Op.simple, Op.id] using hn1
  have hwalk : ∀ o ∈ walkOps [mkConstantOp rw.nextOp 1,
      mkArithmeticBinaryOp (rw.nextOp + 1) ty (unaryToBinaryOpCode code) operand1
        (Value.opResult rw.nextOp 0)], ∀ i idx, operand1 = Value.opResult i idx → o.id ≠ i := by
    intro o ho i idx hi
    have hlt := hv i idx hi
    simp [walkOps, walkOp, walkRegions, mkConstantOp, mkArithmeticBinaryOp, Op.simple] at ho
    rcases ho with rfl | rfl
    · exact Nat.ne_of_gt hlt
    · exact Nat.ne_of_gt (Nat.lt_succ_of_lt hlt)
  constructor
  · obtain ⟨rwS, hS, hB⟩ := unary_lowering_blocks op rw _ (rw.nextOp + 2) operand1
      (Value.opResult op.id 0) (Value.opResult (rw.nextOp + 1) 0) reference ld pre post cid cargs
      before after hblocks hib hip hcid hid hnew hn2 hdef hld hldops hwalk
    refine ⟨{ rwS.replaceOp rw.insertionBlock op [Value.opResult (rw.nextOp + 1) 0] with
      nextOp := rw.nextOp + 2 + 1 }, ?_, ?_⟩
    · simp only [PrefixUnaryOpLowering, hcodeq, hops, hres, hua, hS]
    · simp only [hib, hB, hres2, List.zip_cons_cons, List.zip_nil_right, replaceUsesBlocks_split]
      simp [replaceUsesOps_append, replaceUsesOps, replaceUsesOp, replaceUsesSuccs, replaceUsesRegions, mkConstantOp,
        mkArithmeticBinaryOp, mkStoreOp, Op.simple, ValueMapping.lookup_singleton, hself.symm,
        hself2.symm, hn0.symm]
  · obtain ⟨rwS, hS, hB⟩ := unary_lowering_blocks op rw _ (rw.nextOp + 2) operand1
      (Value.opResult (rw.nextOp + 1) 0) operand1 reference ld pre post cid cargs
      before after hblocks hib hip hcid hid hnew hn2 hdef hld hldops hwalk
    refine ⟨{ rwS.replaceOp rw.insertionBlock op [operand1] with
      nextOp := rw.nextOp + 2 + 1 }, ?_, ?_⟩
    · simp only [PostfixUnaryOpLowering, hcodeq, hops, hres, hua, hS]
    · simp only [hib, hB, hres2, List.zip_cons_cons, List.zip_nil_right, replaceUsesBlocks_split]
      simp [replaceUsesOps_append, replaceUsesOps, replaceUsesOp, replaceUsesSuccs, replaceUsesRegions, mkConstantOp,
        mkArithmeticBinaryOp, mkStoreOp, Op.simple, ValueMapping.lookup_singleton, hself.symm,
        hself2.symm, hn0.symm, hn1.symm]

/-- The two unary patterns for an expression of an optional type. -/
theorem unary_lowering_optional (op : Op) (rw : PatternRewriter)
    (pre post : List Block) (cid : BlockId) (cargs : List Ty) (before after : List Op)
    (operand1 reference : Value) (ld : Op) (e : Ty) (code : SyntaxKind)
    (hblocks : rw.blocks = pre ++ Block.mk cid cargs (before ++ op :: after) :: post)
    (hib : rw.insertionBlock = cid) (hip : rw.insertionPoint = before.length)
    (hcid : cid ∉ blockIds pre) (hid : ∀ o ∈ before, o.id ≠ op.id)
    (hops : op.operands = [operand1]) (hres : op.resultTypes = [Ty.optional e])
    (hcodeq : op.opCode = some code)
    (hdef : getDefiningOp rw.blocks operand1 = some ld) (hld : ld.kind = OpKind.LoadOp)
    (hldops : ld.operands = [reference])
    (hfresh : op.id < rw.nextOp) (hv : ∀ (i : Nat) idx, operand1 = Value.opResult i idx → i < rw.nextOp)
    (hself : operand1 ≠ Value.opResult op.id 0) (hself2 : reference ≠ Value.opResult op.id 0) :
    (∃ rw1, PrefixUnaryOpLowering op rw = some rw1 ∧
      rw1.blocks =
        replaceUsesBlocks [(Value.opResult op.id 0, Value.opResult (rw.nextOp + 3) 0)] pre ++
        Block.mk cid cargs
          (replaceUsesOps [(Value.opResult op.id 0, Value.opResult (rw.nextOp + 3) 0)] before ++
            [mkConstantOp rw.nextOp 1, mkCastOp (rw.nextOp + 1) e operand1,
             mkArithmeticBinaryOp (rw.nextOp + 2) e (unaryToBinaryOpCode code)
               (Value.opResult (rw.nextOp + 1) 0) (Value.opResult rw.nextOp 0),
             mkCastOp (rw.nextOp + 3) (Ty.optional e) (Value.opResult (rw.nextOp + 2) 0),
             mkStoreOp (rw.nextOp + 4) (Value.opResult (rw.nextOp + 3) 0) reference] ++
            replaceUsesOps [(Value.opResult op.id 0, Value.opResult (rw.nextOp + 3) 0)] after) ::
        replaceUsesBlocks [(Value.opResult op.id 0, Value.opResult (rw.nextOp + 3) 0)] post) ∧
    (∃ rw1, PostfixUnaryOpLowering op rw = some rw1 ∧
      rw1.blocks =
        replaceUsesBlocks [(Value.opResult op.id 0, operand1)] pre ++
        Block.mk cid cargs
          (replaceUsesOps [(Value.opResult op.id 0, operand1)] before ++
            [mkConstantOp rw.nextOp 1, mkCastOp (rw.nextOp + 1) e operand1,
             mkArithmeticBinaryOp (rw.nextOp + 2) e (unaryToBinaryOpCode code)
               (Value.opResult (rw.nextOp + 1) 0) (Value.opResult rw.nextOp 0),
             mkCastOp (rw.nextOp + 3) (Ty.optional e) (Value.opResult (rw.nextOp + 2) 0),
             mkStoreOp (rw.nextOp + 4) (Value.opResult (rw.nextOp + 3) 0) reference] ++
            replaceUsesOps [(Value.opResult op.id 0, operand1)] after) ::
        replaceUsesBlocks [(Value.opResult op.id 0, operand1)] post) := by
  have hua := unaryArithmetic_optional rw.nextOp code e operand1
  have hres2 : op.results = [Value.opResult op.id 0] := by
    simp [Op.results, hres, List.range_succ]
  have hn0 : rw.nextOp ≠ op.id := Nat.ne_of_gt hfresh
  have hn1 : rw.nextOp + 1 ≠ op.id := Nat.ne_of_gt (Nat.lt_succ_of_lt hfresh)
  have hn2 : rw.nextOp + 2 ≠ op.id :=
    Nat.ne_of_gt (Nat.lt_succ_of_lt (Nat.lt_succ_of_lt hfresh))
  have hn3 : rw.nextOp + 3 ≠ op.id :=
    Nat.ne_of_gt (Nat.lt_succ_of_lt (Nat.lt_succ_of_lt (Nat.lt_succ_of_lt hfresh)))
  have hn4 : rw.nextOp + 4 ≠ op.id :=
    Nat.ne_of_gt (Nat.lt_succ_of_lt (Nat.lt_succ_of_lt (Nat.lt_succ_of_lt
      (Nat.lt_succ_of_lt hfresh))))
  have hnew : ∀ o ∈ [mkConstantOp rw.nextOp 1, mkCastOp (rw.nextOp + 1) e operand1,
      mkArithmeticBinaryOp (rw.nextOp + 2) e (unaryToBinaryOpCode code)
        (Value.opResult (rw.nextOp + 1) 0) (Value.opResult rw.nextOp 0),
      mkCastOp (rw.nextOp + 3) (Ty.optional e) (Value.opResult (rw.nextOp + 2) 0)],
      o.id ≠ op.id := by
    intro o ho
    simp only [List.mem_cons, List.mem_singleton, List.not_mem_nil, or_false] at ho
    rcases ho with rfl | rfl | rfl | rfl
    · simpa [mkConstantOp, Op.simple, Op.id] using hn0
    · simpa [mkCastOp, Op.simple, Op.id] using hn1
    · simpa [mkArithmeticBinaryOp, Op.simple, Op.id] using hn2
    · simpa [mkCastOp, Op.simple, Op.id] using hn3
  have hwalk : ∀ o ∈ walkOps [mkConstantOp rw.nextOp 1, mkCastOp (rw.nextOp + 1) e operand1,
      mkArithmeticBinaryOp (rw.nextOp + 2) e (unaryToBinaryOpCode code)
        (Value.opResult (rw.nextOp + 1) 0) (Value.opResult rw.nextOp 0),
      mkCastOp (rw.nextOp + 3) (Ty.optional e) (Value.opResult (rw.nextOp + 2) 0)],
      ∀ i idx, operand1 = Value.opResult i idx → o.id ≠ i := by
    intro o ho i idx hi
    have hlt := hv i idx hi
    simp [walkOps, walkOp, walkRegions, mkConstantOp, mkArithmeticBinaryOp, mkCastOp,
      Op.simple] at ho
    rcases ho with rfl | rfl | rfl | rfl
    · exact Nat.ne_of_gt hlt
    · exact Nat.ne_of_gt (Nat.lt_succ_of_lt hlt)
    · exact Nat.ne_of_gt (Nat.lt_succ_of_lt (Nat.lt_succ_of_lt hlt))
    · exact Nat.ne_of_gt (Nat.lt_succ_of_lt (Nat.lt_succ_of_lt (Nat.lt_succ_of_lt hlt)))
  constructor
  · obtain ⟨rwS, hS, hB⟩ := unary_lowering_blocks op rw _ (rw.nextOp + 4) operand1
      (Value.opResult op.id 0) (Value.opResult (rw.nextOp + 3) 0) reference ld pre post cid cargs
      before after hblocks hib hip hcid hid hnew hn4 hdef hld hldops hwalk
    refine ⟨{ rwS.replaceOp rw.insertionBlock op [Value.opResult (rw.nextOp + 3) 0] with
      nextOp := rw.nextOp + 4 + 1 }, ?_, ?_⟩
    · simp only [PrefixUnaryOpLowering, hcodeq, hops, hres, hua, hS]
    · simp only [hib, hB, hres2, List.zip_cons_cons, List.zip_nil_right, replaceUsesBlocks_split]
      simp [replaceUsesOps_append, replaceUsesOps, replaceUsesOp, replaceUsesSuccs,
        replaceUsesRegions, mkConstantOp, mkCastOp,
        mkArithmeticBinaryOp, mkStoreOp, Op.simple, ValueMapping.lookup_singleton, hself.symm,
        hself2.symm, hn0.symm, hn1.symm, hn2.symm]
  · obtain ⟨rwS, hS, hB⟩ := unary_lowering_blocks op rw _ (rw.nextOp + 4) operand1
      (Value.opResult (rw.nextOp + 3) 0) operand1 reference ld pre post cid cargs
      before after hblocks hib hip hcid hid hnew hn4 hdef hld hldops hwalk
    refine ⟨{ rwS.replaceOp rw.insertionBlock op [operand1] with
      nextOp := rw.nextOp + 4 + 1 }, ?_, ?_⟩
    · simp only [PostfixUnaryOpLowering, hcodeq, hops, hres, hua, hS]
    · simp only [hib, hB, hres2, List.zip_cons_cons, List.zip_nil_right, replaceUsesBlocks_split]
      simp [replaceUsesOps_append, replaceUsesOps, replaceUsesOp, replaceUsesSuccs,
        replaceUsesRegions, mkConstantOp, mkCastOp,
        mkArithmeticBinaryOp, mkStoreOp, Op.simple, ValueMapping.lookup_singleton, hself.symm,
        hself2.symm, hn0.symm, hn1.symm, hn2.symm, hn3.symm]

/-- C23: let `op` be a unary expression with the code `++` or `--` whose operand
`operand1` is the value loaded by `ld` from `reference`, and let the operand have
the type `ty` of the expression.  Both patterns succeed and put the constant 1,
the arithmetic operation (plus for `++`, minus for `--`) on the operand and the
constant, and a store of its result to `reference` where the expression stood.
`PrefixUnaryOpLowering` replaces the uses of the expression by the result of the
arithmetic operation, `PostfixUnaryOpLowering` by `operand1` itself.  Run from a
state where the operand is `x`, the created operations give the new value `x + 1`
(or `x - 1`), save it to `reference` and leave the operand at `x`.  When `ty` is
an optional type, the operand is first cast to the element type, the arithmetic
is done on the element type, and the result is cast back to `ty`; the cast back
is what is saved and what replaces a prefix expression. -/
theorem UnaryOpLowering_value (op : Op) (rw : PatternRewriter)
    (pre post : List Block) (cid : BlockId) (cargs : List Ty) (before after : List Op)
    (operand1 reference : Value) (ld : Op) (ty : Ty) (code : SyntaxKind)
    (hblocks : rw.blocks = pre ++ Block.mk cid cargs (before ++ op :: after) :: post)
    (hib : rw.insertionBlock = cid) (hip : rw.insertionPoint = before.length)
    (hcid : cid ∉ blockIds pre) (hid : ∀ o ∈ before, o.id ≠ op.id)
    (hops : op.operands = [operand1]) (hres : op.resultTypes = [ty])
    (hcodeq : op.opCode = some code)
    (hcode : code = SyntaxKind.PlusPlusToken ∨ code = SyntaxKind.MinusMinusToken)
    (hdef : getDefiningOp rw.blocks operand1 = some ld) (hld : ld.kind = OpKind.LoadOp)
    (hldops : ld.operands = [reference]) (htype : ld.resultTypes = [ty])
    (hfresh : op.id < rw.nextOp)
    (hv : ∀ (i : Nat) idx, operand1 = Value.opResult i idx → i < rw.nextOp)
    (hself : operand1 ≠ Value.opResult op.id 0) (hself2 : reference ≠ Value.opResult op.id 0) :
    unaryToBinaryOpCode code
      = (if code = SyntaxKind.PlusPlusToken then SyntaxKind.PlusToken else SyntaxKind.MinusToken) ∧
    ((∀ e, ld.resultTypes ≠ [Ty.optional e]) →
      (∃ rw1, PrefixUnaryOpLowering op rw = some rw1 ∧
        rw1.blocks =
          replaceUsesBlocks [(Value.opResult op.id 0, Value.opResult (rw.nextOp + 1) 0)] pre ++
          Block.mk cid cargs
            (replaceUsesOps [(Value.opResult op.id 0, Value.opResult (rw.nextOp + 1) 0)] before ++
              [mkConstantOp rw.nextOp 1,
               mkArithmeticBinaryOp (rw.nextOp + 1) ty (unaryToBinaryOpCode code) operand1
                 (Value.opResult rw.nextOp 0),
               mkStoreOp (rw.nextOp + 2) (Value.opResult (rw.nextOp + 1) 0) reference] ++
              replaceUsesOps [(Value.opResult op.id 0, Value.opResult (rw.nextOp + 1) 0)] after) ::
          replaceUsesBlocks [(Value.opResult op.id 0, Value.opResult (rw.nextOp + 1) 0)] post) ∧
      (∃ rw1, PostfixUnaryOpLowering op rw = some rw1 ∧
        rw1.blocks =
          replaceUsesBlocks [(Value.opResult op.id 0, operand1)] pre ++
          Block.mk cid cargs
            (replaceUsesOps [(Value.opResult op.id 0, operand1)] before ++
              [mkConstantOp rw.nextOp 1,
               mkArithmeticBinaryOp (rw.nextOp + 1) ty (unaryToBinaryOpCode code) operand1
                 (Value.opResult rw.nextOp 0),
               mkStoreOp (rw.nextOp + 2) (Value.opResult (rw.nextOp + 1) 0) reference] ++
              replaceUsesOps [(Value.opResult op.id 0, operand1)] after) ::
          replaceUsesBlocks [(Value.opResult op.id 0, operand1)] post) ∧
      (∀ (E : ExecEnv) (st : ExecState) (x : Int), st.env operand1 = some x →
        ∃ st1, execStraight E st
            [mkConstantOp rw.nextOp 1,
             mkArithmeticBinaryOp (rw.nextOp + 1) ty (unaryToBinaryOpCode code) operand1
               (Value.opResult rw.nextOp 0),
             mkStoreOp (rw.nextOp + 2) (Value.opResult (rw.nextOp + 1) 0) reference] = some st1 ∧
          st1.env (Value.opResult (rw.nextOp + 1) 0)
            = some (if code = SyntaxKind.PlusPlusToken then x + 1 else x - 1) ∧
          st1.mem reference = some (if code = SyntaxKind.PlusPlusToken then x + 1 else x - 1) ∧
          st1.env operand1 = some x)) ∧
    (∀ e, ld.resultTypes = [Ty.optional e] →
      (∃ rw1, PrefixUnaryOpLowering op rw = some rw1 ∧
        rw1.blocks =
          replaceUsesBlocks [(Value.opResult op.id 0, Value.opResult (rw.nextOp + 3) 0)] pre ++
          Block.mk cid cargs
            (replaceUsesOps [(Value.opResult op.id 0, Value.opResult (rw.nextOp + 3) 0)] before ++
              [mkConstantOp rw.nextOp 1, mkCastOp (rw.nextOp + 1) e operand1,
               mkArithmeticBinaryOp (rw.nextOp + 2) e (unaryToBinaryOpCode code)
                 (Value.opResult (rw.nextOp + 1) 0) (Value.opResult rw.nextOp 0),
               mkCastOp (rw.nextOp + 3) (Ty.optional e) (Value.opResult (rw.nextOp + 2) 0),
               mkStoreOp (rw.nextOp + 4) (Value.opResult (rw.nextOp + 3) 0) reference] ++
              replaceUsesOps [(Value.opResult op.id 0, Value.opResult (rw.nextOp + 3) 0)] after) ::
          replaceUsesBlocks [(Value.opResult op.id 0, Value.opResult (rw.nextOp + 3) 0)] post) ∧
      (∃ rw1, PostfixUnaryOpLowering op rw = some rw1 ∧
        rw1.blocks =
          replaceUsesBlocks [(Value.opResult op.id 0, operand1)] pre ++
          Block.mk cid cargs
            (replaceUsesOps [(Value.opResult op.id 0, operand1)] before ++
              [mkConstantOp rw.nextOp 1, mkCastOp (rw.nextOp + 1) e operand1,
               mkArithmeticBinaryOp (rw.nextOp + 2) e (unaryToBinaryOpCode code)
                 (Value.opResult (rw.nextOp + 1) 0) (Value.opResult rw.nextOp 0),
               mkCastOp (rw.nextOp + 3) (Ty.optional e) (Value.opResult (rw.nextOp + 2) 0),
               mkStoreOp (rw.nextOp + 4) (Value.opResult (rw.nextOp + 3) 0) reference] ++
              replaceUsesOps [(Value.opResult op.id 0, operand1)] after) ::
          replaceUsesBlocks [(Value.opResult op.id 0, operand1)] post) ∧
      (e ≠ Ty.i1 → ∀ (E : ExecEnv) (st : ExecState) (x : Int), st.env operand1 = some x →
        ∃ st1, execStraight E st
            [mkConstantOp rw.nextOp 1, mkCastOp (rw.nextOp + 1) e operand1,
             mkArithmeticBinaryOp (rw.nextOp + 2) e (unaryToBinaryOpCode code)
               (Value.opResult (rw.nextOp + 1) 0) (Value.opResult rw.nextOp 0),
             mkCastOp (rw.nextOp + 3) (Ty.optional e) (Value.opResult (rw.nextOp + 2) 0),
             mkStoreOp (rw.nextOp + 4) (Value.opResult (rw.nextOp + 3) 0) reference] = some st1 ∧
          st1.env (Value.opResult (rw.nextOp + 3) 0)
            = some (if code = SyntaxKind.PlusPlusToken then x + 1 else x - 1) ∧
          st1.mem reference = some (if code = SyntaxKind.PlusPlusToken then x + 1 else x - 1) ∧
          st1.env operand1 = some x)) := by
  refine ⟨?_, ?_, ?_⟩
  · rcases hcode with rfl | rfl <;> rfl
  · intro hty
    have hty2 : ∀ e, ty ≠ Ty.optional e := by
      intro e h
      exact hty e (by rw [htype, h])
    have h := unary_lowering_plain op rw pre post cid cargs before after operand1 reference ld ty
      code hblocks hib hip hcid hid hops hres hcodeq hdef hld hldops hfresh hv hself hself2 hty2
    exact ⟨h.1, h.2, fun E st x hx =>
      exec_unary_plain E st x rw.nextOp ty code operand1 reference hx hv hcode⟩
  · intro e he
    have hty2 : ty = Ty.optional e := by
      rw [htype] at he
      simpa using he
    subst hty2
    have h := unary_lowering_optional op rw pre post cid cargs before after operand1 reference ld
      e code hblocks hib hip hcid hid hops hres hcodeq hdef hld hldops hfresh hv hself hself2
    exact ⟨h.1, h.2, fun hne E st x hx =>
      exec_unary_optional E st x rw.nextOp e code operand1 reference hx hv hne hcode⟩

/-- Witness of C23: the expression `++x` of `UnaryExample`, of the type `i32`,
with `x = 5` loaded by operation 2 from the variable 1. -/
theorem UnaryOpLowering_value_witness :
    (∃ rw1, PrefixUnaryOpLowering (UnaryExample.unaryOp OpKind.PrefixUnaryOp)
        (UnaryExample.rewriter OpKind.PrefixUnaryOp) = some rw1 ∧
      rw1.blocks =
        replaceUsesBlocks [(Value.opResult 3 0, Value.opResult 101 0)] [] ++
        Block.mk 0 []
          (replaceUsesOps [(Value.opResult 3 0, Value.opResult 101 0)] UnaryExample.beforeOps ++
            [mkConstantOp 100 1,
             mkArithmeticBinaryOp 101 Ty.i32 SyntaxKind.PlusToken (Value.opResult 2 0)
               (Value.opResult 100 0),
             mkStoreOp 102 (Value.opResult 101 0) (Value.opResult 1 0)] ++
            replaceUsesOps [(Value.opResult 3 0, Value.opResult 101 0)] UnaryExample.afterOps) ::
        replaceUsesBlocks [(Value.opResult 3 0, Value.opResult 101 0)] []) ∧
    (∃ rw1, PostfixUnaryOpLowering (UnaryExample.unaryOp OpKind.PrefixUnaryOp)
        (UnaryExample.rewriter OpKind.PrefixUnaryOp) = some rw1 ∧
      rw1.blocks =
        replaceUsesBlocks [(Value.opResult 3 0, Value.opResult 2 0)] [] ++
        Block.mk 0 []
          (replaceUsesOps [(Value.opResult 3 0, Value.opResult 2 0)] UnaryExample.beforeOps ++
            [mkConstantOp 100 1,
             mkArithmeticBinaryOp 101 Ty.i32 SyntaxKind.PlusToken (Value.opResult 2 0)
               (Value.opResult 100 0),
             mkStoreOp 102 (Value.opResult 101 0) (Value.opResult 1 0)] ++
            replaceUsesOps [(Value.opResult 3 0, Value.opResult 2 0)] UnaryExample.afterOps) ::
        replaceUsesBlocks [(Value.opResult 3 0, Value.opResult 2 0)] []) ∧
    (∀ (E : ExecEnv) (st : ExecState) (x : Int), st.env (Value.opResult 2 0) = some x →
      ∃ st1, execStraight E st
          [mkConstantOp 100 1,
           mkArithmeticBinaryOp 101 Ty.i32 SyntaxKind.PlusToken (Value.opResult 2 0)
             (Value.opResult 100 0),
           mkStoreOp 102 (Value.opResult 101 0) (Value.opResult 1 0)] = some st1 ∧
        st1.env (Value.opResult 101 0)
          = some (if SyntaxKind.PlusPlusToken = SyntaxKind.PlusPlusToken then x + 1 else x - 1) ∧
        st1.mem (Value.opResult 1 0)
          = some (if SyntaxKind.PlusPlusToken = SyntaxKind.PlusPlusToken then x + 1 else x - 1) ∧
        st1.env (Value.opResult 2 0) = some x) :=
  (UnaryOpLowering_value (UnaryExample.unaryOp OpKind.PrefixUnaryOp)
    (UnaryExample.rewriter OpKind.PrefixUnaryOp) [] [] 0 [] UnaryExample.beforeOps
    UnaryExample.afterOps (Value.opResult 2 0) (Value.opResult 1 0)
    (mkLoadOp 2 Ty.i32 (Value.opResult 1 0)) Ty.i32 SyntaxKind.PlusPlusToken
    rfl rfl rfl (by decide) (by decide) rfl rfl rfl (Or.inl rfl) rfl rfl rfl rfl (by decide)
    (by intro i idx h; injection h with h1 _; subst h1; decide)
    (by decide) (by decide)).2.1 (by intro e h; cases h)

/-- The operations the lowered `++x` and `x++` of `UnaryExample` leave in the
block, and the run of the created operations from `x = 5`: the new value and the
saved value are 6. -/
theorem unary_example_lowered :
    ((PrefixUnaryOpLowering (UnaryExample.unaryOp OpKind.PrefixUnaryOp)
        (UnaryExample.rewriter OpKind.PrefixUnaryOp)).map
      fun rw1 => rw1.blocks.map fun b => b.ops.map fun o => (o.id, o.kind, o.operands))
      = some [[(0, OpKind.ConstantOp, []), (1, OpKind.VariableOp, [Value.opResult 0 0]),
          (2, OpKind.LoadOp, [Value.opResult 1 0]), (100, OpKind.ConstantOp, []),
          (101, OpKind.ArithmeticBinaryOp, [Value.opResult 2 0, Value.opResult 100 0]),
          (102, OpKind.StoreOp, [Value.opResult 101 0, Value.opResult 1 0]),
          (4, OpKind.PrintOp, [Value.opResult 101 0])]] ∧
    ((PostfixUnaryOpLowering (UnaryExample.unaryOp OpKind.PostfixUnaryOp)
        (UnaryExample.rewriter OpKind.PostfixUnaryOp)).map
      fun rw1 => rw1.blocks.map fun b => b.ops.map fun o => (o.id, o.kind, o.operands))
      = some [[(0, OpKind.ConstantOp, []), (1, OpKind.VariableOp, [Value.opResult 0 0]),
          (2, OpKind.LoadOp, [Value.opResult 1 0]), (100, OpKind.ConstantOp, []),
          (101, OpKind.ArithmeticBinaryOp, [Value.opResult 2 0, Value.opResult 100 0]),
          (102, OpKind.StoreOp, [Value.opResult 101 0, Value.opResult 1 0]),
          (4, OpKind.PrintOp, [Value.opResult 2 0])]] ∧
    ((execStraight ExecEnv.plain ExecState.init
        (UnaryExample.beforeOps ++ [mkConstantOp 100 1,
           mkArithmeticBinaryOp 101 Ty.i32 SyntaxKind.PlusToken (Value.opResult 2 0)
             (Value.opResult 100 0),
           mkStoreOp 102 (Value.opResult 101 0) (Value.opResult 1 0)])).map
      fun st => (st.env (Value.opResult 2 0), st.env (Value.opResult 101 0),
        st.mem (Value.opResult 1 0))) = some (some 5, some 6, some 6) := by
  refine ⟨by decide, by decide, by decide⟩

/-! ## The pass: running it again -/

/-- No pattern is registered for a legal operation. -/
theorem not_patternRoot_of_isLegal (kind : OpKind) (h : isLegal kind = true) :
    kind ∉ patternRoots := by
  cases kind <;> first | decide | exact absurd h (by decide)

/-- A successful conversion leaves only legal operations. -/
theorem applyPartialConversion_legal (winException : Bool) (fuel : Nat) (ctx : TSContext)
    (rw : PatternRewriter) (ctx1 : TSContext) (rw1 : PatternRewriter)
    (h : applyPartialConversion winException fuel ctx rw = some (ctx1, rw1)) :
    (walkBlocks rw1.blocks).all (fun op => isLegal op.kind) = true := by
  induction fuel generalizing ctx rw with
  | zero =>
    simp only [applyPartialConversion] at h
    split at h
    · rename_i hall
      simp only [Option.some.injEq, Prod.mk.injEq] at h
      rw [← h.2]
      exact hall
    · exact absurd h (by simp)
  | succ fuel ih =>
    simp only [applyPartialConversion] at h
    split at h
    · rename_i hall
      simp only [Option.some.injEq, Prod.mk.injEq] at h
      rw [← h.2]
      exact hall
    · split at h
      · exact absurd h (by simp)
      · split at h
        · exact ih _ _ h
        · exact absurd h (by simp)

/-- On a body of legal operations the conversion succeeds at once, whatever the
fuel and the context, and changes nothing. -/
theorem applyPartialConversion_of_legal (winException : Bool) (fuel : Nat) (ctx : TSContext)
    (rw : PatternRewriter)
    (h : (walkBlocks rw.blocks).all (fun op => isLegal op.kind) = true) :
    applyPartialConversion winException fuel ctx rw = some (ctx, rw) := by
  cases fuel <;> simp [applyPartialConversion, h]

theorem findIllegalInOps_none_of_legal (pos : Nat) (ops : List Op)
    (h : ∀ op ∈ ops, isLegal op.kind = true) : findIllegalInOps pos ops = none := by
  induction ops generalizing pos with
  | nil => rfl
  | cons o ops ih =>
    simp only [findIllegalInOps, h o (List.mem_cons_self _ _), if_true]
    exact ih _ (fun op hop => h op (List.mem_cons_of_mem _ hop))

theorem mem_walkOp_self (o : Op) : o ∈ walkOp o := by
  cases o with
  | mk i k os ts as ss rs => simp [walkOp]

theorem findIllegalOp_none_of_legal (blocks : List Block)
    (h : (walkBlocks blocks).all (fun op => isLegal op.kind) = true) :
    findIllegalOp blocks = none := by
  rw [List.all_eq_true] at h
  induction blocks with
  | nil => rfl
  | cons b blocks ih =>
    have hb : findIllegalInOps 0 b.ops = none := by
      apply findIllegalInOps_none_of_legal
      intro op hop
      apply h
      rw [mem_walkBlocks]
      exact ⟨b, List.mem_cons_self _ _, (mem_walkOps _ _).mpr ⟨op, hop, mem_walkOp_self op⟩⟩
    simp only [findIllegalOp, hb]
    apply ih
    intro op hop
    apply h
    rw [mem_walkBlocks] at hop ⊢
    obtain ⟨b2, hb2, hop2⟩ := hop
    exact ⟨b2, List.mem_cons_of_mem _ hb2, hop2⟩

/-- No pattern applies to an operation whose kind is not the root of a pattern. -/
theorem applyPattern_none (winException : Bool) (ctx : TSContext) (op : Op)
    (rw : PatternRewriter) (h : op.kind ∉ patternRoots) :
    applyPattern winException ctx op rw = none := by
  unfold applyPattern
  split <;> first | rfl | (rename_i hk; rw [hk] at h; exact absurd h (by decide))

/-- C24: after a successful run of the pass on a function, no operation of the
lowered body, nested ones included, is the root of a pattern, so no pattern
applies to it and the search for an operation to convert finds none; a second
run on the lowered function, with any fuel (none is needed) and from any context,
succeeds and returns the lowered function as it is. -/
theorem runOnFunction_idempotent (winException : Bool) (fuel : Nat)
    (pass pass1 : TypeScriptToAffineLoweringPass) (function lowered : FuncOp)
    (h : pass.runOnFunction winException fuel function = some (pass1, lowered)) :
    (∀ op ∈ lowered.body.walk, op.kind ∉ patternRoots ∧
      ∀ (win2 : Bool) (ctx : TSContext) (rw : PatternRewriter),
        applyPattern win2 ctx op rw = none) ∧
    findIllegalOp lowered.body = none ∧
    ∀ (win2 : Bool) (fuel2 : Nat) (pass2 : TypeScriptToAffineLoweringPass),
      pass2.runOnFunction win2 fuel2 lowered = some (pass2, lowered) := by
  simp only [TypeScriptToAffineLoweringPass.runOnFunction] at h
  split at h
  · exact absurd h (by simp)
  · rename_i hmain
    split at h
    · rename_i ctx1 rw1 hconv
      simp only [Option.some.injEq, Prod.mk.injEq] at h
      obtain ⟨-, rfl⟩ := h
      have hlegal := applyPartialConversion_legal _ _ _ _ _ _ hconv
      refine ⟨?_, findIllegalOp_none_of_legal _ hlegal, ?_⟩
      · intro op hop
        have hk : op.kind ∉ patternRoots := by
          apply not_patternRoot_of_isLegal
          rw [List.all_eq_true] at hlegal
          exact hlegal op hop
        exact ⟨hk, fun win2 ctx rw => applyPattern_none win2 ctx op rw hk⟩
      · intro win2 fuel2 pass2
        have hmain2 : mainRejected { function with
            body := rw1.blocks, nextBlock := rw1.nextBlock, nextOp := rw1.nextOp }
            = mainRejected function := rfl
        simp only [TypeScriptToAffineLoweringPass.runOnFunction, hmain2, hmain]
        rw [applyPartialConversion_of_legal win2 fuel2 pass2.tsContext
          { blocks := rw1.blocks, insertionBlock := 0, insertionPoint := 0,
            nextBlock := rw1.nextBlock, nextOp := rw1.nextOp } hlegal]
        simp
    · exact absurd h (by simp)

theorem Option.eq_some_getD_of_isSome {α : Type} (x : Option α) (d : α)
    (h : x.isSome = true) : x = some (x.getD d) := by
  cases x with
  | none => simp at h
  | some a => rfl

/-- Witness of C24: the function `plain` of `PassExample`, with an entry
operation, a `return` and an exit operation, which the pass lowers with three
pattern applications. -/
theorem runOnFunction_idempotent_witness :
    (∀ op ∈ ((createLowerToAffinePass.runOnFunction false 3 PassExample.plain).getD
        (createLowerToAffinePass, PassExample.plain)).2.body.walk,
      op.kind ∉ patternRoots ∧
      ∀ (win2 : Bool) (ctx : TSContext) (rw : PatternRewriter),
        applyPattern win2 ctx op rw = none) ∧
    findIllegalOp ((createLowerToAffinePass.runOnFunction false 3 PassExample.plain).getD
        (createLowerToAffinePass, PassExample.plain)).2.body = none ∧
    ∀ (win2 : Bool) (fuel2 : Nat) (pass2 : TypeScriptToAffineLoweringPass),
      pass2.runOnFunction win2 fuel2
        ((createLowerToAffinePass.runOnFunction false 3 PassExample.plain).getD
          (createLowerToAffinePass, PassExample.plain)).2 = some (pass2,
        ((createLowerToAffinePass.runOnFunction false 3 PassExample.plain).getD
          (createLowerToAffinePass, PassExample.plain)).2) :=
  runOnFunction_idempotent false 3 createLowerToAffinePass
    ((createLowerToAffinePass.runOnFunction false 3 PassExample.plain).getD
      (createLowerToAffinePass, PassExample.plain)).1 PassExample.plain
    ((createLowerToAffinePass.runOnFunction false 3 PassExample.plain).getD
      (createLowerToAffinePass, PassExample.plain)).2
    (Option.eq_some_getD_of_isSome _ (createLowerToAffinePass, PassExample.plain) (by decide))

/-- The functions `plain` and `loopOnly` of `PassExample` after the pass: the
`return`, the loop and the `break` have become branches; a second run, without
fuel, gives the same function. -/
theorem pass_example_lowered :
    ((createLowerToAffinePass.runOnFunction false 3 PassExample.plain).map
        fun r => PassExample.shape r.2)
      = some [(0, 101, OpKind.BranchOp, [1]), (2, 102, OpKind.BranchOp, [1]),
              (1, 100, OpKind.ReturnInternalOp, [])] ∧
    ((createLowerToAffinePass.runOnFunction false 2 PassExample.loopOnly).map
        fun r => PassExample.shape r.2)
      = some [(0, 100, OpKind.BranchOp, [1]), (1, 101, OpKind.BranchOp, [2]),
              (2, 105, OpKind.BranchOp, [4]), (5, 103, OpKind.BranchOp, [3]),
              (3, 104, OpKind.BranchOp, [1])] ∧
    ((createLowerToAffinePass.runOnFunction false 3 PassExample.plain).bind
        fun r => (r.1.runOnFunction false 0 r.2).map fun r2 => PassExample.shape r2.2)
      = some [(0, 101, OpKind.BranchOp, [1]), (2, 102, OpKind.BranchOp, [1]),
              (1, 100, OpKind.ReturnInternalOp, [])] := by
  refine ⟨by decide, by decide, by decide⟩

/-! ## The context is a member of the pass -/

theorem TSContext.Carries.refl (ctx : TSContext) : ctx.Carries ctx :=
  ⟨fun _ h => h, fun _ h => h, fun _ h => h, fun h => h⟩

theorem TSContext.Carries.trans {a b c : TSContext} (hab : a.Carries b) (hbc : b.Carries c) :
    a.Carries c :=
  ⟨fun i h => hbc.1 i (hab.1 i h), fun i h => hbc.2.1 i (hab.2.1 i h),
    fun i h => hbc.2.2.1 i (hab.2.2.1 i h), fun h => hbc.2.2.2 (hab.2.2.2 h)⟩

theorem setEntry_isSome {α : Type} (m : OpId → Option α) (key : OpId) (value : α) (i : OpId)
    (h : (m i).isSome = true) : (setEntry m key value i).isSome = true := by
  unfold setEntry
  split_ifs <;> simp [h]

theorem foldl_visitorBreakContinue_other (label : Option String) (bt ct : BlockId)
    (ops : List Op) (ctx : TSContext) :
    (ops.foldl (visitorBreakContinue label bt ct) ctx).unwind = ctx.unwind ∧
    (ops.foldl (visitorBreakContinue label bt ct) ctx).catchOpData = ctx.catchOpData := by
  induction ops generalizing ctx with
  | nil => exact ⟨rfl, rfl⟩
  | cons o ops ih =>
    simp only [List.foldl_cons]
    obtain ⟨h1, h2⟩ := ih (visitorBreakContinue label bt ct ctx o)
    rw [h1, h2]
    unfold visitorBreakContinue
    split_ifs <;> exact ⟨rfl, rfl⟩

theorem foldl_visitorBreakContinue_Carries (label : Option String) (bt ct : BlockId)
    (ops : List Op) (ctx : TSContext) :
    ctx.Carries (ops.foldl (visitorBreakContinue label bt ct) ctx) := by
  obtain ⟨h1, h2⟩ := foldl_visitorBreakContinue_other label bt ct ops ctx
  refine ⟨fun i h => foldl_visitorBreakContinue_jumps_isSome _ _ _ _ _ _ h, ?_, ?_, ?_⟩
  · rw [h1]; exact fun _ h => h
  · rw [h2]; exact fun _ h => h
  · rw [foldl_visitorBreakContinue_returnBlock]; exact fun h => h

theorem foldl_visitorCallOpContinue_Carries (target : BlockId) (ops : List Op)
    (ctx : TSContext) : ctx.Carries (ops.foldl (visitorCallOpContinue target) ctx) := by
  obtain ⟨h1, h2, h3⟩ := foldl_visitorCallOpContinue_other target ops ctx
  refine ⟨?_, ?_, ?_, ?_⟩
  · rw [h1]; exact fun _ h => h
  · intro i h
    rw [foldl_visitorCallOpContinue_unwind]
    split_ifs
    · rfl
    · exact h
  · rw [h2]; exact fun _ h => h
  · rw [h3]; exact fun h => h

theorem Carries_set_catchOpData (ctx : TSContext) (key : OpId) (value : Value) :
    ctx.Carries { ctx with catchOpData := setEntry ctx.catchOpData key value } :=
  ⟨fun _ h => h, fun _ h => h, fun i h => setEntry_isSome _ _ _ i h, fun h => h⟩

theorem Carries_set_returnBlock (ctx : TSContext) (block : BlockId) :
    ctx.Carries { ctx with returnBlock := some block } :=
  ⟨fun _ h => h, fun _ h => h, fun _ h => h, fun _ => rfl⟩

/-- `TryOpLowering` only adds entries to the context. -/
theorem TryOpLowering_Carries (winException : Bool) (ctx : TSContext) (op : Op)
    (rw : PatternRewriter) (ctx1 : TSContext) (rw1 : PatternRewriter)
    (h : TryOpLowering winException ctx op rw = some (ctx1, rw1)) : ctx.Carries ctx1 := by
  simp only [TryOpLowering] at h
  repeat' split at h
  all_goals first
    | (simp only [Option.some.injEq, Prod.mk.injEq] at h
       rw [← h.1]
       first
         | exact foldl_visitorCallOpContinue_Carries _ _ _
         | exact (foldl_visitorCallOpContinue_Carries _ _ _).trans
             (Carries_set_catchOpData _ _ _))
    | (exact absurd h (by simp))

/-- `EntryOpLowering` only sets the return block. -/
theorem EntryOpLowering_Carries (ctx : TSContext) (op : Op) (rw : PatternRewriter)
    (ctx1 : TSContext) (rw1 : PatternRewriter) (h : EntryOpLowering ctx op rw = some (ctx1, rw1)) :
    ctx.Carries ctx1 := by
  simp only [EntryOpLowering] at h
  repeat' split at h
  all_goals first
    | (simp only [Option.some.injEq, Prod.mk.injEq] at h
       rw [← h.1]
       exact Carries_set_returnBlock _ _)
    | (exact absurd h (by simp))

theorem Carries_of_map_mk (ctx ctx1 : TSContext) (x : Option PatternRewriter)
    (rw1 : PatternRewriter) (h : x.map (Prod.mk ctx) = some (ctx1, rw1)) : ctx.Carries ctx1 := by
  cases x with
  | none => simp at h
  | some r =>
    simp only [Option.map_some', Option.some.injEq, Prod.mk.injEq] at h
    rw [← h.1]
    exact TSContext.Carries.refl ctx

theorem ForOpLowering_Carries (ctx : TSContext) (op : Op) (rw : PatternRewriter)
    (ctx1 : TSContext) (rw1 : PatternRewriter) (h : ForOpLowering ctx op rw = some (ctx1, rw1)) :
    ctx.Carries ctx1 := by
  obtain ⟨bt, ct, rfl⟩ := ForOpLowering_context_inv ctx op rw ctx1 rw1 h
  exact foldl_visitorBreakContinue_Carries _ _ _ _ _

theorem WhileOpLowering_Carries (ctx : TSContext) (op : Op) (rw : PatternRewriter)
    (ctx1 : TSContext) (rw1 : PatternRewriter) (h : WhileOpLowering ctx op rw = some (ctx1, rw1)) :
    ctx.Carries ctx1 := by
  obtain ⟨bt, ct, rfl⟩ := WhileOpLowering_context_inv ctx op rw ctx1 rw1 h
  exact foldl_visitorBreakContinue_Carries _ _ _ _ _

theorem DoWhileOpLowering_Carries (ctx : TSContext) (op : Op) (rw : PatternRewriter)
    (ctx1 : TSContext) (rw1 : PatternRewriter)
    (h : DoWhileOpLowering ctx op rw = some (ctx1, rw1)) : ctx.Carries ctx1 := by
  obtain ⟨bt, ct, rfl⟩ := DoWhileOpLowering_context_inv ctx op rw ctx1 rw1 h
  exact foldl_visitorBreakContinue_Carries _ _ _ _ _

theorem LabelOpLowering_Carries (ctx : TSContext) (op : Op) (rw : PatternRewriter)
    (ctx1 : TSContext) (rw1 : PatternRewriter) (h : LabelOpLowering ctx op rw = some (ctx1, rw1)) :
    ctx.Carries ctx1 := by
  obtain ⟨bt, ct, rfl⟩ := LabelOpLowering_context_inv ctx op rw ctx1 rw1 h
  exact foldl_visitorBreakContinue_Carries _ _ _ _ _

/-- No pattern removes an entry of the context. -/
theorem applyPattern_Carries (winException : Bool) (ctx : TSContext) (op : Op)
    (rw : PatternRewriter) (ctx1 : TSContext) (rw1 : PatternRewriter)
    (h : applyPattern winException ctx op rw = some (ctx1, rw1)) : ctx.Carries ctx1 := by
  unfold applyPattern at h
  split at h
  all_goals first
    | exact Carries_of_map_mk ctx ctx1 _ rw1 h
    | exact EntryOpLowering_Carries ctx op rw ctx1 rw1 h
    | exact TryOpLowering_Carries winException ctx op rw ctx1 rw1 h
    | exact ForOpLowering_Carries ctx op rw ctx1 rw1 h
    | exact WhileOpLowering_Carries ctx op rw ctx1 rw1 h
    | exact DoWhileOpLowering_Carries ctx op rw ctx1 rw1 h
    | exact LabelOpLowering_Carries ctx op rw ctx1 rw1 h
    | (simp only [Option.some.injEq, Prod.mk.injEq] at h
       rw [← h.1]
       exact TSContext.Carries.refl ctx)
    | (exact absurd h (by simp))

theorem applyPartialConversion_Carries (winException : Bool) (fuel : Nat) (ctx : TSContext)
    (rw : PatternRewriter) (ctx1 : TSContext) (rw1 : PatternRewriter)
    (h : applyPartialConversion winException fuel ctx rw = some (ctx1, rw1)) :
    ctx.Carries ctx1 := by
  induction fuel generalizing ctx rw with
  | zero =>
    simp only [applyPartialConversion] at h
    split at h
    · simp only [Option.some.injEq, Prod.mk.injEq] at h
      rw [← h.1]
      exact TSContext.Carries.refl ctx
    · exact absurd h (by simp)
  | succ fuel ih =>
    simp only [applyPartialConversion] at h
    split at h
    · simp only [Option.some.injEq, Prod.mk.injEq] at h
      rw [← h.1]
      exact TSContext.Carries.refl ctx
    · split at h
      · exact absurd h (by simp)
      · split at h
        · rename_i hp
          exact (applyPattern_Carries _ _ _ _ _ _ hp).trans (ih _ _ h)
        · exact absurd h (by simp)

/-- C25 does not hold: the context is not fresh at the start of an invocation.
After the pass, created new, has lowered the function `plain` of `PassExample`,
its context holds the return block 1 of `plain`, and after `loopOnly` it holds the
target of the `break` of that loop.  The next function is lowered with what is
left: the body `stray`, a `return` without entry operation, cannot be lowered by
a new pass (there is no return block), but lowered after `plain` by the same pass
its `return` becomes a branch to block 1, the return block of `plain`. -/
theorem runOnFunctions_context_counterexample :
    ((createLowerToAffinePass.runOnFunction false 3 PassExample.plain).bind
        fun r => r.1.tsContext.returnBlock) = some 1 ∧
    ((createLowerToAffinePass.runOnFunction false 2 PassExample.loopOnly).bind
        fun r => r.1.tsContext.jumps 20) = some 4 ∧
    (createLowerToAffinePass.runOnFunction false 3 PassExample.stray).isSome = false ∧
    ((createLowerToAffinePass.runOnFunctions false 3 [PassExample.plain, PassExample.stray]).map
        fun r => PassExample.shape (r.2.getD 1 PassExample.stray))
      = some [(0, 100, OpKind.BranchOp, [1])] := by
  refine ⟨by decide, by decide, by decide, by decide⟩

/-- C25, amended: the context is empty when the pass is created.  It is a member
of the pass: when the pass has lowered a function, the functions after it are
lowered from the pass that invocation left, and that invocation has removed no
entry: every key with an entry in `jumps`, `unwind` or the catch data at the
start of the invocation has one at its end, and a return block that was set is
still set. -/
theorem runOnFunctions_context_carried (winException : Bool) (fuel : Nat)
    (pass pass1 : TypeScriptToAffineLoweringPass) (function lowered : FuncOp)
    (functions : List FuncOp)
    (h : pass.runOnFunction winException fuel function = some (pass1, lowered)) :
    ((∀ i, createLowerToAffinePass.tsContext.jumps i = none) ∧
      (∀ i, createLowerToAffinePass.tsContext.unwind i = none) ∧
      (∀ i, createLowerToAffinePass.tsContext.catchOpData i = none) ∧
      createLowerToAffinePass.tsContext.returnBlock = none) ∧
    pass.runOnFunctions winException fuel (function :: functions)
      = (pass1.runOnFunctions winException fuel functions).map
          (fun r => (r.1, lowered :: r.2)) ∧
    pass.tsContext.Carries pass1.tsContext := by
  refine ⟨⟨fun _ => rfl, fun _ => rfl, fun _ => rfl, rfl⟩, ?_, ?_⟩
  · simp only [TypeScriptToAffineLoweringPass.runOnFunctions, h]
    cases pass1.runOnFunctions winException fuel functions with
    | none => rfl
    | some r => rfl
  · simp only [TypeScriptToAffineLoweringPass.runOnFunction] at h
    split at h
    · exact absurd h (by simp)
    · split at h
      · rename_i ctx1 rw1 hconv
        simp only [Option.some.injEq, Prod.mk.injEq] at h
        rw [← h.1]
        exact applyPartialConversion_Carries _ _ _ _ _ _ hconv
      · exact absurd h (by simp)

/-- Witness of C25, amended: the new pass lowers `plain` and then `stray`. -/
theorem runOnFunctions_context_carried_witness :
    ((∀ i, createLowerToAffinePass.tsContext.jumps i = none) ∧
      (∀ i, createLowerToAffinePass.tsContext.unwind i = none) ∧
      (∀ i, createLowerToAffinePass.tsContext.catchOpData i = none) ∧
      createLowerToAffinePass.tsContext.returnBlock = none) ∧
    createLowerToAffinePass.runOnFunctions false 3 [PassExample.plain, PassExample.stray]
      = (((createLowerToAffinePass.runOnFunction false 3 PassExample.plain).getD
          (createLowerToAffinePass, PassExample.plain)).1.runOnFunctions false 3
            [PassExample.stray]).map
          (fun r => (r.1, ((createLowerToAffinePass.runOnFunction false 3 PassExample.plain).getD
            (createLowerToAffinePass, PassExample.plain)).2 :: r.2)) ∧
    createLowerToAffinePass.tsContext.Carries
      ((createLowerToAffinePass.runOnFunction false 3 PassExample.plain).getD
        (createLowerToAffinePass, PassExample.plain)).1.tsContext :=
  runOnFunctions_context_carried false 3 createLowerToAffinePass
    ((createLowerToAffinePass.runOnFunction false 3 PassExample.plain).getD
      (createLowerToAffinePass, PassExample.plain)).1 PassExample.plain
    ((createLowerToAffinePass.runOnFunction false 3 PassExample.plain).getD
      (createLowerToAffinePass, PassExample.plain)).2 [PassExample.stray]
    (Option.eq_some_getD_of_isSome _ (createLowerToAffinePass, PassExample.plain) (by decide))

/-! # Theorems on the exception frame lowering -/

/-! ## Scan 1 -/

theorem modifyLast_append_singleton (f : CatchRegion → CatchRegion) (rs : List CatchRegion)
    (r : CatchRegion) : modifyLast f (rs ++ [r]) = rs ++ [f r] := by
  induction rs with
  | nil => rfl
  | cons a rs ih =>
    cases h : rs ++ [r] with
    | nil => simp at h
    | cons b l =>
      rw [List.cons_append, h, modifyLast, ← h, ih]
      all_goals first | rfl | (intro hnil; cases hnil)

theorem modifyLast_eq (f : CatchRegion → CatchRegion) (rs : List CatchRegion) :
    modifyLast f rs = rs.dropLast ++ (rs.getLast?.map f).toList := by
  rcases List.eq_nil_or_concat rs with h | ⟨l, r, h⟩
  · subst h; rfl
  · subst h
    simp [modifyLast_append_singleton]

theorem map_landingPad_modifyLast (f : CatchRegion → CatchRegion) (rs : List CatchRegion)
    (hf : ∀ r, (f r).landingPad = r.landingPad) :
    (modifyLast f rs).map CatchRegion.landingPad = rs.map CatchRegion.landingPad := by
  rcases List.eq_nil_or_concat rs with h | ⟨l, r, h⟩
  · subst h; rfl
  · subst h
    simp [modifyLast_append_singleton, hf]

theorem getLast?_modifyLast (f : CatchRegion → CatchRegion) (rs : List CatchRegion) :
    (modifyLast f rs).getLast? = rs.getLast?.map f := by
  rcases List.eq_nil_or_concat rs with h | ⟨l, r, h⟩
  · subst h; rfl
  · subst h
    simp [modifyLast_append_singleton]

/-- Outside of a region, an instruction that is no landing pad changes nothing. -/
theorem scanStep_closed (st : ScanState) (I : Instruction) (hst : st.catchRegion = false)
    (hI : I.isLandingPad = false) : scanStep st I = some st := by
  simp [scanStep, hst, hI]

theorem scanInstructions_closed (st : ScanState) (l : List Instruction)
    (hst : st.catchRegion = false) (hl : ∀ I ∈ l, I.isLandingPad = false) :
    scanInstructions st l = some st := by
  induction l with
  | nil => rfl
  | cons I l ih =>
    simp only [scanInstructions, scanStep_closed st I hst (hl I (List.mem_cons_self _ _))]
    exact ih (fun J hJ => hl J (List.mem_cons_of_mem _ hJ))

/-- One step of the scan adds a region exactly for a landing pad, and never
changes the landing pad of a region. -/
theorem scanStep_landingPads (st st1 : ScanState) (I : Instruction)
    (h : scanStep st I = some st1) :
    st1.catchRegionsWorkSet.map CatchRegion.landingPad =
      st.catchRegionsWorkSet.map CatchRegion.landingPad ++
        (if I.isLandingPad then [some I.id] else []) := by
  have hm : ∀ (f : CatchRegion → CatchRegion) (rs : List CatchRegion),
      (∀ r, (f r).landingPad = r.landingPad) →
      (modifyLast f rs).map CatchRegion.landingPad = rs.map CatchRegion.landingPad :=
    map_landingPad_modifyLast
  rcases I with ⟨id, kind, ops, bundles⟩
  cases kind <;>
    simp only [scanStep, Instruction.isLandingPad, Instruction.isStore, Instruction.isAlloca,
      Instruction.isCall, Instruction.isInvoke, Instruction.calledFunction, Bool.false_eq_true,
      if_false, if_true, Bool.and_true, Bool.and_false, Bool.false_and, Bool.true_and] at h ⊢
  case landingPad =>
    simp only [Option.some.injEq] at h
    subst h
    simp
  all_goals repeat' split at h
  all_goals first
    | (simp at h; done)
    | (simp only [Option.some.injEq] at h
       subst h
       simp only [List.append_nil]
       repeat' rw [hm]
       all_goals (intro r; first | rfl | (split <;> rfl)))

/-- The landing pads of the regions after the scan: those before it, followed by
one for each landing pad among the instructions, in order. -/
theorem scanInstructions_landingPads (l : List Instruction) (st st1 : ScanState)
    (h : scanInstructions st l = some st1) :
    st1.catchRegionsWorkSet.map CatchRegion.landingPad =
      st.catchRegionsWorkSet.map CatchRegion.landingPad ++
        (l.filter Instruction.isLandingPad).map (fun I => some I.id) := by
  induction l generalizing st with
  | nil =>
    simp only [scanInstructions, Option.some.injEq] at h
    subst h
    simp
  | cons I l ih =>
    simp only [scanInstructions] at h
    split at h
    · exact absurd h (by simp)
    · rename_i st2 hstep
      rw [ih st2 h, scanStep_landingPads st st2 I hstep]
      by_cases hI : I.isLandingPad = true <;> simp [hI, List.filter_cons]

theorem store_getLast?_modifyLast (f : CatchRegion → CatchRegion) (rs : List CatchRegion)
    (hf : ∀ r, (f r).store = r.store) :
    (modifyLast f rs).getLast?.bind CatchRegion.store = rs.getLast?.bind CatchRegion.store := by
  rw [getLast?_modifyLast]
  cases rs.getLast? with
  | none => rfl
  | some r => simp [hf]

/-- One step of the scan succeeds when a call or an invoke names its function and
a store comes only when no store has been seen since the last landing pad; the
flag `seen` stays an upper bound of "the open region has a store". -/
theorem scanStep_isSome (st : ScanState) (I : Instruction) (seen : Bool)
    (hdirect : I.isCallBase = true → I.calledFunction.isSome = true)
    (hstore : I.isStore = true → seen = false)
    (hinv : st.catchRegion = true →
      (st.catchRegionsWorkSet.getLast?.bind CatchRegion.store).isSome = true → seen = true) :
    ∃ st1, scanStep st I = some st1 ∧
      (st1.catchRegion = true →
        (st1.catchRegionsWorkSet.getLast?.bind CatchRegion.store).isSome = true →
        (if I.isLandingPad then false else if I.isStore then true else seen) = true) := by
  have hs : ∀ (f : CatchRegion → CatchRegion) (rs : List CatchRegion),
      (∀ r, (f r).store = r.store) →
      (modifyLast f rs).getLast?.bind CatchRegion.store = rs.getLast?.bind CatchRegion.store :=
    store_getLast?_modifyLast
  rcases I with ⟨id, kind, ops, bundles⟩
  by_cases hopen : st.catchRegion = true
  swap
  · have hclosed : st.catchRegion = false := by simpa using hopen
    cases kind <;>
      simp [scanStep, Instruction.isLandingPad, Instruction.isStore, hclosed, CatchRegion.new]
  by_cases hend : st.endOfCatch = true
  · cases kind <;>
      simp [scanStep, Instruction.isLandingPad, Instruction.isStore, hopen, hend, CatchRegion.new]
  have hend2 : st.endOfCatch = false := by simpa using hend
  cases kind with
  | landingPad isCatch => simp [scanStep, Instruction.isLandingPad, CatchRegion.new]
  | store ty =>
    have hseen : seen = false := hstore rfl
    have hnone : (st.catchRegionsWorkSet.getLast?.bind CatchRegion.store).isSome = false := by
      cases hx : (st.catchRegionsWorkSet.getLast?.bind CatchRegion.store).isSome with
      | false => rfl
      | true =>
        have := hinv hopen hx
        rw [hseen] at this
        exact absurd this (by simp)
    simp [scanStep, Instruction.isLandingPad, Instruction.isStore, Instruction.isAlloca,
      Instruction.isCall, Instruction.isInvoke, hopen, hend2,
      hs _ _ (fun r => rfl), hnone]
  | call callee =>
    have hc : callee.isSome = true := by
      simpa [Instruction.isCallBase, Instruction.isCall, Instruction.calledFunction] using hdirect
    obtain ⟨name, rfl⟩ := Option.isSome_iff_exists.mp hc
    by_cases hname : name = "__cxa_end_catch"
    · simp only [scanStep, Instruction.isLandingPad, Instruction.isStore, Instruction.isAlloca,
        Instruction.isCall, Instruction.isInvoke, Instruction.calledFunction, hopen, hend2, hname,
        Bool.false_eq_true, if_false, if_true, Bool.not_true, Bool.false_and]
      refine ⟨_, rfl, ?_⟩
      intro _ h2
      dsimp only at h2
      repeat rw [hs] at h2
      all_goals first
        | (intro r; first | rfl | (split <;> rfl))
        | (simpa using hinv hopen h2)
    · simp only [scanStep, Instruction.isLandingPad, Instruction.isStore, Instruction.isAlloca,
        Instruction.isCall, Instruction.isInvoke, Instruction.calledFunction, hopen, hend2, hname,
        Bool.false_eq_true, if_false, if_true, Bool.not_true, Bool.false_and]
      refine ⟨_, rfl, ?_⟩
      intro _ h2
      dsimp only at h2
      repeat rw [hs] at h2
      all_goals first
        | (intro r; first | rfl | (split <;> rfl))
        | (simpa using hinv hopen h2)
  | invoke callee nd ud =>
    have hc : callee.isSome = true := by
      simpa [Instruction.isCallBase, Instruction.isCall, Instruction.isInvoke,
        Instruction.calledFunction] using hdirect
    obtain ⟨name, rfl⟩ := Option.isSome_iff_exists.mp hc
    by_cases hname : name = "__cxa_end_catch"
    · simp only [scanStep, Instruction.isLandingPad, Instruction.isStore, Instruction.isAlloca,
        Instruction.isCall, Instruction.isInvoke, Instruction.calledFunction, hopen, hend2, hname,
        Bool.false_eq_true, if_false, if_true, Bool.not_true, Bool.false_and, Bool.and_true]
      refine ⟨_, rfl, ?_⟩
      intro _ h2
      dsimp only at h2
      repeat rw [hs] at h2
      all_goals first
        | (intro r; first | rfl | (split <;> rfl))
        | (simpa using hinv hopen h2)
    · simp only [scanStep, Instruction.isLandingPad, Instruction.isStore, Instruction.isAlloca,
        Instruction.isCall, Instruction.isInvoke, Instruction.calledFunction, hopen, hend2, hname,
        Bool.false_eq_true, if_false, if_true, Bool.not_true, Bool.false_and, Bool.and_true]
      refine ⟨_, rfl, ?_⟩
      intro _ h2
      dsimp only at h2
      repeat rw [hs] at h2
      all_goals first
        | (intro r; first | rfl | (split <;> rfl))
        | (simpa using hinv hopen h2)
  | _ =>
    simp only [scanStep, Instruction.isLandingPad, Instruction.isStore, Instruction.isAlloca,
      Instruction.isCall, Instruction.isInvoke, Instruction.calledFunction, hopen, hend2,
      Bool.false_eq_true, if_false, if_true, Bool.not_true, Bool.false_and, Bool.and_true,
      Bool.and_false]
    refine ⟨_, rfl, ?_⟩
    intro _ h2
    dsimp only at h2
    repeat rw [hs] at h2
    all_goals first
      | (intro r; rfl)
      | (simpa using hinv hopen h2)


/-- The scan succeeds on instructions whose calls and invokes name their
function and whose stores are separated by landing pads. -/
theorem scanInstructions_isSome (l : List Instruction) (st : ScanState) (seen : Bool)
    (hdirect : ∀ I ∈ l, I.isCallBase = true → I.calledFunction.isSome = true)
    (hstores : storesSeparated seen l = true)
    (hinv : st.catchRegion = true →
      (st.catchRegionsWorkSet.getLast?.bind CatchRegion.store).isSome = true → seen = true) :
    ∃ st1, scanInstructions st l = some st1 := by
  induction l generalizing st seen with
  | nil => exact ⟨st, rfl⟩
  | cons I l ih =>
    have hstoreI : I.isStore = true → seen = false := by
      intro hI
      by_cases hlp : I.isLandingPad = true
      · rcases I with ⟨id, kind, ops, bundles⟩
        cases kind <;> simp [Instruction.isLandingPad, Instruction.isStore] at hlp hI
      · simp only [storesSeparated, hlp, hI, Bool.false_eq_true, if_false, if_true,
          Bool.and_eq_true, Bool.not_eq_true'] at hstores
        exact hstores.1
    obtain ⟨st1, hst1, hinv1⟩ := scanStep_isSome st I seen
      (hdirect I (List.mem_cons_self _ _)) hstoreI hinv
    simp only [scanInstructions, hst1]
    apply ih st1 (if I.isLandingPad then false else if I.isStore then true else seen)
      (fun J hJ => hdirect J (List.mem_cons_of_mem _ hJ))
    · by_cases hlp : I.isLandingPad = true
      · simpa [storesSeparated, hlp] using hstores
      · by_cases hI : I.isStore = true
        · simp only [storesSeparated, hlp, hI, Bool.false_eq_true, if_false, if_true,
            Bool.and_eq_true] at hstores
          simpa [hlp, hI] using hstores.2
        · simpa [storesSeparated, hlp, hI] using hstores
    · exact hinv1

/-! ## One region for each landing pad -/

theorem store_ite_unwindInfoOp (c : Prop) [Decidable c] (r : CatchRegion) (x : Option InstId) :
    (if c then { r with unwindInfoOp := x } else r).store = r.store := by
  split <;> rfl

/-- One step of the scan and one step of its checks: the step fails exactly
where a check fails, and otherwise the flags of the new state are those the
checks go on with. -/
theorem scanStep_checks (st : ScanState) (I : Instruction)
    (hinv : st.catchRegion = true → st.catchRegionsWorkSet ≠ []) :
    match scanStep st I with
    | none => ∀ rest, scanChecks st.catchRegion st.endOfCatch
        (st.catchRegionsWorkSet.getLast?.bind CatchRegion.store).isSome (I :: rest) = false
    | some st1 => (st1.catchRegion = true → st1.catchRegionsWorkSet ≠ []) ∧
        ∀ rest, scanChecks st.catchRegion st.endOfCatch
          (st.catchRegionsWorkSet.getLast?.bind CatchRegion.store).isSome (I :: rest) =
          scanChecks st1.catchRegion st1.endOfCatch
            (st1.catchRegionsWorkSet.getLast?.bind CatchRegion.store).isSome rest := by
  rcases I with ⟨id, kind, ops, bundles⟩
  rcases st with ⟨regions, open_, eoc, toRemove⟩
  cases open_ with
  | false =>
    cases kind <;>
      simp [scanStep, scanChecks, Instruction.isLandingPad, CatchRegion.new]
  | true =>
    rcases List.eq_nil_or_concat regions with hm | ⟨rs, r, hm⟩
    · exact absurd hm (hinv rfl)
    subst hm
    cases eoc with
    | true =>
      cases kind <;>
        simp [scanStep, scanChecks, Instruction.isLandingPad, CatchRegion.new,
          modifyLast_append_singleton]
    | false =>
      cases kind with
      | call callee =>
        cases callee with
        | none =>
          simp [scanStep, scanChecks, Instruction.isLandingPad, Instruction.isStore,
            Instruction.isAlloca, Instruction.isCall, Instruction.isInvoke,
            Instruction.isCallBase, Instruction.calledFunction, modifyLast_append_singleton]
        | some name =>
          have hb : name ≠ "__cxa_end_catch" → (name == "__cxa_end_catch") = false := by
            intro hne
            simpa using hne
          by_cases hn : name = "__cxa_end_catch" <;>
            simp [scanStep, store_ite_unwindInfoOp, scanChecks, Instruction.isLandingPad, Instruction.isStore,
              Instruction.isAlloca, Instruction.isCall, Instruction.isInvoke,
              Instruction.isCallBase, Instruction.calledFunction, modifyLast_append_singleton,
              hn, hb]
      | invoke callee nd ud =>
        cases callee with
        | none =>
          simp [scanStep, scanChecks, Instruction.isLandingPad, Instruction.isStore,
            Instruction.isAlloca, Instruction.isCall, Instruction.isInvoke,
            Instruction.isCallBase, Instruction.calledFunction, modifyLast_append_singleton]
        | some name =>
          have hb : name ≠ "__cxa_end_catch" → (name == "__cxa_end_catch") = false := by
            intro hne
            simpa using hne
          by_cases hn : name = "__cxa_end_catch" <;>
            simp [scanStep, store_ite_unwindInfoOp, scanChecks, Instruction.isLandingPad, Instruction.isStore,
              Instruction.isAlloca, Instruction.isCall, Instruction.isInvoke,
              Instruction.isCallBase, Instruction.calledFunction, modifyLast_append_singleton,
              hn, hb]
      | store ty =>
        cases hs : r.store <;>
          simp [scanStep, scanChecks, store_ite_unwindInfoOp, Instruction.isLandingPad, Instruction.isStore,
            Instruction.isAlloca, Instruction.isCall, Instruction.isInvoke,
            Instruction.isCallBase, Instruction.calledFunction, modifyLast_append_singleton,
            hs]
      | _ =>
        simp [scanStep, scanChecks, store_ite_unwindInfoOp, Instruction.isLandingPad, Instruction.isStore,
          Instruction.isAlloca, Instruction.isCall, Instruction.isInvoke,
          Instruction.isCallBase, Instruction.calledFunction, modifyLast_append_singleton,
          CatchRegion.new]

/-- The scan succeeds exactly on the instructions that pass its checks. -/
theorem scanInstructions_isSome_eq (l : List Instruction) (st : ScanState)
    (hinv : st.catchRegion = true → st.catchRegionsWorkSet ≠ []) :
    (scanInstructions st l).isSome = scanChecks st.catchRegion st.endOfCatch
      (st.catchRegionsWorkSet.getLast?.bind CatchRegion.store).isSome l := by
  induction l generalizing st with
  | nil => simp [scanInstructions, scanChecks]
  | cons I l ih =>
    have hstep := scanStep_checks st I hinv
    simp only [scanInstructions]
    cases h : scanStep st I with
    | none =>
      rw [h] at hstep
      rw [hstep l]
      rfl
    | some st1 =>
      rw [h] at hstep
      rw [hstep.2 l]
      exact ih st1 hstep.1

/-- C28: the scan succeeds exactly on the instructions that pass its checks,
which look at stores and at calls inside an open region only.  On such
instructions its work set holds exactly one region for each landing pad among
the instructions, in the order of the instructions, each with that landing pad.
The instructions before the first landing pad are recorded nowhere (the scan of
any such prefix leaves the initial state as it is), and neither are those after
a region is closed (the pointer `catchRegion` reset) up to the next landing
pad. -/
theorem scan_one_region_per_landing_pad (insts : List Instruction)
    (hchecks : scanChecks false false false insts = true) :
    (∃ st, scanInstructions ScanState.init insts = some st ∧
      st.catchRegionsWorkSet.map CatchRegion.landingPad =
        (insts.filter Instruction.isLandingPad).map (fun I => some I.id) ∧
      st.catchRegionsWorkSet.length = (insts.filter Instruction.isLandingPad).length) ∧
    (∀ l, (scanInstructions ScanState.init l).isSome = scanChecks false false false l) ∧
    (∀ before, (∀ I ∈ before, I.isLandingPad = false) →
      scanInstructions ScanState.init before = some ScanState.init) ∧
    (∀ (closed : ScanState) (between : List Instruction), closed.catchRegion = false →
      (∀ I ∈ between, I.isLandingPad = false) →
      scanInstructions closed between = some closed) := by
  have hiff : ∀ l, (scanInstructions ScanState.init l).isSome = scanChecks false false false l :=
    fun l => scanInstructions_isSome_eq l ScanState.init (by simp [ScanState.init])
  refine ⟨?_, hiff, ?_, ?_⟩
  · obtain ⟨st, hst⟩ := Option.isSome_iff_exists.mp ((hiff insts).trans hchecks)
    have h := scanInstructions_landingPads insts ScanState.init st hst
    simp only [ScanState.init, List.map_nil, List.nil_append] at h
    refine ⟨st, hst, h, ?_⟩
    have := congrArg List.length h
    simpa using this
  · intro before hbefore
    exact scanInstructions_closed ScanState.init before rfl hbefore
  · intro closed between hclosed hbetween
    exact scanInstructions_closed closed between hclosed hbetween

/-- Witness of C28: the function `twoRegions` of `ExceptionExample`, with two
landing pads, 10 and 30. -/
theorem scan_one_region_per_landing_pad_witness :
    (∃ st, scanInstructions ScanState.init (instructions ExceptionExample.twoRegions.blocks)
        = some st ∧
      st.catchRegionsWorkSet.map CatchRegion.landingPad =
        ((instructions ExceptionExample.twoRegions.blocks).filter
          Instruction.isLandingPad).map (fun I => some I.id) ∧
      st.catchRegionsWorkSet.length =
        ((instructions ExceptionExample.twoRegions.blocks).filter
          Instruction.isLandingPad).length) ∧
    (∀ l, (scanInstructions ScanState.init l).isSome = scanChecks false false false l) ∧
    (∀ before, (∀ I ∈ before, I.isLandingPad = false) →
      scanInstructions ScanState.init before = some ScanState.init) ∧
    (∀ (closed : ScanState) (between : List Instruction), closed.catchRegion = false →
      (∀ I ∈ between, I.isLandingPad = false) →
      scanInstructions closed between = some closed) :=
  scan_one_region_per_landing_pad (instructions ExceptionExample.twoRegions.blocks)
    (by decide)

/-- The scan of `twoRegions`: two regions, for the landing pads 10 and 30; the
call 1 before the first landing pad and the allocation 20, the call 21 and the
invoke 22 between the regions are recorded in neither. -/
theorem scan_two_regions_example :
    scanInstructions ScanState.init (instructions ExceptionExample.twoRegions.blocks) = some
      { catchRegionsWorkSet :=
          [{ CatchRegion.new with landingPad := some 10, calls := [11], end_ := some 13 },
           { CatchRegion.new with landingPad := some 30, calls := [31], end_ := some 33 }]
        catchRegion := false
        endOfCatch := false
        toRemoveWorkSet := [12, 32] } := by
  decide

/-- Two stores before the first landing pad and two stores after the region is
closed do not stop the scan, which records one region, with the one store that
is inside it; two stores inside the region do stop it. -/
theorem scan_stores_outside_example :
    (scanInstructions ScanState.init
      ([⟨1, InstKind.store (LType.pointer (LType.integer 32)), [], []⟩,
        ⟨2, InstKind.store (LType.pointer (LType.integer 32)), [], []⟩,
        ⟨10, InstKind.landingPad [true], [LValue.nullPtr (LType.integer 8)], []⟩,
        ⟨11, InstKind.store (LType.pointer (LType.integer 32)), [], []⟩,
        ⟨12, InstKind.call (some "__cxa_end_catch"), [], []⟩,
        ⟨13, InstKind.br [1], [], []⟩,
        ⟨20, InstKind.store (LType.pointer (LType.integer 32)), [], []⟩,
        ⟨21, InstKind.store (LType.pointer (LType.integer 32)), [], []⟩,
        ⟨22, InstKind.call none, [], []⟩] : List Instruction)).map
        ScanState.catchRegionsWorkSet =
      some [{ CatchRegion.new with landingPad := some 10, store := some 11, end_ := some 13 }] ∧
    scanInstructions ScanState.init
      ([⟨10, InstKind.landingPad [true], [LValue.nullPtr (LType.integer 8)], []⟩,
        ⟨11, InstKind.store (LType.pointer (LType.integer 32)), [], []⟩,
        ⟨12, InstKind.store (LType.pointer (LType.integer 32)), [], []⟩] : List Instruction)
      = none := by
  decide
/-- C29, the code at the failing input `invokeEnd` of `ExceptionExample`: the
region of landing pad 10 ends with the invoke 12 of `__cxa_end_catch`, and the
scan leaves it open.  The allocation 20, the store 21 and the call 22 of the
block that follows are recorded in it (`hasAlloca`, `store`, `calls`), and the
pointer `catchRegion` is still set when the scan is over. -/
theorem scan_invoke_end_catch_stays_open :
    scanInstructions ScanState.init (instructions ExceptionExample.invokeEnd.blocks) = some
      { catchRegionsWorkSet :=
          [{ landingPad := some 10, calls := [11, 22], catchPad := none, store := some 21,
             unwindInfoOp := some 12, stack := none, hasAlloca := true, end_ := some 12,
             isCleanup := false }]
        catchRegion := true
        endOfCatch := false
        toRemoveWorkSet := [12] } := by
  decide

/-- With a call of `__cxa_end_catch` the scan closes the region with the next
instruction: from a state whose region is open, the marker and the instruction
after it leave the pointer `catchRegion` reset, whatever follows is recorded
nowhere. -/
theorem scan_call_end_catch_closes (st : ScanState) (marker next : Instruction)
    (rest : List Instruction)
    (hopen : st.catchRegion = true) (hend : st.endOfCatch = false)
    (hmarker : marker.kind = InstKind.call (some "__cxa_end_catch"))
    (hnext : next.isLandingPad = false) (hrest : ∀ I ∈ rest, I.isLandingPad = false) :
    scanInstructions st (marker :: next :: rest) = some
      { catchRegionsWorkSet :=
          modifyLast (fun r => { r with end_ := some next.id }) st.catchRegionsWorkSet
        catchRegion := false
        endOfCatch := false
        toRemoveWorkSet := st.toRemoveWorkSet ++ [marker.id] } := by
  rcases marker with ⟨id, kind, ops, bundles⟩
  simp only at hmarker
  subst hmarker
  have h1 : scanStep st ⟨id, InstKind.call (some "__cxa_end_catch"), ops, bundles⟩ = some
      { st with
        catchRegionsWorkSet := modifyLast (fun r => r) st.catchRegionsWorkSet
        toRemoveWorkSet := st.toRemoveWorkSet ++ [id]
        endOfCatch := true } := by
    simp [scanStep, Instruction.isLandingPad, Instruction.isStore, Instruction.isAlloca,
      Instruction.isCall, Instruction.isInvoke, Instruction.calledFunction, hopen, hend]
  have hid : modifyLast (fun r => r) st.catchRegionsWorkSet = st.catchRegionsWorkSet := by
    rw [modifyLast_eq]
    rcases List.eq_nil_or_concat st.catchRegionsWorkSet with h | ⟨l, r, h⟩
    · rw [h]; rfl
    · rw [h]; simp
  rw [hid] at h1
  simp only [scanInstructions, h1]
  have h2 : scanStep { st with toRemoveWorkSet := st.toRemoveWorkSet ++ [id], endOfCatch := true }
      next = some
      { catchRegionsWorkSet :=
          modifyLast (fun r => { r with end_ := some next.id }) st.catchRegionsWorkSet
        catchRegion := false
        endOfCatch := false
        toRemoveWorkSet := st.toRemoveWorkSet ++ [id] } := by
    simp [scanStep, hnext, hopen]
  simp only [h2]
  exact scanInstructions_closed _ rest rfl hrest

/-! ## What the scan records in a region -/

/-- One step of the scan in an open region, for an instruction that is neither a
landing pad nor a call of `__cxa_end_catch`: the region stays open and the step
changes the last region only, recording the first invoke, an allocation, and a
call or invoke other than an invoke of `__cxa_end_catch`. -/
theorem scanStep_open (s s1 : ScanState) (I : Instruction) (rs : List CatchRegion)
    (r : CatchRegion) (hopen : s.catchRegion = true) (hend : s.endOfCatch = false)
    (hs : s.catchRegionsWorkSet = rs ++ [r]) (hI : I.isLandingPad = false)
    (hE : ¬ (I.isCall = true ∧ I.calledFunction = some "__cxa_end_catch"))
    (h : scanStep s I = some s1) :
    s1.catchRegion = true ∧ s1.endOfCatch = false ∧
    ∃ r1, s1.catchRegionsWorkSet = rs ++ [r1] ∧
      r1.landingPad = r.landingPad ∧ r1.catchPad = r.catchPad ∧ r1.stack = r.stack ∧
      r1.unwindInfoOp =
        (if r.unwindInfoOp.isNone && I.isInvoke then some I.id else r.unwindInfoOp) ∧
      r1.hasAlloca = (r.hasAlloca || I.isAlloca) ∧
      r1.calls = r.calls ++
        (if I.isCallBase && !(I.calledFunction == some "__cxa_end_catch") then [I.id]
         else []) := by
  rcases I with ⟨id, kind, ops, bundles⟩
  rcases s with ⟨regions, open_, eoc, toRemove⟩
  simp only at hopen hend hs
  subst hopen hend hs
  cases kind <;>
    simp only [scanStep, Instruction.isLandingPad, Instruction.isStore, Instruction.isAlloca,
      Instruction.isCall, Instruction.isInvoke, Instruction.calledFunction,
      Instruction.isCallBase, Bool.false_eq_true, Bool.not_true, Bool.not_false,
      if_false, if_true, Bool.and_true, Bool.and_false, Bool.false_and, Bool.true_and,
      Bool.or_false, Bool.or_true, Bool.false_or, Bool.true_or, true_and,
      modifyLast_append_singleton, List.getLast?_append, List.getLast?_singleton,
      Option.some_bind] at h hI hE ⊢
  all_goals repeat' split at h
  all_goals first
    | (simp at h; done)
    | (simp only [Option.some.injEq] at h
       subst h
       simp_all)

/-- The scan of instructions inside an open region, none of them a landing pad or
a call of `__cxa_end_catch`: the region stays open; it gets the first invoke as
its unwind information unless it has one, the flag `hasAlloca` if one of the
instructions allocates, and the calls and invokes other than `__cxa_end_catch`
as its calls. -/
theorem scanInstructions_open (seg : List Instruction) (s s1 : ScanState)
    (rs : List CatchRegion) (r : CatchRegion)
    (hopen : s.catchRegion = true) (hend : s.endOfCatch = false)
    (hs : s.catchRegionsWorkSet = rs ++ [r])
    (hI : ∀ I ∈ seg, I.isLandingPad = false)
    (hE : ∀ I ∈ seg, ¬ (I.isCall = true ∧ I.calledFunction = some "__cxa_end_catch"))
    (h : scanInstructions s seg = some s1) :
    s1.catchRegion = true ∧ s1.endOfCatch = false ∧
    ∃ r1, s1.catchRegionsWorkSet = rs ++ [r1] ∧
      r1.landingPad = r.landingPad ∧ r1.catchPad = r.catchPad ∧ r1.stack = r.stack ∧
      r1.unwindInfoOp =
        r.unwindInfoOp.or ((seg.find? Instruction.isInvoke).map Instruction.id) ∧
      r1.hasAlloca = (r.hasAlloca || seg.any Instruction.isAlloca) ∧
      r1.calls = r.calls ++ (seg.filter fun I =>
        I.isCallBase && !(I.calledFunction == some "__cxa_end_catch")).map Instruction.id := by
  induction seg generalizing s r with
  | nil =>
    simp only [scanInstructions, Option.some.injEq] at h
    subst h
    refine ⟨hopen, hend, r, hs, rfl, rfl, rfl, ?_, ?_, ?_⟩
    · cases r.unwindInfoOp <;> rfl
    · simp
    · simp
  | cons I seg ih =>
    simp only [scanInstructions] at h
    split at h
    · cases h
    · rename_i s2 h2
      obtain ⟨ho2, he2, r2, hs2, hl2, hc2, hst2, hu2, ha2, hcalls2⟩ :=
        scanStep_open s s2 I rs r hopen hend hs (hI I (List.mem_cons_self _ _))
          (hE I (List.mem_cons_self _ _)) h2
      obtain ⟨ho1, he1, r1, hs1, hl1, hc1, hst1, hu1, ha1, hcalls1⟩ :=
        ih s2 r2 ho2 he2 hs2 (fun J hJ => hI J (List.mem_cons_of_mem _ hJ))
          (fun J hJ => hE J (List.mem_cons_of_mem _ hJ)) h
      refine ⟨ho1, he1, r1, hs1, hl1.trans hl2, hc1.trans hc2, hst1.trans hst2, ?_, ?_, ?_⟩
      · rw [hu1, hu2, List.find?_cons]
        cases hu : r.unwindInfoOp <;> cases hinv : I.isInvoke <;> simp
      · rw [ha1, ha2]
        simp [Bool.or_assoc]
      · rw [hcalls1, hcalls2, List.filter_cons]
        split <;> simp

theorem scanInstructions_append (l1 l2 : List Instruction) (s : ScanState) :
    scanInstructions s (l1 ++ l2) =
      (scanInstructions s l1).bind fun s1 => scanInstructions s1 l2 := by
  induction l1 generalizing s with
  | nil => rfl
  | cons I l1 ih =>
    simp only [List.cons_append, scanInstructions]
    cases scanStep s I with
    | none => rfl
    | some s2 => exact ih s2

/-- A landing pad opens a new region, which holds that landing pad and nothing
else. -/
theorem scanStep_landingPad (s : ScanState) (I : Instruction) (hI : I.isLandingPad = true) :
    scanStep s I = some { s with
      catchRegionsWorkSet :=
        s.catchRegionsWorkSet ++ [{ CatchRegion.new with landingPad := some I.id }]
      catchRegion := true
      endOfCatch := false } := by
  simp [scanStep, hI]

/-- A call of `__cxa_end_catch` in an open region records nothing in the region;
it is put on the list of instructions to remove and raises the flag
`endOfCatch`. -/
theorem scanStep_end_call (s : ScanState) (I : Instruction) (rs : List CatchRegion)
    (r : CatchRegion) (hopen : s.catchRegion = true) (hend : s.endOfCatch = false)
    (hs : s.catchRegionsWorkSet = rs ++ [r])
    (hE : I.isCall = true ∧ I.calledFunction = some "__cxa_end_catch") :
    scanStep s I = some { s with
      toRemoveWorkSet := s.toRemoveWorkSet ++ [I.id]
      endOfCatch := true } := by
  rcases I with ⟨id, kind, ops, bundles⟩
  rcases s with ⟨regions, open_, eoc, toRemove⟩
  simp only at hopen hend hs
  subst hopen hend hs
  cases kind <;> simp [Instruction.isCall, Instruction.calledFunction] at hE
  subst hE
  simp [scanStep, Instruction.isLandingPad, Instruction.isStore, Instruction.isAlloca,
    Instruction.isCall, Instruction.isInvoke, Instruction.calledFunction,
    modifyLast_append_singleton]

/-- The instruction after the call of `__cxa_end_catch` becomes the end of the
region, and the region is closed. -/
theorem scanStep_after_end (s : ScanState) (I : Instruction) (rs : List CatchRegion)
    (r : CatchRegion) (hopen : s.catchRegion = true) (hend : s.endOfCatch = true)
    (hs : s.catchRegionsWorkSet = rs ++ [r]) (hI : I.isLandingPad = false) :
    scanStep s I = some { s with
      catchRegionsWorkSet := rs ++ [{ r with end_ := some I.id }]
      endOfCatch := false
      catchRegion := false } := by
  simp [scanStep, hI, hopen, hend, hs, modifyLast_append_singleton]

/-- A step of the scan at an instruction that is no landing pad changes the last
region at most. -/
theorem scanStep_last (s s1 : ScanState) (I : Instruction) (rs : List CatchRegion)
    (r : CatchRegion) (hs : s.catchRegionsWorkSet = rs ++ [r]) (hI : I.isLandingPad = false)
    (h : scanStep s I = some s1) :
    ∃ r1, s1.catchRegionsWorkSet = rs ++ [r1] := by
  rcases I with ⟨id, kind, ops, bundles⟩
  rcases s with ⟨regions, open_, eoc, toRemove⟩
  simp only at hs
  subst hs
  cases kind <;>
    simp only [scanStep, Instruction.isLandingPad, Instruction.isStore, Instruction.isAlloca,
      Instruction.isCall, Instruction.isInvoke, Instruction.calledFunction,
      Bool.false_eq_true, if_false, if_true, Bool.and_true, Bool.and_false, Bool.false_and,
      Bool.true_and, modifyLast_append_singleton] at h hI ⊢
  all_goals repeat' split at h
  all_goals first
    | contradiction
    | (simp at h; done)
    | (simp only [Option.some.injEq] at h
       subst h
       exact ⟨_, rfl⟩)

/-- The regions that are closed stay as they are: while the scan goes on, the
regions before the open one are a prefix of the work set. -/
theorem scanInstructions_prefix (l : List Instruction) (s s1 : ScanState)
    (base more : List CatchRegion) (hs : s.catchRegionsWorkSet = base ++ more)
    (hopen : s.catchRegion = true → more ≠ [])
    (h : scanInstructions s l = some s1) :
    ∃ more1, s1.catchRegionsWorkSet = base ++ more1 := by
  induction l generalizing s more with
  | nil =>
    simp only [scanInstructions, Option.some.injEq] at h
    subst h
    exact ⟨more, hs⟩
  | cons I l ih =>
    simp only [scanInstructions] at h
    split at h
    · cases h
    · rename_i s2 h2
      by_cases hI : I.isLandingPad = true
      · rw [scanStep_landingPad s I hI, Option.some.injEq] at h2
        subst h2
        exact ih _ (more ++ [{ CatchRegion.new with landingPad := some I.id }])
          (by simp [hs]) (by simp) h
      · have hI2 : I.isLandingPad = false := by simpa using hI
        by_cases ho : s.catchRegion = true
        · rcases List.eq_nil_or_concat more with hm | ⟨m, r, hm⟩
          · exact absurd hm (hopen ho)
          · subst hm
            obtain ⟨r1, hr1⟩ := scanStep_last s s2 I (base ++ m) r (by simp [hs]) hI2 h2
            exact ih s2 (m ++ [r1]) (by simp [hr1]) (by simp) h
        · have hc : s.catchRegion = false := by simpa using ho
          rw [scanStep_closed s I hc hI2, Option.some.injEq] at h2
          subst h2
          exact ih s more hs hopen h

/-- The region of a landing pad that is followed by the instructions `seg`, a
call of `__cxa_end_catch` and one more instruction: wherever the scan comes from
and whatever follows, the work set has the regions it had, then this region.
The region holds the landing pad; its unwind information is the first invoke of
`seg`, it has the flag `hasAlloca` exactly if an instruction of `seg` allocates,
its calls are the calls and invokes of `seg` other than `__cxa_end_catch`, and
its end is the instruction after the call of `__cxa_end_catch`. -/
theorem scan_region (s0 s1 : ScanState) (LPI : Instruction) (seg : List Instruction)
    (E N : Instruction) (rest : List Instruction)
    (hLPI : LPI.isLandingPad = true)
    (hI : ∀ I ∈ seg, I.isLandingPad = false)
    (hEseg : ∀ I ∈ seg, ¬ (I.isCall = true ∧ I.calledFunction = some "__cxa_end_catch"))
    (hE : E.isCall = true ∧ E.calledFunction = some "__cxa_end_catch")
    (hN : N.isLandingPad = false)
    (h : scanInstructions s0 (LPI :: (seg ++ E :: N :: rest)) = some s1) :
    ∃ r more, s1.catchRegionsWorkSet = s0.catchRegionsWorkSet ++ r :: more ∧
      r.landingPad = some LPI.id ∧ r.catchPad = none ∧ r.stack = none ∧
      r.unwindInfoOp = (seg.find? Instruction.isInvoke).map Instruction.id ∧
      r.hasAlloca = seg.any Instruction.isAlloca ∧
      r.calls = (seg.filter fun I =>
        I.isCallBase && !(I.calledFunction == some "__cxa_end_catch")).map Instruction.id ∧
      r.end_ = some N.id := by
  simp only [scanInstructions, scanStep_landingPad s0 LPI hLPI] at h
  rw [scanInstructions_append] at h
  cases hb : scanInstructions { s0 with
      catchRegionsWorkSet :=
        s0.catchRegionsWorkSet ++ [{ CatchRegion.new with landingPad := some LPI.id }]
      catchRegion := true
      endOfCatch := false } seg with
  | none => rw [hb] at h; cases h
  | some sb =>
    rw [hb, Option.some_bind] at h
    obtain ⟨hob, heb, r1, hsb, hl, hc, hst, hu, ha, hcalls⟩ :=
      scanInstructions_open seg _ sb s0.catchRegionsWorkSet
        { CatchRegion.new with landingPad := some LPI.id } rfl rfl rfl hI hEseg hb
    simp only [scanInstructions, scanStep_end_call sb E _ r1 hob heb hsb hE] at h
    rw [scanStep_after_end { sb with
        toRemoveWorkSet := sb.toRemoveWorkSet ++ [E.id]
        endOfCatch := true } N s0.catchRegionsWorkSet r1 hob rfl hsb hN] at h
    simp only at h
    obtain ⟨more, hmore⟩ := scanInstructions_prefix rest _ s1
      (s0.catchRegionsWorkSet ++ [{ r1 with end_ := some N.id }]) [] (by simp)
      (by intro hcl; cases hcl) h
    refine ⟨{ r1 with end_ := some N.id }, more, by simpa using hmore, hl, hc, hst, ?_, ?_, ?_,
      rfl⟩
    · simpa [CatchRegion.new] using hu
    · simpa [CatchRegion.new] using ha
    · simpa [CatchRegion.new] using hcalls

/-- The region of a landing pad that is followed by the instructions `seg`, none
of them a landing pad or a call of `__cxa_end_catch`, where `tail` is empty or
starts with a landing pad or with a call of `__cxa_end_catch`: whatever the
rest of the scan records, the region keeps its landing pad, the first invoke of
`seg` as its unwind information, the flag `hasAlloca` exactly if an instruction
of `seg` allocates, and the calls and invokes of `seg` other than
`__cxa_end_catch` as its calls. -/
theorem scan_open_region (s0 s1 : ScanState) (LPI : Instruction) (seg tail : List Instruction)
    (hLPI : LPI.isLandingPad = true)
    (hI : ∀ I ∈ seg, I.isLandingPad = false)
    (hEseg : ∀ I ∈ seg, ¬ (I.isCall = true ∧ I.calledFunction = some "__cxa_end_catch"))
    (htail : ∀ I, tail.head? = some I → I.isLandingPad = true ∨
      (I.isCall = true ∧ I.calledFunction = some "__cxa_end_catch"))
    (h : scanInstructions s0 (LPI :: (seg ++ tail)) = some s1) :
    ∃ r more, s1.catchRegionsWorkSet = s0.catchRegionsWorkSet ++ r :: more ∧
      r.landingPad = some LPI.id ∧ r.catchPad = none ∧ r.stack = none ∧
      r.unwindInfoOp = (seg.find? Instruction.isInvoke).map Instruction.id ∧
      r.hasAlloca = seg.any Instruction.isAlloca ∧
      r.calls = (seg.filter fun I =>
        I.isCallBase && !(I.calledFunction == some "__cxa_end_catch")).map Instruction.id := by
  simp only [scanInstructions, scanStep_landingPad s0 LPI hLPI] at h
  rw [scanInstructions_append] at h
  cases hb : scanInstructions { s0 with
      catchRegionsWorkSet :=
        s0.catchRegionsWorkSet ++ [{ CatchRegion.new with landingPad := some LPI.id }]
      catchRegion := true
      endOfCatch := false } seg with
  | none => rw [hb] at h; cases h
  | some sb =>
    rw [hb, Option.some_bind] at h
    obtain ⟨hob, heb, r1, hsb, hl, hc, hst, hu, ha, hcalls⟩ :=
      scanInstructions_open seg _ sb s0.catchRegionsWorkSet
        { CatchRegion.new with landingPad := some LPI.id } rfl rfl rfl hI hEseg hb
    have hu1 : r1.unwindInfoOp = (seg.find? Instruction.isInvoke).map Instruction.id := by
      simpa [CatchRegion.new] using hu
    have ha1 : r1.hasAlloca = seg.any Instruction.isAlloca := by
      simpa [CatchRegion.new] using ha
    have hcalls1 : r1.calls = (seg.filter fun I =>
        I.isCallBase && !(I.calledFunction == some "__cxa_end_catch")).map Instruction.id := by
      simpa [CatchRegion.new] using hcalls
    -- the scan of what follows, from a state that has the region followed by `more0`
    have hkeep : ∀ (s : ScanState) (l : List Instruction) (more0 : List CatchRegion),
        s.catchRegionsWorkSet = (s0.catchRegionsWorkSet ++ [r1]) ++ more0 →
        (s.catchRegion = true → more0 ≠ []) → scanInstructions s l = some s1 →
        ∃ more, s1.catchRegionsWorkSet = s0.catchRegionsWorkSet ++ r1 :: more := by
      intro s l more0 hs ho hl
      obtain ⟨more, hmore⟩ := scanInstructions_prefix l s s1 _ more0 hs ho hl
      exact ⟨more, by simpa using hmore⟩
    cases tail with
    | nil =>
      simp only [scanInstructions, Option.some.injEq] at h
      subst h
      exact ⟨r1, [], by simpa using hsb, hl, hc, hst, hu1, ha1, hcalls1⟩
    | cons T rest =>
      simp only [scanInstructions] at h
      rcases htail T rfl with hT | hT
      · rw [scanStep_landingPad sb T hT] at h
        obtain ⟨more, hmore⟩ := hkeep _ rest [{ CatchRegion.new with landingPad := some T.id }]
          (by simp [hsb]) (by simp) h
        exact ⟨r1, more, hmore, hl, hc, hst, hu1, ha1, hcalls1⟩
      · rw [scanStep_end_call sb T _ r1 hob heb hsb hT] at h
        simp only at h
        cases rest with
        | nil =>
          simp only [scanInstructions, Option.some.injEq] at h
          subst h
          exact ⟨r1, [], by simpa using hsb, hl, hc, hst, hu1, ha1, hcalls1⟩
        | cons N rest =>
          simp only [scanInstructions] at h
          by_cases hN : N.isLandingPad = true
          · rw [scanStep_landingPad _ N hN] at h
            obtain ⟨more, hmore⟩ := hkeep _ rest
              [{ CatchRegion.new with landingPad := some N.id }] (by simp [hsb]) (by simp) h
            exact ⟨r1, more, hmore, hl, hc, hst, hu1, ha1, hcalls1⟩
          · have hN2 : N.isLandingPad = false := by simpa using hN
            rw [scanStep_after_end { sb with
              toRemoveWorkSet := sb.toRemoveWorkSet ++ [T.id]
              endOfCatch := true } N s0.catchRegionsWorkSet r1 hob rfl hsb hN2] at h
            simp only at h
            obtain ⟨more, hmore⟩ := scanInstructions_prefix rest _ s1
              (s0.catchRegionsWorkSet ++ [{ r1 with end_ := some N.id }]) [] (by simp)
              (by intro hcl; cases hcl) h
            exact ⟨{ r1 with end_ := some N.id }, more, by simpa using hmore, hl, hc, hst, hu1,
              ha1, hcalls1⟩
/-! ## Instructions and blocks -/

@[simp] theorem mapInsts_nil (f : List Instruction → List Instruction) : mapInsts f [] = [] := rfl

@[simp] theorem mapInsts_cons (f : List Instruction → List Instruction) (b : BasicBlock)
    (bs : List BasicBlock) :
    mapInsts f (b :: bs) = { b with insts := f b.insts } :: mapInsts f bs := rfl

@[simp] theorem mapInsts_append (f : List Instruction → List Instruction)
    (l r : List BasicBlock) : mapInsts f (l ++ r) = mapInsts f l ++ mapInsts f r := by
  simp [mapInsts]

theorem mapInsts_mapInsts (f g : List Instruction → List Instruction) (bs : List BasicBlock) :
    mapInsts f (mapInsts g bs) = mapInsts (fun l => f (g l)) bs := by
  simp [mapInsts]

theorem mapInsts_id_of (f : List Instruction → List Instruction) (bs : List BasicBlock)
    (h : ∀ b ∈ bs, f b.insts = b.insts) : mapInsts f bs = bs := by
  induction bs with
  | nil => rfl
  | cons b bs ih =>
    rw [mapInsts_cons, h b (List.mem_cons_self _ _),
      ih (fun c hc => h c (List.mem_cons_of_mem _ hc))]

@[simp] theorem instructions_nil : instructions [] = [] := rfl

@[simp] theorem instructions_cons (b : BasicBlock) (bs : List BasicBlock) :
    instructions (b :: bs) = b.insts ++ instructions bs := by
  simp [instructions]

@[simp] theorem instructions_append (l r : List BasicBlock) :
    instructions (l ++ r) = instructions l ++ instructions r := by
  simp [instructions]

theorem mem_instructions (I : Instruction) (bs : List BasicBlock) :
    I ∈ instructions bs ↔ ∃ b ∈ bs, I ∈ b.insts := by
  simp [instructions]

theorem eraseIn_append (x : InstId) (l r : List Instruction) :
    eraseIn x (l ++ r) = eraseIn x l ++ eraseIn x r := by
  simp [eraseIn]

theorem eraseIn_of_not_mem (x : InstId) (l : List Instruction) (h : ∀ I ∈ l, I.id ≠ x) :
    eraseIn x l = l := by
  simp only [eraseIn, List.filter_eq_self]
  intro I hI
  simpa using h I hI

theorem eraseInst_of_not_mem (x : InstId) (bs : List BasicBlock)
    (h : ∀ I ∈ instructions bs, I.id ≠ x) : eraseInst x bs = bs := by
  apply mapInsts_id_of
  intro b hb
  apply eraseIn_of_not_mem
  intro I hI
  exact h I ((mem_instructions I bs).mpr ⟨b, hb, hI⟩)

theorem insertBeforeIn_append (x : InstId) (new l r : List Instruction) :
    insertBeforeIn x new (l ++ r) = insertBeforeIn x new l ++ insertBeforeIn x new r := by
  simp [insertBeforeIn]

theorem insertBeforeIn_of_not_mem (x : InstId) (new l : List Instruction)
    (h : ∀ I ∈ l, I.id ≠ x) : insertBeforeIn x new l = l := by
  induction l with
  | nil => rfl
  | cons I l ih =>
    have hI : I.id ≠ x := h I (List.mem_cons_self _ _)
    have := ih (fun J hJ => h J (List.mem_cons_of_mem _ hJ))
    simp only [insertBeforeIn, List.flatMap_cons, hI, if_false] at this ⊢
    simp [this]

theorem insertBefore_of_not_mem (x : InstId) (new : List Instruction) (bs : List BasicBlock)
    (h : ∀ I ∈ instructions bs, I.id ≠ x) : insertBefore x new bs = bs := by
  apply mapInsts_id_of
  intro b hb
  apply insertBeforeIn_of_not_mem
  intro I hI
  exact h I ((mem_instructions I bs).mpr ⟨b, hb, hI⟩)

theorem insertBeforeIn_cons_self (new : List Instruction) (I : Instruction)
    (l : List Instruction) (h : ∀ J ∈ l, J.id ≠ I.id) :
    insertBeforeIn I.id new (I :: l) = new ++ I :: l := by
  have := insertBeforeIn_of_not_mem I.id new l h
  simp only [insertBeforeIn, List.flatMap_cons, if_true] at this ⊢
  simp [this]

theorem insertAtEnd_of_not_mem (block : BlockId) (new : List Instruction) (bs : List BasicBlock)
    (h : ∀ b ∈ bs, b.id ≠ block) : insertAtEnd block new bs = bs := by
  induction bs with
  | nil => rfl
  | cons b bs ih =>
    have hb : b.id ≠ block := h b (List.mem_cons_self _ _)
    have := ih (fun c hc => h c (List.mem_cons_of_mem _ hc))
    simp only [insertAtEnd, List.map_cons, hb, if_false] at this ⊢
    rw [this]

theorem insertAtEnd_append (block : BlockId) (new : List Instruction) (l r : List BasicBlock) :
    insertAtEnd block new (l ++ r) = insertAtEnd block new l ++ insertAtEnd block new r := by
  simp [insertAtEnd]

theorem insertAtEnd_cons (block : BlockId) (new : List Instruction) (b : BasicBlock)
    (bs : List BasicBlock) :
    insertAtEnd block new (b :: bs) =
      (if b.id = block then { b with insts := b.insts ++ new } else b) ::
        insertAtEnd block new bs := rfl

theorem find?_append_cons_self (before rest : List Instruction) (I : Instruction)
    (h : ∀ J ∈ before, J.id ≠ I.id) :
    (before ++ I :: rest).find? (fun J => J.id == I.id) = some I := by
  rw [List.find?_append, List.find?_eq_none.mpr (by
    intro J hJ
    simpa using h J hJ)]
  simp

/-- The pointer to an instruction that stands in a block, with no instruction of
the same identity before it, refers to that instruction. -/
theorem findInst_eq (pre post : List BasicBlock) (b : BasicBlock) (before rest : List Instruction)
    (I : Instruction) (hb : b.insts = before ++ I :: rest)
    (hpre : ∀ J ∈ instructions pre, J.id ≠ I.id) (hbefore : ∀ J ∈ before, J.id ≠ I.id) :
    findInst (pre ++ b :: post) I.id = some I := by
  have := find?_append_cons_self (instructions pre ++ before) (rest ++ instructions post) I (by
    intro J hJ
    rcases List.mem_append.mp hJ with h | h
    · exact hpre J h
    · exact hbefore J h)
  simpa [findInst, hb] using this

theorem parentOf_eq (pre post : List BasicBlock) (b : BasicBlock) (before rest : List Instruction)
    (I : Instruction) (hb : b.insts = before ++ I :: rest)
    (hpre : ∀ J ∈ instructions pre, J.id ≠ I.id) :
    parentOf (pre ++ b :: post) I.id = some b := by
  simp only [parentOf]
  rw [List.find?_append, List.find?_eq_none.mpr (by
    intro c hc
    simp only [List.any_eq_true, beq_iff_eq, not_exists, not_and]
    intro J hJ
    exact hpre J ((mem_instructions J pre).mpr ⟨c, hc, hJ⟩))]
  simp [hb]

theorem takeWhile_append_cons_self (before rest : List Instruction) (I : Instruction)
    (h : ∀ J ∈ before, J.id ≠ I.id) :
    (before ++ I :: rest).takeWhile (fun J => J.id != I.id) = before := by
  induction before with
  | nil => simp [List.takeWhile]
  | cons J before ih =>
    have hJ : J.id ≠ I.id := h J (List.mem_cons_self _ _)
    simp only [List.cons_append, List.takeWhile_cons]
    simp [hJ, ih (fun K hK => h K (List.mem_cons_of_mem _ hK))]

theorem dropWhile_append_cons_self (before rest : List Instruction) (I : Instruction)
    (h : ∀ J ∈ before, J.id ≠ I.id) :
    (before ++ I :: rest).dropWhile (fun J => J.id != I.id) = I :: rest := by
  induction before with
  | nil => simp [List.dropWhile]
  | cons J before ih =>
    have hJ : J.id ≠ I.id := h J (List.mem_cons_self _ _)
    simp only [List.cons_append, List.dropWhile_cons]
    simp [hJ, ih (fun K hK => h K (List.mem_cons_of_mem _ hK))]

/-- The split of a block at an instruction that no earlier block holds. -/
theorem splitBasicBlock_eq (pre post : List BasicBlock) (id : BlockId) (name : String)
    (before rest : List Instruction) (I : Instruction) (newName : String) (newBlock : BlockId)
    (br : InstId)
    (hpre : ∀ J ∈ instructions pre, J.id ≠ I.id) (hbefore : ∀ J ∈ before, J.id ≠ I.id) :
    splitBasicBlock I.id newName newBlock br
        (pre ++ { id := id, name := name, insts := before ++ I :: rest } :: post) =
      pre ++ { id := id, name := name, insts := before ++ [⟨br, InstKind.br [newBlock], [], []⟩] } ::
        { id := newBlock, name := newName, insts := I :: rest } :: post := by
  induction pre with
  | nil =>
    simp [splitBasicBlock, takeWhile_append_cons_self before rest I hbefore,
      dropWhile_append_cons_self before rest I hbefore]
  | cons c pre ih =>
    have hc : ¬ (c.insts.any fun J => J.id == I.id) = true := by
      simp only [List.any_eq_true, beq_iff_eq, not_exists, not_and]
      intro J hJ
      exact hpre J (by simp [hJ])
    have h := ih (fun J hJ => hpre J (by simp [hJ]))
    simp only [List.cons_append, splitBasicBlock, hc, List.append_eq]
    simp only [Bool.false_eq_true, if_false, h]

/-! ## The loop `set funcset` -/

theorem instructions_mapInsts_map (g : Instruction → Instruction) (bs : List BasicBlock) :
    instructions (mapInsts (List.map g) bs) = (instructions bs).map g := by
  induction bs with
  | nil => rfl
  | cons b bs ih => simp [ih]

theorem findInst_isSome_of_mem (bs : List BasicBlock) (c : InstId)
    (h : ∃ I ∈ instructions bs, I.id = c) : ∃ I, findInst bs c = some I := by
  obtain ⟨I, hI, hc⟩ := h
  have : ((instructions bs).find? (fun J => J.id == c)).isSome = true := by
    rw [List.find?_isSome]
    exact ⟨I, hI, by simp [hc]⟩
  exact Option.isSome_iff_exists.mp this

theorem setFuncletIn_append (pad c n : InstId) (l r : List Instruction) :
    setFuncletIn pad c n (l ++ r) = setFuncletIn pad c n l ++ setFuncletIn pad c n r := by
  simp [setFuncletIn]

theorem setFuncletsIn_append (pad : InstId) (calls : List InstId) (n : InstId)
    (l r : List Instruction) :
    setFuncletsIn pad calls n (l ++ r) = setFuncletsIn pad calls n l ++ setFuncletsIn pad calls n r := by
  induction calls generalizing n l r with
  | nil => rfl
  | cons c calls ih => simp only [setFuncletsIn, setFuncletIn_append, ih]

theorem setFuncletsIn_nil (pad : InstId) (calls : List InstId) (n : InstId) :
    setFuncletsIn pad calls n [] = [] := by
  induction calls generalizing n with
  | nil => rfl
  | cons c calls ih => simp only [setFuncletsIn, setFuncletIn, List.map_nil, ih]

theorem setFuncletsIn_cons (pad : InstId) (calls : List InstId) (n : InstId)
    (I : Instruction) (l : List Instruction) :
    setFuncletsIn pad calls n (I :: l) =
      setFuncletsIn pad calls n [I] ++ setFuncletsIn pad calls n l := by
  rw [← setFuncletsIn_append]
  rfl

theorem setFuncletsIn_length (pad : InstId) (calls : List InstId) (n : InstId)
    (l : List Instruction) : (setFuncletsIn pad calls n l).length = l.length := by
  induction calls generalizing n l with
  | nil => rfl
  | cons c calls ih => simp [setFuncletsIn, ih, setFuncletIn]

theorem setFuncletsIn_map_kind (pad : InstId) (calls : List InstId) (n : InstId)
    (l : List Instruction) :
    (setFuncletsIn pad calls n l).map Instruction.kind = l.map Instruction.kind := by
  induction calls generalizing n l with
  | nil => rfl
  | cons c calls ih =>
    simp only [setFuncletsIn, ih, setFuncletIn, List.map_map]
    apply List.map_congr_left
    intro I _
    simp only [Function.comp]
    split <;> rfl

/-- The loop `set funcset` finds each recorded call when the calls are distinct
instructions of the function and the copies get new identities. -/
theorem setFunclets_eq (pad : InstId) (calls : List InstId) (blocks : List BasicBlock)
    (n : InstId) (hnd : calls.Nodup)
    (hfound : ∀ c ∈ calls, ∃ I ∈ instructions blocks, I.id = c)
    (hfresh : ∀ c ∈ calls, c < n) :
    setFunclets pad calls blocks n =
      some (mapInsts (setFuncletsIn pad calls n) blocks, n + calls.length) := by
  induction calls generalizing blocks n with
  | nil =>
    simp only [setFunclets, setFuncletsIn, List.length_nil, Nat.add_zero]
    rw [mapInsts_id_of]
    intro b _
    rfl
  | cons c calls ih =>
    obtain ⟨I, hI⟩ := findInst_isSome_of_mem blocks c (hfound c (List.mem_cons_self _ _))
    simp only [setFunclets, hI]
    rw [ih (setFunclet pad c n blocks) (n + 1) (List.nodup_cons.mp hnd).2]
    · simp only [setFunclet, mapInsts_mapInsts, setFuncletsIn, List.length_cons]
      congr 2
      exact Nat.add_right_comm n 1 calls.length
    · intro d hd
      obtain ⟨J, hJ, hJd⟩ := hfound d (List.mem_cons_of_mem _ hd)
      have hdc : d ≠ c := by
        intro h
        subst h
        exact (List.nodup_cons.mp hnd).1 hd
      refine ⟨J.replaceUses c n, ?_, ?_⟩
      · have hmem : (if J.id = c then
              { J with id := n, bundles := [("funclet", [LValue.inst pad])] }
            else J.replaceUses c n) ∈ instructions (setFunclet pad c n blocks) := by
          have hmap := instructions_mapInsts_map (fun K : Instruction => if K.id = c then
              { K with id := n, bundles := [("funclet", [LValue.inst pad])] }
            else K.replaceUses c n) blocks
          simp only [setFunclet]
          exact hmap ▸ List.mem_map_of_mem _ hJ
        rw [if_neg (by rw [hJd]; exact hdc)] at hmem
        exact hmem
      · simpa [Instruction.replaceUses] using hJd
    · intro d hd
      exact Nat.lt_succ_of_lt (hfresh d (List.mem_cons_of_mem _ hd))
/-! ## The begin of a catch in closed form -/

theorem find?_append_singleton_append (p : Instruction → Bool) (A B : List Instruction)
    (C : Instruction) (hC : p C = false) :
    (A ++ C :: B).find? p = (A ++ B).find? p := by
  simp [List.find?_append, List.find?_cons, hC]

theorem ne_of_nodup_append_cons (A B : List Instruction) (I : Instruction)
    (h : ((A ++ I :: B).map Instruction.id).Nodup) :
    (∀ J ∈ A, J.id ≠ I.id) ∧ (∀ J ∈ B, J.id ≠ I.id) := by
  simp only [List.map_append, List.map_cons] at h
  rw [List.nodup_append] at h
  obtain ⟨_, hIB, hdis⟩ := h
  rw [List.nodup_cons] at hIB
  constructor
  · intro J hJ heq
    exact hdis (List.mem_map_of_mem _ hJ) (by rw [heq]; exact List.mem_cons_self _ _)
  · intro J hJ heq
    exact hIB.1 (by rw [← heq]; exact List.mem_map_of_mem _ hJ)

theorem insertBefore_at (pre post : List BasicBlock) (b nb : BlockId) (nm nm2 : String)
    (A B body new : List Instruction) (LPI : Instruction)
    (hpre : ∀ J ∈ instructions pre, J.id ≠ LPI.id) (hA : ∀ J ∈ A, J.id ≠ LPI.id)
    (hB : ∀ J ∈ B, J.id ≠ LPI.id) (hbody : ∀ J ∈ body, J.id ≠ LPI.id)
    (hpost : ∀ J ∈ instructions post, J.id ≠ LPI.id) :
    insertBefore LPI.id new (pre ++ ⟨b, nm, A⟩ :: ⟨nb, nm2, B ++ LPI :: body⟩ :: post) =
      pre ++ ⟨b, nm, A⟩ :: ⟨nb, nm2, B ++ (new ++ LPI :: body)⟩ :: post := by
  have e1 := insertBefore_of_not_mem LPI.id new pre hpre
  have e2 := insertBefore_of_not_mem LPI.id new post hpost
  simp only [insertBefore] at e1 e2 ⊢
  simp only [mapInsts_append, mapInsts_cons, e1, e2, insertBeforeIn_append,
    insertBeforeIn_of_not_mem LPI.id new A hA, insertBeforeIn_of_not_mem LPI.id new B hB,
    insertBeforeIn_cons_self new LPI body hbody]

theorem insertBeforeIn_eraseIn (x s : InstId) (new l : List Instruction) (hxs : x ≠ s)
    (hnew : ∀ J ∈ new, J.id ≠ s) :
    insertBeforeIn x new (eraseIn s l) = eraseIn s (insertBeforeIn x new l) := by
  induction l with
  | nil => rfl
  | cons I l ih =>
    have hn : eraseIn s new = new := eraseIn_of_not_mem s new hnew
    have hc1 : ∀ (a : Instruction) (t : List Instruction),
        insertBeforeIn x new (a :: t) =
          (if a.id = x then new ++ [a] else [a]) ++ insertBeforeIn x new t := by
      intro a t
      simp [insertBeforeIn]
    have hc2 : ∀ (a : Instruction) (t : List Instruction),
        eraseIn s (a :: t) = (if a.id = s then [] else [a]) ++ eraseIn s t := by
      intro a t
      by_cases h : a.id = s <;> simp [eraseIn, h]
    rw [hc2, hc1, eraseIn_append, ← ih]
    have hI : ∀ a : Instruction, a.id ≠ s → eraseIn s [a] = [a] := by
      intro a ha
      simp [eraseIn, ha]
    by_cases h1 : I.id = s
    · have h2 : I.id ≠ x := fun h => hxs (h ▸ h1)
      rw [if_pos h1, if_neg h2]
      simp [eraseIn, h1]
    · by_cases h2 : I.id = x
      · rw [if_neg h1, if_pos h2, List.singleton_append, hc1, if_pos h2, eraseIn_append, hn,
          hI I h1]
      · rw [if_neg h1, if_neg h2, List.singleton_append, hc1, if_neg h2, hI I h1]

theorem instructions_mapInsts_eraseIn (s : InstId) (bs : List BasicBlock) :
    instructions (mapInsts (eraseIn s) bs) = eraseIn s (instructions bs) := by
  induction bs with
  | nil => rfl
  | cons b bs ih => simp [ih, eraseIn_append]

theorem mem_of_findInst (bs : List BasicBlock) (c : InstId) (I : Instruction)
    (h : findInst bs c = some I) : I ∈ instructions bs ∧ I.id = c := by
  simp only [findInst] at h
  exact ⟨List.mem_of_find?_eq_some h, by simpa using List.find?_some h⟩

theorem insertBeforeIn_nil (x : InstId) (l : List Instruction) : insertBeforeIn x [] l = l := by
  induction l with
  | nil => rfl
  | cons I l ih =>
    simp only [insertBeforeIn, List.flatMap_cons, List.nil_append, ite_self] at ih ⊢
    rw [ih]
    rfl

theorem insertBefore_nil (x : InstId) (bs : List BasicBlock) : insertBefore x [] bs = bs := by
  apply mapInsts_id_of
  intro b _
  exact insertBeforeIn_nil x b.insts

theorem insertBefore_eraseInst (x s : InstId) (new : List Instruction) (bs : List BasicBlock)
    (hxs : x ≠ s) (hnew : ∀ J ∈ new, J.id ≠ s) :
    insertBefore x new (mapInsts (eraseIn s) bs) = mapInsts (eraseIn s) (insertBefore x new bs) := by
  simp only [insertBefore, mapInsts_mapInsts]
  congr 1
  funext l
  exact insertBeforeIn_eraseIn x s new l hxs hnew

theorem beginOfCatch_eq (st : PassState) (r : CatchRegion) (pre post : List BasicBlock)
    (b : BlockId) (nm : String) (before body : List Instruction)
    (lid : InstId) (cs : List Bool) (value : LValue) (vs : List LValue)
    (lb : List (String × List LValue)) (ud : Option BlockId)
    (args : List LValue) (er : List Instruction → List Instruction)
    (hblocks : st.F.blocks = pre ++
      ⟨b, nm, before ++ ⟨lid, InstKind.landingPad (true :: cs), value :: vs, lb⟩ :: body⟩ :: post)
    (hlp : r.landingPad = some lid)
    (hU : ((instructions st.F.blocks).map Instruction.id).Nodup)
    (hUB : (st.F.blocks.map BasicBlock.id).Nodup)
    (hFI : ∀ I ∈ instructions st.F.blocks, I.id < st.F.nextInst)
    (hFB : ∀ c ∈ st.F.blocks, c.id < st.F.nextBlock)
    (hud : (r.unwindInfoOp = none ∧ ud = none) ∨
      ∃ II inv callee normalDest unwindDest, r.unwindInfoOp = some II ∧
        findInst st.F.blocks II = some inv ∧
        inv.kind = InstKind.invoke callee normalDest unwindDest ∧ ud = some unwindDest)
    (hcatch : (∃ t, value = LValue.nullPtr t ∧
        args = [LValue.nullPtr (LType.integer 8), LValue.constInt 32 64,
          LValue.nullPtr (LType.integer 8)] ∧ er = fun l => l) ∨
      ((∀ t, value ≠ LValue.nullPtr t) ∧ ∃ s pty v ptr bs, r.store = some s ∧
        findInst st.F.blocks s = some ⟨s, InstKind.store pty, [v, ptr], bs⟩ ∧
        args = [value, LValue.constInt 32 (getTypeNumber pty), ptr] ∧ er = eraseIn s))
    (hcalls : r.calls.Nodup)
    (hfound : ∀ c ∈ r.calls, ∃ I ∈ instructions st.F.blocks, I.id = c)
    (hstore : ∀ s, r.store = some s → s ∉ r.calls) :
    beginOfCatch st r = some (
      { F := {
          blocks := mapInsts
            (fun l => setFuncletsIn (st.F.nextInst + 2) r.calls (st.F.nextInst + 4) (er l))
            (pre ++
              ⟨b, nm, before ++ [⟨st.F.nextInst + 1,
                InstKind.catchSwitch ud [st.F.nextBlock], [LValue.tokenNone], []⟩]⟩ ::
              ⟨st.F.nextBlock, "catch",
                ⟨st.F.nextInst + 2, InstKind.catchPad (st.F.nextInst + 1), args, []⟩ ::
                ((if r.hasAlloca then [mkIntrinsicCall (st.F.nextInst + 3) "llvm.stacksave" []]
                  else []) ++
                ⟨lid, InstKind.landingPad (true :: cs), value :: vs, lb⟩ :: body)⟩ :: post)
          nextBlock := st.F.nextBlock + 1
          nextInst := st.F.nextInst + 4 + r.calls.length }
        toRemoveWorkSet := st.toRemoveWorkSet ++ [lid] },
      { r with
        stack := if r.hasAlloca then some (LValue.inst (st.F.nextInst + 3)) else r.stack
        catchPad := some (st.F.nextInst + 2) }) := by
  rcases st with ⟨⟨blocks, nb, n⟩, toRemove⟩
  simp only at hblocks hU hUB hFI hFB hud hcatch hfound ⊢
  subst hblocks
  generalize hL : (⟨lid, InstKind.landingPad (true :: cs), value :: vs, lb⟩ : Instruction) = LPI
    at *
  have hlid : LPI.id = lid := by subst hL; rfl
  simp only [instructions_append, instructions_cons, List.append_assoc, List.cons_append] at hU hFI
  have hU1 : ((((instructions pre) ++ before) ++ LPI :: (body ++ instructions post)).map
      Instruction.id).Nodup := by simpa using hU
  obtain ⟨hA, hB⟩ := ne_of_nodup_append_cons _ _ _ hU1
  have hpre : ∀ J ∈ instructions pre, J.id ≠ LPI.id := fun J hJ => hA J (by simp [hJ])
  have hbefore : ∀ J ∈ before, J.id ≠ LPI.id := fun J hJ => hA J (by simp [hJ])
  have hbody : ∀ J ∈ body, J.id ≠ LPI.id := fun J hJ => hB J (by simp [hJ])
  have hpost : ∀ J ∈ instructions post, J.id ≠ LPI.id := fun J hJ => hB J (by simp [hJ])
  have h1 : findInst (pre ++ ⟨b, nm, before ++ LPI :: body⟩ :: post) lid = some LPI := by
    rw [← hlid]
    exact findInst_eq pre post _ before body LPI rfl hpre hbefore
  have h2 : parentOf (pre ++ ⟨b, nm, before ++ LPI :: body⟩ :: post) LPI.id =
      some ⟨b, nm, before ++ LPI :: body⟩ :=
    parentOf_eq pre post _ before body LPI rfl hpre
  have h3 := splitBasicBlock_eq pre post b nm before body LPI "catch" nb n hpre hbefore
  rw [hlid] at h2 h3
  have hfpre : ∀ J ∈ instructions pre, J.id < n := fun J hJ => hFI J (by simp [hJ])
  have hfbefore : ∀ J ∈ before, J.id < n := fun J hJ => hFI J (by simp [hJ])
  have hfbody : ∀ J ∈ body, J.id < n := fun J hJ => hFI J (by simp [hJ])
  have hfpost : ∀ J ∈ instructions post, J.id < n := fun J hJ => hFI J (by simp [hJ])
  have hflid : lid < n := by
    have := hFI LPI (by simp)
    rwa [hlid] at this
  have h4 : eraseInst n (pre ++ ⟨b, nm, before ++ [⟨n, InstKind.br [nb], [], []⟩]⟩ ::
      ⟨nb, "catch", LPI :: body⟩ :: post) =
      pre ++ ⟨b, nm, before⟩ :: ⟨nb, "catch", LPI :: body⟩ :: post := by
    have e1 := eraseInst_of_not_mem n pre (fun J hJ => Nat.ne_of_lt (hfpre J hJ))
    have e2 := eraseInst_of_not_mem n post (fun J hJ => Nat.ne_of_lt (hfpost J hJ))
    have e3 := eraseIn_of_not_mem n before (fun J hJ => Nat.ne_of_lt (hfbefore J hJ))
    have e4 := eraseIn_of_not_mem n (LPI :: body) (by
      intro J hJ
      rcases List.mem_cons.mp hJ with h | h
      · rw [h, hlid]; exact Nat.ne_of_lt hflid
      · exact Nat.ne_of_lt (hfbody J h))
    simp only [eraseInst] at e1 e2 ⊢
    simp only [mapInsts_append, mapInsts_cons, e1, e2, eraseIn_append, e3, e4]
    simp [eraseIn]
  have hbpre : ∀ c ∈ pre, c.id ≠ b := by
    intro c hc heq
    simp only [List.map_append, List.map_cons] at hUB
    rw [List.nodup_append] at hUB
    exact hUB.2.2 (List.mem_map_of_mem _ hc) (by rw [heq]; exact List.mem_cons_self _ _)
  have hbpost : ∀ c ∈ post, c.id ≠ b := by
    intro c hc heq
    simp only [List.map_append, List.map_cons] at hUB
    rw [List.nodup_append, List.nodup_cons] at hUB
    exact hUB.2.1.1 (by rw [← heq]; exact List.mem_map_of_mem _ hc)
  have hbnb : nb ≠ b := Nat.ne_of_gt (hFB ⟨b, nm, before ++ LPI :: body⟩ (by simp))
  have h6 : ∀ CSI : Instruction, insertAtEnd b [CSI]
      (pre ++ ⟨b, nm, before⟩ :: ⟨nb, "catch", LPI :: body⟩ :: post) =
      pre ++ ⟨b, nm, before ++ [CSI]⟩ :: ⟨nb, "catch", LPI :: body⟩ :: post := by
    intro CSI
    simp only [insertAtEnd_append, insertAtEnd_cons, insertAtEnd_of_not_mem b [CSI] pre hbpre,
      insertAtEnd_of_not_mem b [CSI] post hbpost, if_true, if_neg hbnb]
  have h7 : ∀ (CSI : Instruction) (B new : List Instruction), CSI.id = n + 1 →
      (∀ J ∈ B, J.id ≠ lid) →
      insertBefore lid new
        (pre ++ ⟨b, nm, before ++ [CSI]⟩ :: ⟨nb, "catch", B ++ LPI :: body⟩ :: post) =
      pre ++ ⟨b, nm, before ++ [CSI]⟩ :: ⟨nb, "catch", B ++ (new ++ LPI :: body)⟩ :: post := by
    intro CSI B new hCSI hB
    rw [← hlid] at hB ⊢
    refine insertBefore_at pre post b nb nm "catch" _ B body new LPI hpre ?_ hB hbody hpost
    intro J hJ
    rcases List.mem_append.mp hJ with h | h
    · exact hbefore J h
    · rw [List.mem_singleton.mp h, hCSI, hlid]
      exact Nat.ne_of_gt (Nat.lt_succ_of_lt hflid)
  have hfreshc : ∀ c ∈ r.calls, c < n + 4 := by
    intro c hc
    obtain ⟨I, hI, hIc⟩ := hfound c hc
    have := hFI I (by simpa using hI)
    rw [hIc] at this
    exact Nat.lt_add_right 4 this
  have hsf := fun X hX => setFunclets_eq (n + 2) r.calls X (n + 4) hcalls hX hfreshc
  have h7a : ∀ (ud : Option BlockId) (new : List Instruction), insertBefore lid new
      (pre ++ ⟨b, nm, before ++ [⟨n + 1, InstKind.catchSwitch ud [nb], [LValue.tokenNone], []⟩]⟩ ::
        ⟨nb, "catch", LPI :: body⟩ :: post) =
      pre ++ ⟨b, nm, before ++ [⟨n + 1, InstKind.catchSwitch ud [nb], [LValue.tokenNone], []⟩]⟩ ::
        ⟨nb, "catch", new ++ LPI :: body⟩ :: post := by
    intro ud new
    have := h7 ⟨n + 1, InstKind.catchSwitch ud [nb], [LValue.tokenNone], []⟩ [] new rfl (by simp)
    simpa using this
  have h7b : ∀ (ud : Option BlockId) (args : List LValue) (new : List Instruction),
      insertBefore lid new
      (pre ++ ⟨b, nm, before ++ [⟨n + 1, InstKind.catchSwitch ud [nb], [LValue.tokenNone], []⟩]⟩ ::
        ⟨nb, "catch", ⟨n + 2, InstKind.catchPad (n + 1), args, []⟩ :: LPI :: body⟩ :: post) =
      pre ++ ⟨b, nm, before ++ [⟨n + 1, InstKind.catchSwitch ud [nb], [LValue.tokenNone], []⟩]⟩ ::
        ⟨nb, "catch", ⟨n + 2, InstKind.catchPad (n + 1), args, []⟩ :: (new ++ LPI :: body)⟩ ::
          post := by
    intro ud args new
    have := h7 ⟨n + 1, InstKind.catchSwitch ud [nb], [LValue.tokenNone], []⟩
      [⟨n + 2, InstKind.catchPad (n + 1), args, []⟩] new rfl (by
        intro J hJ
        rw [List.mem_singleton.mp hJ]
        exact Nat.ne_of_gt (Nat.lt_add_right 2 hflid))
    simpa using this
  have hsub : ∀ (ud : Option BlockId) (args : List LValue) (new : List Instruction),
      ∀ I ∈ instructions pre ++ (before ++ LPI :: (body ++ instructions post)),
      I ∈ instructions
        (pre ++ ⟨b, nm, before ++ [⟨n + 1, InstKind.catchSwitch ud [nb], [LValue.tokenNone], []⟩]⟩ ::
        ⟨nb, "catch", ⟨n + 2, InstKind.catchPad (n + 1), args, []⟩ :: (new ++ LPI :: body)⟩ ::
          post) := by
    intro ud args new I hI
    simp only [instructions_append, instructions_cons, List.mem_append, List.mem_cons,
      List.mem_singleton] at hI ⊢
    tauto
  subst hL
  rcases hcatch with ⟨t, rfl, rfl, rfl⟩ | ⟨hnn, s, pty, v, ptr, bs, hs, hS, rfl, rfl⟩
  · have hX : ∀ ud args new, setFunclets (n + 2) r.calls
        (pre ++ ⟨b, nm, before ++ [⟨n + 1, InstKind.catchSwitch ud [nb], [LValue.tokenNone], []⟩]⟩ ::
        ⟨nb, "catch", ⟨n + 2, InstKind.catchPad (n + 1), args, []⟩ ::
          (new ++ ⟨lid, InstKind.landingPad (true :: cs), LValue.nullPtr t :: vs, lb⟩ :: body)⟩ ::
          post) (n + 4) = some (mapInsts (setFuncletsIn (n + 2) r.calls (n + 4))
        (pre ++ ⟨b, nm, before ++ [⟨n + 1, InstKind.catchSwitch ud [nb], [LValue.tokenNone], []⟩]⟩ ::
        ⟨nb, "catch", ⟨n + 2, InstKind.catchPad (n + 1), args, []⟩ ::
          (new ++ ⟨lid, InstKind.landingPad (true :: cs), LValue.nullPtr t :: vs, lb⟩ :: body)⟩ ::
          post), n + 4 + r.calls.length) := by
      intro ud args new
      apply hsf
      intro c hc
      obtain ⟨I, hI, hIc⟩ := hfound c hc
      exact ⟨I, hsub ud args new I (by simpa using hI), hIc⟩
    have hX1 := fun ud args => hX ud args [mkIntrinsicCall (n + 3) "llvm.stacksave" []]
    have hX0 := fun ud args => hX ud args []
    simp only [List.singleton_append, List.nil_append] at hX1 hX0
    simp only [beginOfCatch, hlp, Option.some_bind, h1, h2, h3, h4]
    rcases hud with ⟨hu, rfl⟩ | ⟨II, inv, callee, normalDest, unwindDest, hu, hinv, hkind, rfl⟩
    · cases hAl : r.hasAlloca <;>
        simp [hu, h6, h7a, h7b, hX1, hX0, hlp]
    · cases hAl : r.hasAlloca <;>
        simp [hu, hinv, hkind, h6, h7a, h7b, hX1, hX0, hlp]
  · obtain ⟨hSmem, -⟩ := mem_of_findInst _ _ _ hS
    have hsn : s < n := hFI ⟨s, InstKind.store pty, [v, ptr], bs⟩ (by simpa using hSmem)
    have hls : lid ≠ s := by
      intro h
      rw [← h, h1] at hS
      cases hS
    have hnc : ∀ c ∈ r.calls, c ≠ s := by
      intro c hc h
      exact hstore s hs (h ▸ hc)
    have h8 : ∀ ud, findInst
        (pre ++ ⟨b, nm, before ++ [⟨n + 1, InstKind.catchSwitch ud [nb], [LValue.tokenNone], []⟩]⟩ ::
          ⟨nb, "catch", ⟨lid, InstKind.landingPad (true :: cs), value :: vs, lb⟩ :: body⟩ :: post) s
        = some ⟨s, InstKind.store pty, [v, ptr], bs⟩ := by
      intro ud
      rw [← hS]
      simp only [findInst, instructions_append, instructions_cons, List.append_assoc]
      rw [← List.append_assoc (instructions pre) before, List.singleton_append,
        find?_append_singleton_append]
      · simp
      · simpa using Nat.ne_of_gt (Nat.lt_succ_of_lt hsn)
    have hX : ∀ ud args new, setFunclets (n + 2) r.calls
        (mapInsts (eraseIn s)
        (pre ++ ⟨b, nm, before ++ [⟨n + 1, InstKind.catchSwitch ud [nb], [LValue.tokenNone], []⟩]⟩ ::
        ⟨nb, "catch", ⟨n + 2, InstKind.catchPad (n + 1), args, []⟩ ::
          (new ++ ⟨lid, InstKind.landingPad (true :: cs), value :: vs, lb⟩ :: body)⟩ ::
          post)) (n + 4) = some (mapInsts (fun l => setFuncletsIn (n + 2) r.calls (n + 4) (eraseIn s l))
        (pre ++ ⟨b, nm, before ++ [⟨n + 1, InstKind.catchSwitch ud [nb], [LValue.tokenNone], []⟩]⟩ ::
        ⟨nb, "catch", ⟨n + 2, InstKind.catchPad (n + 1), args, []⟩ ::
          (new ++ ⟨lid, InstKind.landingPad (true :: cs), value :: vs, lb⟩ :: body)⟩ ::
          post), n + 4 + r.calls.length) := by
      intro ud args new
      rw [← mapInsts_mapInsts (setFuncletsIn (n + 2) r.calls (n + 4)) (eraseIn s)]
      apply hsf
      intro c hc
      obtain ⟨I, hI, hIc⟩ := hfound c hc
      refine ⟨I, ?_, hIc⟩
      rw [instructions_mapInsts_eraseIn]
      simp only [eraseIn, List.mem_filter]
      refine ⟨hsub ud args new I (by simpa using hI), ?_⟩
      simpa [hIc] using hnc c hc
    have hX1 := fun ud args => hX ud args [mkIntrinsicCall (n + 3) "llvm.stacksave" []]
    have hX0 := fun ud args => hX ud args []
    have hcomm := fun X => insertBefore_eraseInst lid s
      [mkIntrinsicCall (n + 3) "llvm.stacksave" []] X hls (by
        intro J hJ
        rw [List.mem_singleton.mp hJ]
        exact Nat.ne_of_gt (Nat.lt_add_right 3 hsn))
    simp only [List.singleton_append, List.nil_append] at hX1 hX0
    simp only [beginOfCatch, hlp, Option.some_bind, h1, h2, h3, h4]
    cases value with
    | nullPtr t => exact absurd rfl (hnn t)
    | _ =>
      rcases hud with ⟨hu, rfl⟩ | ⟨II, inv, callee, normalDest, unwindDest, hu, hinv, hkind, rfl⟩
      · cases hAl : r.hasAlloca <;>
          simp only [hu, h6, h7a, h7b, hX1, hX0, hs, h8, eraseInst, hcomm, Option.some_bind,
            if_true, Bool.false_eq_true, if_false, List.singleton_append, List.nil_append]
      · cases hAl : r.hasAlloca <;>
          simp only [hu, hinv, hkind, Option.map_some', h6, h7a, h7b, hX1, hX0, hs, h8, eraseInst,
            hcomm, Option.some_bind, if_true, Bool.false_eq_true, if_false,
            List.singleton_append, List.nil_append]
/-! ## The end of a catch in closed form -/

theorem insertBefore_at1 (pre post : List BasicBlock) (b : BlockId) (nm : String)
    (before after new : List Instruction) (I : Instruction)
    (hpre : ∀ J ∈ instructions pre, J.id ≠ I.id) (hbefore : ∀ J ∈ before, J.id ≠ I.id)
    (hafter : ∀ J ∈ after, J.id ≠ I.id) (hpost : ∀ J ∈ instructions post, J.id ≠ I.id) :
    insertBefore I.id new (pre ++ ⟨b, nm, before ++ I :: after⟩ :: post) =
      pre ++ ⟨b, nm, before ++ (new ++ I :: after)⟩ :: post := by
  have e1 := insertBefore_of_not_mem I.id new pre hpre
  have e2 := insertBefore_of_not_mem I.id new post hpost
  simp only [insertBefore] at e1 e2 ⊢
  simp only [mapInsts_append, mapInsts_cons, e1, e2, insertBeforeIn_append,
    insertBeforeIn_of_not_mem I.id new before hbefore,
    insertBeforeIn_cons_self new I after hafter]

theorem insertAtEnd_at (pre post : List BasicBlock) (b : BlockId) (nm : String)
    (insts new : List Instruction)
    (hpre : ∀ c ∈ pre, c.id ≠ b) (hpost : ∀ c ∈ post, c.id ≠ b) :
    insertAtEnd b new (pre ++ ⟨b, nm, insts⟩ :: post) = pre ++ ⟨b, nm, insts ++ new⟩ :: post := by
  simp only [insertAtEnd_append, insertAtEnd_cons, insertAtEnd_of_not_mem b new pre hpre,
    insertAtEnd_of_not_mem b new post hpost, if_true]

theorem blockIds_ne_of_nodup (pre post : List BasicBlock) (blk : BasicBlock)
    (h : ((pre ++ blk :: post).map BasicBlock.id).Nodup) :
    (∀ c ∈ pre, c.id ≠ blk.id) ∧ (∀ c ∈ post, c.id ≠ blk.id) := by
  simp only [List.map_append, List.map_cons] at h
  rw [List.nodup_append, List.nodup_cons] at h
  constructor
  · intro c hc heq
    exact h.2.2 (List.mem_map_of_mem _ hc) (by rw [heq]; exact List.mem_cons_self _ _)
  · intro c hc heq
    exact h.2.1.1 (by rw [← heq]; exact List.mem_map_of_mem _ hc)

theorem instIds_ne_of_nodup (pre post : List BasicBlock) (b : BlockId) (nm : String)
    (before after : List Instruction) (I : Instruction)
    (h : ((instructions (pre ++ ⟨b, nm, before ++ I :: after⟩ :: post)).map
      Instruction.id).Nodup) :
    (∀ J ∈ instructions pre, J.id ≠ I.id) ∧ (∀ J ∈ before, J.id ≠ I.id) ∧
      (∀ J ∈ after, J.id ≠ I.id) ∧ (∀ J ∈ instructions post, J.id ≠ I.id) := by
  simp only [instructions_append, instructions_cons, List.append_assoc, List.cons_append] at h
  have h1 : ((((instructions pre) ++ before) ++ I :: (after ++ instructions post)).map
      Instruction.id).Nodup := by simpa using h
  obtain ⟨hA, hB⟩ := ne_of_nodup_append_cons _ _ _ h1
  exact ⟨fun J hJ => hA J (by simp [hJ]), fun J hJ => hA J (by simp [hJ]),
    fun J hJ => hB J (by simp [hJ]), fun J hJ => hB J (by simp [hJ])⟩

/-- The end of a catch whose last instruction is a branch or an invoke: the stack
is restored right before that instruction when the region allocates, and the
catch return is appended to its block. -/
theorem endOfCatch_eq_terminator (st : PassState) (r : CatchRegion) (pre post : List BasicBlock)
    (b : BlockId) (nm : String) (before after : List Instruction) (I : Instruction)
    (pad : InstId) (retBlock : BlockId)
    (hblocks : st.F.blocks = pre ++ ⟨b, nm, before ++ I :: after⟩ :: post)
    (hend : r.end_ = some I.id)
    (hU : ((instructions st.F.blocks).map Instruction.id).Nodup)
    (hUB : (st.F.blocks.map BasicBlock.id).Nodup)
    (hkind : (∃ rest, I.kind = InstKind.br (retBlock :: rest)) ∨
      (∃ callee unwindDest, I.kind = InstKind.invoke callee retBlock unwindDest))
    (hpad : r.catchPad = some pad)
    (hstack : r.hasAlloca = true → r.stack.isSome = true) :
    endOfCatch st r = some
      { F := {
          blocks := pre ++ ⟨b, nm, before ++
            ((if r.hasAlloca then
                [mkIntrinsicCall st.F.nextInst "llvm.stackrestore" r.stack.toList]
              else []) ++ I :: after ++
            [⟨st.F.nextInst + 1, InstKind.catchRet pad retBlock, [], []⟩])⟩ :: post
          nextBlock := st.F.nextBlock
          nextInst := st.F.nextInst + 2 }
        toRemoveWorkSet :=
          if I.isBranch then st.toRemoveWorkSet ++ [I.id] else st.toRemoveWorkSet } := by
  rcases st with ⟨⟨blocks, nb, n⟩, toRemove⟩
  simp only at hblocks hU hUB ⊢
  subst hblocks
  obtain ⟨hpre, hbefore, hafter, hpost⟩ := instIds_ne_of_nodup pre post b nm before after I hU
  obtain ⟨hbpre, hbpost⟩ := blockIds_ne_of_nodup pre post _ hUB
  have h1 := findInst_eq pre post ⟨b, nm, before ++ I :: after⟩ before after I rfl hpre hbefore
  have h2 := parentOf_eq pre post ⟨b, nm, before ++ I :: after⟩ before after I rfl hpre
  have h3 := fun new => insertBefore_at1 pre post b nm before after new I hpre hbefore hafter hpost
  have h4 := fun insts new => insertAtEnd_at pre post b nm insts new hbpre hbpost
  have hst : r.hasAlloca = true → ¬ r.stack = none := by
    intro hA hs
    have := hstack hA
    rw [hs] at this
    cases this
  simp only [endOfCatch, hend, Option.some_bind, h1, h2]
  rcases hkind with ⟨rest, hk⟩ | ⟨callee, unwindDest, hk⟩
  · cases hA : r.hasAlloca
    · simp [hk, hpad, h3, h4, Instruction.isBranch]
    · simp [hk, hst hA, hpad, h3, h4, Instruction.isBranch]
  · cases hA : r.hasAlloca
    · simp [hk, hpad, h3, h4, Instruction.isBranch]
    · simp [hk, hst hA, hpad, h3, h4, Instruction.isBranch]

/-- The end of a catch whose last instruction is neither a branch nor an invoke:
the block is split before that instruction, the stack is restored right before
the new branch when the region allocates, and the catch return is appended to
the first half. -/
theorem endOfCatch_eq_split (st : PassState) (r : CatchRegion) (pre post : List BasicBlock)
    (b : BlockId) (nm : String) (before after : List Instruction) (I : Instruction)
    (pad : InstId)
    (hblocks : st.F.blocks = pre ++ ⟨b, nm, before ++ I :: after⟩ :: post)
    (hend : r.end_ = some I.id)
    (hU : ((instructions st.F.blocks).map Instruction.id).Nodup)
    (hUB : (st.F.blocks.map BasicBlock.id).Nodup)
    (hFI : ∀ J ∈ instructions st.F.blocks, J.id < st.F.nextInst)
    (hFB : ∀ c ∈ st.F.blocks, c.id < st.F.nextBlock)
    (hkind : I.isBranch = false ∧ I.isInvoke = false)
    (hpad : r.catchPad = some pad)
    (hstack : r.hasAlloca = true → r.stack.isSome = true) :
    endOfCatch st r = some
      { F := {
          blocks := pre ++ ⟨b, nm, before ++
            ((if r.hasAlloca then
                [mkIntrinsicCall (st.F.nextInst + 1) "llvm.stackrestore" r.stack.toList]
              else []) ++
            [⟨st.F.nextInst, InstKind.br [st.F.nextBlock], [], []⟩,
             ⟨st.F.nextInst + 2, InstKind.catchRet pad st.F.nextBlock, [], []⟩])⟩ ::
            ⟨st.F.nextBlock, "end.of.exception", I :: after⟩ :: post
          nextBlock := st.F.nextBlock + 1
          nextInst := st.F.nextInst + 3 }
        toRemoveWorkSet := st.toRemoveWorkSet ++ [st.F.nextInst] } := by
  rcases st with ⟨⟨blocks, nb, n⟩, toRemove⟩
  simp only at hblocks hU hUB hFI hFB ⊢
  subst hblocks
  obtain ⟨hpre, hbefore, hafter, hpost⟩ := instIds_ne_of_nodup pre post b nm before after I hU
  obtain ⟨hbpre, hbpost⟩ := blockIds_ne_of_nodup pre post _ hUB
  have h1 := findInst_eq pre post ⟨b, nm, before ++ I :: after⟩ before after I rfl hpre hbefore
  have h2 := parentOf_eq pre post ⟨b, nm, before ++ I :: after⟩ before after I rfl hpre
  have h3 := splitBasicBlock_eq pre post b nm before after I "end.of.exception" nb n hpre hbefore
  simp only [instructions_append, instructions_cons, List.mem_append, List.mem_cons] at hFI
  have h4 := fun new => insertBefore_at1 pre (⟨nb, "end.of.exception", I :: after⟩ :: post) b nm
    before [] new ⟨n, InstKind.br [nb], [], []⟩
    (fun J hJ => Nat.ne_of_lt (hFI J (Or.inl hJ)))
    (fun J hJ => Nat.ne_of_lt (hFI J (Or.inr (Or.inl (Or.inl hJ)))))
    (fun J hJ => by cases hJ)
    (by
      intro J hJ
      simp only [instructions_cons, List.mem_append, List.mem_cons] at hJ
      apply Nat.ne_of_lt
      apply hFI
      tauto)
  have hbnb : nb ≠ b := Nat.ne_of_gt (hFB ⟨b, nm, before ++ I :: after⟩ (by simp))
  have h5 := fun insts new => insertAtEnd_at pre (⟨nb, "end.of.exception", I :: after⟩ :: post)
    b nm insts new hbpre (by
      intro c hc
      rcases List.mem_cons.mp hc with h | h
      · rw [h]; exact hbnb
      · exact hbpost c h)
  have hst : r.hasAlloca = true → ¬ r.stack = none := by
    intro hA hs
    have := hstack hA
    rw [hs] at this
    cases this
  simp only [endOfCatch, hend, Option.some_bind, h1, h2]
  rcases I with ⟨id, kind, ops, bundles⟩
  simp only [Instruction.isBranch, Instruction.isInvoke] at hkind
  cases kind with
  | br l => simp at hkind
  | invoke c nd u => simp at hkind
  | _ =>
    cases hA : r.hasAlloca
    · simp [hpad, h3, h4, h5]
    · simp [hst hA, hpad, h3, h4, h5]
/-! ## The catch switch -/

theorem setFuncletsIn_tokenNone (pad : InstId) (calls : List InstId) (n id : InstId)
    (kind : InstKind) (h : ∀ c ∈ calls, c ≠ id) :
    setFuncletsIn pad calls n [⟨id, kind, [LValue.tokenNone], []⟩] =
      [⟨id, kind, [LValue.tokenNone], []⟩] := by
  induction calls generalizing n with
  | nil => rfl
  | cons c calls ih =>
    have hc : id ≠ c := fun e => h c (List.mem_cons_self _ _) e.symm
    simp only [setFuncletsIn, setFuncletIn, List.map_cons, List.map_nil, hc, if_false,
      Instruction.replaceUses]
    simpa using ih (n + 1) (fun d hd => h d (List.mem_cons_of_mem _ hd))

theorem getElem?_append_cons_length (l more : List CatchRegion) (r : CatchRegion) :
    (l ++ r :: more)[l.length]? = some r := by
  rw [List.getElem?_append_right (Nat.le_refl _)]
  simp

/-- C30: let `r` be the region scan 1 records for the landing pad `LPI`, which is
followed by the instructions `seg` of the region (up to the next landing pad or
call of `__cxa_end_catch`).  In a state of pass 2 whose function holds `LPI` in
the block `b` after the instructions `before`, the body of the loop succeeds and
splits that block right before `LPI`: the first half keeps the identity and the
name of the block and the instructions `before`, and ends with a catch switch;
the landing pad and what follows it move to the new block `catch`, which comes
next.  The unwind destination of the catch switch is that of the first invoke
of `seg`, none (unwind to caller) when `seg` has no invoke; its handlers are the
new block alone. -/
theorem catch_switch_of_region (s0 s1 : ScanState) (LPI : Instruction)
    (seg tail : List Instruction) (r : CatchRegion) (st : PassState)
    (pre post : List BasicBlock) (b : BlockId) (nm : String) (before body : List Instruction)
    (cs : List Bool) (value : LValue) (vs args : List LValue)
    (er : List Instruction → List Instruction)
    (hkind : LPI.kind = InstKind.landingPad (true :: cs))
    (hops : LPI.operands = value :: vs)
    (hI : ∀ I ∈ seg, I.isLandingPad = false)
    (hEseg : ∀ I ∈ seg, ¬ (I.isCall = true ∧ I.calledFunction = some "__cxa_end_catch"))
    (htail : ∀ I, tail.head? = some I → I.isLandingPad = true ∨
      (I.isCall = true ∧ I.calledFunction = some "__cxa_end_catch"))
    (hscan : scanInstructions s0 (LPI :: (seg ++ tail)) = some s1)
    (hr : s1.catchRegionsWorkSet[s0.catchRegionsWorkSet.length]? = some r)
    (hblocks : st.F.blocks = pre ++ ⟨b, nm, before ++ LPI :: body⟩ :: post)
    (hU : ((instructions st.F.blocks).map Instruction.id).Nodup)
    (hUB : (st.F.blocks.map BasicBlock.id).Nodup)
    (hFI : ∀ I ∈ instructions st.F.blocks, I.id < st.F.nextInst)
    (hFB : ∀ c ∈ st.F.blocks, c.id < st.F.nextBlock)
    (hinvoke : ∀ I, seg.find? Instruction.isInvoke = some I →
      ∃ J, findInst st.F.blocks I.id = some J ∧ J.kind = I.kind)
    (hcatch : (∃ t, value = LValue.nullPtr t ∧
        args = [LValue.nullPtr (LType.integer 8), LValue.constInt 32 64,
          LValue.nullPtr (LType.integer 8)] ∧ er = fun l => l) ∨
      ((∀ t, value ≠ LValue.nullPtr t) ∧ ∃ s pty v ptr bs, r.store = some s ∧
        findInst st.F.blocks s = some ⟨s, InstKind.store pty, [v, ptr], bs⟩ ∧
        args = [value, LValue.constInt 32 (getTypeNumber pty), ptr] ∧ er = eraseIn s))
    (hcalls : r.calls.Nodup)
    (hfound : ∀ c ∈ r.calls, ∃ I ∈ instructions st.F.blocks, I.id = c)
    (hstore : ∀ s, r.store = some s → s ∉ r.calls) :
    ∃ st1 r1, beginOfCatch st r = some (st1, r1) ∧
      st1.F.blocks =
        mapInsts (fun l => setFuncletsIn (st.F.nextInst + 2) r.calls (st.F.nextInst + 4) (er l))
          pre ++
        ⟨b, nm, setFuncletsIn (st.F.nextInst + 2) r.calls (st.F.nextInst + 4) (er before) ++
          [⟨st.F.nextInst + 1,
            InstKind.catchSwitch ((seg.find? Instruction.isInvoke).bind Instruction.unwindDest)
              [st.F.nextBlock],
            [LValue.tokenNone], []⟩]⟩ ::
        ⟨st.F.nextBlock, "catch",
          setFuncletsIn (st.F.nextInst + 2) r.calls (st.F.nextInst + 4)
            (er (⟨st.F.nextInst + 2, InstKind.catchPad (st.F.nextInst + 1), args, []⟩ ::
              ((if r.hasAlloca then [mkIntrinsicCall (st.F.nextInst + 3) "llvm.stacksave" []]
                else []) ++ LPI :: body)))⟩ ::
        mapInsts (fun l => setFuncletsIn (st.F.nextInst + 2) r.calls (st.F.nextInst + 4) (er l))
          post := by
  obtain ⟨r0, more, hregions, hlp, -, -, hu, -, -⟩ :=
    scan_open_region s0 s1 LPI seg tail (by simp [Instruction.isLandingPad, hkind]) hI hEseg
      htail hscan
  rw [hregions, getElem?_append_cons_length, Option.some.injEq] at hr
  subst hr
  rcases LPI with ⟨lid, kind, ops, lb⟩
  simp only at hkind hops hlp
  subst hkind hops
  have hud : (r0.unwindInfoOp = none ∧
        (seg.find? Instruction.isInvoke).bind Instruction.unwindDest = none) ∨
      ∃ II inv callee normalDest unwindDest, r0.unwindInfoOp = some II ∧
        findInst st.F.blocks II = some inv ∧
        inv.kind = InstKind.invoke callee normalDest unwindDest ∧
        (seg.find? Instruction.isInvoke).bind Instruction.unwindDest = some unwindDest := by
    cases hf : seg.find? Instruction.isInvoke with
    | none =>
      left
      rw [hu, hf]
      exact ⟨rfl, rfl⟩
    | some I =>
      right
      obtain ⟨J, hJ, hJk⟩ := hinvoke I hf
      have hIi : I.isInvoke = true := List.find?_some hf
      rcases I with ⟨iid, ikind, iops, ib⟩
      cases ikind <;> simp [Instruction.isInvoke] at hIi
      rename_i callee normalDest unwindDest
      exact ⟨iid, J, callee, normalDest, unwindDest, by rw [hu, hf]; rfl, hJ, hJk, rfl⟩
  have hsn : ∀ s pty v ptr bs,
      findInst st.F.blocks s = some ⟨s, InstKind.store pty, [v, ptr], bs⟩ →
      s < st.F.nextInst := by
    intro s pty v ptr bs hS
    exact hFI _ (mem_of_findInst _ _ _ hS).1
  have hfresh : ∀ c ∈ r0.calls, c ≠ st.F.nextInst + 1 := by
    intro c hc
    obtain ⟨I, hI, hIc⟩ := hfound c hc
    have := hFI I hI
    rw [hIc] at this
    exact Nat.ne_of_lt (Nat.lt_succ_of_lt this)
  have hCSI : ∀ ud, setFuncletsIn (st.F.nextInst + 2) r0.calls (st.F.nextInst + 4)
      (er [⟨st.F.nextInst + 1, InstKind.catchSwitch ud [st.F.nextBlock],
        [LValue.tokenNone], []⟩]) =
      [⟨st.F.nextInst + 1, InstKind.catchSwitch ud [st.F.nextBlock],
        [LValue.tokenNone], []⟩] := by
    intro ud
    have her : er [⟨st.F.nextInst + 1, InstKind.catchSwitch ud [st.F.nextBlock],
        [LValue.tokenNone], []⟩] = [⟨st.F.nextInst + 1, InstKind.catchSwitch ud [st.F.nextBlock],
        [LValue.tokenNone], []⟩] := by
      rcases hcatch with ⟨t, -, -, rfl⟩ | ⟨-, s, pty, v, ptr, bs, -, hS, -, rfl⟩
      · rfl
      · apply eraseIn_of_not_mem
        intro J hJ
        rw [List.mem_singleton.mp hJ]
        exact Nat.ne_of_gt (Nat.lt_succ_of_lt (hsn s pty v ptr bs hS))
    rw [her]
    exact setFuncletsIn_tokenNone _ _ _ _ _ hfresh
  have herapp : ∀ l1 l2, er (l1 ++ l2) = er l1 ++ er l2 := by
    intro l1 l2
    rcases hcatch with ⟨t, -, -, rfl⟩ | ⟨-, s, pty, v, ptr, bs, -, hS, -, rfl⟩
    · rfl
    · exact eraseIn_append s l1 l2
  refine ⟨_, _, beginOfCatch_eq st r0 pre post b nm before body lid cs value vs lb _ args er
    hblocks hlp hU hUB hFI hFB hud hcatch hcalls hfound hstore, ?_⟩
  simp only [mapInsts_append, mapInsts_cons, herapp, setFuncletsIn_append, hCSI]
/-! ## The funclet bundle -/

/-- An instruction that is none of the calls keeps its identity and its kind in
the loop `set funcset`; it keeps an empty list of bundles, and a bundle
`funclet` with the catch pad. -/
theorem setFuncletsIn_other (pad : InstId) (calls : List InstId) (m : InstId) (J : Instruction)
    (hJ : J.id ∉ calls) :
    ∃ J1, setFuncletsIn pad calls m [J] = [J1] ∧ J1.id = J.id ∧ J1.kind = J.kind ∧
      (J.bundles = [] → J1.bundles = []) ∧
      (pad ∉ calls → J.bundles = [("funclet", [LValue.inst pad])] →
        J1.bundles = [("funclet", [LValue.inst pad])]) := by
  induction calls generalizing m J with
  | nil => exact ⟨J, rfl, rfl, rfl, fun h => h, fun _ h => h⟩
  | cons c calls ih =>
    have hc : J.id ≠ c := fun e => hJ (e ▸ List.mem_cons_self _ _)
    obtain ⟨J1, h1, hid, hk, hb0, hbf⟩ := ih (m + 1) (J.replaceUses c m)
      (fun h => hJ (List.mem_cons_of_mem _ h))
    refine ⟨J1, ?_, hid, hk, ?_, ?_⟩
    · simp only [setFuncletsIn, setFuncletIn, List.map_cons, List.map_nil, hc, if_false]
      exact h1
    · intro h
      exact hb0 (by simp [Instruction.replaceUses, h])
    · intro hp h
      have hpc : pad ≠ c := fun e => hp (e ▸ List.mem_cons_self _ _)
      exact hbf (fun hm => hp (List.mem_cons_of_mem _ hm))
        (by simp [Instruction.replaceUses, h, hpc])

/-- The identities after the loop `set funcset`: those before it, or new ones. -/
theorem setFuncletsIn_ids (pad : InstId) (calls : List InstId) (m : InstId)
    (l : List Instruction) (J : Instruction) (hJ : J ∈ setFuncletsIn pad calls m l) :
    (∃ I ∈ l, J.id = I.id) ∨ m ≤ J.id := by
  induction calls generalizing m l with
  | nil => exact Or.inl ⟨J, hJ, rfl⟩
  | cons c calls ih =>
    rcases ih (m + 1) _ hJ with ⟨I1, hI1, hid⟩ | h
    · simp only [setFuncletIn, List.mem_map] at hI1
      obtain ⟨I, hI, rfl⟩ := hI1
      by_cases hc : I.id = c
      · right
        rw [hid, if_pos hc]
      · left
        refine ⟨I, hI, ?_⟩
        rw [hid, if_neg hc]
        rfl
    · exact Or.inr (Nat.le_of_succ_le h)

theorem mem_instructions_mapInsts (f : List Instruction → List Instruction)
    (bs : List BasicBlock) (J : Instruction) :
    J ∈ instructions (mapInsts f bs) ↔ ∃ b ∈ bs, J ∈ f b.insts := by
  simp [instructions, mapInsts]

/-- A change of the instruction lists that goes instruction by instruction takes
each instruction of the function to its images. -/
theorem mem_instructions_mapInsts_of_append (f : List Instruction → List Instruction)
    (hf : ∀ l1 l2, f (l1 ++ l2) = f l1 ++ f l2) (bs : List BasicBlock) (I J : Instruction)
    (hI : I ∈ instructions bs) (hJ : J ∈ f [I]) : J ∈ instructions (mapInsts f bs) := by
  obtain ⟨b, hb, hIb⟩ := (mem_instructions I bs).mp hI
  obtain ⟨l1, l2, hl⟩ := List.append_of_mem hIb
  refine (mem_instructions_mapInsts f bs J).mpr ⟨b, hb, ?_⟩
  have : I :: l2 = [I] ++ l2 := rfl
  rw [hl, this, hf, hf]
  exact List.mem_append_right _ (List.mem_append_left _ hJ)
theorem mem_insertBeforeIn (x : InstId) (new l : List Instruction) (J : Instruction)
    (h : J ∈ insertBeforeIn x new l) : J ∈ l ∨ J ∈ new := by
  simp only [insertBeforeIn, List.mem_flatMap] at h
  obtain ⟨I, hI, hJ⟩ := h
  split at hJ
  · rcases List.mem_append.mp hJ with h1 | h1
    · exact Or.inr h1
    · exact Or.inl (List.mem_singleton.mp h1 ▸ hI)
  · exact Or.inl (List.mem_singleton.mp hJ ▸ hI)

theorem mem_instructions_insertBefore (x : InstId) (new : List Instruction)
    (bs : List BasicBlock) (J : Instruction) (h : J ∈ instructions (insertBefore x new bs)) :
    J ∈ instructions bs ∨ J ∈ new := by
  obtain ⟨b, hb, hJ⟩ := (mem_instructions_mapInsts _ bs J).mp h
  rcases mem_insertBeforeIn x new b.insts J hJ with h1 | h1
  · exact Or.inl ((mem_instructions J bs).mpr ⟨b, hb, h1⟩)
  · exact Or.inr h1

theorem mem_instructions_insertAtEnd (block : BlockId) (new : List Instruction)
    (bs : List BasicBlock) (J : Instruction) (h : J ∈ instructions (insertAtEnd block new bs)) :
    J ∈ instructions bs ∨ J ∈ new := by
  induction bs with
  | nil => exact Or.inl h
  | cons b bs ih =>
    rw [insertAtEnd_cons, instructions_cons, List.mem_append] at h
    rw [instructions_cons, List.mem_append]
    rcases h with h | h
    · split at h
      · rcases List.mem_append.mp h with h1 | h1
        · exact Or.inl (Or.inl h1)
        · exact Or.inr h1
      · exact Or.inl (Or.inl h)
    · rcases ih h with h1 | h1
      · exact Or.inl (Or.inr h1)
      · exact Or.inr h1

theorem mem_instructions_splitBasicBlock (x : InstId) (name : String) (newBlock : BlockId)
    (br : InstId) (bs : List BasicBlock) (J : Instruction)
    (h : J ∈ instructions (splitBasicBlock x name newBlock br bs)) :
    J ∈ instructions bs ∨ J = ⟨br, InstKind.br [newBlock], [], []⟩ := by
  induction bs with
  | nil => exact Or.inl h
  | cons b bs ih =>
    simp only [splitBasicBlock] at h
    rw [instructions_cons, List.mem_append]
    split at h
    · simp only [instructions_cons, List.mem_append, List.mem_singleton] at h
      rcases h with (h | h) | h | h
      · exact Or.inl (Or.inl ((List.takeWhile_prefix _).subset h))
      · exact Or.inr h
      · exact Or.inl (Or.inl ((List.dropWhile_suffix _).subset h))
      · exact Or.inl (Or.inr h)
    · rw [instructions_cons, List.mem_append] at h
      rcases h with h | h
      · exact Or.inl (Or.inl h)
      · rcases ih h with h1 | h1
        · exact Or.inl (Or.inr h1)
        · exact Or.inr h1

/-- Witness of C30: the region of `catchAll`; the first invoke of the region is
the invoke 12 of `bar`, whose unwind destination is block 4. -/
theorem catch_switch_of_region_witness :
    ∃ st1 r1, beginOfCatch { F := ExceptionExample.catchAll, toRemoveWorkSet := [13] }
        ExceptionExample.catchAllRegion = some (st1, r1) ∧
      st1.F.blocks =
        mapInsts (fun l => setFuncletsIn 102 [11, 12] 104 l)
          [{ id := 0, name := "entry",
             insts := [⟨1, InstKind.invoke (some "foo") 1 2, [], []⟩] },
           { id := 1, name := "cont", insts := [⟨2, InstKind.other "ret", [], []⟩] }] ++
        ⟨2, "lpad", setFuncletsIn 102 [11, 12] 104 [] ++
          [⟨101, InstKind.catchSwitch (some 4) [5], [LValue.tokenNone], []⟩]⟩ ::
        ⟨5, "catch",
          setFuncletsIn 102 [11, 12] 104
            (⟨102, InstKind.catchPad 101,
                [LValue.nullPtr (LType.integer 8), LValue.constInt 32 64,
                  LValue.nullPtr (LType.integer 8)], []⟩ ::
              ([] ++ ExceptionExample.catchAllPad :: ExceptionExample.catchAllBody))⟩ ::
        mapInsts (fun l => setFuncletsIn 102 [11, 12] 104 l)
          [{ id := 3, name := "invoke.cont", insts := [
              ⟨13, InstKind.call (some "__cxa_end_catch"), [], []⟩,
              ⟨14, InstKind.br [1], [], []⟩] },
           { id := 4, name := "outer",
             insts := [⟨15, InstKind.other "unreachable", [], []⟩] }] :=
  catch_switch_of_region ScanState.init
    { catchRegionsWorkSet := [ExceptionExample.catchAllRegion], catchRegion := false,
      endOfCatch := false, toRemoveWorkSet := [13] }
    ExceptionExample.catchAllPad ExceptionExample.catchAllBody
    [⟨13, InstKind.call (some "__cxa_end_catch"), [], []⟩, ⟨14, InstKind.br [1], [], []⟩,
     ⟨15, InstKind.other "unreachable", [], []⟩]
    ExceptionExample.catchAllRegion
    { F := ExceptionExample.catchAll, toRemoveWorkSet := [13] }
    [{ id := 0, name := "entry", insts := [⟨1, InstKind.invoke (some "foo") 1 2, [], []⟩] },
     { id := 1, name := "cont", insts := [⟨2, InstKind.other "ret", [], []⟩] }]
    [{ id := 3, name := "invoke.cont", insts := [
        ⟨13, InstKind.call (some "__cxa_end_catch"), [], []⟩,
        ⟨14, InstKind.br [1], [], []⟩] },
     { id := 4, name := "outer", insts := [⟨15, InstKind.other "unreachable", [], []⟩] }]
    2 "lpad" [] ExceptionExample.catchAllBody
    [] (LValue.nullPtr (LType.integer 8)) []
    [LValue.nullPtr (LType.integer 8), LValue.constInt 32 64, LValue.nullPtr (LType.integer 8)]
    (fun l => l)
    rfl rfl (by decide) (by decide)
    (by
      intro I h
      rw [List.head?_cons, Option.some.injEq] at h
      subst h
      exact Or.inr ⟨rfl, rfl⟩)
    (by decide) rfl rfl (by decide) (by decide) (by decide) (by decide)
    (by
      intro I h
      have hI : I = ⟨12, InstKind.invoke (some "bar") 3 4, [], []⟩ := by
        have : ExceptionExample.catchAllBody.find? Instruction.isInvoke =
            some ⟨12, InstKind.invoke (some "bar") 3 4, [], []⟩ := by decide
        rw [this, Option.some.injEq] at h
        exact h.symm
      subst hI
      exact ⟨_, by decide, rfl⟩)
    (Or.inl ⟨LType.integer 8, rfl, rfl, rfl⟩)
    (by decide) (by decide)
    (by
      intro s hs
      cases hs)

/-- The function `catchAll` after the pass: the block `lpad` ends with the catch
switch, which unwinds to block 4 and has the new block 5 as its only handler. -/
theorem catch_all_lowered :
    (TypeScriptExceptionPass.runOnFunction ExceptionExample.catchAll).map
        (fun p => instructions (p.1.blocks.filter fun blk => blk.name == "lpad")) =
      some [⟨101, InstKind.catchSwitch (some 4) [5], [LValue.tokenNone], []⟩] := by
  decide
/-! ## Stack save and restore -/

/-- C27, the code at the failing input `invokeEnd`: the catch of `invokeEnd`
(the block `lpad`) allocates nothing and ends with an invoke of
`__cxa_end_catch`; the allocation 20 comes after it, in the block `cont`.
After the pass the block `catch`, from the catch pad 102 to the catch return
107, holds no allocation, and yet a call of `llvm.stacksave` and a call of
`llvm.stackrestore`. -/
theorem stack_save_without_alloca :
    (instructions (ExceptionExample.invokeEnd.blocks.filter
        fun blk => blk.name == "lpad")).any Instruction.isAlloca = false ∧
    (TypeScriptExceptionPass.runOnFunction ExceptionExample.invokeEnd).map
        (fun p => instructions (p.1.blocks.filter fun blk => blk.name == "catch")) =
      some ExceptionExample.invokeEndLowered ∧
    ExceptionExample.invokeEndLowered.any Instruction.isAlloca = false ∧
    mkIntrinsicCall 103 "llvm.stacksave" [] ∈ ExceptionExample.invokeEndLowered ∧
    mkIntrinsicCall 106 "llvm.stackrestore" [LValue.inst 103] ∈
      ExceptionExample.invokeEndLowered := by
  decide

/-- For comparison: in `typed`, whose catch ends with a call of
`__cxa_end_catch` and allocates, the stack is saved right after the catch pad
and restored right before the catch return; in `catchAll`, which allocates
nothing, there is neither. -/
theorem stack_save_with_alloca :
    (TypeScriptExceptionPass.runOnFunction ExceptionExample.typed).map
        (fun p => instructions (p.1.blocks.filter fun blk => blk.name == "catch")) =
      some ExceptionExample.typedLowered ∧
    (TypeScriptExceptionPass.runOnFunction ExceptionExample.catchAll).map
        (fun p => (instructions p.1.blocks).any fun I =>
          I.calledFunction == some "llvm.stacksave" ||
          I.calledFunction == some "llvm.stackrestore") = some false := by
  decide
/-! ## The check of the main function -/

/-- C39: the check at the head of `runOnFunction` rejects a function exactly when
its name is `main` and it has an argument or a result whose type is not void.  A
rejected function gets no result, whatever the fuel and the context: no pattern
is applied.  A function of any other name is not rejected: the result is that of
the conversion of its body. -/
theorem main_rejected_iff (winException : Bool) (fuel : Nat)
    (pass : TypeScriptToAffineLoweringPass) (function : FuncOp) :
    (mainRejected function = true ↔
      function.name = "main" ∧
        (function.numArguments ≠ 0 ∨ ∃ type ∈ function.results, type ≠ Ty.void)) ∧
    (mainRejected function = true →
      pass.runOnFunction winException fuel function = none) ∧
    (mainRejected function = false →
      pass.runOnFunction winException fuel function =
        (applyPartialConversion winException fuel pass.tsContext
          { blocks := function.body, insertionBlock := 0, insertionPoint := 0,
            nextBlock := function.nextBlock, nextOp := function.nextOp }).map
          fun p => ({ tsContext := p.1 },
            { function with
              body := p.2.blocks, nextBlock := p.2.nextBlock, nextOp := p.2.nextOp })) ∧
    (function.name ≠ "main" → mainRejected function = false) := by
  refine ⟨?_, ?_, ?_, ?_⟩
  · simp [mainRejected]
  · intro h
    simp [TypeScriptToAffineLoweringPass.runOnFunction, h]
  · intro h
    simp only [TypeScriptToAffineLoweringPass.runOnFunction, h, Bool.false_eq_true, if_false]
    cases applyPartialConversion winException fuel pass.tsContext
      { blocks := function.body, insertionBlock := 0, insertionPoint := 0,
        nextBlock := function.nextBlock, nextOp := function.nextOp } with
    | none => rfl
    | some p => rfl
  · intro h
    simp [mainRejected, h]

/-- Witness of C39: `main` with one argument is rejected. -/
theorem main_rejected_iff_witness :
    createLowerToAffinePass.runOnFunction false 3
      { PassExample.plain with name := "main", numArguments := 1 } = none :=
  (main_rejected_iff false 3 createLowerToAffinePass
    { PassExample.plain with name := "main", numArguments := 1 }).2.1 (by decide)

/-- The check on four functions: `main` with an argument and `main` with a result
that is not void are rejected; `main` without arguments and results and a
function `f` with a result are not. -/
theorem main_rejected_examples :
    mainRejected { PassExample.plain with name := "main", numArguments := 1 } = true ∧
    mainRejected { PassExample.plain with name := "main", results := [Ty.i32] } = true ∧
    mainRejected { PassExample.plain with name := "main" } = false ∧
    mainRejected { PassExample.plain with name := "main", results := [Ty.void] } = false ∧
    mainRejected PassExample.returning = false := by
  decide
/-! ## Unary expressions with another code -/

/-- Counterexample to C36 as stated: for the expression of `UnaryExample` with
the code `<`, neither `++` nor `--`, both patterns succeed, and they put an
arithmetic operation (operation 101, with the code `Unknown`) and the store of
its result where the expression stood. -/
theorem unary_other_code_succeeds :
    ((PrefixUnaryOpLowering (UnaryExample.otherOp OpKind.PrefixUnaryOp)
        (UnaryExample.otherRewriter OpKind.PrefixUnaryOp)).map
      fun rw1 => rw1.blocks.flatMap fun b => b.ops.map fun o => (o.id, o.kind, o.opCode))
      = some [(0, OpKind.ConstantOp, none), (1, OpKind.VariableOp, none),
          (2, OpKind.LoadOp, none), (100, OpKind.ConstantOp, none),
          (101, OpKind.ArithmeticBinaryOp, some SyntaxKind.Unknown),
          (102, OpKind.StoreOp, none), (4, OpKind.PrintOp, none)] ∧
    ((PostfixUnaryOpLowering (UnaryExample.otherOp OpKind.PostfixUnaryOp)
        (UnaryExample.otherRewriter OpKind.PostfixUnaryOp)).map
      fun rw1 => rw1.blocks.flatMap fun b => b.ops.map fun o => (o.id, o.kind, o.opCode))
      = some [(0, OpKind.ConstantOp, none), (1, OpKind.VariableOp, none),
          (2, OpKind.LoadOp, none), (100, OpKind.ConstantOp, none),
          (101, OpKind.ArithmeticBinaryOp, some SyntaxKind.Unknown),
          (102, OpKind.StoreOp, none), (4, OpKind.PrintOp, none)] := by
  decide

/-- C36, as amended: let `op` be a unary expression whose code is neither `++`
nor `--` and whose operand `operand1` is the value loaded by `ld` from
`reference`.  The `switch` of the patterns leaves the code `Unknown`, and both
patterns succeed all the same: they put the constant 1, the arithmetic operation
with the code `Unknown` on the operand and the constant, and a store of its
result to `reference` where the expression stood (with the casts to the element
type and back when the type of the expression is optional). -/
theorem UnaryOpLowering_other_code (op : Op) (rw : PatternRewriter)
    (pre post : List Block) (cid : BlockId) (cargs : List Ty) (before after : List Op)
    (operand1 reference : Value) (ld : Op) (ty : Ty) (code : SyntaxKind)
    (hblocks : rw.blocks = pre ++ Block.mk cid cargs (before ++ op :: after) :: post)
    (hib : rw.insertionBlock = cid) (hip : rw.insertionPoint = before.length)
    (hcid : cid ∉ blockIds pre) (hid : ∀ o ∈ before, o.id ≠ op.id)
    (hops : op.operands = [operand1]) (hres : op.resultTypes = [ty])
    (hcodeq : op.opCode = some code)
    (hcode : code ≠ SyntaxKind.PlusPlusToken ∧ code ≠ SyntaxKind.MinusMinusToken)
    (hdef : getDefiningOp rw.blocks operand1 = some ld) (hld : ld.kind = OpKind.LoadOp)
    (hldops : ld.operands = [reference])
    (hfresh : op.id < rw.nextOp)
    (hv : ∀ (i : Nat) idx, operand1 = Value.opResult i idx → i < rw.nextOp)
    (hself : operand1 ≠ Value.opResult op.id 0) (hself2 : reference ≠ Value.opResult op.id 0) :
    unaryToBinaryOpCode code = SyntaxKind.Unknown ∧
    ((∀ e, ty ≠ Ty.optional e) →
      (∃ rw1, PrefixUnaryOpLowering op rw = some rw1 ∧
        rw1.blocks =
          replaceUsesBlocks [(Value.opResult op.id 0, Value.opResult (rw.nextOp + 1) 0)] pre ++
          Block.mk cid cargs
            (replaceUsesOps [(Value.opResult op.id 0, Value.opResult (rw.nextOp + 1) 0)] before ++
              [mkConstantOp rw.nextOp 1,
               mkArithmeticBinaryOp (rw.nextOp + 1) ty SyntaxKind.Unknown operand1
                 (Value.opResult rw.nextOp 0),
               mkStoreOp (rw.nextOp + 2) (Value.opResult (rw.nextOp + 1) 0) reference] ++
              replaceUsesOps [(Value.opResult op.id 0, Value.opResult (rw.nextOp + 1) 0)] after) ::
          replaceUsesBlocks [(Value.opResult op.id 0, Value.opResult (rw.nextOp + 1) 0)] post) ∧
      (∃ rw1, PostfixUnaryOpLowering op rw = some rw1 ∧
        rw1.blocks =
          replaceUsesBlocks [(Value.opResult op.id 0, operand1)] pre ++
          Block.mk cid cargs
            (replaceUsesOps [(Value.opResult op.id 0, operand1)] before ++
              [mkConstantOp rw.nextOp 1,
               mkArithmeticBinaryOp (rw.nextOp + 1) ty SyntaxKind.Unknown operand1
                 (Value.opResult rw.nextOp 0),
               mkStoreOp (rw.nextOp + 2) (Value.opResult (rw.nextOp + 1) 0) reference] ++
              replaceUsesOps [(Value.opResult op.id 0, operand1)] after) ::
          replaceUsesBlocks [(Value.opResult op.id 0, operand1)] post)) ∧
    (∀ e, ty = Ty.optional e →
      (∃ rw1, PrefixUnaryOpLowering op rw = some rw1 ∧
        rw1.blocks =
          replaceUsesBlocks [(Value.opResult op.id 0, Value.opResult (rw.nextOp + 3) 0)] pre ++
          Block.mk cid cargs
            (replaceUsesOps [(Value.opResult op.id 0, Value.opResult (rw.nextOp + 3) 0)] before ++
              [mkConstantOp rw.nextOp 1, mkCastOp (rw.nextOp + 1) e operand1,
               mkArithmeticBinaryOp (rw.nextOp + 2) e SyntaxKind.Unknown
                 (Value.opResult (rw.nextOp + 1) 0) (Value.opResult rw.nextOp 0),
               mkCastOp (rw.nextOp + 3) (Ty.optional e) (Value.opResult (rw.nextOp + 2) 0),
               mkStoreOp (rw.nextOp + 4) (Value.opResult (rw.nextOp + 3) 0) reference] ++
              replaceUsesOps [(Value.opResult op.id 0, Value.opResult (rw.nextOp + 3) 0)] after) ::
          replaceUsesBlocks [(Value.opResult op.id 0, Value.opResult (rw.nextOp + 3) 0)] post) ∧
      (∃ rw1, PostfixUnaryOpLowering op rw = some rw1 ∧
        rw1.blocks =
          replaceUsesBlocks [(Value.opResult op.id 0, operand1)] pre ++
          Block.mk cid cargs
            (replaceUsesOps [(Value.opResult op.id 0, operand1)] before ++
              [mkConstantOp rw.nextOp 1, mkCastOp (rw.nextOp + 1) e operand1,
               mkArithmeticBinaryOp (rw.nextOp + 2) e SyntaxKind.Unknown
                 (Value.opResult (rw.nextOp + 1) 0) (Value.opResult rw.nextOp 0),
               mkCastOp (rw.nextOp + 3) (Ty.optional e) (Value.opResult (rw.nextOp + 2) 0),
               mkStoreOp (rw.nextOp + 4) (Value.opResult (rw.nextOp + 3) 0) reference] ++
              replaceUsesOps [(Value.opResult op.id 0, operand1)] after) ::
          replaceUsesBlocks [(Value.opResult op.id 0, operand1)] post)) := by
  have hun : unaryToBinaryOpCode code = SyntaxKind.Unknown := by
    cases code <;> simp_all [unaryToBinaryOpCode]
  refine ⟨hun, ?_, ?_⟩
  · intro hty
    have h := unary_lowering_plain op rw pre post cid cargs before after operand1 reference ld ty
      code hblocks hib hip hcid hid hops hres hcodeq hdef hld hldops hfresh hv hself hself2 hty
    rw [hun] at h
    exact h
  · intro e he
    subst he
    have h := unary_lowering_optional op rw pre post cid cargs before after operand1 reference ld
      e code hblocks hib hip hcid hid hops hres hcodeq hdef hld hldops hfresh hv hself hself2
    rw [hun] at h
    exact h

/-- Witness of C36 as amended: the expression of `UnaryExample` with the code
`<`. -/
theorem UnaryOpLowering_other_code_witness :
    (∃ rw1, PrefixUnaryOpLowering (UnaryExample.otherOp OpKind.PrefixUnaryOp)
        (UnaryExample.otherRewriter OpKind.PrefixUnaryOp) = some rw1 ∧
      rw1.blocks =
        replaceUsesBlocks [(Value.opResult 3 0, Value.opResult 101 0)] [] ++
        Block.mk 0 []
          (replaceUsesOps [(Value.opResult 3 0, Value.opResult 101 0)] UnaryExample.beforeOps ++
            [mkConstantOp 100 1,
             mkArithmeticBinaryOp 101 Ty.i32 SyntaxKind.Unknown (Value.opResult 2 0)
               (Value.opResult 100 0),
             mkStoreOp 102 (Value.opResult 101 0) (Value.opResult 1 0)] ++
            replaceUsesOps [(Value.opResult 3 0, Value.opResult 101 0)] UnaryExample.afterOps) ::
        replaceUsesBlocks [(Value.opResult 3 0, Value.opResult 101 0)] []) ∧
    (∃ rw1, PostfixUnaryOpLowering (UnaryExample.otherOp OpKind.PrefixUnaryOp)
        (UnaryExample.otherRewriter OpKind.PrefixUnaryOp) = some rw1 ∧
      rw1.blocks =
        replaceUsesBlocks [(Value.opResult 3 0, Value.opResult 2 0)] [] ++
        Block.mk 0 []
          (replaceUsesOps [(Value.opResult 3 0, Value.opResult 2 0)] UnaryExample.beforeOps ++
            [mkConstantOp 100 1,
             mkArithmeticBinaryOp 101 Ty.i32 SyntaxKind.Unknown (Value.opResult 2 0)
               (Value.opResult 100 0),
             mkStoreOp 102 (Value.opResult 101 0) (Value.opResult 1 0)] ++
            replaceUsesOps [(Value.opResult 3 0, Value.opResult 2 0)] UnaryExample.afterOps) ::
        replaceUsesBlocks [(Value.opResult 3 0, Value.opResult 2 0)] []) :=
  (UnaryOpLowering_other_code (UnaryExample.otherOp OpKind.PrefixUnaryOp)
    (UnaryExample.otherRewriter OpKind.PrefixUnaryOp) [] [] 0 [] UnaryExample.beforeOps
    UnaryExample.afterOps (Value.opResult 2 0) (Value.opResult 1 0)
    (mkLoadOp 2 Ty.i32 (Value.opResult 1 0)) Ty.i32 SyntaxKind.LessThanToken
    rfl rfl rfl (by decide) (by decide) rfl rfl rfl ⟨by decide, by decide⟩ rfl rfl rfl
    (by decide)
    (by intro i idx h; injection h with h1 _; subst h1; decide)
    (by decide) (by decide)).2.1 (by intro e h; cases h)
/-! ## Nested loops -/

/-- After the walk, a visited `break` or `continue` that the construct takes has
the break or the continue target in `jumps`, when the walk has no other
operation of its identity. -/
theorem foldl_visitorBreakContinue_jumps_of_unique (label : Option String) (bt ct : BlockId)
    (ops : List Op) (ctx : TSContext) (op : Op)
    (hu : ∀ o ∈ ops, o.id = op.id → o = op) (hop : op ∈ ops)
    (hm : matchLabelOrNotSet label op.labelAttr = true) :
    (op.kind = OpKind.BreakOp →
      (ops.foldl (visitorBreakContinue label bt ct) ctx).jumps op.id = some bt) ∧
    (op.kind = OpKind.ContinueOp →
      (ops.foldl (visitorBreakContinue label bt ct) ctx).jumps op.id = some ct) := by
  have key : ∀ (ops : List Op) (ctx : TSContext) (t : BlockId),
      (∀ o ∈ ops, o.id = op.id →
        (visitorBreakContinue label bt ct ctx o).jumps op.id = some t ∧
        ∀ c : TSContext, (visitorBreakContinue label bt ct c o).jumps op.id = some t) →
      (op ∈ ops ∨ ctx.jumps op.id = some t) →
      (∀ o ∈ ops, o.id = op.id → o = op) →
      (ops.foldl (visitorBreakContinue label bt ct) ctx).jumps op.id = some t := by
    intro ops
    induction ops with
    | nil =>
      intro ctx t _ h _
      rcases h with h | h
      · cases h
      · exact h
    | cons o ops ih =>
      intro ctx t hv h hu
      simp only [List.foldl_cons]
      apply ih _ t (fun o1 ho1 hid => ⟨(hv o1 (List.mem_cons_of_mem _ ho1) hid).2 _,
        (hv o1 (List.mem_cons_of_mem _ ho1) hid).2⟩) _
        (fun o1 ho1 hid => hu o1 (List.mem_cons_of_mem _ ho1) hid)
      by_cases hid : o.id = op.id
      · right
        exact (hv o (List.mem_cons_self _ _) hid).2 ctx
      · rcases h with h | h
        · rcases List.mem_cons.mp h with h1 | h1
          · exact absurd (h1 ▸ rfl) hid
          · exact Or.inl h1
        · right
          rw [visitorBreakContinue_jumps_of_ne label bt ct ctx o op.id (fun e => hid e.symm)]
          exact h
  constructor
  · intro hk
    apply key ops ctx bt _ (Or.inl hop) hu
    intro o ho hid
    have := hu o ho hid
    subst this
    exact ⟨by simp [visitorBreakContinue, hk, hm, setEntry],
      fun c => by simp [visitorBreakContinue, hk, hm, setEntry]⟩
  · intro hk
    have hnb : op.kind ≠ OpKind.BreakOp := by rw [hk]; decide
    apply key ops ctx ct _ (Or.inl hop) hu
    intro o ho hid
    have := hu o ho hid
    subst this
    exact ⟨by simp [visitorBreakContinue, hk, hm, setEntry],
      fun c => by simp [visitorBreakContinue, hk, hm, setEntry]⟩

/-- The context a loop pattern returns: the walk of the body of the loop, with the
continuation block (`rw.nextBlock`, the block split off for what follows the
loop) as the target of `break` and the block `loopContinue` as the target of
`continue`. -/
theorem loop_context_inv (winException : Bool) (ctx : TSContext) (op : Op)
    (rw : PatternRewriter) (ctx1 : TSContext) (rw1 : PatternRewriter)
    (hloop : op.isLoop = true)
    (h : applyPattern winException ctx op rw = some (ctx1, rw1)) :
    ∃ cont, op.loopContinue = some cont ∧
      ctx1 = op.loopBody.walk.foldl
        (visitorBreakContinue op.labelAttr rw.nextBlock cont.id) ctx := by
  simp only [Op.isLoop, Bool.or_eq_true, beq_iff_eq] at hloop
  rcases hloop with (hk | hk) | hk
  · simp only [applyPattern, hk, ForOpLowering] at h
    repeat' split at h
    all_goals first
      | contradiction
      | (simp only [Option.some.injEq, Prod.mk.injEq] at h
         refine ⟨_, ?_, h.1.symm⟩
         simp only [Op.loopContinue, hk, if_true]
         assumption)
  · simp only [applyPattern, hk, WhileOpLowering] at h
    repeat' split at h
    all_goals first
      | contradiction
      | (simp only [Option.some.injEq, Prod.mk.injEq] at h
         refine ⟨_, ?_, h.1.symm⟩
         simp only [Op.loopContinue, hk]
         assumption)
  · simp only [applyPattern, hk, DoWhileOpLowering] at h
    repeat' split at h
    all_goals first
      | contradiction
      | (simp only [Option.some.injEq, Prod.mk.injEq] at h
         refine ⟨_, ?_, h.1.symm⟩
         simp only [Op.loopContinue, hk]
         assumption)
/-- C37: let `inner` be a loop (`for`, `while` or `do`-`while`) nested at any
depth in the body of a loop `outer`, and `op` an unlabelled `break` or `continue`
nested in the body of `inner`.  The pattern of `outer` writes the targets of
`outer` for `op`: the continuation block of `outer` for a `break`, the block
`loopContinue` of `outer` (first block of `cond`, of `incr` for a `for`) for a
`continue`.  The pattern of `inner`, applied after it, overwrites the entry:
`jumps` then maps a `break` to the continuation block of `inner` and a
`continue` to the block `loopContinue` of `inner`. -/
theorem nested_loop_jumps (winException : Bool) (ctx ctx1 ctx2 : TSContext)
    (outer inner op : Op) (rw rw1 rw2 rw3 : PatternRewriter)
    (houterLoop : outer.isLoop = true) (hinnerLoop : inner.isLoop = true)
    (houter : applyPattern winException ctx outer rw = some (ctx1, rw1))
    (hinner : applyPattern winException ctx1 inner rw2 = some (ctx2, rw3))
    (hnest : inner ∈ outer.loopBody.walk)
    (hop : op ∈ inner.loopBody.walk)
    (hl : op.labelAttr = none)
    (hnd : (outer.loopBody.walk.map Op.id).Nodup) :
    ∃ outerCont innerCont, outer.loopContinue = some outerCont ∧
      inner.loopContinue = some innerCont ∧
      (op.kind = OpKind.BreakOp →
        ctx1.jumps op.id = some rw.nextBlock ∧ ctx2.jumps op.id = some rw2.nextBlock) ∧
      (op.kind = OpKind.ContinueOp →
        ctx1.jumps op.id = some outerCont.id ∧ ctx2.jumps op.id = some innerCont.id) := by
  obtain ⟨outerCont, ho, h1⟩ := loop_context_inv winException ctx outer rw ctx1 rw1 houterLoop
    houter
  obtain ⟨innerCont, hi, h2⟩ := loop_context_inv winException ctx1 inner rw2 ctx2 rw3 hinnerLoop
    hinner
  have hsub : ∀ o ∈ inner.loopBody.walk, o ∈ outer.loopBody.walk :=
    fun o ho => walk_nested _ inner 1 o hnest ho
  have hm : ∀ label, matchLabelOrNotSet label op.labelAttr = true :=
    fun label => matchLabelOrNotSet_of_unset_or_eq _ _ (Or.inl hl)
  have hu : ∀ o ∈ inner.loopBody.walk, o.id = op.id → o = op :=
    fun o ho hid => eq_of_mem_of_id_eq _ hnd o op (hsub o ho) (hsub op hop) hid
  have ha := foldl_visitorBreakContinue_jumps outer.labelAttr rw.nextBlock outerCont.id _ ctx hnd
    op (hsub op hop) (hm _)
  have hb := foldl_visitorBreakContinue_jumps_of_unique inner.labelAttr rw2.nextBlock
    innerCont.id _ ctx1 op hu hop (hm _)
  rw [← h1] at ha
  rw [← h2] at hb
  exact ⟨outerCont, innerCont, ho, hi, fun hk => ⟨ha.1 hk, hb.1 hk⟩,
    fun hk => ⟨ha.2 hk, hb.2 hk⟩⟩

/-- Witness of C37: `while (v) { for (;;) { continue; break } }`, for the
`break`. -/
theorem nested_loop_jumps_witness :
    ∃ outerCont innerCont, WhileExample.nestedOp.loopContinue = some outerCont ∧
      WhileExample.innerFor.loopContinue = some innerCont ∧
      ((Op.simple 61 OpKind.BreakOp [] [] []).kind = OpKind.BreakOp →
        WhileExample.afterOuter.1.jumps (Op.simple 61 OpKind.BreakOp [] [] []).id
          = some WhileExample.nestedRewriter.nextBlock ∧
        WhileExample.afterInner.1.jumps (Op.simple 61 OpKind.BreakOp [] [] []).id
          = some WhileExample.innerRewriter.nextBlock) ∧
      ((Op.simple 61 OpKind.BreakOp [] [] []).kind = OpKind.ContinueOp →
        WhileExample.afterOuter.1.jumps (Op.simple 61 OpKind.BreakOp [] [] []).id
          = some outerCont.id ∧
        WhileExample.afterInner.1.jumps (Op.simple 61 OpKind.BreakOp [] [] []).id
          = some innerCont.id) :=
  nested_loop_jumps false TSContext.empty WhileExample.afterOuter.1 WhileExample.afterInner.1
    WhileExample.nestedOp WhileExample.innerFor (Op.simple 61 OpKind.BreakOp [] [] [])
    WhileExample.nestedRewriter WhileExample.afterOuter.2 WhileExample.innerRewriter
    WhileExample.afterInner.2
    (by decide) (by decide)
    (Option.eq_some_getD_of_isSome _ (TSContext.empty, WhileExample.nestedRewriter) (by decide))
    (Option.eq_some_getD_of_isSome _ (WhileExample.afterOuter.1, WhileExample.innerRewriter)
      (by decide))
    (List.mem_iff_getElem.mpr ⟨5, by decide, rfl⟩)
    (List.mem_iff_getElem.mpr ⟨1, by decide, rfl⟩)
    rfl (by decide)

/-- The nested loops of `WhileExample`, step by step: after the pattern of the
outer loop the `continue` 60 goes to block 1 (`cond` of the outer loop) and the
`break` 61 to block 8 (its continuation); after the pattern of the inner loop
they go to block 7 (`incr` of the inner loop) and block 9 (its continuation). -/
theorem nested_loops_example :
    WhileExample.afterOuter.1.jumps 60 = some 1 ∧
    WhileExample.afterOuter.1.jumps 61 = some 8 ∧
    WhileExample.afterOuter.2.blocks.map (fun b => (b.id, b.ops.map Op.id))
      = [(0, [0, 100]), (1, [101, 102]), (2, [50, 103]), (8, [])] ∧
    WhileExample.afterInner.1.jumps 60 = some 7 ∧
    WhileExample.afterInner.1.jumps 61 = some 9 := by
  decide
/-! ## The type tag -/

/-- The type tag of the 64-bit `double` type is 1, the tag of the types that are
neither integer nor `float`: `isFloatTy` holds for the 32-bit `float` type only. -/
theorem getTypeNumber_double : getTypeNumber LType.double = 1 := rfl

/-- The function `getTypeNumber` has two values.  It is 0 exactly for an integer
type, of any width, and for the 32-bit `float` type; for every other type
(`double`, a pointer, anything else) it is 1. -/
theorem getTypeNumber_buckets (catchValType : LType) :
    (getTypeNumber catchValType = 0 ∨ getTypeNumber catchValType = 1) ∧
    (getTypeNumber catchValType = 0 ↔
      (∃ bits, catchValType = LType.integer bits) ∨ catchValType = LType.float) ∧
    (getTypeNumber catchValType = 1 ↔
      (∀ bits, catchValType ≠ LType.integer bits) ∧ catchValType ≠ LType.float) ∧
    (∀ bits, getTypeNumber (LType.integer bits) = 0) ∧
    getTypeNumber LType.float = 0 ∧
    getTypeNumber LType.double = 1 ∧
    (∀ pointee, getTypeNumber (LType.pointer pointee) = 1) ∧
    getTypeNumber LType.other = 1 := by
  cases catchValType <;> simp [getTypeNumber]

/-- C32, as the code has it: the pass hands `getTypeNumber` the type of the
pointer operand of the recorded store, a pointer type, and so the tag of a typed
catch pad is 1 whatever the type behind the pointer, an integer and `float`
included.  The function `typed` catches an `int` (type information `_ZTIi`)
that is stored through an `i32*`: its catch pad has the tag 1, where the tag of
the type of the caught value, `i32`, would be 0. -/
theorem type_tag_of_pointer_operand_type :
    (∀ pointee, getTypeNumber (LType.pointer pointee) = 1) ∧
    getTypeNumber (LType.integer 32) = 0 ∧
    (instructions ExceptionExample.typed.blocks).filter Instruction.isStore =
      [⟨12, InstKind.store (LType.pointer (LType.integer 32)),
        [LValue.inst 11, LValue.argument 0], []⟩] ∧
    (TypeScriptExceptionPass.runOnFunction ExceptionExample.typed).map
        (fun p => (instructions p.1.blocks).filter fun I => I.id == 102) =
      some [⟨102, InstKind.catchPad 101,
        [LValue.global "_ZTIi", LValue.constInt 32 1, LValue.argument 0], []⟩] := by
  refine ⟨fun _ => rfl, rfl, ?_, ?_⟩ <;> decide
/-! ## The catch pad -/

/-- An instruction without bundles that is none of the calls and uses none of
them is left as it is by the loop `set funcset`. -/
theorem setFuncletsIn_keep (pad : InstId) (calls : List InstId) (m : InstId) (J : Instruction)
    (hJ : J.id ∉ calls) (hops : ∀ c ∈ calls, LValue.inst c ∉ J.operands)
    (hb : J.bundles = []) :
    setFuncletsIn pad calls m [J] = [J] := by
  induction calls generalizing m with
  | nil => rfl
  | cons c calls ih =>
    have hc : J.id ≠ c := fun e => hJ (e ▸ List.mem_cons_self _ _)
    have hr : J.replaceUses c m = J := by
      rcases J with ⟨i, kind, ops, bundles⟩
      simp only at hb hops
      subst hb
      have hmap : ops.map (fun v => if v = LValue.inst c then LValue.inst m else v) = ops := by
        have hco := hops c (List.mem_cons_self _ _)
        conv_rhs => rw [← List.map_id ops]
        apply List.map_congr_left
        intro v hv
        have : v ≠ LValue.inst c := fun e => hco (e ▸ hv)
        simp [this]
      simp only [Instruction.replaceUses, hmap, List.map_nil]
    simp only [setFuncletsIn, setFuncletIn, List.map_cons, List.map_nil, hc, if_false, hr]
    exact ih (m + 1) (fun h => hJ (List.mem_cons_of_mem _ h))
      (fun d hd => hops d (List.mem_cons_of_mem _ hd))

/-- C31: the body of the loop of pass 2, for a region `r` whose landing pad has
a catch clause first, with the value `value`.  When `value` is a null pointer
the new catch pad has the arguments (null, 64, null), it is in the function as
created, and every store of the function is still there, with its identity and
kind.  When `value` is not a null pointer, and the region has recorded the store
`s` with the pointer operand `ptr`, the new catch pad has the arguments
(`value`, the type tag, `ptr`), up to the replacement of the recorded calls by
their copies, which leaves the arguments as they are when none of them is a
recorded call; no instruction of the function has the identity `s` any more. -/
theorem catch_pad_of_clause (st : PassState) (r : CatchRegion) (pre post : List BasicBlock)
    (b : BlockId) (nm : String) (before body : List Instruction)
    (lid : InstId) (cs : List Bool) (value : LValue) (vs : List LValue)
    (lb : List (String × List LValue)) (ud : Option BlockId)
    (s : InstId) (pty : LType) (v ptr : LValue) (bs : List (String × List LValue))
    (hblocks : st.F.blocks = pre ++
      ⟨b, nm, before ++ ⟨lid, InstKind.landingPad (true :: cs), value :: vs, lb⟩ :: body⟩ :: post)
    (hlp : r.landingPad = some lid)
    (hU : ((instructions st.F.blocks).map Instruction.id).Nodup)
    (hUB : (st.F.blocks.map BasicBlock.id).Nodup)
    (hFI : ∀ I ∈ instructions st.F.blocks, I.id < st.F.nextInst)
    (hFB : ∀ c ∈ st.F.blocks, c.id < st.F.nextBlock)
    (hud : (r.unwindInfoOp = none ∧ ud = none) ∨
      ∃ II inv callee normalDest unwindDest, r.unwindInfoOp = some II ∧
        findInst st.F.blocks II = some inv ∧
        inv.kind = InstKind.invoke callee normalDest unwindDest ∧ ud = some unwindDest)
    (hcalls : r.calls.Nodup)
    (hfound : ∀ c ∈ r.calls, ∃ I ∈ instructions st.F.blocks, I.id = c ∧ I.isCallBase = true)
    (hstore : ∀ s, r.store = some s → s ∉ r.calls)
    (hty : (∀ t, value ≠ LValue.nullPtr t) → r.store = some s ∧
      findInst st.F.blocks s = some ⟨s, InstKind.store pty, [v, ptr], bs⟩) :
    ∃ st1 r1, beginOfCatch st r = some (st1, r1) ∧
      r1.catchPad = some (st.F.nextInst + 2) ∧
      ((∃ t, value = LValue.nullPtr t) →
        (⟨st.F.nextInst + 2, InstKind.catchPad (st.F.nextInst + 1),
          [LValue.nullPtr (LType.integer 8), LValue.constInt 32 64,
            LValue.nullPtr (LType.integer 8)], []⟩ : Instruction) ∈ instructions st1.F.blocks ∧
        ∀ S ∈ instructions st.F.blocks, S.isStore = true →
          ∃ S1 ∈ instructions st1.F.blocks, S1.id = S.id ∧ S1.kind = S.kind) ∧
      ((∀ t, value ≠ LValue.nullPtr t) →
        (∃ CPI ∈ instructions st1.F.blocks,
          CPI.id = st.F.nextInst + 2 ∧ CPI.kind = InstKind.catchPad (st.F.nextInst + 1) ∧
          [CPI] = setFuncletsIn (st.F.nextInst + 2) r.calls (st.F.nextInst + 4)
            [⟨st.F.nextInst + 2, InstKind.catchPad (st.F.nextInst + 1),
              [value, LValue.constInt 32 (getTypeNumber pty), ptr], []⟩]) ∧
        ((∀ c ∈ r.calls, value ≠ LValue.inst c ∧ ptr ≠ LValue.inst c) →
          (⟨st.F.nextInst + 2, InstKind.catchPad (st.F.nextInst + 1),
            [value, LValue.constInt 32 (getTypeNumber pty), ptr], []⟩ : Instruction)
              ∈ instructions st1.F.blocks) ∧
        ∀ J ∈ instructions st1.F.blocks, J.id ≠ s) := by
  have hfound0 : ∀ c ∈ r.calls, ∃ I ∈ instructions st.F.blocks, I.id = c :=
    fun c hc => (hfound c hc).imp fun I h => ⟨h.1, h.2.1⟩
  have hfreshc : ∀ c ∈ r.calls, c < st.F.nextInst := by
    intro c hc
    obtain ⟨I, hI, hIc⟩ := hfound0 c hc
    exact hIc ▸ hFI I hI
  have hfresh4 : ∀ c ∈ r.calls, c < st.F.nextInst + 4 :=
    fun c hc => Nat.lt_add_right 4 (hfreshc c hc)
  have hpadid : st.F.nextInst + 2 ∉ r.calls := fun h =>
    Nat.lt_irrefl _ (Nat.lt_of_le_of_lt (Nat.le_add_right _ 2) (hfreshc _ h))
  by_cases hv : ∃ t, value = LValue.nullPtr t
  · obtain ⟨t, hvt⟩ := hv
    have hcatch : (∃ t, value = LValue.nullPtr t ∧
        [LValue.nullPtr (LType.integer 8), LValue.constInt 32 64,
          LValue.nullPtr (LType.integer 8)] =
        [LValue.nullPtr (LType.integer 8), LValue.constInt 32 64,
          LValue.nullPtr (LType.integer 8)] ∧ (fun l : List Instruction => l) = fun l => l) ∨
      ((∀ t, value ≠ LValue.nullPtr t) ∧ ∃ s pty v ptr bs, r.store = some s ∧
        findInst st.F.blocks s = some ⟨s, InstKind.store pty, [v, ptr], bs⟩ ∧
        [LValue.nullPtr (LType.integer 8), LValue.constInt 32 64,
          LValue.nullPtr (LType.integer 8)] =
          [value, LValue.constInt 32 (getTypeNumber pty), ptr] ∧
        (fun l : List Instruction => l) = eraseIn s) := Or.inl ⟨t, hvt, rfl, rfl⟩
    have hTapp : ∀ l1 l2 : List Instruction,
        setFuncletsIn (st.F.nextInst + 2) r.calls (st.F.nextInst + 4) (l1 ++ l2) =
        setFuncletsIn (st.F.nextInst + 2) r.calls (st.F.nextInst + 4) l1 ++
          setFuncletsIn (st.F.nextInst + 2) r.calls (st.F.nextInst + 4) l2 :=
      fun l1 l2 => setFuncletsIn_append _ _ _ _ _
    refine ⟨_, _, beginOfCatch_eq st r pre post b nm before body lid cs value vs lb ud _ _
      hblocks hlp hU hUB hFI hFB hud hcatch hcalls hfound0 hstore, rfl, ?_, ?_⟩
    · intro _
      constructor
      · refine mem_instructions_mapInsts_of_append
          (fun l => setFuncletsIn (st.F.nextInst + 2) r.calls (st.F.nextInst + 4) l)
          hTapp _
          ⟨st.F.nextInst + 2, InstKind.catchPad (st.F.nextInst + 1),
            [LValue.nullPtr (LType.integer 8), LValue.constInt 32 64,
              LValue.nullPtr (LType.integer 8)], []⟩ _ ?_ ?_
        · simp [instructions_append, instructions_cons]
        · dsimp only
          rw [setFuncletsIn_keep _ _ _ _ hpadid (by simp) rfl]
          exact List.mem_singleton_self _
      · intro S hS hSs
        have hSc : S.id ∉ r.calls := by
          intro hmem
          obtain ⟨I, hI, hIc, hIcb⟩ := hfound S.id hmem
          have : I = S := List.inj_on_of_nodup_map hU hI hS hIc
          subst this
          rcases I with ⟨i, kind, ops, bundles⟩
          cases kind <;>
            simp [Instruction.isStore, Instruction.isCallBase, Instruction.isCall,
              Instruction.isInvoke] at hSs hIcb
        obtain ⟨S1, h1, hid, hk, -, -⟩ := setFuncletsIn_other (st.F.nextInst + 2) r.calls
          (st.F.nextInst + 4) S hSc
        refine ⟨S1, ?_, hid, hk⟩
        refine mem_instructions_mapInsts_of_append
          (fun l => setFuncletsIn (st.F.nextInst + 2) r.calls (st.F.nextInst + 4) l)
          hTapp _ S S1 ?_ ?_
        · rw [hblocks] at hS
          simp only [instructions_append, instructions_cons, List.mem_append, List.mem_cons,
            List.mem_singleton] at hS ⊢
          tauto
        · dsimp only
          rw [h1]
          exact List.mem_singleton_self _
    · intro hne
      exact absurd hvt (hne t)
  · have hne : ∀ t, value ≠ LValue.nullPtr t := fun t e => hv ⟨t, e⟩
    obtain ⟨hs, hS⟩ := hty hne
    have hsn : s < st.F.nextInst := hFI _ (mem_of_findInst _ _ _ hS).1
    have hcatch : (∃ t, value = LValue.nullPtr t ∧
        [value, LValue.constInt 32 (getTypeNumber pty), ptr] =
        [LValue.nullPtr (LType.integer 8), LValue.constInt 32 64,
          LValue.nullPtr (LType.integer 8)] ∧ eraseIn s = fun l => l) ∨
      ((∀ t, value ≠ LValue.nullPtr t) ∧ ∃ s1 pty1 v1 ptr1 bs1, r.store = some s1 ∧
        findInst st.F.blocks s1 = some ⟨s1, InstKind.store pty1, [v1, ptr1], bs1⟩ ∧
        [value, LValue.constInt 32 (getTypeNumber pty), ptr] =
          [value, LValue.constInt 32 (getTypeNumber pty1), ptr1] ∧
        eraseIn s = eraseIn s1) := Or.inr ⟨hne, s, pty, v, ptr, bs, hs, hS, rfl, rfl⟩
    have hTapp : ∀ l1 l2 : List Instruction,
        setFuncletsIn (st.F.nextInst + 2) r.calls (st.F.nextInst + 4) (eraseIn s (l1 ++ l2)) =
        setFuncletsIn (st.F.nextInst + 2) r.calls (st.F.nextInst + 4) (eraseIn s l1) ++
          setFuncletsIn (st.F.nextInst + 2) r.calls (st.F.nextInst + 4) (eraseIn s l2) := by
      intro l1 l2
      rw [eraseIn_append, setFuncletsIn_append]
    have hpadmem : ∀ args : List LValue,
        (⟨st.F.nextInst + 2, InstKind.catchPad (st.F.nextInst + 1), args, []⟩ : Instruction) ∈
          instructions (pre ++
            ⟨b, nm, before ++ [⟨st.F.nextInst + 1,
              InstKind.catchSwitch ud [st.F.nextBlock], [LValue.tokenNone], []⟩]⟩ ::
            ⟨st.F.nextBlock, "catch",
              ⟨st.F.nextInst + 2, InstKind.catchPad (st.F.nextInst + 1), args, []⟩ ::
              ((if r.hasAlloca then [mkIntrinsicCall (st.F.nextInst + 3) "llvm.stacksave" []]
                else []) ++
              ⟨lid, InstKind.landingPad (true :: cs), value :: vs, lb⟩ :: body)⟩ :: post) := by
      intro args
      simp [instructions_append, instructions_cons]
    have herpad : ∀ args : List LValue,
        eraseIn s [(⟨st.F.nextInst + 2, InstKind.catchPad (st.F.nextInst + 1), args, []⟩ :
          Instruction)] =
        [⟨st.F.nextInst + 2, InstKind.catchPad (st.F.nextInst + 1), args, []⟩] := by
      intro args
      apply eraseIn_of_not_mem
      intro J hJ
      rw [List.mem_singleton.mp hJ]
      exact Nat.ne_of_gt (Nat.lt_of_lt_of_le hsn (Nat.le_add_right _ 2))
    refine ⟨_, _, beginOfCatch_eq st r pre post b nm before body lid cs value vs lb ud _ _
      hblocks hlp hU hUB hFI hFB hud hcatch hcalls hfound0 hstore, rfl, ?_, ?_⟩
    · intro h
      exact absurd h hv
    · intro _
      refine ⟨?_, ?_, ?_⟩
      · obtain ⟨J1, h1, hid, hk, -, -⟩ := setFuncletsIn_other (st.F.nextInst + 2) r.calls
          (st.F.nextInst + 4)
          ⟨st.F.nextInst + 2, InstKind.catchPad (st.F.nextInst + 1),
            [value, LValue.constInt 32 (getTypeNumber pty), ptr], []⟩ hpadid
        refine ⟨J1, ?_, hid, hk, h1.symm⟩
        refine mem_instructions_mapInsts_of_append
          (fun l => setFuncletsIn (st.F.nextInst + 2) r.calls (st.F.nextInst + 4) (eraseIn s l))
          hTapp _ ⟨st.F.nextInst + 2, InstKind.catchPad (st.F.nextInst + 1),
            [value, LValue.constInt 32 (getTypeNumber pty), ptr], []⟩ J1 (hpadmem _) ?_
        dsimp only
        rw [herpad, h1]
        exact List.mem_singleton_self _
      · intro hargs
        refine mem_instructions_mapInsts_of_append
          (fun l => setFuncletsIn (st.F.nextInst + 2) r.calls (st.F.nextInst + 4) (eraseIn s l))
          hTapp _ ⟨st.F.nextInst + 2, InstKind.catchPad (st.F.nextInst + 1),
            [value, LValue.constInt 32 (getTypeNumber pty), ptr], []⟩ _ (hpadmem _) ?_
        dsimp only
        rw [herpad, setFuncletsIn_keep _ _ _ _ hpadid
          (by
            intro c hc hmem
            simp only [List.mem_cons, List.mem_singleton, List.mem_nil_iff, or_false] at hmem
            rcases hmem with h | h | h
            · exact (hargs c hc).1 h.symm
            · cases h
            · exact (hargs c hc).2 h.symm) rfl]
        exact List.mem_singleton_self _
      · intro J hJ
        dsimp only at hJ
        obtain ⟨blk, -, hJb⟩ := (mem_instructions_mapInsts _ _ J).mp hJ
        rcases setFuncletsIn_ids _ _ _ _ J hJb with ⟨I, hI, hid⟩ | h
        · rw [hid]
          simp only [eraseIn, List.mem_filter, bne_iff_ne, ne_eq] at hI
          exact hI.2
        · exact Nat.ne_of_gt (Nat.lt_of_lt_of_le (Nat.lt_add_right 4 hsn) h)
/-- Witness of C31: the region of `typed`, a catch of the type `_ZTIi` whose
store 12 has the pointer operand `argument 0`; the type tag is that of the
pointer operand type of the store, 1. -/
theorem catch_pad_of_clause_witness :
    ∃ st1 r1, beginOfCatch { F := ExceptionExample.typed, toRemoveWorkSet := [15] }
        ExceptionExample.typedRegion = some (st1, r1) ∧
      r1.catchPad = some 102 ∧
      ((∃ t, LValue.global "_ZTIi" = LValue.nullPtr t) →
        (⟨102, InstKind.catchPad 101,
          [LValue.nullPtr (LType.integer 8), LValue.constInt 32 64,
            LValue.nullPtr (LType.integer 8)], []⟩ : Instruction) ∈ instructions st1.F.blocks ∧
        ∀ S ∈ instructions ExceptionExample.typed.blocks, S.isStore = true →
          ∃ S1 ∈ instructions st1.F.blocks, S1.id = S.id ∧ S1.kind = S.kind) ∧
      ((∀ t, LValue.global "_ZTIi" ≠ LValue.nullPtr t) →
        (∃ CPI ∈ instructions st1.F.blocks,
          CPI.id = 102 ∧ CPI.kind = InstKind.catchPad 101 ∧
          [CPI] = setFuncletsIn 102 [11, 14] 104
            [⟨102, InstKind.catchPad 101,
              [LValue.global "_ZTIi",
                LValue.constInt 32 (getTypeNumber (LType.pointer (LType.integer 32))),
                LValue.argument 0], []⟩]) ∧
        ((∀ c ∈ [11, 14], LValue.global "_ZTIi" ≠ LValue.inst c ∧
            LValue.argument 0 ≠ LValue.inst c) →
          (⟨102, InstKind.catchPad 101,
            [LValue.global "_ZTIi",
              LValue.constInt 32 (getTypeNumber (LType.pointer (LType.integer 32))),
              LValue.argument 0], []⟩ : Instruction) ∈ instructions st1.F.blocks) ∧
        ∀ J ∈ instructions st1.F.blocks, J.id ≠ 12) :=
  catch_pad_of_clause { F := ExceptionExample.typed, toRemoveWorkSet := [15] }
    ExceptionExample.typedRegion
    [{ id := 0, name := "entry", insts := [⟨1, InstKind.invoke (some "foo") 1 2, [], []⟩] },
     { id := 1, name := "cont", insts := [⟨2, InstKind.other "ret", [], []⟩] }]
    [] 2 "lpad" []
    (ExceptionExample.typedBody ++
      ([⟨15, InstKind.call (some "__cxa_end_catch"), [], []⟩, ⟨16, InstKind.br [1], [], []⟩] :
        List Instruction))
    10 [] (LValue.global "_ZTIi") [] [] none
    12 (LType.pointer (LType.integer 32)) (LValue.inst 11) (LValue.argument 0) []
    (by decide) rfl (by decide) (by decide) (by decide) (by decide) (Or.inl ⟨rfl, rfl⟩)
    (by decide) (by decide)
    (by
      intro s hs
      cases hs
      decide)
    (fun _ => ⟨rfl, by decide⟩)

/-- The catch pads of the two examples after the whole pass: the catch of
anything of `catchAll` has the arguments (null, 64, null) and the function keeps
no store out; the typed catch of `typed` has the arguments (type value, tag,
pointer operand of the store), and the store 12 is gone. -/
theorem catch_pad_examples :
    (TypeScriptExceptionPass.runOnFunction ExceptionExample.catchAll).map
        (fun p => (instructions p.1.blocks).filter fun I => I.id == 102) =
      some [⟨102, InstKind.catchPad 101,
        [LValue.nullPtr (LType.integer 8), LValue.constInt 32 64,
          LValue.nullPtr (LType.integer 8)], []⟩] ∧
    (TypeScriptExceptionPass.runOnFunction ExceptionExample.typed).map
        (fun p => (instructions p.1.blocks).filter fun I => I.id == 102 || I.isStore) =
      some [⟨102, InstKind.catchPad 101,
        [LValue.global "_ZTIi", LValue.constInt 32 1, LValue.argument 0], []⟩] := by
  decide
/-! ## The catch return -/

theorem eraseIn_cons_self (I : Instruction) (l : List Instruction) :
    eraseIn I.id (I :: l) = eraseIn I.id l := by
  simp [eraseIn]

/-- One instruction of a block is erased: the other blocks stay, the block
loses that instruction. -/
theorem eraseInst_at (pre post : List BasicBlock) (b : BlockId) (nm : String)
    (before after : List Instruction) (I : Instruction)
    (hpre : ∀ J ∈ instructions pre, J.id ≠ I.id) (hbefore : ∀ J ∈ before, J.id ≠ I.id)
    (hafter : ∀ J ∈ after, J.id ≠ I.id) (hpost : ∀ J ∈ instructions post, J.id ≠ I.id) :
    eraseInst I.id (pre ++ ⟨b, nm, before ++ I :: after⟩ :: post) =
      pre ++ ⟨b, nm, before ++ after⟩ :: post := by
  have e1 : mapInsts (eraseIn I.id) pre = pre := eraseInst_of_not_mem I.id pre hpre
  have e2 : mapInsts (eraseIn I.id) post = post := eraseInst_of_not_mem I.id post hpost
  simp only [eraseInst, mapInsts_append, mapInsts_cons, e1, e2, eraseIn_append,
    eraseIn_cons_self, eraseIn_of_not_mem I.id before hbefore,
    eraseIn_of_not_mem I.id after hafter]

/-- C33: the body of the loop of pass 3 for a region `r` whose closing
instruction `I` is in the block `b`.  The catch return goes from the catch pad
of the region to one block: successor 0 of `I` when `I` is a branch, the normal
destination of `I` when `I` is an invoke, and otherwise the new block
`end.of.exception` that holds `I` and what follows it, the block `b` being
split before `I`.  The catch return is appended to the block `b`.  A closing
branch, or the branch the split has put at the end of `b`, goes to the
instructions to remove; once it is erased, it is no longer in `b`, whose last
instruction is the catch return.  A closing invoke is not removed. -/
theorem catch_return_of_end (st : PassState) (r : CatchRegion) (pre post : List BasicBlock)
    (b : BlockId) (nm : String) (before after : List Instruction) (I : Instruction)
    (pad : InstId)
    (hblocks : st.F.blocks = pre ++ ⟨b, nm, before ++ I :: after⟩ :: post)
    (hend : r.end_ = some I.id)
    (hU : ((instructions st.F.blocks).map Instruction.id).Nodup)
    (hUB : (st.F.blocks.map BasicBlock.id).Nodup)
    (hFI : ∀ J ∈ instructions st.F.blocks, J.id < st.F.nextInst)
    (hFB : ∀ c ∈ st.F.blocks, c.id < st.F.nextBlock)
    (hsucc : I.kind ≠ InstKind.br [])
    (hpad : r.catchPad = some pad)
    (hstack : r.hasAlloca = true → r.stack.isSome = true) :
    ∃ st1, endOfCatch st r = some st1 ∧
      (∀ successor rest, I.kind = InstKind.br (successor :: rest) →
        st1.toRemoveWorkSet = st.toRemoveWorkSet ++ [I.id] ∧
        st1.F.blocks = pre ++ ⟨b, nm, before ++
          ((if r.hasAlloca then
              [mkIntrinsicCall st.F.nextInst "llvm.stackrestore" r.stack.toList]
            else []) ++ I :: after ++
          [⟨st.F.nextInst + 1, InstKind.catchRet pad successor, [], []⟩])⟩ :: post ∧
        eraseInst I.id st1.F.blocks = pre ++ ⟨b, nm, before ++
          ((if r.hasAlloca then
              [mkIntrinsicCall st.F.nextInst "llvm.stackrestore" r.stack.toList]
            else []) ++ after ++
          [⟨st.F.nextInst + 1, InstKind.catchRet pad successor, [], []⟩])⟩ :: post) ∧
      (∀ callee normalDest unwindDest, I.kind = InstKind.invoke callee normalDest unwindDest →
        st1.toRemoveWorkSet = st.toRemoveWorkSet ∧
        st1.F.blocks = pre ++ ⟨b, nm, before ++
          ((if r.hasAlloca then
              [mkIntrinsicCall st.F.nextInst "llvm.stackrestore" r.stack.toList]
            else []) ++ I :: after ++
          [⟨st.F.nextInst + 1, InstKind.catchRet pad normalDest, [], []⟩])⟩ :: post) ∧
      (I.isBranch = false → I.isInvoke = false →
        st1.toRemoveWorkSet = st.toRemoveWorkSet ++ [st.F.nextInst] ∧
        st1.F.blocks = pre ++ ⟨b, nm, before ++
            ((if r.hasAlloca then
                [mkIntrinsicCall (st.F.nextInst + 1) "llvm.stackrestore" r.stack.toList]
              else []) ++
            [⟨st.F.nextInst, InstKind.br [st.F.nextBlock], [], []⟩,
             ⟨st.F.nextInst + 2, InstKind.catchRet pad st.F.nextBlock, [], []⟩])⟩ ::
          ⟨st.F.nextBlock, "end.of.exception", I :: after⟩ :: post ∧
        eraseInst st.F.nextInst st1.F.blocks = pre ++ ⟨b, nm, before ++
            ((if r.hasAlloca then
                [mkIntrinsicCall (st.F.nextInst + 1) "llvm.stackrestore" r.stack.toList]
              else []) ++
            [⟨st.F.nextInst + 2, InstKind.catchRet pad st.F.nextBlock, [], []⟩])⟩ ::
          ⟨st.F.nextBlock, "end.of.exception", I :: after⟩ :: post) := by
  have hU0 := hU
  have hFI0 := hFI
  rw [hblocks] at hU0 hFI0
  obtain ⟨hpre, hbefore, hafter, hpost⟩ := instIds_ne_of_nodup pre post b nm before after I hU0
  simp only [instructions_append, instructions_cons, List.mem_append, List.mem_cons] at hFI0
  have hIn : I.id < st.F.nextInst := hFI0 I (Or.inr (Or.inl (Or.inr (Or.inl rfl))))
  cases hk : I.kind with
  | br succs =>
    cases succs with
    | nil => exact absurd hk hsucc
    | cons successor rest =>
      have hB : I.isBranch = true := by simp [Instruction.isBranch, hk]
      refine ⟨_, endOfCatch_eq_terminator st r pre post b nm before after I pad successor hblocks
        hend hU hUB (Or.inl ⟨rest, hk⟩) hpad hstack, ?_, ?_, ?_⟩
      · intro successor1 rest1 h
        injection h with h
        injection h with h1 h2
        subst h1
        refine ⟨by simp [hB], rfl, ?_⟩
        dsimp only
        have e := eraseInst_at pre post b nm
          (before ++ (if r.hasAlloca then
              [mkIntrinsicCall st.F.nextInst "llvm.stackrestore" r.stack.toList]
            else []))
          (after ++ [⟨st.F.nextInst + 1, InstKind.catchRet pad successor, [], []⟩]) I hpre
          (by
            intro J hJ
            rcases List.mem_append.mp hJ with h | h
            · exact hbefore J h
            · split at h
              · rw [List.mem_singleton.mp h]
                exact Nat.ne_of_gt hIn
              · cases h)
          (by
            intro J hJ
            rcases List.mem_append.mp hJ with h | h
            · exact hafter J h
            · rw [List.mem_singleton.mp h]
              exact Nat.ne_of_gt (Nat.lt_succ_of_lt hIn))
          hpost
        simpa [List.append_assoc] using e
      · intro callee normalDest unwindDest h
        cases h
      · intro h
        rw [hB] at h
        cases h
  | invoke callee normalDest unwindDest =>
    have hB : I.isBranch = false := by simp [Instruction.isBranch, hk]
    have hV : I.isInvoke = true := by simp [Instruction.isInvoke, hk]
    refine ⟨_, endOfCatch_eq_terminator st r pre post b nm before after I pad normalDest hblocks
      hend hU hUB (Or.inr ⟨callee, unwindDest, hk⟩) hpad hstack, ?_, ?_, ?_⟩
    · intro successor rest h
      cases h
    · intro callee1 normalDest1 unwindDest1 h
      injection h with h1 h2 h3
      subst h2
      exact ⟨by simp [hB], rfl⟩
    · intro _ h
      rw [hV] at h
      cases h
  | _ =>
    have hB : I.isBranch = false := by simp [Instruction.isBranch, hk]
    have hV : I.isInvoke = false := by simp [Instruction.isInvoke, hk]
    refine ⟨_, endOfCatch_eq_split st r pre post b nm before after I pad hblocks
      hend hU hUB hFI hFB ⟨hB, hV⟩ hpad hstack, ?_, ?_, ?_⟩
    · intro successor rest h
      cases h
    · intro callee normalDest unwindDest h
      cases h
    · intro _ _
      refine ⟨rfl, rfl, ?_⟩
      dsimp only
      have e := eraseInst_at pre (⟨st.F.nextBlock, "end.of.exception", I :: after⟩ :: post) b nm
        (before ++ (if r.hasAlloca then
            [mkIntrinsicCall (st.F.nextInst + 1) "llvm.stackrestore" r.stack.toList]
          else []))
        [⟨st.F.nextInst + 2, InstKind.catchRet pad st.F.nextBlock, [], []⟩]
        ⟨st.F.nextInst, InstKind.br [st.F.nextBlock], [], []⟩
        (fun J hJ => Nat.ne_of_lt (hFI0 J (Or.inl hJ)))
        (by
          intro J hJ
          rcases List.mem_append.mp hJ with h | h
          · exact Nat.ne_of_lt (hFI0 J (Or.inr (Or.inl (Or.inl h))))
          · split at h
            · rw [List.mem_singleton.mp h]
              exact Nat.succ_ne_self _
            · cases h)
        (by
          intro J hJ
          rw [List.mem_singleton.mp hJ]
          exact Nat.ne_of_gt (Nat.lt_add_of_pos_right (by decide)))
        (by
          intro J hJ
          simp only [instructions_cons, List.mem_append, List.mem_cons] at hJ
          rcases hJ with (h | h) | h
          · rw [h]
            exact Nat.ne_of_lt hIn
          · exact Nat.ne_of_lt (hFI0 J (Or.inr (Or.inl (Or.inr (Or.inr h)))))
          · exact Nat.ne_of_lt (hFI0 J (Or.inr (Or.inr h))))
      simpa [List.append_assoc] using e
/-- Witness of C33: the region of `typed` after pass 2; its closing instruction
is the branch 16 to block 1, at the end of the block `catch`. -/
theorem catch_return_of_end_witness :
    ∃ st1, endOfCatch ExceptionExample.typedBegun.1 ExceptionExample.typedBegun.2 = some st1 ∧
      st1.toRemoveWorkSet = [15, 10, 16] ∧
      eraseInst 16 st1.F.blocks =
        [{ id := 0, name := "entry",
           insts := [⟨1, InstKind.invoke (some "foo") 1 2, [], []⟩] },
         { id := 1, name := "cont", insts := [⟨2, InstKind.other "ret", [], []⟩] },
         { id := 2, name := "lpad",
           insts := [⟨101, InstKind.catchSwitch none [3], [LValue.tokenNone], []⟩] },
         { id := 3, name := "catch",
           insts := ExceptionExample.typedCatch ++
             [⟨106, InstKind.call (some "llvm.stackrestore"), [LValue.inst 103], []⟩,
              ⟨107, InstKind.catchRet 102 1, [], []⟩] }] := by
  obtain ⟨st1, h, hbr, -, -⟩ := catch_return_of_end ExceptionExample.typedBegun.1
    ExceptionExample.typedBegun.2
    [{ id := 0, name := "entry", insts := [⟨1, InstKind.invoke (some "foo") 1 2, [], []⟩] },
     { id := 1, name := "cont", insts := [⟨2, InstKind.other "ret", [], []⟩] },
     { id := 2, name := "lpad",
       insts := [⟨101, InstKind.catchSwitch none [3], [LValue.tokenNone], []⟩] }]
    [] 3 "catch" ExceptionExample.typedCatch [] ⟨16, InstKind.br [1], [], []⟩ 102
    (by decide) (by decide) (by decide) (by decide) (by decide) (by decide) (by decide)
    (by decide) (by decide)
  obtain ⟨h1, -, h3⟩ := hbr 1 [] rfl
  exact ⟨st1, h, h1.trans (by decide), h3.trans (by decide)⟩

/-- Two closing instructions, after the whole pass: in `typed` the closing
branch 16 is replaced by the catch return to its successor, block 1; in
`splitEnd` the closing return moves to the new block 4, and the catch return
goes there. -/
theorem catch_return_examples :
    (TypeScriptExceptionPass.runOnFunction ExceptionExample.typed).map
        (fun p => (instructions p.1.blocks).filter fun I => 16 ≤ I.id && I.id != 102
          && I.id != 103 && I.id != 104 && I.id != 105 && I.id != 101) =
      some [⟨106, InstKind.call (some "llvm.stackrestore"), [LValue.inst 103], []⟩,
        ⟨107, InstKind.catchRet 102 1, [], []⟩] ∧
    (TypeScriptExceptionPass.runOnFunction ExceptionExample.splitEnd).map
        (fun p => p.1.blocks.drop 3) =
      some [
        { id := 3, name := "catch", insts := [
            ⟨102, InstKind.catchPad 101,
              [LValue.nullPtr (LType.integer 8), LValue.constInt 32 64,
                LValue.nullPtr (LType.integer 8)], []⟩,
            ⟨104, InstKind.call (some "__cxa_begin_catch"), [LValue.inst 10],
              [("funclet", [LValue.inst 102])]⟩,
            ⟨107, InstKind.catchRet 102 4, [], []⟩] },
        { id := 4, name := "end.of.exception",
          insts := [⟨13, InstKind.other "ret", [], []⟩] }] := by
  decide
/-! ## Where the instructions of the changed function come from -/

theorem mem_instructions_eraseInst (x : InstId) (bs : List BasicBlock) (J : Instruction) :
    J ∈ instructions (eraseInst x bs) ↔ J ∈ instructions bs ∧ J.id ≠ x := by
  rw [eraseInst, mem_instructions_mapInsts, mem_instructions]
  constructor
  · rintro ⟨b, hb, hJ⟩
    simp only [eraseIn, List.mem_filter, bne_iff_ne, ne_eq] at hJ
    exact ⟨⟨b, hb, hJ.1⟩, hJ.2⟩
  · rintro ⟨⟨b, hb, hJ⟩, hne⟩
    refine ⟨b, hb, ?_⟩
    simp only [eraseIn, List.mem_filter, bne_iff_ne, ne_eq]
    exact ⟨hJ, hne⟩

theorem mem_insertBeforeIn_of_mem (x : InstId) (new l : List Instruction) (J : Instruction)
    (h : J ∈ l) : J ∈ insertBeforeIn x new l := by
  simp only [insertBeforeIn, List.mem_flatMap]
  refine ⟨J, h, ?_⟩
  split
  · exact List.mem_append_right _ (List.mem_singleton_self _)
  · exact List.mem_singleton_self _

theorem mem_instructions_insertBefore_of_mem (x : InstId) (new : List Instruction)
    (bs : List BasicBlock) (J : Instruction) (h : J ∈ instructions bs) :
    J ∈ instructions (insertBefore x new bs) := by
  obtain ⟨b, hb, hJ⟩ := (mem_instructions J bs).mp h
  exact (mem_instructions_mapInsts _ bs J).mpr ⟨b, hb, mem_insertBeforeIn_of_mem x new _ J hJ⟩

theorem mem_instructions_insertAtEnd_of_mem (block : BlockId) (new : List Instruction)
    (bs : List BasicBlock) (J : Instruction) (h : J ∈ instructions bs) :
    J ∈ instructions (insertAtEnd block new bs) := by
  obtain ⟨b, hb, hJ⟩ := (mem_instructions J bs).mp h
  refine (mem_instructions J _).mpr ?_
  simp only [insertAtEnd, List.mem_map]
  refine ⟨_, ⟨b, hb, rfl⟩, ?_⟩
  split
  · exact List.mem_append_left _ hJ
  · exact hJ

theorem mem_instructions_splitBasicBlock_of_mem (x : InstId) (name : String)
    (newBlock : BlockId) (br : InstId) (bs : List BasicBlock) (J : Instruction)
    (h : J ∈ instructions bs) : J ∈ instructions (splitBasicBlock x name newBlock br bs) := by
  induction bs with
  | nil => exact h
  | cons b bs ih =>
    rw [instructions_cons, List.mem_append] at h
    simp only [splitBasicBlock]
    split
    · simp only [instructions_cons, List.mem_append]
      rcases h with h | h
      · rw [← List.takeWhile_append_dropWhile (fun I => I.id != x) b.insts] at h
        rcases List.mem_append.mp h with h1 | h1
        · exact Or.inl (Or.inl h1)
        · exact Or.inr (Or.inl h1)
      · exact Or.inr (Or.inr h)
    · rw [instructions_cons, List.mem_append]
      rcases h with h | h
      · exact Or.inl h
      · exact Or.inr (ih h)

/-- Each instruction after the loop `set funcset` is the copy of an instruction
before it, of the same kind: with the same identity when the instruction is not
one of the calls, with a new identity when it is. -/
theorem setFuncletsIn_mem_inv (pad : InstId) (calls : List InstId) (m : InstId)
    (l : List Instruction) (J : Instruction) (hJ : J ∈ setFuncletsIn pad calls m l) :
    ∃ I ∈ l, J.kind = I.kind ∧
      ((I.id ∉ calls ∧ J.id = I.id) ∨ (I.id ∈ calls ∧ m ≤ J.id)) := by
  induction calls generalizing m l with
  | nil => exact ⟨J, hJ, rfl, Or.inl ⟨by simp, rfl⟩⟩
  | cons c calls ih =>
    obtain ⟨I1, hI1, hk, hcase⟩ := ih (m + 1) _ hJ
    simp only [setFuncletIn, List.mem_map] at hI1
    obtain ⟨I, hI, rfl⟩ := hI1
    refine ⟨I, hI, ?_, ?_⟩
    · rw [hk]
      split <;> rfl
    · by_cases hc : I.id = c
      · right
        refine ⟨hc ▸ List.mem_cons_self _ _, ?_⟩
        rw [if_pos hc] at hcase
        rcases hcase with ⟨-, h⟩ | ⟨-, h⟩
        · exact Nat.le_of_eq h.symm
        · exact Nat.le_of_succ_le h
      · rw [if_neg hc] at hcase
        rcases hcase with ⟨h1, h2⟩ | ⟨h1, h2⟩
        · left
          refine ⟨?_, h2⟩
          intro hmem
          rcases List.mem_cons.mp hmem with h | h
          · exact hc h
          · exact h1 h
        · right
          exact ⟨List.mem_cons_of_mem _ h1, Nat.le_of_succ_le h2⟩

/-- An instruction that is none of the calls has a copy of the same identity and
kind after the loop `set funcset`. -/
theorem setFuncletsIn_mem_of_mem (pad : InstId) (calls : List InstId) (m : InstId)
    (l : List Instruction) (I : Instruction) (hI : I ∈ l) (hc : I.id ∉ calls) :
    ∃ J ∈ setFuncletsIn pad calls m l, J.id = I.id ∧ J.kind = I.kind := by
  obtain ⟨l1, l2, rfl⟩ := List.append_of_mem hI
  obtain ⟨J, h1, hid, hk, -, -⟩ := setFuncletsIn_other pad calls m I hc
  refine ⟨J, ?_, hid, hk⟩
  rw [setFuncletsIn_append, setFuncletsIn_cons, h1]
  exact List.mem_append_right _ (List.mem_append_left _ (List.mem_singleton_self _))

/-- When the loop `set funcset` succeeds, it is the change `setFuncletsIn` of the
instruction list of every block. -/
theorem setFunclets_inv (pad : InstId) (calls : List InstId) (blocks blocks1 : List BasicBlock)
    (n n1 : InstId) (h : setFunclets pad calls blocks n = some (blocks1, n1)) :
    blocks1 = mapInsts (setFuncletsIn pad calls n) blocks ∧ n1 = n + calls.length := by
  induction calls generalizing blocks n with
  | nil =>
    simp only [setFunclets, Option.some.injEq, Prod.mk.injEq] at h
    obtain ⟨rfl, rfl⟩ := h
    refine ⟨?_, rfl⟩
    rw [mapInsts_id_of]
    intro b _
    rfl
  | cons c calls ih =>
    simp only [setFunclets] at h
    split at h
    · cases h
    · obtain ⟨h1, h2⟩ := ih _ _ h
      refine ⟨?_, ?_⟩
      · rw [h1]
        simp only [setFunclet, mapInsts_mapInsts, setFuncletsIn]
      · rw [h2, List.length_cons]
        exact Nat.add_right_comm n 1 calls.length ▸ (Nat.add_assoc n 1 calls.length ▸ rfl)

/-- When the loop `remove` succeeds, it has erased the instructions whose
identity is in the list, and nothing else. -/
theorem removeInstructions_eq (ids : List InstId) (blocks blocks1 : List BasicBlock)
    (h : removeInstructions ids blocks = some blocks1) :
    blocks1 = mapInsts (fun l => l.filter fun J => !ids.contains J.id) blocks := by
  induction ids generalizing blocks with
  | nil =>
    simp only [removeInstructions, Option.some.injEq] at h
    subst h
    rw [mapInsts_id_of]
    intro b _
    simp
  | cons c ids ih =>
    simp only [removeInstructions] at h
    split at h
    · cases h
    · rw [ih _ h]
      simp only [eraseInst, mapInsts_mapInsts, eraseIn, List.filter_filter]
      congr 1
      funext l
      apply List.filter_congr
      intro J _
      rw [List.contains_cons]
      by_cases hJ : J.id = c
      · simp [hJ]
      · have hb : (J.id == c) = false := by simpa using hJ
        have hb1 : (J.id != c) = true := by simpa using hJ
        rw [hb, hb1, Bool.and_true, Bool.false_or]

theorem mem_instructions_removeInstructions (ids : List InstId)
    (blocks blocks1 : List BasicBlock) (h : removeInstructions ids blocks = some blocks1)
    (J : Instruction) :
    J ∈ instructions blocks1 ↔ J ∈ instructions blocks ∧ J.id ∉ ids := by
  rw [removeInstructions_eq ids blocks blocks1 h, mem_instructions_mapInsts, mem_instructions]
  constructor
  · rintro ⟨b, hb, hJ⟩
    rw [List.mem_filter] at hJ
    refine ⟨⟨b, hb, hJ.1⟩, ?_⟩
    intro hmem
    have h2 := hJ.2
    have h3 : ids.contains J.id = true := by simpa using hmem
    rw [h3] at h2
    cases h2
  · rintro ⟨⟨b, hb, hJ⟩, hne⟩
    refine ⟨b, hb, ?_⟩
    rw [List.mem_filter]
    refine ⟨hJ, ?_⟩
    cases hc : ids.contains J.id
    · rfl
    · exact absurd (by simpa using hc) hne
/-- What the body of the loop of pass 2 does when it succeeds, read off its
definition: the block of the landing pad is split, the branch of the split is
erased, a catch switch, a catch pad and maybe a call of `llvm.stacksave` are
inserted, the store of a typed catch is erased, and the recorded calls are
replaced by copies. -/
theorem beginOfCatch_inv (st st1 : PassState) (r r1 : CatchRegion)
    (h : beginOfCatch st r = some (st1, r1)) :
    ∃ (LPI : Instruction) (cur : BlockId) (new1 new2 new3 : List Instruction)
      (E : List BasicBlock → List BasicBlock),
      r.landingPad = some LPI.id ∧ LPI ∈ instructions st.F.blocks ∧
      st1.toRemoveWorkSet = st.toRemoveWorkSet ++ [LPI.id] ∧
      st1.F.nextInst = st.F.nextInst + 4 + r.calls.length ∧
      r1 = { r with
        stack := if r.hasAlloca then some (LValue.inst (st.F.nextInst + 3)) else r.stack
        catchPad := some (st.F.nextInst + 2) } ∧
      ((E = fun bs => bs) ∨ ∃ s, r.store = some s ∧ E = eraseInst s) ∧
      (∀ K, K ∈ new1 ∨ K ∈ new2 ∨ K ∈ new3 →
        st.F.nextInst ≤ K.id ∧ K.isLandingPad = false ∧ K.isBranch = false) ∧
      st1.F.blocks = mapInsts (setFuncletsIn (st.F.nextInst + 2) r.calls (st.F.nextInst + 4))
        (insertBefore LPI.id new3 (E (insertBefore LPI.id new2 (insertAtEnd cur new1
          (eraseInst st.F.nextInst
            (splitBasicBlock LPI.id "catch" st.F.nextBlock st.F.nextInst st.F.blocks)))))) := by
  simp only [beginOfCatch] at h
  split at h
  · cases h
  rename_i LPI hLPI
  split at h
  · cases h
  rename_i CurrentBB hparent
  split at h
  · cases h
  rename_i ud hud
  split at h
  swap
  · cases h
  rename_i cs value vs hkind hops
  split at h
  · cases h
  rename_i blocks hcreated
  split at h
  · cases h
  rename_i blocks1 n1 hset
  simp only [Option.some.injEq, Prod.mk.injEq] at h
  obtain ⟨h1, h2⟩ := h
  obtain ⟨hb1, hn1⟩ := setFunclets_inv _ _ _ _ _ _ hset
  have hlp : r.landingPad = some LPI.id ∧ LPI ∈ instructions st.F.blocks := by
    cases hl : r.landingPad with
    | none => rw [hl] at hLPI; cases hLPI
    | some lid =>
      rw [hl, Option.some_bind] at hLPI
      obtain ⟨hm, hid⟩ := mem_of_findInst _ _ _ hLPI
      exact ⟨by rw [hid], hm⟩
  have hnew1 : ∀ K ∈ ([⟨st.F.nextInst + 1, InstKind.catchSwitch ud [st.F.nextBlock],
      [LValue.tokenNone], []⟩] : List Instruction),
      st.F.nextInst ≤ K.id ∧ K.isLandingPad = false ∧ K.isBranch = false := by
    intro K hK
    rw [List.mem_singleton.mp hK]
    exact ⟨Nat.le_add_right _ 1, rfl, rfl⟩
  have hnew2 : ∀ args, ∀ K ∈ ([⟨st.F.nextInst + 2, InstKind.catchPad (st.F.nextInst + 1),
      args, []⟩] : List Instruction),
      st.F.nextInst ≤ K.id ∧ K.isLandingPad = false ∧ K.isBranch = false := by
    intro args K hK
    rw [List.mem_singleton.mp hK]
    exact ⟨Nat.le_add_right _ 2, rfl, rfl⟩
  have hnew3 : ∀ K ∈ (if r.hasAlloca then [mkIntrinsicCall (st.F.nextInst + 3) "llvm.stacksave" []]
      else []), st.F.nextInst ≤ K.id ∧ K.isLandingPad = false ∧ K.isBranch = false := by
    intro K hK
    split at hK
    · rw [List.mem_singleton.mp hK]
      exact ⟨Nat.le_add_right _ 3, rfl, rfl⟩
    · cases hK
  have hss : ∀ bs : List BasicBlock,
      (if r.hasAlloca then
        insertBefore LPI.id [mkIntrinsicCall (st.F.nextInst + 3) "llvm.stacksave" []] bs
      else bs) = insertBefore LPI.id
        (if r.hasAlloca then [mkIntrinsicCall (st.F.nextInst + 3) "llvm.stacksave" []] else [])
        bs := by
    intro bs
    split
    · rfl
    · rw [insertBefore_nil]
  rw [hss] at hset hb1
  subst h1 h2
  split at hcreated
  · simp only [Option.some.injEq] at hcreated
    subst hcreated
    exact ⟨LPI, CurrentBB.id, _, _, _, fun bs => bs, hlp.1, hlp.2, rfl, hn1, rfl, Or.inl rfl,
      fun K hK => hK.elim (hnew1 K) (fun hK => hK.elim (hnew2 _ K) (hnew3 K)), hb1⟩
  · split at hcreated
    swap
    · cases hcreated
    rename_i varRef pty x ptr bundles hstore
    simp only [Option.some.injEq] at hcreated
    subst hcreated
    have hs : r.store = some varRef := by
      cases hst : r.store with
      | none => rw [hst] at hstore; cases hstore
      | some s =>
        rw [hst, Option.some_bind] at hstore
        obtain ⟨-, hid⟩ := mem_of_findInst _ _ _ hstore
        rw [← hid]
    exact ⟨LPI, CurrentBB.id, _, _, _, eraseInst varRef, hlp.1, hlp.2, rfl, hn1, rfl,
      Or.inr ⟨varRef, hs, rfl⟩,
      fun K hK => hK.elim (hnew1 K) (fun hK => hK.elim (hnew2 _ K) (hnew3 K)), hb1⟩
/-- What the body of the loop of pass 3 does when it succeeds, read off its
definition: the block of the closing instruction is split unless that
instruction is a branch or an invoke, a call of `llvm.stackrestore` may be
inserted, and a catch return is appended; a closing branch, or the branch of the
split, goes to the instructions to remove. -/
theorem endOfCatch_inv (st st1 : PassState) (r : CatchRegion)
    (h : endOfCatch st r = some st1) :
    ∃ (I : Instruction) (parent : BlockId) (blocks0 : List BasicBlock) (ip : InstId)
      (new1 new2 : List Instruction),
      r.end_ = some I.id ∧ I ∈ instructions st.F.blocks ∧
      ((blocks0 = st.F.blocks ∧
          ((I.isBranch = true ∧ st1.toRemoveWorkSet = st.toRemoveWorkSet ++ [I.id]) ∨
           (I.isBranch = false ∧ st1.toRemoveWorkSet = st.toRemoveWorkSet))) ∨
        (blocks0 = splitBasicBlock I.id "end.of.exception" st.F.nextBlock st.F.nextInst
            st.F.blocks ∧
          I.isBranch = false ∧
          st1.toRemoveWorkSet = st.toRemoveWorkSet ++ [st.F.nextInst])) ∧
      st.F.nextInst ≤ st1.F.nextInst ∧
      (∀ K, K ∈ new1 ∨ K ∈ new2 → st.F.nextInst ≤ K.id ∧ K.isLandingPad = false) ∧
      st1.F.blocks = insertAtEnd parent new2 (insertBefore ip new1 blocks0) := by
  simp only [endOfCatch] at h
  split at h
  · cases h
  rename_i I hI
  split at h
  · cases h
  rename_i parent hparent
  split at h
  · cases h
  rename_i blocks retBlock BI ip nb1 n1 hfound
  split at h
  · cases h
  split at h
  · cases h
  rename_i pad hpad
  simp only [Option.some.injEq] at h
  have hend : r.end_ = some I.id ∧ I ∈ instructions st.F.blocks := by
    cases he : r.end_ with
    | none => rw [he] at hI; cases hI
    | some e =>
      rw [he, Option.some_bind] at hI
      obtain ⟨hm, hid⟩ := mem_of_findInst _ _ _ hI
      exact ⟨by rw [hid], hm⟩
  have hrs : ∀ bs : List BasicBlock,
      (if r.hasAlloca then
        insertBefore ip [mkIntrinsicCall n1 "llvm.stackrestore" r.stack.toList] bs
      else bs) = insertBefore ip
        (if r.hasAlloca then [mkIntrinsicCall n1 "llvm.stackrestore" r.stack.toList] else [])
        bs := by
    intro bs
    split
    · rfl
    · rw [insertBefore_nil]
  rw [hrs] at h
  subst h
  have hnew : st.F.nextInst ≤ n1 → ∀ K,
      K ∈ (if r.hasAlloca then [mkIntrinsicCall n1 "llvm.stackrestore" r.stack.toList]
        else []) ∨
      K ∈ ([⟨n1 + 1, InstKind.catchRet pad retBlock, [], []⟩] : List Instruction) →
      st.F.nextInst ≤ K.id ∧ K.isLandingPad = false := by
    intro hn K hK
    rcases hK with hK | hK
    · split at hK
      · rw [List.mem_singleton.mp hK]
        exact ⟨hn, rfl⟩
      · cases hK
    · rw [List.mem_singleton.mp hK]
      exact ⟨Nat.le_succ_of_le hn, rfl⟩
  split at hfound
  · simp only [Option.some.injEq, Prod.mk.injEq] at hfound
    obtain ⟨rfl, rfl, rfl, rfl, rfl, rfl⟩ := hfound
    rename_i successor rest hk
    have hB : I.isBranch = true := by simp [Instruction.isBranch, hk]
    exact ⟨I, parent.id, _, _, _, _, hend.1, hend.2, Or.inl ⟨rfl, Or.inl ⟨hB, rfl⟩⟩,
      Nat.le_add_right _ 2, hnew (Nat.le_refl _), rfl⟩
  · cases hfound
  · simp only [Option.some.injEq, Prod.mk.injEq] at hfound
    obtain ⟨rfl, rfl, rfl, rfl, rfl, rfl⟩ := hfound
    rename_i callee normalDest unwindDest hk
    have hB : I.isBranch = false := by simp [Instruction.isBranch, hk]
    exact ⟨I, parent.id, _, _, _, _, hend.1, hend.2, Or.inl ⟨rfl, Or.inr ⟨hB, rfl⟩⟩,
      Nat.le_add_right _ 2, hnew (Nat.le_refl _), rfl⟩
  · simp only [Option.some.injEq, Prod.mk.injEq] at hfound
    obtain ⟨rfl, rfl, rfl, rfl, rfl, rfl⟩ := hfound
    rename_i hnbr0 hnbr hninv
    have hB : I.isBranch = false := by
      rcases I with ⟨i, kind, ops, bundles⟩
      cases kind with
      | br succs =>
        cases succs with
        | nil => exact absurd rfl (hnbr)
        | cons a l => exact absurd rfl (hnbr0 a l)
      | _ => rfl
    exact ⟨I, parent.id, _, _, _, _, hend.1, hend.2, Or.inr ⟨rfl, hB, rfl⟩,
      Nat.le_add_right _ 3, hnew (Nat.le_succ _), rfl⟩
theorem ite_append_singleton (c : Prop) [Decidable c] (rs : List CatchRegion)
    (a b : CatchRegion) :
    (if c then rs ++ [a] else rs ++ [b]) = rs ++ [if c then a else b] := by
  split <;> rfl

/-- A step of the scan records a call in a region only for a call or an invoke,
and puts on the list of instructions to remove only a call or an invoke of
`__cxa_end_catch`. -/
theorem scanStep_records (st st1 : ScanState) (I : Instruction)
    (h : scanStep st I = some st1) :
    (∀ c ∈ st1.catchRegionsWorkSet.flatMap CatchRegion.calls,
      c ∈ st.catchRegionsWorkSet.flatMap CatchRegion.calls ∨
        (c = I.id ∧ I.isCallBase = true)) ∧
    (∀ t ∈ st1.toRemoveWorkSet, t ∈ st.toRemoveWorkSet ∨
      (t = I.id ∧ I.isCallBase = true ∧ I.calledFunction = some "__cxa_end_catch")) := by
  rcases I with ⟨id, kind, ops, bundles⟩
  rcases st with ⟨regions, open_, eoc, toRemove⟩
  rcases List.eq_nil_or_concat regions with hm | ⟨rs, r, hm⟩
  · subst hm
    cases kind <;>
      simp only [scanStep, Instruction.isLandingPad, Instruction.isStore, Instruction.isAlloca,
        Instruction.isCall, Instruction.isInvoke, Instruction.calledFunction,
        Instruction.isCallBase,
        Bool.false_eq_true, if_false, if_true, Bool.and_true, Bool.and_false, Bool.false_and,
        Bool.true_and, modifyLast] at h ⊢
    all_goals repeat' split at h
    all_goals first
      | contradiction
      | (simp at h; done)
      | (simp only [Option.some.injEq] at h
         subst h
         simp [CatchRegion.new, modifyLast_append_singleton, ite_append_singleton]
         try aesop)
  · subst hm
    cases kind <;>
      simp only [scanStep, Instruction.isLandingPad, Instruction.isStore, Instruction.isAlloca,
        Instruction.isCall, Instruction.isInvoke, Instruction.calledFunction,
        Instruction.isCallBase,
        Bool.false_eq_true, if_false, if_true, Bool.and_true, Bool.and_false, Bool.false_and,
        Bool.true_and, modifyLast_append_singleton] at h ⊢
    all_goals repeat' split at h
    all_goals first
      | contradiction
      | (simp at h; done)
      | (simp only [Option.some.injEq] at h
         subst h
         simp [CatchRegion.new, modifyLast_append_singleton, ite_append_singleton]
         try aesop)

/-- The calls the scan records are calls and invokes among the scanned
instructions, and the instructions it collects for removal are calls and
invokes of `__cxa_end_catch` among them. -/
theorem scanInstructions_records (l : List Instruction) (st st1 : ScanState)
    (h : scanInstructions st l = some st1) :
    (∀ c ∈ st1.catchRegionsWorkSet.flatMap CatchRegion.calls,
      c ∈ st.catchRegionsWorkSet.flatMap CatchRegion.calls ∨
        ∃ I ∈ l, I.id = c ∧ I.isCallBase = true) ∧
    (∀ t ∈ st1.toRemoveWorkSet, t ∈ st.toRemoveWorkSet ∨
      ∃ I ∈ l, I.id = t ∧ I.isCallBase = true ∧
        I.calledFunction = some "__cxa_end_catch") := by
  induction l generalizing st with
  | nil =>
    simp only [scanInstructions, Option.some.injEq] at h
    subst h
    exact ⟨fun c hc => Or.inl hc, fun t ht => Or.inl ht⟩
  | cons I l ih =>
    simp only [scanInstructions] at h
    split at h
    · cases h
    · rename_i st2 hstep
      obtain ⟨h1, h2⟩ := ih st2 h
      obtain ⟨h3, h4⟩ := scanStep_records st st2 I hstep
      constructor
      · intro c hc
        rcases h1 c hc with hc1 | ⟨J, hJ, hid, hcb⟩
        · rcases h3 c hc1 with hc2 | ⟨hid, hcb⟩
          · exact Or.inl hc2
          · exact Or.inr ⟨I, List.mem_cons_self _ _, hid.symm, hcb⟩
        · exact Or.inr ⟨J, List.mem_cons_of_mem _ hJ, hid, hcb⟩
      · intro t ht
        rcases h2 t ht with ht1 | ⟨J, hJ, hid, hcb⟩
        · rcases h4 t ht1 with ht2 | ⟨hid, hcb⟩
          · exact Or.inl ht2
          · exact Or.inr ⟨I, List.mem_cons_self _ _, hid.symm, hcb⟩
        · exact Or.inr ⟨J, List.mem_cons_of_mem _ hJ, hid, hcb⟩
theorem isLandingPad_of_kind_eq (J I : Instruction) (h : J.kind = I.kind) :
    J.isLandingPad = I.isLandingPad := by
  simp only [Instruction.isLandingPad, h]

/-- One round of pass 2, instruction by instruction: a landing pad goes to the
instructions to remove; each instruction of the function afterwards is new, and
no landing pad, or has the kind of an instruction from before, with the same
identity or, for a recorded call, a new one; and each instruction from before
that is neither a recorded call nor the recorded store is still there. -/
theorem beginOfCatch_step (st st1 : PassState) (r r1 : CatchRegion)
    (h : beginOfCatch st r = some (st1, r1)) :
    ∃ lid, r.landingPad = some lid ∧
      st1.toRemoveWorkSet = st.toRemoveWorkSet ++ [lid] ∧
      st.F.nextInst ≤ st1.F.nextInst ∧ r1.end_ = r.end_ ∧
      (∀ J ∈ instructions st1.F.blocks,
        (st.F.nextInst ≤ J.id ∧ J.isLandingPad = false) ∨
        ∃ J0 ∈ instructions st.F.blocks, J.kind = J0.kind ∧
          (J.id = J0.id ∨ (J0.id ∈ r.calls ∧ st.F.nextInst ≤ J.id))) ∧
      (∀ J0 ∈ instructions st.F.blocks, J0.id < st.F.nextInst → J0.id ∉ r.calls →
        r.store ≠ some J0.id →
        ∃ J ∈ instructions st1.F.blocks, J.id = J0.id ∧ J.kind = J0.kind) := by
  obtain ⟨LPI, cur, new1, new2, new3, E, hlp, -, hT, hn, hr1, hE, hnew, hblocks⟩ :=
    beginOfCatch_inv st st1 r r1 h
  refine ⟨LPI.id, hlp, hT, ?_, ?_, ?_, ?_⟩
  · rw [hn, Nat.add_assoc]
    exact Nat.le_add_right _ _
  · rw [hr1]
  · intro J hJ
    rw [hblocks] at hJ
    obtain ⟨blk, hblk, hJb⟩ := (mem_instructions_mapInsts _ _ J).mp hJ
    obtain ⟨I, hI, hk, hcase⟩ := setFuncletsIn_mem_inv _ _ _ _ J hJb
    have hIX := (mem_instructions I _).mpr ⟨blk, hblk, hI⟩
    have hJn : st.F.nextInst ≤ I.id → st.F.nextInst ≤ J.id := by
      intro hIn
      rcases hcase with ⟨-, h2⟩ | ⟨-, h2⟩
      · rw [h2]
        exact hIn
      · exact Nat.le_trans (Nat.le_add_right _ 4) h2
    have hnewJ : (I ∈ new1 ∨ I ∈ new2 ∨ I ∈ new3) →
        st.F.nextInst ≤ J.id ∧ J.isLandingPad = false := by
      intro hK
      obtain ⟨h1, h2, -⟩ := hnew I hK
      exact ⟨hJn h1, by rw [isLandingPad_of_kind_eq J I hk, h2]⟩
    have hold : I ∈ instructions (insertBefore LPI.id new2 (insertAtEnd cur new1
        (eraseInst st.F.nextInst
          (splitBasicBlock LPI.id "catch" st.F.nextBlock st.F.nextInst st.F.blocks)))) →
        (st.F.nextInst ≤ J.id ∧ J.isLandingPad = false) ∨
        ∃ J0 ∈ instructions st.F.blocks, J.kind = J0.kind ∧
          (J.id = J0.id ∨ (J0.id ∈ r.calls ∧ st.F.nextInst ≤ J.id)) := by
      intro h1
      rcases mem_instructions_insertBefore _ _ _ _ h1 with h2 | h2
      · rcases mem_instructions_insertAtEnd _ _ _ _ h2 with h3 | h3
        · obtain ⟨h4, h5⟩ := (mem_instructions_eraseInst _ _ _).mp h3
          rcases mem_instructions_splitBasicBlock _ _ _ _ _ _ h4 with h6 | h6
          · right
            refine ⟨I, h6, hk, ?_⟩
            rcases hcase with ⟨-, h7⟩ | ⟨h7, h8⟩
            · exact Or.inl h7
            · exact Or.inr ⟨h7, Nat.le_trans (Nat.le_add_right _ 4) h8⟩
          · rw [h6] at h5
            exact absurd rfl h5
        · exact Or.inl (hnewJ (Or.inl h3))
      · exact Or.inl (hnewJ (Or.inr (Or.inl h2)))
    rcases mem_instructions_insertBefore _ _ _ _ hIX with h1 | h1
    · rcases hE with hE | ⟨s, -, hE⟩
      · rw [hE] at h1
        exact hold h1
      · rw [hE] at h1
        exact hold ((mem_instructions_eraseInst _ _ _).mp h1).1
    · exact Or.inl (hnewJ (Or.inr (Or.inr h1)))
  · intro J0 hJ0 hlt hcalls hstore
    have h1 := mem_instructions_splitBasicBlock_of_mem LPI.id "catch" st.F.nextBlock
      st.F.nextInst _ J0 hJ0
    have h2 := (mem_instructions_eraseInst st.F.nextInst _ J0).mpr ⟨h1, Nat.ne_of_lt hlt⟩
    have h3 := mem_instructions_insertBefore_of_mem LPI.id new2 _ J0
      (mem_instructions_insertAtEnd_of_mem cur new1 _ J0 h2)
    have h4 : J0 ∈ instructions (E (insertBefore LPI.id new2 (insertAtEnd cur new1
        (eraseInst st.F.nextInst
          (splitBasicBlock LPI.id "catch" st.F.nextBlock st.F.nextInst st.F.blocks))))) := by
      rcases hE with hE | ⟨s, hs, hE⟩
      · rw [hE]
        exact h3
      · rw [hE]
        refine (mem_instructions_eraseInst _ _ _).mpr ⟨h3, ?_⟩
        intro e
        exact hstore (by rw [hs, e])
    have h5 := mem_instructions_insertBefore_of_mem LPI.id new3 _ J0 h4
    obtain ⟨blk, hblk, hJb⟩ := (mem_instructions J0 _).mp h5
    obtain ⟨J, hJ, hid, hk⟩ := setFuncletsIn_mem_of_mem (st.F.nextInst + 2) r.calls
      (st.F.nextInst + 4) blk.insts J0 hJb hcalls
    refine ⟨J, ?_, hid, hk⟩
    rw [hblocks]
    exact (mem_instructions_mapInsts _ _ J).mpr ⟨blk, hblk, hJ⟩

/-- One round of pass 3, instruction by instruction: the instructions from
before are all still there, the others are new and no landing pads; the
instructions to remove grow by a closing branch, by the branch of a split, or
not at all. -/
theorem endOfCatch_step (st st1 : PassState) (r : CatchRegion)
    (h : endOfCatch st r = some st1) :
    st.F.nextInst ≤ st1.F.nextInst ∧
    (st1.toRemoveWorkSet = st.toRemoveWorkSet ∨
      ∃ BI, st1.toRemoveWorkSet = st.toRemoveWorkSet ++ [BI] ∧
        (BI = st.F.nextInst ∨
          (r.end_ = some BI ∧ ∃ I ∈ instructions st.F.blocks, I.id = BI ∧ I.isBranch = true))) ∧
    (∀ J ∈ instructions st1.F.blocks,
      J ∈ instructions st.F.blocks ∨ (st.F.nextInst ≤ J.id ∧ J.isLandingPad = false)) ∧
    (∀ J ∈ instructions st.F.blocks, J ∈ instructions st1.F.blocks) := by
  obtain ⟨I, parent, blocks0, ip, new1, new2, hend, hI, hcase, hn, hnew, hblocks⟩ :=
    endOfCatch_inv st st1 r h
  have hb0 : (∀ J ∈ instructions blocks0,
      J ∈ instructions st.F.blocks ∨ (st.F.nextInst ≤ J.id ∧ J.isLandingPad = false)) ∧
      (∀ J ∈ instructions st.F.blocks, J ∈ instructions blocks0) := by
    rcases hcase with ⟨hb, -⟩ | ⟨hb, -, -⟩
    · rw [hb]
      exact ⟨fun J hJ => Or.inl hJ, fun J hJ => hJ⟩
    · rw [hb]
      refine ⟨?_, fun J hJ => mem_instructions_splitBasicBlock_of_mem _ _ _ _ _ J hJ⟩
      intro J hJ
      rcases mem_instructions_splitBasicBlock _ _ _ _ _ _ hJ with h1 | h1
      · exact Or.inl h1
      · rw [h1]
        exact Or.inr ⟨Nat.le_refl _, rfl⟩
  refine ⟨hn, ?_, ?_, ?_⟩
  · rcases hcase with ⟨-, ⟨hB, hT⟩ | ⟨-, hT⟩⟩ | ⟨-, -, hT⟩
    · exact Or.inr ⟨I.id, hT, Or.inr ⟨hend, I, hI, rfl, hB⟩⟩
    · exact Or.inl hT
    · exact Or.inr ⟨_, hT, Or.inl rfl⟩
  · intro J hJ
    rw [hblocks] at hJ
    rcases mem_instructions_insertAtEnd _ _ _ _ hJ with h1 | h1
    · rcases mem_instructions_insertBefore _ _ _ _ h1 with h2 | h2
      · exact hb0.1 J h2
      · exact Or.inr (hnew J (Or.inl h2))
    · exact Or.inr (hnew J (Or.inr h1))
  · intro J hJ
    rw [hblocks]
    exact mem_instructions_insertAtEnd_of_mem _ _ _ J
      (mem_instructions_insertBefore_of_mem _ _ _ J (hb0.2 J hJ))
theorem isLandingPad_of_isCallBase (I : Instruction) (h : I.isCallBase = true) :
    I.isLandingPad = false := by
  rcases I with ⟨i, kind, ops, bundles⟩
  cases kind <;>
    simp [Instruction.isCallBase, Instruction.isCall, Instruction.isInvoke,
      Instruction.isLandingPad] at h ⊢

theorem isBranch_of_kind_eq (J I : Instruction) (h : J.kind = I.kind) :
    J.isBranch = I.isBranch := by
  simp only [Instruction.isBranch, h]

/-- Pass 2 as a whole, relative to the instructions `S` of the function the pass
started from, whose identities are below `N0`: an instruction of the function is
new, and no landing pad, or has the identity and the kind of an instruction of
`S`; the landing pads of the regions go to the instructions to remove; an
instruction that is neither a recorded call nor a recorded store stays. -/
theorem beginOfCatches_inv (S : List Instruction) (N0 : InstId)
    (hU : (S.map Instruction.id).Nodup)
    (regions : List CatchRegion) (st st1 : PassState) (regions1 : List CatchRegion)
    (h : beginOfCatches st regions = some (st1, regions1))
    (hN : N0 ≤ st.F.nextInst)
    (hcalls : ∀ r ∈ regions, ∀ c ∈ r.calls, ∃ I ∈ S, I.id = c ∧ I.isCallBase = true ∧ c < N0)
    (hD : ∀ J ∈ instructions st.F.blocks,
      (N0 ≤ J.id ∧ J.isLandingPad = false) ∨ ∃ I ∈ S, I.id = J.id ∧ I.kind = J.kind) :
    N0 ≤ st1.F.nextInst ∧
    (∀ J ∈ instructions st1.F.blocks,
      (N0 ≤ J.id ∧ J.isLandingPad = false) ∨ ∃ I ∈ S, I.id = J.id ∧ I.kind = J.kind) ∧
    st1.toRemoveWorkSet = st.toRemoveWorkSet ++ regions.filterMap CatchRegion.landingPad ∧
    regions1.map CatchRegion.end_ = regions.map CatchRegion.end_ ∧
    (∀ J0 ∈ instructions st.F.blocks, J0.id < N0 →
      (∀ r ∈ regions, J0.id ∉ r.calls ∧ r.store ≠ some J0.id) →
      ∃ J ∈ instructions st1.F.blocks, J.id = J0.id ∧ J.kind = J0.kind) := by
  induction regions generalizing st st1 regions1 with
  | nil =>
    simp only [beginOfCatches, Option.some.injEq, Prod.mk.injEq] at h
    obtain ⟨rfl, rfl⟩ := h
    exact ⟨hN, hD, by simp, rfl, fun J0 hJ0 _ _ => ⟨J0, hJ0, rfl, rfl⟩⟩
  | cons r rest ih =>
    simp only [beginOfCatches] at h
    split at h
    · cases h
    rename_i st2 r2 hstep
    split at h
    · cases h
    rename_i st3 rest1 hrest
    simp only [Option.some.injEq, Prod.mk.injEq] at h
    obtain ⟨rfl, rfl⟩ := h
    obtain ⟨lid, hlid, hT, hn, hend, hback, hfwd⟩ := beginOfCatch_step st st2 r r2 hstep
    have hD2 : ∀ J ∈ instructions st2.F.blocks,
        (N0 ≤ J.id ∧ J.isLandingPad = false) ∨ ∃ I ∈ S, I.id = J.id ∧ I.kind = J.kind := by
      intro J hJ
      rcases hback J hJ with ⟨h1, h2⟩ | ⟨J0, hJ0, hk, hcase⟩
      · exact Or.inl ⟨Nat.le_trans hN h1, h2⟩
      · rcases hcase with hid | ⟨hc, hge⟩
        · rcases hD J0 hJ0 with ⟨h1, h2⟩ | ⟨I, hI, hIid, hIk⟩
          · exact Or.inl ⟨hid ▸ h1, by rw [isLandingPad_of_kind_eq J J0 hk, h2]⟩
          · exact Or.inr ⟨I, hI, by rw [hIid, hid], by rw [hIk, hk]⟩
        · left
          refine ⟨Nat.le_trans hN hge, ?_⟩
          obtain ⟨I, hI, hIid, hIcb, hlt⟩ := hcalls r (List.mem_cons_self _ _) J0.id hc
          rcases hD J0 hJ0 with ⟨h1, h2⟩ | ⟨I1, hI1, hI1id, hI1k⟩
          · exact absurd hlt (Nat.not_lt.mpr h1)
          · have : I1 = I := List.inj_on_of_nodup_map hU hI1 hI (by rw [hI1id, hIid])
            subst this
            rw [isLandingPad_of_kind_eq J J0 hk, ← isLandingPad_of_kind_eq I1 J0 hI1k]
            exact isLandingPad_of_isCallBase I1 hIcb
    obtain ⟨hN3, hD3, hT3, hend3, hfwd3⟩ := ih st2 st3 rest1 hrest (Nat.le_trans hN hn)
      (fun r1 hr1 => hcalls r1 (List.mem_cons_of_mem _ hr1)) hD2
    refine ⟨hN3, hD3, ?_, ?_, ?_⟩
    · rw [hT3, hT, List.filterMap_cons, hlid]
      simp
    · rw [List.map_cons, List.map_cons, hend3, hend]
    · intro J0 hJ0 hlt hcond
      obtain ⟨hc, hs⟩ := hcond r (List.mem_cons_self _ _)
      obtain ⟨J, hJ, hid, hk⟩ := hfwd J0 hJ0 (Nat.lt_of_lt_of_le hlt hN) hc hs
      obtain ⟨J1, hJ1, hid1, hk1⟩ := hfwd3 J hJ (hid ▸ hlt)
        (fun r1 hr1 => hid ▸ hcond r1 (List.mem_cons_of_mem _ hr1))
      exact ⟨J1, hJ1, hid1.trans hid, hk1.trans hk⟩

/-- Pass 3 as a whole, relative to the instructions `S` of the function the pass
started from: the instructions from before all stay; the instructions to remove
grow by new branches and by closing instructions of regions that are branches
of `S`. -/
theorem endOfCatches_inv (S : List Instruction) (N0 : InstId)
    (regions : List CatchRegion) (st st1 : PassState)
    (h : endOfCatches st regions = some st1)
    (hN : N0 ≤ st.F.nextInst)
    (hD : ∀ J ∈ instructions st.F.blocks,
      (N0 ≤ J.id ∧ J.isLandingPad = false) ∨ ∃ I ∈ S, I.id = J.id ∧ I.kind = J.kind) :
    N0 ≤ st1.F.nextInst ∧
    (∀ J ∈ instructions st1.F.blocks,
      (N0 ≤ J.id ∧ J.isLandingPad = false) ∨ ∃ I ∈ S, I.id = J.id ∧ I.kind = J.kind) ∧
    (∀ t ∈ st1.toRemoveWorkSet, t ∈ st.toRemoveWorkSet ∨ N0 ≤ t ∨
      ∃ e ∈ regions.map CatchRegion.end_, e = some t ∧ ∃ I ∈ S, I.id = t ∧ I.isBranch = true) ∧
    (∀ t ∈ st.toRemoveWorkSet, t ∈ st1.toRemoveWorkSet) ∧
    (∀ J ∈ instructions st.F.blocks, J ∈ instructions st1.F.blocks) := by
  induction regions generalizing st with
  | nil =>
    simp only [endOfCatches, Option.some.injEq] at h
    subst h
    exact ⟨hN, hD, fun t ht => Or.inl ht, fun t ht => ht, fun J hJ => hJ⟩
  | cons r rest ih =>
    simp only [endOfCatches] at h
    split at h
    · cases h
    rename_i st2 hstep
    obtain ⟨hn, hT, hback, hfwd⟩ := endOfCatch_step st st2 r hstep
    have hD2 : ∀ J ∈ instructions st2.F.blocks,
        (N0 ≤ J.id ∧ J.isLandingPad = false) ∨ ∃ I ∈ S, I.id = J.id ∧ I.kind = J.kind := by
      intro J hJ
      rcases hback J hJ with h1 | ⟨h1, h2⟩
      · exact hD J h1
      · exact Or.inl ⟨Nat.le_trans hN h1, h2⟩
    obtain ⟨hN3, hD3, hT3, hTsub3, hfwd3⟩ := ih st2 h (Nat.le_trans hN hn) hD2
    have hT2 : ∀ t ∈ st2.toRemoveWorkSet, t ∈ st.toRemoveWorkSet ∨ N0 ≤ t ∨
        (r.end_ = some t ∧ ∃ I ∈ S, I.id = t ∧ I.isBranch = true) := by
      intro t ht
      rcases hT with hT | ⟨BI, hT, hBI⟩
      · rw [hT] at ht
        exact Or.inl ht
      · rw [hT] at ht
        rcases List.mem_append.mp ht with h1 | h1
        · exact Or.inl h1
        · rw [List.mem_singleton.mp h1]
          rcases hBI with hBI | ⟨he, I1, hI1, hid, hB⟩
          · exact Or.inr (Or.inl (hBI ▸ hN))
          · rcases hD I1 hI1 with ⟨h2, -⟩ | ⟨I, hI, hIid, hIk⟩
            · exact Or.inr (Or.inl (hid ▸ h2))
            · exact Or.inr (Or.inr ⟨he, I, hI, hIid.trans hid,
                by rw [isBranch_of_kind_eq I I1 hIk, hB]⟩)
    have hTsub2 : ∀ t ∈ st.toRemoveWorkSet, t ∈ st2.toRemoveWorkSet := by
      intro t ht
      rcases hT with hT | ⟨BI, hT, -⟩
      · rw [hT]
        exact ht
      · rw [hT]
        exact List.mem_append_left _ ht
    refine ⟨hN3, hD3, ?_, fun t ht => hTsub3 t (hTsub2 t ht), fun J hJ => hfwd3 J (hfwd J hJ)⟩
    intro t ht
    rcases hT3 t ht with h1 | h1 | ⟨e, he, het, hI⟩
    · rcases hT2 t h1 with h2 | h2 | ⟨he, hI⟩
      · exact Or.inl h2
      · exact Or.inr (Or.inl h2)
      · exact Or.inr (Or.inr ⟨r.end_, List.mem_map_of_mem _ (List.mem_cons_self _ _), he, hI⟩)
    · exact Or.inr (Or.inl h1)
    · exact Or.inr (Or.inr ⟨e, by
        rw [List.map_cons]
        exact List.mem_cons_of_mem _ he, het, hI⟩)
/-- The whole pass, on a function whose instructions have distinct identities
below the supply of new ones.  When the pass succeeds, the scan has succeeded;
the flag `MadeChange` tells whether the scan has found a region; the changed
function has no landing pad and no instruction the scan has collected for
removal; and an instruction the pass has no reason to touch is still there. -/
theorem runOnFunction_inv (F F1 : Function) (b : Bool)
    (h : TypeScriptExceptionPass.runOnFunction F = some (F1, b))
    (hU : ((instructions F.blocks).map Instruction.id).Nodup)
    (hFI : ∀ I ∈ instructions F.blocks, I.id < F.nextInst) :
    ∃ scanned, scanInstructions ScanState.init (instructions F.blocks) = some scanned ∧
      b = !scanned.catchRegionsWorkSet.isEmpty ∧
      (∀ J ∈ instructions F1.blocks, J.isLandingPad = false) ∧
      (∀ J ∈ instructions F1.blocks, J.id ∉ scanned.toRemoveWorkSet) ∧
      (∀ I ∈ instructions F.blocks, I.isLandingPad = false →
        I.id ∉ scanned.toRemoveWorkSet →
        (∀ r ∈ scanned.catchRegionsWorkSet, I.id ∉ r.calls ∧ r.store ≠ some I.id ∧
          (r.end_ = some I.id → I.isBranch = false)) →
        ∃ J ∈ instructions F1.blocks, J.id = I.id ∧ J.kind = I.kind) := by
  simp only [TypeScriptExceptionPass.runOnFunction] at h
  split at h
  · cases h
  rename_i scanned hscan
  split at h
  · cases h
  rename_i st2 regions2 hbegin
  split at h
  · cases h
  rename_i st3 hendc
  split at h
  · cases h
  rename_i blocks hremove
  simp only [Option.some.injEq, Prod.mk.injEq] at h
  obtain ⟨rfl, rfl⟩ := h
  have hlps := scanInstructions_landingPads _ _ _ hscan
  simp only [ScanState.init, List.map_nil, List.nil_append] at hlps
  obtain ⟨hrec, -⟩ := scanInstructions_records _ _ _ hscan
  have hcalls : ∀ r ∈ scanned.catchRegionsWorkSet, ∀ c ∈ r.calls,
      ∃ I ∈ instructions F.blocks, I.id = c ∧ I.isCallBase = true ∧ c < F.nextInst := by
    intro r hr c hc
    rcases hrec c (List.mem_flatMap.mpr ⟨r, hr, hc⟩) with h1 | ⟨I, hI, hid, hcb⟩
    · simp [ScanState.init] at h1
    · exact ⟨I, hI, hid, hcb, hid ▸ hFI I hI⟩
  obtain ⟨hN2, hD2, hT2, hend2, hfwd2⟩ := beginOfCatches_inv (instructions F.blocks) F.nextInst
    hU _ _ _ _ hbegin (Nat.le_refl _) hcalls (fun J hJ => Or.inr ⟨J, hJ, rfl, rfl⟩)
  obtain ⟨-, hD3, hT3, hTsub3, hfwd3⟩ := endOfCatches_inv (instructions F.blocks) F.nextInst
    _ _ _ hendc hN2 hD2
  have hmem := mem_instructions_removeInstructions _ _ _ hremove
  have hlpT : ∀ I ∈ instructions F.blocks, I.isLandingPad = true →
      I.id ∈ st3.toRemoveWorkSet := by
    intro I hI hLP
    apply hTsub3
    rw [hT2]
    apply List.mem_append_right
    have : some I.id ∈ scanned.catchRegionsWorkSet.map CatchRegion.landingPad := by
      rw [hlps]
      exact List.mem_map.mpr ⟨I, List.mem_filter.mpr ⟨hI, hLP⟩, rfl⟩
    obtain ⟨r, hr, hrl⟩ := List.mem_map.mp this
    exact List.mem_filterMap.mpr ⟨r, hr, hrl⟩
  refine ⟨scanned, hscan, ?_, ?_, ?_, ?_⟩
  · have hlen := congrArg List.length hend2
    simp only [List.length_map] at hlen
    cases hr2 : regions2 with
    | nil =>
      rw [hr2] at hlen
      have : scanned.catchRegionsWorkSet = [] := List.length_eq_zero.mp hlen.symm
      rw [this]
    | cons a l =>
      rw [hr2] at hlen
      cases hs : scanned.catchRegionsWorkSet with
      | nil => rw [hs] at hlen; cases hlen
      | cons a1 l1 => rfl
  · intro J hJ
    obtain ⟨hJ3, hJT⟩ := (hmem J).mp hJ
    rcases hD3 J hJ3 with ⟨-, h2⟩ | ⟨I, hI, hid, hk⟩
    · exact h2
    · cases hLP : J.isLandingPad with
      | false => rfl
      | true =>
        have hILP : I.isLandingPad = true := by
          rw [isLandingPad_of_kind_eq I J hk, hLP]
        exact absurd (hid ▸ hlpT I hI hILP) hJT
  · intro J hJ hmemT
    obtain ⟨-, hJT⟩ := (hmem J).mp hJ
    apply hJT
    apply hTsub3
    rw [hT2]
    exact List.mem_append_left _ hmemT
  · intro I hI hLP hIT hcond
    obtain ⟨J, hJ, hid, hk⟩ := hfwd2 I hI (hFI I hI)
      (fun r hr => ⟨(hcond r hr).1, (hcond r hr).2.1⟩)
    refine ⟨J, (hmem J).mpr ⟨hfwd3 J hJ, ?_⟩, hid, hk⟩
    rw [hid]
    intro hT
    rcases hT3 _ hT with h1 | h1 | ⟨e, he, het, I1, hI1, hI1id, hB⟩
    · rw [hT2] at h1
      rcases List.mem_append.mp h1 with h2 | h2
      · exact hIT h2
      · obtain ⟨r, hr, hrl⟩ := List.mem_filterMap.mp h2
        have : some I.id ∈ scanned.catchRegionsWorkSet.map CatchRegion.landingPad :=
          List.mem_map.mpr ⟨r, hr, hrl⟩
        rw [hlps] at this
        obtain ⟨I1, hI1, hI1id⟩ := List.mem_map.mp this
        obtain ⟨hI1m, hI1LP⟩ := List.mem_filter.mp hI1
        have he : I1 = I := List.inj_on_of_nodup_map hU hI1m hI (Option.some.inj hI1id)
        rw [he, hLP] at hI1LP
        cases hI1LP
    · exact absurd (hFI I hI) (Nat.not_lt.mpr h1)
    · rw [hend2] at he
      obtain ⟨r, hr, hre⟩ := List.mem_map.mp he
      have he1 : I1 = I := List.inj_on_of_nodup_map hU hI1 hI hI1id
      rw [he1] at hB
      have := (hcond r hr).2.2 (hre.trans het)
      rw [hB] at this
      cases this
/-- A step of the scan takes nothing off the list of instructions to remove. -/
theorem scanStep_toRemove_mono (st st1 : ScanState) (I : Instruction)
    (h : scanStep st I = some st1) : ∀ t ∈ st.toRemoveWorkSet, t ∈ st1.toRemoveWorkSet := by
  rcases I with ⟨id, kind, ops, bundles⟩
  rcases st with ⟨regions, open_, eoc, toRemove⟩
  cases kind <;>
    simp only [scanStep, Instruction.isLandingPad, Instruction.isStore, Instruction.isAlloca,
      Instruction.isCall, Instruction.isInvoke, Instruction.calledFunction,
      Bool.false_eq_true, if_false, if_true, Bool.and_true, Bool.and_false, Bool.false_and,
      Bool.true_and] at h
  all_goals repeat' split at h
  all_goals first
    | contradiction
    | (simp at h; done)
    | (simp only [Option.some.injEq] at h
       subst h
       intro t ht
       first | exact ht | exact List.mem_append_left _ ht)

theorem scanInstructions_toRemove_mono (l : List Instruction) (st st1 : ScanState)
    (h : scanInstructions st l = some st1) :
    ∀ t ∈ st.toRemoveWorkSet, t ∈ st1.toRemoveWorkSet := by
  induction l generalizing st with
  | nil =>
    simp only [scanInstructions, Option.some.injEq] at h
    subst h
    exact fun t ht => ht
  | cons I l ih =>
    simp only [scanInstructions] at h
    split at h
    · cases h
    · rename_i st2 hstep
      exact fun t ht => ih st2 h t (scanStep_toRemove_mono st st2 I hstep t ht)

/-- In an open region, before the flag `endOfCatch` is raised, a call or an
invoke of `__cxa_end_catch` is put on the list of instructions to remove. -/
theorem scanStep_marker (s s1 : ScanState) (I : Instruction)
    (hopen : s.catchRegion = true) (hend : s.endOfCatch = false)
    (hcb : I.isCallBase = true) (hname : I.calledFunction = some "__cxa_end_catch")
    (h : scanStep s I = some s1) : I.id ∈ s1.toRemoveWorkSet := by
  rcases I with ⟨id, kind, ops, bundles⟩
  rcases s with ⟨regions, open_, eoc, toRemove⟩
  simp only at hopen hend
  subst hopen hend
  cases kind <;>
    simp only [scanStep, Instruction.isLandingPad, Instruction.isStore, Instruction.isAlloca,
      Instruction.isCall, Instruction.isInvoke, Instruction.calledFunction,
      Instruction.isCallBase, Bool.false_eq_true, Bool.not_true, Bool.not_false,
      if_false, if_true, Bool.and_true, Bool.and_false, Bool.false_and, Bool.true_and,
      Bool.or_false, Bool.or_true, Bool.false_or, Bool.true_or] at h hcb hname
  all_goals subst hname
  all_goals
    simp only [if_true] at h
    simp only [Option.some.injEq] at h
    subst h
    simp

/-- A call or an invoke of `__cxa_end_catch` that comes after a landing pad, with
no landing pad and no call of `__cxa_end_catch` in between, is on the list of
instructions to remove after the scan: the scan has seen it inside an open
catch region. -/
theorem scan_collects_marker (s0 s1 : ScanState) (pre seg after : List Instruction)
    (LPI M : Instruction)
    (hLPI : LPI.isLandingPad = true)
    (hI : ∀ I ∈ seg, I.isLandingPad = false)
    (hE : ∀ I ∈ seg, ¬ (I.isCall = true ∧ I.calledFunction = some "__cxa_end_catch"))
    (hcb : M.isCallBase = true) (hname : M.calledFunction = some "__cxa_end_catch")
    (h : scanInstructions s0 (pre ++ LPI :: (seg ++ M :: after)) = some s1) :
    M.id ∈ s1.toRemoveWorkSet := by
  rw [scanInstructions_append] at h
  cases hp : scanInstructions s0 pre with
  | none => rw [hp] at h; cases h
  | some sp =>
    rw [hp, Option.some_bind] at h
    simp only [scanInstructions, scanStep_landingPad sp LPI hLPI] at h
    rw [scanInstructions_append] at h
    cases hb : scanInstructions { sp with
        catchRegionsWorkSet :=
          sp.catchRegionsWorkSet ++ [{ CatchRegion.new with landingPad := some LPI.id }]
        catchRegion := true
        endOfCatch := false } seg with
    | none => rw [hb] at h; cases h
    | some sb =>
      rw [hb, Option.some_bind] at h
      obtain ⟨hob, heb, -⟩ := scanInstructions_open seg _ sb sp.catchRegionsWorkSet
        { CatchRegion.new with landingPad := some LPI.id } rfl rfl rfl hI hE hb
      simp only [scanInstructions] at h
      split at h
      · cases h
      · rename_i s2 hstep
        exact scanInstructions_toRemove_mono after s2 s1 h _
          (scanStep_marker sb s2 M hob heb hcb hname hstep)
/-! ## What the pass removes and what it keeps -/

/-- C34: the pass on a function whose instructions have distinct identities
below the supply of new ones.  After a successful run the function has no
landing pad.  A call or an invoke of `__cxa_end_catch` that the scan has seen
inside an open catch region (it comes after a landing pad, with no landing pad
and no call of `__cxa_end_catch` in between) is on the list the scan collects
for removal, and no instruction of the result has its identity.  The list holds
calls and invokes of `__cxa_end_catch` of the input only, and no instruction of
the result has an identity of the list.  An instruction of the input that is no
landing pad, not collected, not a recorded call, not a recorded store and not a
closing branch of a region is still in the function, with its identity and
kind. -/
theorem pass_keeps_other_instructions (F F1 : Function) (b : Bool)
    (hU : ((instructions F.blocks).map Instruction.id).Nodup)
    (hFI : ∀ I ∈ instructions F.blocks, I.id < F.nextInst)
    (h : TypeScriptExceptionPass.runOnFunction F = some (F1, b)) :
    ∃ scanned, scanInstructions ScanState.init (instructions F.blocks) = some scanned ∧
      (∀ J ∈ instructions F1.blocks, J.isLandingPad = false) ∧
      (∀ (pre seg after : List Instruction) (LPI M : Instruction),
        instructions F.blocks = pre ++ LPI :: (seg ++ M :: after) →
        LPI.isLandingPad = true →
        (∀ I ∈ seg, I.isLandingPad = false) →
        (∀ I ∈ seg, ¬ (I.isCall = true ∧ I.calledFunction = some "__cxa_end_catch")) →
        M.isCallBase = true → M.calledFunction = some "__cxa_end_catch" →
        M.id ∈ scanned.toRemoveWorkSet ∧ M ∉ instructions F1.blocks ∧
          ∀ J ∈ instructions F1.blocks, J.id ≠ M.id) ∧
      (∀ t ∈ scanned.toRemoveWorkSet, ∃ I ∈ instructions F.blocks, I.id = t ∧
        I.isCallBase = true ∧ I.calledFunction = some "__cxa_end_catch") ∧
      (∀ J ∈ instructions F1.blocks, J.id ∉ scanned.toRemoveWorkSet) ∧
      (∀ I ∈ instructions F.blocks, I.isLandingPad = false →
        I.id ∉ scanned.toRemoveWorkSet →
        (∀ r ∈ scanned.catchRegionsWorkSet, I.id ∉ r.calls ∧ r.store ≠ some I.id ∧
          (r.end_ = some I.id → I.isBranch = false)) →
        ∃ J ∈ instructions F1.blocks, J.id = I.id ∧ J.kind = I.kind) := by
  obtain ⟨scanned, hscan, -, h1, h2, h3⟩ := runOnFunction_inv F F1 b h hU hFI
  refine ⟨scanned, hscan, h1, ?_, ?_, h2, h3⟩
  · intro pre seg after LPI M hsplit hLPI hI hE hcb hname
    have hM : M.id ∈ scanned.toRemoveWorkSet := by
      rw [hsplit] at hscan
      exact scan_collects_marker ScanState.init scanned pre seg after LPI M hLPI hI hE hcb
        hname hscan
    have hid : ∀ J ∈ instructions F1.blocks, J.id ≠ M.id :=
      fun J hJ e => h2 J hJ (e ▸ hM)
    exact ⟨hM, fun hmem => hid M hmem rfl, hid⟩
  · intro t ht
    rcases (scanInstructions_records _ _ _ hscan).2 t ht with h4 | h4
    · simp [ScanState.init] at h4
    · exact h4

/-- Witness of C34: the function `typed`. -/
theorem pass_keeps_other_instructions_witness :
    ∃ scanned, scanInstructions ScanState.init (instructions ExceptionExample.typed.blocks)
        = some scanned ∧
      (∀ J ∈ instructions ExceptionExample.typedAfter.1.blocks, J.isLandingPad = false) ∧
      (∀ (pre seg after : List Instruction) (LPI M : Instruction),
        instructions ExceptionExample.typed.blocks = pre ++ LPI :: (seg ++ M :: after) →
        LPI.isLandingPad = true →
        (∀ I ∈ seg, I.isLandingPad = false) →
        (∀ I ∈ seg, ¬ (I.isCall = true ∧ I.calledFunction = some "__cxa_end_catch")) →
        M.isCallBase = true → M.calledFunction = some "__cxa_end_catch" →
        M.id ∈ scanned.toRemoveWorkSet ∧ M ∉ instructions ExceptionExample.typedAfter.1.blocks ∧
          ∀ J ∈ instructions ExceptionExample.typedAfter.1.blocks, J.id ≠ M.id) ∧
      (∀ t ∈ scanned.toRemoveWorkSet, ∃ I ∈ instructions ExceptionExample.typed.blocks,
        I.id = t ∧ I.isCallBase = true ∧ I.calledFunction = some "__cxa_end_catch") ∧
      (∀ J ∈ instructions ExceptionExample.typedAfter.1.blocks,
        J.id ∉ scanned.toRemoveWorkSet) ∧
      (∀ I ∈ instructions ExceptionExample.typed.blocks, I.isLandingPad = false →
        I.id ∉ scanned.toRemoveWorkSet →
        (∀ r ∈ scanned.catchRegionsWorkSet, I.id ∉ r.calls ∧ r.store ≠ some I.id ∧
          (r.end_ = some I.id → I.isBranch = false)) →
        ∃ J ∈ instructions ExceptionExample.typedAfter.1.blocks,
          J.id = I.id ∧ J.kind = I.kind) :=
  pass_keeps_other_instructions ExceptionExample.typed ExceptionExample.typedAfter.1
    ExceptionExample.typedAfter.2 (by decide) (by decide) (by decide)

/-- The instructions of `typed` before and after the pass, by identity: the
landing pad 10, the store 12, the marker 15 and the closing branch 16 are gone,
the calls 11 and 14 have the copies 104 and 105, and the others (1, 2, 13) are
still there. -/
theorem pass_typed_example :
    (instructions ExceptionExample.typed.blocks).map Instruction.id
      = [1, 2, 10, 11, 12, 13, 14, 15, 16] ∧
    (instructions ExceptionExample.typedAfter.1.blocks).map Instruction.id
      = [1, 2, 101, 102, 103, 104, 13, 105, 106, 107] := by
  decide

/-- The markers on the examples: the call 15 of `typed`, the invoke 12 of
`invokeEnd` and the calls 12 and 32 of `twoRegions`, all seen inside a region,
are gone after the pass; the call 2 of `noPad`, which is in no region, stays. -/
theorem pass_markers_example :
    (TypeScriptExceptionPass.runOnFunction ExceptionExample.typed).map
      (fun p => (instructions p.1.blocks).filter
        fun I => I.calledFunction == some "__cxa_end_catch") = some [] ∧
    (TypeScriptExceptionPass.runOnFunction ExceptionExample.invokeEnd).map
      (fun p => (instructions p.1.blocks).filter
        fun I => I.calledFunction == some "__cxa_end_catch") = some [] ∧
    (TypeScriptExceptionPass.runOnFunction ExceptionExample.twoRegions).map
      (fun p => (instructions p.1.blocks).filter
        fun I => I.calledFunction == some "__cxa_end_catch") = some [] ∧
    (TypeScriptExceptionPass.runOnFunction ExceptionExample.noPad).map
      (fun p => (instructions p.1.blocks).filter
        fun I => I.calledFunction == some "__cxa_end_catch")
      = some [⟨2, InstKind.call (some "__cxa_end_catch"), [], []⟩] := by
  decide
/-! ## The flag `MadeChange` -/

/-- On a function without a landing pad the pass succeeds, changes nothing and
returns false. -/
theorem runOnFunction_of_no_landingPad (F : Function)
    (h : ∀ I ∈ instructions F.blocks, I.isLandingPad = false) :
    TypeScriptExceptionPass.runOnFunction F = some (F, false) := by
  simp only [TypeScriptExceptionPass.runOnFunction,
    scanInstructions_closed ScanState.init (instructions F.blocks) rfl h]
  rfl

/-- C38: the pass on a function whose instructions have distinct identities
below the supply of new ones.  When it returns, the flag is true exactly if the
function has a landing pad.  On a function without a landing pad the pass does
return, with the flag false and the function as it was.  The changed function
has no landing pad, so the pass on it returns it unchanged, with the flag
false. -/
theorem made_change_iff_landing_pad (F F1 : Function) (b : Bool)
    (hU : ((instructions F.blocks).map Instruction.id).Nodup)
    (hFI : ∀ I ∈ instructions F.blocks, I.id < F.nextInst)
    (h : TypeScriptExceptionPass.runOnFunction F = some (F1, b)) :
    (b = true ↔ ∃ I ∈ instructions F.blocks, I.isLandingPad = true) ∧
    ((∀ I ∈ instructions F.blocks, I.isLandingPad = false) →
      TypeScriptExceptionPass.runOnFunction F = some (F, false) ∧ F1 = F ∧ b = false) ∧
    TypeScriptExceptionPass.runOnFunction F1 = some (F1, false) := by
  obtain ⟨scanned, hscan, hb, hno, -, -⟩ := runOnFunction_inv F F1 b h hU hFI
  have hlps := scanInstructions_landingPads _ _ _ hscan
  simp only [ScanState.init, List.map_nil, List.nil_append] at hlps
  refine ⟨?_, ?_, runOnFunction_of_no_landingPad F1 hno⟩
  · rw [hb]
    constructor
    · intro hne
      cases hr : scanned.catchRegionsWorkSet with
      | nil => rw [hr] at hne; cases hne
      | cons r rest =>
        have : r.landingPad ∈ scanned.catchRegionsWorkSet.map CatchRegion.landingPad := by
          rw [hr]
          exact List.mem_map_of_mem _ (List.mem_cons_self _ _)
        rw [hlps] at this
        obtain ⟨I, hI, -⟩ := List.mem_map.mp this
        exact ⟨I, (List.mem_filter.mp hI).1, (List.mem_filter.mp hI).2⟩
    · rintro ⟨I, hI, hLP⟩
      have : some I.id ∈ scanned.catchRegionsWorkSet.map CatchRegion.landingPad := by
        rw [hlps]
        exact List.mem_map.mpr ⟨I, List.mem_filter.mpr ⟨hI, hLP⟩, rfl⟩
      cases hr : scanned.catchRegionsWorkSet with
      | nil => rw [hr] at this; cases this
      | cons r rest => rfl
  · intro hnone
    have h1 := runOnFunction_of_no_landingPad F hnone
    rw [h1, Option.some.injEq, Prod.mk.injEq] at h
    exact ⟨h1, h.1.symm, h.2.symm⟩

/-- Witness of C38: the function `twoRegions`, which has two landing pads. -/
theorem made_change_iff_landing_pad_witness :
    (ExceptionExample.twoRegionsAfter.2 = true ↔
      ∃ I ∈ instructions ExceptionExample.twoRegions.blocks, I.isLandingPad = true) ∧
    ((∀ I ∈ instructions ExceptionExample.twoRegions.blocks, I.isLandingPad = false) →
      TypeScriptExceptionPass.runOnFunction ExceptionExample.twoRegions
        = some (ExceptionExample.twoRegions, false) ∧
      ExceptionExample.twoRegionsAfter.1 = ExceptionExample.twoRegions ∧
      ExceptionExample.twoRegionsAfter.2 = false) ∧
    TypeScriptExceptionPass.runOnFunction ExceptionExample.twoRegionsAfter.1
      = some (ExceptionExample.twoRegionsAfter.1, false) :=
  made_change_iff_landing_pad ExceptionExample.twoRegions ExceptionExample.twoRegionsAfter.1
    ExceptionExample.twoRegionsAfter.2 (by decide) (by decide) (by decide)

/-- The flag on the examples: true for `twoRegions` and `typed`, false for
`noPad`, which the pass leaves as it is although it has a call of
`__cxa_end_catch` and a store. -/
theorem made_change_examples :
    ExceptionExample.twoRegionsAfter.2 = true ∧ ExceptionExample.typedAfter.2 = true ∧
    TypeScriptExceptionPass.runOnFunction ExceptionExample.noPad
      = some (ExceptionExample.noPad, false) ∧
    TypeScriptExceptionPass.runOnFunction ExceptionExample.twoRegionsAfter.1
      = some (ExceptionExample.twoRegionsAfter.1, false) := by
  decide
/-! ## Malformed regions -/

/-- The loop of pass 2 fails as soon as its body fails for a region. -/
theorem beginOfCatches_append_none (st st1 : PassState) (rs1 rs1a rs2 : List CatchRegion)
    (r : CatchRegion) (h1 : beginOfCatches st rs1 = some (st1, rs1a))
    (h2 : beginOfCatch st1 r = none) : beginOfCatches st (rs1 ++ r :: rs2) = none := by
  induction rs1 generalizing st rs1a with
  | nil =>
    simp only [beginOfCatches, Option.some.injEq, Prod.mk.injEq] at h1
    obtain ⟨rfl, -⟩ := h1
    simp only [List.nil_append, beginOfCatches, h2]
  | cons a rs1 ih =>
    simp only [beginOfCatches] at h1
    split at h1
    · cases h1
    rename_i st2 a2 hstep
    split at h1
    · cases h1
    rename_i st3 rest1 hrest
    simp only [Option.some.injEq, Prod.mk.injEq] at h1
    obtain ⟨rfl, -⟩ := h1
    have h3 := ih st2 rest1 hrest
    simp only [List.cons_append, beginOfCatches, hstep, List.append_eq]
    rw [h3]

/-- The pass fails when the loop of pass 2 fails. -/
theorem runOnFunction_none_of_begin (F : Function) (scanned : ScanState)
    (hscan : scanInstructions ScanState.init (instructions F.blocks) = some scanned)
    (h : beginOfCatches { F := F, toRemoveWorkSet := scanned.toRemoveWorkSet }
      scanned.catchRegionsWorkSet = none) :
    TypeScriptExceptionPass.runOnFunction F = none := by
  simp only [TypeScriptExceptionPass.runOnFunction, hscan, h]

/-- C35: the body of the loop of pass 2, for a region `r` whose landing pad
`LPI` is in the function.  It fails when `LPI` has no clause, when its first
clause is not a catch, and when its first clause is a catch of a value that is
not a null pointer while the region has recorded no store.  It succeeds when
the first clause is a catch of a null pointer and the region has recorded no
store.  When the body fails for a region the loop has reached, the pass fails:
it produces no function. -/
theorem malformed_region_fails (st : PassState) (r : CatchRegion) (pre post : List BasicBlock)
    (b : BlockId) (nm : String) (before body : List Instruction) (LPI : Instruction)
    (ud : Option BlockId)
    (hblocks : st.F.blocks = pre ++ ⟨b, nm, before ++ LPI :: body⟩ :: post)
    (hlp : r.landingPad = some LPI.id)
    (hU : ((instructions st.F.blocks).map Instruction.id).Nodup)
    (hUB : (st.F.blocks.map BasicBlock.id).Nodup)
    (hFI : ∀ I ∈ instructions st.F.blocks, I.id < st.F.nextInst)
    (hFB : ∀ c ∈ st.F.blocks, c.id < st.F.nextBlock)
    (hud : (r.unwindInfoOp = none ∧ ud = none) ∨
      ∃ II inv callee normalDest unwindDest, r.unwindInfoOp = some II ∧
        findInst st.F.blocks II = some inv ∧
        inv.kind = InstKind.invoke callee normalDest unwindDest ∧ ud = some unwindDest)
    (hcalls : r.calls.Nodup)
    (hfound : ∀ c ∈ r.calls, ∃ I ∈ instructions st.F.blocks, I.id = c) :
    ((LPI.kind = InstKind.landingPad [] ∨ ∃ cs, LPI.kind = InstKind.landingPad (false :: cs)) →
      beginOfCatch st r = none) ∧
    (∀ cs value vs, LPI.kind = InstKind.landingPad (true :: cs) → LPI.operands = value :: vs →
      (∀ t, value ≠ LValue.nullPtr t) → r.store = none → beginOfCatch st r = none) ∧
    (∀ cs t vs, LPI.kind = InstKind.landingPad (true :: cs) →
      LPI.operands = LValue.nullPtr t :: vs → r.store = none →
      (beginOfCatch st r).isSome = true) ∧
    (∀ (F : Function) (scanned : ScanState) (rs1 rs1a rs2 : List CatchRegion),
      scanInstructions ScanState.init (instructions F.blocks) = some scanned →
      scanned.catchRegionsWorkSet = rs1 ++ r :: rs2 →
      beginOfCatches { F := F, toRemoveWorkSet := scanned.toRemoveWorkSet } rs1
        = some (st, rs1a) →
      beginOfCatch st r = none →
      TypeScriptExceptionPass.runOnFunction F = none) := by
  have hU0 := hU
  rw [hblocks] at hU0
  obtain ⟨hpre, hbefore, -, -⟩ := instIds_ne_of_nodup pre post b nm before body LPI hU0
  have h1 : findInst st.F.blocks LPI.id = some LPI := by
    rw [hblocks]
    exact findInst_eq pre post ⟨b, nm, before ++ LPI :: body⟩ before body LPI rfl hpre hbefore
  have h2 : parentOf st.F.blocks LPI.id = some ⟨b, nm, before ++ LPI :: body⟩ := by
    rw [hblocks]
    exact parentOf_eq pre post ⟨b, nm, before ++ LPI :: body⟩ before body LPI rfl hpre
  refine ⟨?_, ?_, ?_, ?_⟩
  · intro hk
    simp only [beginOfCatch, hlp, Option.some_bind, h1, h2]
    split
    · rfl
    · rcases hk with hk | ⟨cs, hk⟩ <;> simp [hk]
  · intro cs value vs hk hops hne hs
    simp only [beginOfCatch, hlp, Option.some_bind, h1, h2]
    split
    · rfl
    · simp only [hk, hops, hs, Option.none_bind]
  · intro cs t vs hk hops hs
    rcases LPI with ⟨lid, kind, ops, lb⟩
    simp only at hk hops hlp
    subst hk hops
    rw [beginOfCatch_eq st r pre post b nm before body lid cs (LValue.nullPtr t) vs lb ud
      [LValue.nullPtr (LType.integer 8), LValue.constInt 32 64, LValue.nullPtr (LType.integer 8)]
      (fun l => l) hblocks hlp hU hUB hFI hFB hud (Or.inl ⟨t, rfl, rfl, rfl⟩) hcalls hfound
      (by
        intro s h
        rw [hs] at h
        cases h)]
    rfl
  · intro F scanned rs1 rs1a rs2 hscan hrs hbegin hfail
    apply runOnFunction_none_of_begin F scanned hscan
    rw [hrs]
    exact beginOfCatches_append_none _ st rs1 rs1a rs2 r hbegin hfail
/-- Witness of C35: the function `withPad cleanupPad`, whose landing pad has no
clause; the body of the loop of pass 2 fails for its region, and so does the
pass. -/
theorem malformed_region_fails_witness :
    beginOfCatch
        { F := ExceptionExample.withPad ExceptionExample.cleanupPad, toRemoveWorkSet := [12] }
        ExceptionExample.withPadRegion = none ∧
    TypeScriptExceptionPass.runOnFunction
      (ExceptionExample.withPad ExceptionExample.cleanupPad) = none := by
  obtain ⟨ha, -, -, hd⟩ := malformed_region_fails
    { F := (ExceptionExample.withPad ExceptionExample.cleanupPad), toRemoveWorkSet := [12] }
    ExceptionExample.withPadRegion
    [{ id := 0, name := "entry", insts := [⟨1, InstKind.invoke (some "foo") 1 2, [], []⟩] },
     { id := 1, name := "cont", insts := [⟨2, InstKind.other "ret", [], []⟩] }]
    [] 2 "lpad" []
    [⟨11, InstKind.call (some "__cxa_begin_catch"), [LValue.inst 10], []⟩,
     ⟨12, InstKind.call (some "__cxa_end_catch"), [], []⟩,
     ⟨13, InstKind.br [1], [], []⟩]
    ExceptionExample.cleanupPad none
    (by decide) (by decide) (by decide) (by decide) (by decide) (by decide)
    (Or.inl ⟨rfl, rfl⟩) (by decide) (by decide)
  exact ⟨ha (Or.inl rfl),
    hd (ExceptionExample.withPad ExceptionExample.cleanupPad)
      { catchRegionsWorkSet := [ExceptionExample.withPadRegion], catchRegion := false,
        endOfCatch := false, toRemoveWorkSet := [12] }
      [] [] [] (by decide) rfl rfl (ha (Or.inl rfl))⟩

/-- The pass on four landing pads: it fails on a landing pad without clauses, on
a landing pad whose first clause is a filter, and on a typed catch whose region
has no store; it succeeds on a catch of anything whose region has no store. -/
theorem malformed_region_examples :
    TypeScriptExceptionPass.runOnFunction
      (ExceptionExample.withPad ExceptionExample.cleanupPad) = none ∧
    TypeScriptExceptionPass.runOnFunction
      (ExceptionExample.withPad ExceptionExample.filterPad) = none ∧
    TypeScriptExceptionPass.runOnFunction
      (ExceptionExample.withPad ExceptionExample.typedPad) = none ∧
    (TypeScriptExceptionPass.runOnFunction
      (ExceptionExample.withPad ExceptionExample.catchAllPad)).isSome = true := by
  decide

end Tsc
